import Mathlib

/-!
# The FIDL recursive-descent parser (`system/host/fidl/lib/parser.cpp`)

A shallow embedding of the parser: tokens, the parser state (token source, healthy flag,
diagnostic sink), the syntax tree it builds, and every production of `parser.cpp` as a
state-passing function.  Owned pointers (`std::unique_ptr<T>`) are `Option T`, `nullptr` is
`none`; vectors are lists in insertion order.  Loops and the recursion of `ParseType` through
element types run on a budget of steps taken from the number of tokens still to be read; a
run that exhausts its budget has no result, and the theorems show that this never happens.
-/

namespace fidl

/-! ## Tokens -/

/-- The token kinds `parser.cpp` names (`Token::Kind`). -/
inductive Kind
  | Bool | Status | Int8 | Int16 | Int32 | Int64
  | Uint8 | Uint16 | Uint32 | Uint64 | Float32 | Float64
  | Identifier | Array | Vector | String | Handle | Request
  | Default | True | False | NumericLiteral | StringLiteral
  | Process | Thread | Vmo | Channel | Event | Port | Interrupt | Iomap | Pci | Log
  | Socket | Resource | Eventpair | Job | Vmar | Fifo | Hypervisor | Guest | Timer
  | Dot | Comma | Semicolon | Colon | Question | Equal | Arrow
  | LeftAngle | RightAngle | LeftCurly | RightCurly | LeftParen | RightParen
  | Using | As | Library | Const | Enum | Interface | Struct | Union
  | EndOfFile
  deriving DecidableEq

/-- A source location, resolved: `SourceLine(&line_number)` yields the text of the line and
its 1-based number. -/
structure SourceLocation where
  line_number : Nat
  source_line : String
  deriving DecidableEq

/-- A classified token: kind, raw text (`data()`) and location. -/
structure Token where
  kind : Kind
  data : String
  location : SourceLocation
  deriving DecidableEq

/-- `TOKEN_PRIMITIVE_TYPE_CASES`. -/
def TOKEN_PRIMITIVE_TYPE_CASES : Kind → Bool
  | .Bool | .Status | .Int8 | .Int16 | .Int32 | .Int64
  | .Uint8 | .Uint16 | .Uint32 | .Uint64 | .Float32 | .Float64 => true
  | _ => false

/-- `TOKEN_TYPE_CASES`. -/
def TOKEN_TYPE_CASES : Kind → Bool
  | .Identifier | .Array | .Vector | .String | .Handle | .Request => true
  | k => TOKEN_PRIMITIVE_TYPE_CASES k

/-- `TOKEN_LITERAL_CASES`. -/
def TOKEN_LITERAL_CASES : Kind → Bool
  | .Default | .True | .False | .NumericLiteral | .StringLiteral => true
  | _ => false

/-! ## The syntax tree

Node constructors take what the `std::make_unique<...>(...)` calls of `parser.cpp` pass them;
an owned child is an `Option`. -/

inductive Nullability
  | Nonnullable | Nullable
  deriving DecidableEq

structure Identifier where
  identifier : Token
  deriving DecidableEq

structure CompoundIdentifier where
  components : List (Option Identifier)
  deriving DecidableEq

structure NumericLiteral where
  literal : Token
  deriving DecidableEq

inductive Literal
  | StringLiteral (literal : Token)
  | NumericLiteral (literal : NumericLiteral)
  | TrueLiteral
  | FalseLiteral
  | DefaultLiteral
  deriving DecidableEq

inductive Constant
  | IdentifierConstant (identifier : Option CompoundIdentifier)
  | LiteralConstant (literal : Option Literal)
  deriving DecidableEq

structure Using where
  using_path : Option CompoundIdentifier
  maybe_alias : Option Identifier
  deriving DecidableEq

/-- `HandleType::Subtype`. -/
inductive HandleSubtype
  | Handle | Process | Thread | Vmo | Channel | Event | Port | Interrupt | Iomap | Pci | Log
  | Socket | Resource | Eventpair | Job | Vmar | Fifo | Hypervisor | Guest | Timer
  deriving DecidableEq

/-- `PrimitiveType::TypeKind`. -/
inductive TypeKind
  | Bool | Status | Int8 | Int16 | Int32 | Int64
  | Uint8 | Uint16 | Uint32 | Uint64 | Float32 | Float64
  deriving DecidableEq

structure PrimitiveType where
  type_kind : TypeKind
  deriving DecidableEq

/-- The `Type` nodes. -/
inductive Type_
  | ArrayType (element_type : Option Type_) (element_count : Option Constant)
  | VectorType (element_type : Option Type_) (maybe_element_count : Option Constant)
      (nullability : Nullability)
  | StringType (maybe_element_count : Option Constant) (nullability : Nullability)
  | HandleType (subtype : HandleSubtype) (nullability : Nullability)
  | PrimitiveType (type : PrimitiveType)
  | RequestType (identifier : Option CompoundIdentifier) (nullability : Nullability)
  | IdentifierType (identifier : Option CompoundIdentifier) (nullability : Nullability)

mutual
/-- Equality of `Type` nodes is decidable. -/
def Type_.decEq : (a b : Type_) → Decidable (a = b)
  | .ArrayType e1 c1, .ArrayType e2 c2 =>
    match Type_.decEqOption e1 e2 with
    | isFalse h => isFalse (fun h2 => by cases h2; exact h rfl)
    | isTrue he =>
      if hc : c1 = c2 then
        isTrue (by rw [he, hc])
      else isFalse (fun h2 => by cases h2; exact hc rfl)
  | .ArrayType .., .VectorType .. => isFalse (fun h => by cases h)
  | .ArrayType .., .StringType .. => isFalse (fun h => by cases h)
  | .ArrayType .., .HandleType .. => isFalse (fun h => by cases h)
  | .ArrayType .., .PrimitiveType .. => isFalse (fun h => by cases h)
  | .ArrayType .., .RequestType .. => isFalse (fun h => by cases h)
  | .ArrayType .., .IdentifierType .. => isFalse (fun h => by cases h)
  | .VectorType .., .ArrayType .. => isFalse (fun h => by cases h)
  | .VectorType e1 c1 n1, .VectorType e2 c2 n2 =>
    match Type_.decEqOption e1 e2 with
    | isFalse h => isFalse (fun h2 => by cases h2; exact h rfl)
    | isTrue he =>
      if hc : c1 = c2 then
        if hn : n1 = n2 then
          isTrue (by rw [he, hc, hn])
        else isFalse (fun h2 => by cases h2; exact hn rfl)
      else isFalse (fun h2 => by cases h2; exact hc rfl)
  | .VectorType .., .StringType .. => isFalse (fun h => by cases h)
  | .VectorType .., .HandleType .. => isFalse (fun h => by cases h)
  | .VectorType .., .PrimitiveType .. => isFalse (fun h => by cases h)
  | .VectorType .., .RequestType .. => isFalse (fun h => by cases h)
  | .VectorType .., .IdentifierType .. => isFalse (fun h => by cases h)
  | .StringType .., .ArrayType .. => isFalse (fun h => by cases h)
  | .StringType .., .VectorType .. => isFalse (fun h => by cases h)
  | .StringType c1 n1, .StringType c2 n2 =>
    if hc : c1 = c2 then
      if hn : n1 = n2 then
        isTrue (by rw [hc, hn])
      else isFalse (fun h2 => by cases h2; exact hn rfl)
    else isFalse (fun h2 => by cases h2; exact hc rfl)
  | .StringType .., .HandleType .. => isFalse (fun h => by cases h)
  | .StringType .., .PrimitiveType .. => isFalse (fun h => by cases h)
  | .StringType .., .RequestType .. => isFalse (fun h => by cases h)
  | .StringType .., .IdentifierType .. => isFalse (fun h => by cases h)
  | .HandleType .., .ArrayType .. => isFalse (fun h => by cases h)
  | .HandleType .., .VectorType .. => isFalse (fun h => by cases h)
  | .HandleType .., .StringType .. => isFalse (fun h => by cases h)
  | .HandleType s1 n1, .HandleType s2 n2 =>
    if hs : s1 = s2 then
      if hn : n1 = n2 then
        isTrue (by rw [hs, hn])
      else isFalse (fun h2 => by cases h2; exact hn rfl)
    else isFalse (fun h2 => by cases h2; exact hs rfl)
  | .HandleType .., .PrimitiveType .. => isFalse (fun h => by cases h)
  | .HandleType .., .RequestType .. => isFalse (fun h => by cases h)
  | .HandleType .., .IdentifierType .. => isFalse (fun h => by cases h)
  | .PrimitiveType .., .ArrayType .. => isFalse (fun h => by cases h)
  | .PrimitiveType .., .VectorType .. => isFalse (fun h => by cases h)
  | .PrimitiveType .., .StringType .. => isFalse (fun h => by cases h)
  | .PrimitiveType .., .HandleType .. => isFalse (fun h => by cases h)
  | .PrimitiveType t1, .PrimitiveType t2 =>
    if ht : t1 = t2 then
      isTrue (by rw [ht])
    else isFalse (fun h2 => by cases h2; exact ht rfl)
  | .PrimitiveType .., .RequestType .. => isFalse (fun h => by cases h)
  | .PrimitiveType .., .IdentifierType .. => isFalse (fun h => by cases h)
  | .RequestType .., .ArrayType .. => isFalse (fun h => by cases h)
  | .RequestType .., .VectorType .. => isFalse (fun h => by cases h)
  | .RequestType .., .StringType .. => isFalse (fun h => by cases h)
  | .RequestType .., .HandleType .. => isFalse (fun h => by cases h)
  | .RequestType .., .PrimitiveType .. => isFalse (fun h => by cases h)
  | .RequestType i1 n1, .RequestType i2 n2 =>
    if hi : i1 = i2 then
      if hn : n1 = n2 then
        isTrue (by rw [hi, hn])
      else isFalse (fun h2 => by cases h2; exact hn rfl)
    else isFalse (fun h2 => by cases h2; exact hi rfl)
  | .RequestType .., .IdentifierType .. => isFalse (fun h => by cases h)
  | .IdentifierType .., .ArrayType .. => isFalse (fun h => by cases h)
  | .IdentifierType .., .VectorType .. => isFalse (fun h => by cases h)
  | .IdentifierType .., .StringType .. => isFalse (fun h => by cases h)
  | .IdentifierType .., .HandleType .. => isFalse (fun h => by cases h)
  | .IdentifierType .., .PrimitiveType .. => isFalse (fun h => by cases h)
  | .IdentifierType .., .RequestType .. => isFalse (fun h => by cases h)
  | .IdentifierType i1 n1, .IdentifierType i2 n2 =>
    if hi : i1 = i2 then
      if hn : n1 = n2 then
        isTrue (by rw [hi, hn])
      else isFalse (fun h2 => by cases h2; exact hn rfl)
    else isFalse (fun h2 => by cases h2; exact hi rfl)
/-- Equality of optional `Type` nodes is decidable. -/
def Type_.decEqOption : (a b : Option Type_) → Decidable (a = b)
  | none, none => isTrue rfl
  | some a, some b =>
    match Type_.decEq a b with
    | isTrue h => isTrue (by rw [h])
    | isFalse h => isFalse (fun h2 => by cases h2; exact h rfl)
  | none, some _ => isFalse (fun h => by cases h)
  | some _, none => isFalse (fun h => by cases h)
end

instance : DecidableEq Type_ := Type_.decEq

structure ConstDeclaration where
  type : Option Type_
  identifier : Option Identifier
  constant : Option Constant
  deriving DecidableEq

inductive EnumMemberValue
  | EnumMemberValueIdentifier (identifier : Option CompoundIdentifier)
  | EnumMemberValueNumeric (literal : Option NumericLiteral)
  deriving DecidableEq

structure EnumMember where
  identifier : Option Identifier
  maybe_value : Option EnumMemberValue
  deriving DecidableEq

structure EnumDeclaration where
  identifier : Option Identifier
  maybe_subtype : Option PrimitiveType
  members : List (Option EnumMember)
  deriving DecidableEq

structure Parameter where
  type : Option Type_
  identifier : Option Identifier
  deriving DecidableEq

structure ParameterList where
  parameter_list : List (Option Parameter)
  deriving DecidableEq

structure InterfaceMemberMethod where
  ordinal : Option NumericLiteral
  identifier : Option Identifier
  maybe_parameter_list : Option ParameterList
  maybe_response : Option ParameterList
  deriving DecidableEq

structure InterfaceDeclaration where
  identifier : Option Identifier
  superinterfaces : List (Option CompoundIdentifier)
  const_members : List (Option ConstDeclaration)
  enum_members : List (Option EnumDeclaration)
  method_members : List (Option InterfaceMemberMethod)
  deriving DecidableEq

structure StructMember where
  type : Option Type_
  identifier : Option Identifier
  maybe_default_value : Option Constant
  deriving DecidableEq

structure StructDeclaration where
  identifier : Option Identifier
  const_members : List (Option ConstDeclaration)
  enum_members : List (Option EnumDeclaration)
  members : List (Option StructMember)
  deriving DecidableEq

structure UnionMember where
  type : Option Type_
  identifier : Option Identifier
  deriving DecidableEq

structure UnionDeclaration where
  identifier : Option Identifier
  const_members : List (Option ConstDeclaration)
  enum_members : List (Option EnumDeclaration)
  members : List (Option UnionMember)
  deriving DecidableEq

structure File where
  identifier : Option CompoundIdentifier
  using_list : List (Option Using)
  const_declaration_list : List (Option ConstDeclaration)
  enum_declaration_list : List (Option EnumDeclaration)
  interface_declaration_list : List (Option InterfaceDeclaration)
  struct_declaration_list : List (Option StructDeclaration)
  union_declaration_list : List (Option UnionDeclaration)
  deriving DecidableEq

/-! ## The token source and the parser state -/

/-- The token source: the tokens not yet consumed, the first being the one lookahead token,
followed by `EndOfFile` tokens without end (text `eof_data`, location `eof_location`). -/
structure Lexer where
  tokens : List Token
  eof_data : String
  eof_location : SourceLocation
  deriving DecidableEq

/-- The state of one parser instance: the token source, the healthy flag `ok_`, and what the
diagnostic sink `error_reporter_` has received so far, oldest first. -/
structure Parser where
  lexer_ : Lexer
  ok_ : Bool
  error_reporter_ : List String
  deriving DecidableEq

/-- The token the source yields once its tokens are used up. -/
def Lexer.end_of_file (l : Lexer) : Token :=
  Token.mk Kind.EndOfFile l.eof_data l.eof_location

/-- Modelled from the spec: `last_token_` is declared and maintained in `parser.h`, which is
not among the sources; it is the one token of lookahead, "the next unconsumed token" whose kind
`peek()` returns (§4.1), the token standing at the point where `Fail` is called. -/
def Parser.last_token_ (p : Parser) : Token :=
  p.lexer_.tokens.headD p.lexer_.end_of_file

/-- A fresh parser instance on a token source. -/
def Parser.init (l : Lexer) : Parser :=
  Parser.mk l true []

/-- A production: a function of the parser state that yields a value and the next state, or
nothing when its budget of loop iterations is exhausted. -/
def M (α : Type) : Type := Parser → Option (α × Parser)

/-- Sequencing: run `m`, then `f` on its value from the state it left. -/
@[noinline] def M.bind {α β : Type} (m : M α) (f : α → M β) : M β :=
  fun p => match m p with
    | none => none
    | some r => f r.1 r.2

/-- Return a value and leave the state alone. -/
@[noinline] def M.pure {α : Type} (a : α) : M α := fun p => some (a, p)

instance : Monad M where
  pure := M.pure
  bind := M.bind

/-- The budget of a loop is exhausted. -/
def exhausted {α : Type} : M α := fun _ => none

/-- The number of tokens still to be consumed. -/
def remaining : M Nat := fun p => some (p.lexer_.tokens.length, p)

/-- `Ok()`. -/
def Ok : M Bool := fun p => some (p.ok_, p)

/-- Modelled from the spec: `Peek()` of `parser.h` (§4.1 `peek()`): the kind of the next
unconsumed token, without side effects. -/
def Peek : M Kind := fun p => some (p.last_token_.kind, p)

/-- Modelled from the spec: `Consume()` of `parser.h` (§4.1 `consume()`): returns the next
token and advances the token source by one, whatever the kind. -/
def Consume : M Token := fun p =>
  some (p.last_token_, Parser.mk (Lexer.mk p.lexer_.tokens.tail p.lexer_.eof_data
    p.lexer_.eof_location) p.ok_ p.error_reporter_)

/-- `Parser::Fail`: when healthy, one diagnostic about `last_token_` goes to the sink and the
healthy flag is cleared; otherwise nothing happens.  The result is always `nullptr`. -/
def Fail {α : Type} : M (Option α) := fun p =>
  if p.ok_ then
    let line_number := p.last_token_.location.line_number
    let surrounding_line := p.last_token_.location.source_line
    let error := "found unexpected token: "
    let error := error ++ p.last_token_.data
    let error := error ++ "\n"
    let error := error ++ ("on line #" ++ toString line_number ++ ":\n\n")
    let error := error ++ surrounding_line
    let error := error ++ "\n"
    some (none, Parser.mk p.lexer_ false (p.error_reporter_ ++ [error]))
  else
    some (none, p)

/-- Modelled from the spec: `ConsumeToken(kind)` of `parser.h` (§4.1 `consume_expecting`):
consume the next token and, if its kind does not equal `kind`, invoke failure. -/
def ConsumeToken (kind : Kind) : M Token := do
  let token ← Consume
  if token.kind ≠ kind then
    let _ ← (Fail : M (Option Unit))
    pure token
  else
    pure token

/-- Modelled from the spec: `MaybeConsumeToken(kind)` of `parser.h` (§4.1 `maybe_consume`):
if `peek() == kind`, consume and return true; otherwise return false and consume nothing. -/
def MaybeConsumeToken (kind : Kind) : M Bool := do
  if (← Peek) = kind then
    let _ ← Consume
    pure true
  else
    pure false

/-! ## The productions -/

def ParseIdentifier : M (Option Identifier) := do
  let identifier ← ConsumeToken Kind.Identifier
  if !(← Ok) then Fail else
  pure (some (Identifier.mk identifier))

/-- The `while (parse_component() == More)` loop of `ParseCompoundIdentifier`. -/
def ParseCompoundIdentifier.loop : Nat → List (Option Identifier) → M (Option CompoundIdentifier)
  | 0, _ => exhausted
  | n + 1, components => do
    match (← Peek) with
    | Kind.Dot =>
      let _ ← ConsumeToken Kind.Dot
      let components ← (do
        if (← Ok) then pure (components ++ [← ParseIdentifier]) else pure components)
      if !(← Ok) then Fail else
      ParseCompoundIdentifier.loop n components
    | _ => pure (some (CompoundIdentifier.mk components))

def ParseCompoundIdentifier : M (Option CompoundIdentifier) := do
  let components := [← ParseIdentifier]
  if !(← Ok) then Fail else
  ParseCompoundIdentifier.loop ((← remaining) + 1) components

def ParseStringLiteral : M (Option Literal) := do
  let string_literal ← ConsumeToken Kind.StringLiteral
  if !(← Ok) then Fail else
  pure (some (Literal.StringLiteral string_literal))

def ParseNumericLiteral : M (Option NumericLiteral) := do
  let numeric_literal ← ConsumeToken Kind.NumericLiteral
  if !(← Ok) then Fail else
  pure (some (NumericLiteral.mk numeric_literal))

def ParseTrueLiteral : M (Option Literal) := do
  let _ ← ConsumeToken Kind.True
  if !(← Ok) then Fail else
  pure (some Literal.TrueLiteral)

def ParseFalseLiteral : M (Option Literal) := do
  let _ ← ConsumeToken Kind.False
  if !(← Ok) then Fail else
  pure (some Literal.FalseLiteral)

def ParseDefaultLiteral : M (Option Literal) := do
  let _ ← ConsumeToken Kind.Default
  if !(← Ok) then Fail else
  pure (some Literal.DefaultLiteral)

def ParseLiteral : M (Option Literal) := do
  match (← Peek) with
  | Kind.StringLiteral => ParseStringLiteral
  | Kind.NumericLiteral => do
    pure ((← ParseNumericLiteral).map Literal.NumericLiteral)
  | Kind.True => ParseTrueLiteral
  | Kind.False => ParseFalseLiteral
  | Kind.Default => ParseDefaultLiteral
  | _ => Fail

def ParseConstant : M (Option Constant) := do
  match (← Peek) with
  | Kind.Identifier =>
    let identifier ← ParseCompoundIdentifier
    if !(← Ok) then Fail else
    pure (some (Constant.IdentifierConstant identifier))
  | k =>
    if TOKEN_LITERAL_CASES k then
      let literal ← ParseLiteral
      if !(← Ok) then Fail else
      pure (some (Constant.LiteralConstant literal))
    else Fail

def ParseUsing : M (Option Using) := do
  let _ ← ConsumeToken Kind.Using
  if !(← Ok) then Fail else
  let using_path ← ParseCompoundIdentifier
  if !(← Ok) then Fail else
  if (← MaybeConsumeToken Kind.As) then
    if !(← Ok) then Fail else
    let maybe_alias ← ParseIdentifier
    if !(← Ok) then Fail else
    pure (some (Using.mk using_path maybe_alias))
  else
    pure (some (Using.mk using_path none))

/-- `ParseArrayType`; the argument is `ParseType`, which it calls for the element type. -/
def ParseArrayType (ParseType : M (Option Type_)) : M (Option Type_) := do
  let _ ← ConsumeToken Kind.Array
  if !(← Ok) then Fail else
  let _ ← ConsumeToken Kind.LeftAngle
  if !(← Ok) then Fail else
  let element_type ← ParseType
  if !(← Ok) then Fail else
  let _ ← ConsumeToken Kind.RightAngle
  if !(← Ok) then Fail else
  let _ ← ConsumeToken Kind.Colon
  if !(← Ok) then Fail else
  let element_count ← ParseConstant
  if !(← Ok) then Fail else
  pure (some (Type_.ArrayType element_type element_count))

/-- The end of `ParseVectorType`, from `auto nullability` on. -/
def ParseVectorType.finish (element_type : Option Type_) (maybe_element_count : Option Constant) :
    M (Option Type_) := do
  if (← MaybeConsumeToken Kind.Question) then
    pure (some (Type_.VectorType element_type maybe_element_count Nullability.Nullable))
  else
    pure (some (Type_.VectorType element_type maybe_element_count Nullability.Nonnullable))

/-- `ParseVectorType`; the argument is `ParseType`, which it calls for the element type. -/
def ParseVectorType (ParseType : M (Option Type_)) : M (Option Type_) := do
  let _ ← ConsumeToken Kind.Vector
  if !(← Ok) then Fail else
  let _ ← ConsumeToken Kind.LeftAngle
  if !(← Ok) then Fail else
  let element_type ← ParseType
  if !(← Ok) then Fail else
  let _ ← ConsumeToken Kind.RightAngle
  if !(← Ok) then Fail else
  if (← MaybeConsumeToken Kind.Colon) then
    if !(← Ok) then Fail else
    let maybe_element_count ← ParseConstant
    if !(← Ok) then Fail else
    ParseVectorType.finish element_type maybe_element_count
  else
    ParseVectorType.finish element_type none

/-- The end of `ParseStringType`, from `auto nullability` on. -/
def ParseStringType.finish (maybe_element_count : Option Constant) : M (Option Type_) := do
  if (← MaybeConsumeToken Kind.Question) then
    pure (some (Type_.StringType maybe_element_count Nullability.Nullable))
  else
    pure (some (Type_.StringType maybe_element_count Nullability.Nonnullable))

def ParseStringType : M (Option Type_) := do
  let _ ← ConsumeToken Kind.String
  if !(← Ok) then Fail else
  if (← MaybeConsumeToken Kind.Colon) then
    if !(← Ok) then Fail else
    let maybe_element_count ← ParseConstant
    if !(← Ok) then Fail else
    ParseStringType.finish maybe_element_count
  else
    ParseStringType.finish none

/-- The `switch (Peek())` of `ParseHandleType`: the subtype a keyword selects; `none` is the
`default:` label. -/
def ParseHandleType.subtype : Kind → Option HandleSubtype
  | Kind.Process => some HandleSubtype.Process
  | Kind.Thread => some HandleSubtype.Thread
  | Kind.Vmo => some HandleSubtype.Vmo
  | Kind.Channel => some HandleSubtype.Channel
  | Kind.Event => some HandleSubtype.Event
  | Kind.Port => some HandleSubtype.Port
  | Kind.Interrupt => some HandleSubtype.Interrupt
  | Kind.Iomap => some HandleSubtype.Iomap
  | Kind.Pci => some HandleSubtype.Pci
  | Kind.Log => some HandleSubtype.Log
  | Kind.Socket => some HandleSubtype.Socket
  | Kind.Resource => some HandleSubtype.Resource
  | Kind.Eventpair => some HandleSubtype.Eventpair
  | Kind.Job => some HandleSubtype.Job
  | Kind.Vmar => some HandleSubtype.Vmar
  | Kind.Fifo => some HandleSubtype.Fifo
  | Kind.Hypervisor => some HandleSubtype.Hypervisor
  | Kind.Guest => some HandleSubtype.Guest
  | Kind.Timer => some HandleSubtype.Timer
  | _ => none

/-- The end of `ParseHandleType`, from `auto nullability` on. -/
def ParseHandleType.finish (subtype : HandleSubtype) : M (Option Type_) := do
  if (← MaybeConsumeToken Kind.Question) then
    pure (some (Type_.HandleType subtype Nullability.Nullable))
  else
    pure (some (Type_.HandleType subtype Nullability.Nonnullable))

def ParseHandleType : M (Option Type_) := do
  let _ ← ConsumeToken Kind.Handle
  if !(← Ok) then Fail else
  if (← MaybeConsumeToken Kind.LeftAngle) then
    if !(← Ok) then Fail else
    match ParseHandleType.subtype (← Peek) with
    | none => Fail
    | some subtype =>
      let _ ← Consume
      if !(← Ok) then Fail else
      let _ ← ConsumeToken Kind.RightAngle
      if !(← Ok) then Fail else
      ParseHandleType.finish subtype
  else
    ParseHandleType.finish HandleSubtype.Handle

/-- The `switch (Peek())` of `ParsePrimitiveType`: the type kind a keyword selects; `none` is
the `default:` label. -/
def ParsePrimitiveType.type_kind : Kind → Option TypeKind
  | Kind.Bool => some TypeKind.Bool
  | Kind.Status => some TypeKind.Status
  | Kind.Int8 => some TypeKind.Int8
  | Kind.Int16 => some TypeKind.Int16
  | Kind.Int32 => some TypeKind.Int32
  | Kind.Int64 => some TypeKind.Int64
  | Kind.Uint8 => some TypeKind.Uint8
  | Kind.Uint16 => some TypeKind.Uint16
  | Kind.Uint32 => some TypeKind.Uint32
  | Kind.Uint64 => some TypeKind.Uint64
  | Kind.Float32 => some TypeKind.Float32
  | Kind.Float64 => some TypeKind.Float64
  | _ => none

def ParsePrimitiveType : M (Option PrimitiveType) := do
  match ParsePrimitiveType.type_kind (← Peek) with
  | none => Fail
  | some type_kind =>
    let _ ← ConsumeToken (← Peek)
    if !(← Ok) then Fail else
    pure (some (PrimitiveType.mk type_kind))

def ParseRequestType : M (Option Type_) := do
  let _ ← ConsumeToken Kind.Request
  if !(← Ok) then Fail else
  let _ ← ConsumeToken Kind.LeftAngle
  if !(← Ok) then Fail else
  let identifier ← ParseCompoundIdentifier
  if !(← Ok) then Fail else
  let _ ← ConsumeToken Kind.RightAngle
  if !(← Ok) then Fail else
  if (← MaybeConsumeToken Kind.Question) then
    pure (some (Type_.RequestType identifier Nullability.Nullable))
  else
    pure (some (Type_.RequestType identifier Nullability.Nonnullable))

/-- `ParseType` with a budget for its recursion through `ParseArrayType` and
`ParseVectorType`. -/
def ParseType.go : Nat → M (Option Type_)
  | 0 => exhausted
  | n + 1 => do
    match (← Peek) with
    | Kind.Identifier =>
      let identifier ← ParseCompoundIdentifier
      if !(← Ok) then Fail else
      if (← MaybeConsumeToken Kind.Question) then
        if !(← Ok) then Fail else
        pure (some (Type_.IdentifierType identifier Nullability.Nullable))
      else
        pure (some (Type_.IdentifierType identifier Nullability.Nonnullable))
    | Kind.Array =>
      let type ← ParseArrayType (ParseType.go n)
      if !(← Ok) then Fail else
      pure type
    | Kind.Vector =>
      let type ← ParseVectorType (ParseType.go n)
      if !(← Ok) then Fail else
      pure type
    | Kind.String =>
      let type ← ParseStringType
      if !(← Ok) then Fail else
      pure type
    | Kind.Handle =>
      let type ← ParseHandleType
      if !(← Ok) then Fail else
      pure type
    | Kind.Request =>
      let type ← ParseRequestType
      if !(← Ok) then Fail else
      pure type
    | k =>
      if TOKEN_PRIMITIVE_TYPE_CASES k then
        let type ← ParsePrimitiveType
        if !(← Ok) then Fail else
        pure (type.map Type_.PrimitiveType)
      else Fail

def ParseType : M (Option Type_) := do
  ParseType.go ((← remaining) + 1)

def ParseConstDeclaration : M (Option ConstDeclaration) := do
  let _ ← ConsumeToken Kind.Const
  if !(← Ok) then Fail else
  let type ← ParseType
  if !(← Ok) then Fail else
  let identifier ← ParseIdentifier
  if !(← Ok) then Fail else
  let _ ← ConsumeToken Kind.Equal
  if !(← Ok) then Fail else
  let constant ← ParseConstant
  if !(← Ok) then Fail else
  pure (some (ConstDeclaration.mk type identifier constant))

def ParseEnumMember : M (Option EnumMember) := do
  let identifier ← ParseIdentifier
  if !(← Ok) then Fail else
  if (← MaybeConsumeToken Kind.Equal) then
    if !(← Ok) then Fail else
    match (← Peek) with
    | Kind.Identifier =>
      let compound_identifier ← ParseCompoundIdentifier
      if !(← Ok) then Fail else
      pure (some (EnumMember.mk identifier
        (some (EnumMemberValue.EnumMemberValueIdentifier compound_identifier))))
    | Kind.NumericLiteral =>
      let literal ← ParseNumericLiteral
      if !(← Ok) then Fail else
      pure (some (EnumMember.mk identifier
        (some (EnumMemberValue.EnumMemberValueNumeric literal))))
    | _ => Fail
  else
    pure (some (EnumMember.mk identifier none))

/-- The statement `if (!Ok()) Fail();`, whose value is dropped. -/
def FailUnlessOk : M Unit := do
  if !(← Ok) then
    let _ ← (Fail : M (Option Unit))
    pure ()
  else
    pure ()

/-- The `while (parse_member() == More)` loop of `ParseEnumDeclaration` and what follows
it. -/
def ParseEnumDeclaration.loop (identifier : Option Identifier)
    (subtype : Option PrimitiveType) :
    Nat → List (Option EnumMember) → M (Option EnumDeclaration)
  | 0, _ => exhausted
  | n + 1, members => do
    if TOKEN_TYPE_CASES (← Peek) then
      let members := members ++ [← ParseEnumMember]
      FailUnlessOk
      let _ ← ConsumeToken Kind.Semicolon
      if !(← Ok) then Fail else
      ParseEnumDeclaration.loop identifier subtype n members
    else
      let _ ← ConsumeToken Kind.RightCurly
      FailUnlessOk
      pure (some (EnumDeclaration.mk identifier subtype members))

/-- The body of `ParseEnumDeclaration` from `ConsumeToken(Token::Kind::LeftCurly)` on. -/
def ParseEnumDeclaration.body (identifier : Option Identifier)
    (subtype : Option PrimitiveType) : M (Option EnumDeclaration) := do
  let _ ← ConsumeToken Kind.LeftCurly
  if !(← Ok) then Fail else
  ParseEnumDeclaration.loop identifier subtype ((← remaining) + 1) []

def ParseEnumDeclaration : M (Option EnumDeclaration) := do
  let _ ← ConsumeToken Kind.Enum
  if !(← Ok) then Fail else
  let identifier ← ParseIdentifier
  if !(← Ok) then Fail else
  if (← MaybeConsumeToken Kind.Colon) then
    if !(← Ok) then Fail else
    let subtype ← ParsePrimitiveType
    if !(← Ok) then Fail else
    ParseEnumDeclaration.body identifier subtype
  else
    ParseEnumDeclaration.body identifier none

def ParseParameter : M (Option Parameter) := do
  let type ← ParseType
  if !(← Ok) then Fail else
  let identifier ← ParseIdentifier
  if !(← Ok) then Fail else
  pure (some (Parameter.mk type identifier))

/-- The `while (Peek() == Token::Kind::Comma)` loop of `ParseParameterList` and what follows
it. -/
def ParseParameterList.loop : Nat → List (Option Parameter) → M (Option ParameterList)
  | 0, _ => exhausted
  | n + 1, parameter_list => do
    if (← Peek) = Kind.Comma then
      let _ ← ConsumeToken Kind.Comma
      if !(← Ok) then Fail else
      if TOKEN_TYPE_CASES (← Peek) then
        let parameter_list := parameter_list ++ [← ParseParameter]
        if !(← Ok) then Fail else
        ParseParameterList.loop n parameter_list
      else Fail
    else
      pure (some (ParameterList.mk parameter_list))

def ParseParameterList : M (Option ParameterList) := do
  if TOKEN_TYPE_CASES (← Peek) then
    let parameter_list := [← ParseParameter]
    if !(← Ok) then Fail else
    ParseParameterList.loop ((← remaining) + 1) parameter_list
  else
    pure (some (ParameterList.mk []))

/-- The lambda `parse_params` of `ParseInterfaceMemberMethod`: its boolean result, and what
`*params_out` holds when it returns. -/
def ParseInterfaceMemberMethod.parse_params : M (Bool × Option ParameterList) := do
  let _ ← ConsumeToken Kind.LeftParen
  if !(← Ok) then pure (false, none) else
  let params_out ← ParseParameterList
  if !(← Ok) then pure (false, params_out) else
  let _ ← ConsumeToken Kind.RightParen
  if !(← Ok) then pure (false, params_out) else
  pure (true, params_out)

def ParseInterfaceMemberMethod : M (Option InterfaceMemberMethod) := do
  let ordinal ← ParseNumericLiteral
  if !(← Ok) then Fail else
  let _ ← ConsumeToken Kind.Colon
  if !(← Ok) then Fail else
  if (← MaybeConsumeToken Kind.Event) then
    let method_name ← ParseIdentifier
    if !(← Ok) then Fail else
    let maybe_response ← ParseInterfaceMemberMethod.parse_params
    if !maybe_response.1 then Fail else
    pure (some (InterfaceMemberMethod.mk ordinal method_name none maybe_response.2))
  else
    let method_name ← ParseIdentifier
    if !(← Ok) then Fail else
    let maybe_parameter_list ← ParseInterfaceMemberMethod.parse_params
    if !maybe_parameter_list.1 then Fail else
    if (← MaybeConsumeToken Kind.Arrow) then
      if !(← Ok) then Fail else
      let maybe_response ← ParseInterfaceMemberMethod.parse_params
      if !maybe_response.1 then Fail else
      pure (some (InterfaceMemberMethod.mk ordinal method_name maybe_parameter_list.2
        maybe_response.2))
    else
      pure (some (InterfaceMemberMethod.mk ordinal method_name maybe_parameter_list.2 none))

/-- The `while (parse_member() == More)` loop of `ParseInterfaceDeclaration` and what follows
it. -/
def ParseInterfaceDeclaration.loop (identifier : Option Identifier)
    (superinterfaces : List (Option CompoundIdentifier)) :
    Nat → List (Option ConstDeclaration) → List (Option EnumDeclaration) →
      List (Option InterfaceMemberMethod) → M (Option InterfaceDeclaration)
  | 0, _, _, _ => exhausted
  | n + 1, const_members, enum_members, method_members => do
    match (← Peek) with
    | Kind.Const =>
      let const_members := const_members ++ [← ParseConstDeclaration]
      FailUnlessOk
      let _ ← ConsumeToken Kind.Semicolon
      if !(← Ok) then Fail else
      ParseInterfaceDeclaration.loop identifier superinterfaces n
        const_members enum_members method_members
    | Kind.Enum =>
      let enum_members := enum_members ++ [← ParseEnumDeclaration]
      FailUnlessOk
      let _ ← ConsumeToken Kind.Semicolon
      if !(← Ok) then Fail else
      ParseInterfaceDeclaration.loop identifier superinterfaces n
        const_members enum_members method_members
    | Kind.NumericLiteral =>
      let method_members := method_members ++ [← ParseInterfaceMemberMethod]
      FailUnlessOk
      let _ ← ConsumeToken Kind.Semicolon
      if !(← Ok) then Fail else
      ParseInterfaceDeclaration.loop identifier superinterfaces n
        const_members enum_members method_members
    | _ =>
      let _ ← ConsumeToken Kind.RightCurly
      FailUnlessOk
      pure (some (InterfaceDeclaration.mk identifier superinterfaces const_members
        enum_members method_members))

/-- The body of `ParseInterfaceDeclaration` from `ConsumeToken(Token::Kind::LeftCurly)`
on. -/
def ParseInterfaceDeclaration.body (identifier : Option Identifier)
    (superinterfaces : List (Option CompoundIdentifier)) : M (Option InterfaceDeclaration) := do
  let _ ← ConsumeToken Kind.LeftCurly
  if !(← Ok) then Fail else
  ParseInterfaceDeclaration.loop identifier superinterfaces ((← remaining) + 1) [] [] []

/-- The `for (;;)` loop of `ParseInterfaceDeclaration` over the superinterfaces and what
follows it. -/
def ParseInterfaceDeclaration.superinterfaces (identifier : Option Identifier) :
    Nat → List (Option CompoundIdentifier) → M (Option InterfaceDeclaration)
  | 0, _ => exhausted
  | n + 1, superinterfaces => do
    let superinterfaces := superinterfaces ++ [← ParseCompoundIdentifier]
    if !(← Ok) then Fail else
    if !(← MaybeConsumeToken Kind.Comma) then
      ParseInterfaceDeclaration.body identifier superinterfaces
    else
      ParseInterfaceDeclaration.superinterfaces identifier n superinterfaces

def ParseInterfaceDeclaration : M (Option InterfaceDeclaration) := do
  let _ ← ConsumeToken Kind.Interface
  if !(← Ok) then Fail else
  let identifier ← ParseIdentifier
  if !(← Ok) then Fail else
  if (← MaybeConsumeToken Kind.Colon) then
    ParseInterfaceDeclaration.superinterfaces identifier ((← remaining) + 1) []
  else
    ParseInterfaceDeclaration.body identifier []

def ParseStructMember : M (Option StructMember) := do
  let type ← ParseType
  if !(← Ok) then Fail else
  let identifier ← ParseIdentifier
  if !(← Ok) then Fail else
  if (← MaybeConsumeToken Kind.Equal) then
    if !(← Ok) then Fail else
    let maybe_default_value ← ParseConstant
    if !(← Ok) then Fail else
    pure (some (StructMember.mk type identifier maybe_default_value))
  else
    pure (some (StructMember.mk type identifier none))

/-- The `while (parse_member() == More)` loop of `ParseStructDeclaration` and what follows
it. -/
def ParseStructDeclaration.loop (identifier : Option Identifier) :
    Nat → List (Option ConstDeclaration) → List (Option EnumDeclaration) →
      List (Option StructMember) → M (Option StructDeclaration)
  | 0, _, _, _ => exhausted
  | n + 1, const_members, enum_members, members => do
    match (← Peek) with
    | Kind.Const =>
      let const_members := const_members ++ [← ParseConstDeclaration]
      FailUnlessOk
      let _ ← ConsumeToken Kind.Semicolon
      if !(← Ok) then Fail else
      ParseStructDeclaration.loop identifier n const_members enum_members members
    | Kind.Enum =>
      let enum_members := enum_members ++ [← ParseEnumDeclaration]
      FailUnlessOk
      let _ ← ConsumeToken Kind.Semicolon
      if !(← Ok) then Fail else
      ParseStructDeclaration.loop identifier n const_members enum_members members
    | k =>
      if TOKEN_TYPE_CASES k then
        let members := members ++ [← ParseStructMember]
        FailUnlessOk
        let _ ← ConsumeToken Kind.Semicolon
        if !(← Ok) then Fail else
        ParseStructDeclaration.loop identifier n const_members enum_members members
      else
        let _ ← ConsumeToken Kind.RightCurly
        FailUnlessOk
        pure (some (StructDeclaration.mk identifier const_members enum_members members))

def ParseStructDeclaration : M (Option StructDeclaration) := do
  let _ ← ConsumeToken Kind.Struct
  if !(← Ok) then Fail else
  let identifier ← ParseIdentifier
  if !(← Ok) then Fail else
  let _ ← ConsumeToken Kind.LeftCurly
  if !(← Ok) then Fail else
  ParseStructDeclaration.loop identifier ((← remaining) + 1) [] [] []

def ParseUnionMember : M (Option UnionMember) := do
  let type ← ParseType
  if !(← Ok) then Fail else
  let identifier ← ParseIdentifier
  if !(← Ok) then Fail else
  pure (some (UnionMember.mk type identifier))

/-- The `while (parse_member() == More)` loop of `ParseUnionDeclaration` and what follows
it. -/
def ParseUnionDeclaration.loop (identifier : Option Identifier) :
    Nat → List (Option ConstDeclaration) → List (Option EnumDeclaration) →
      List (Option UnionMember) → M (Option UnionDeclaration)
  | 0, _, _, _ => exhausted
  | n + 1, const_members, enum_members, members => do
    match (← Peek) with
    | Kind.Const =>
      let const_members := const_members ++ [← ParseConstDeclaration]
      FailUnlessOk
      let _ ← ConsumeToken Kind.Semicolon
      if !(← Ok) then Fail else
      ParseUnionDeclaration.loop identifier n const_members enum_members members
    | Kind.Enum =>
      let enum_members := enum_members ++ [← ParseEnumDeclaration]
      FailUnlessOk
      let _ ← ConsumeToken Kind.Semicolon
      if !(← Ok) then Fail else
      ParseUnionDeclaration.loop identifier n const_members enum_members members
    | k =>
      if TOKEN_TYPE_CASES k then
        let members := members ++ [← ParseUnionMember]
        FailUnlessOk
        let _ ← ConsumeToken Kind.Semicolon
        if !(← Ok) then Fail else
        ParseUnionDeclaration.loop identifier n const_members enum_members members
      else
        let _ ← ConsumeToken Kind.RightCurly
        FailUnlessOk
        pure (some (UnionDeclaration.mk identifier const_members enum_members members))

def ParseUnionDeclaration : M (Option UnionDeclaration) := do
  let _ ← ConsumeToken Kind.Union
  if !(← Ok) then Fail else
  let identifier ← ParseIdentifier
  if !(← Ok) then Fail else
  let _ ← ConsumeToken Kind.LeftCurly
  if !(← Ok) then Fail else
  ParseUnionDeclaration.loop identifier ((← remaining) + 1) [] [] []

/-- The `while (parse_declaration() == More)` loop of `ParseFile` and what follows it. -/
def ParseFile.declarations (identifier : Option CompoundIdentifier)
    (using_list : List (Option Using)) :
    Nat → List (Option ConstDeclaration) → List (Option EnumDeclaration) →
      List (Option InterfaceDeclaration) → List (Option StructDeclaration) →
      List (Option UnionDeclaration) → M (Option File)
  | 0, _, _, _, _, _ => exhausted
  | n + 1, const_declaration_list, enum_declaration_list, interface_declaration_list,
      struct_declaration_list, union_declaration_list => do
    match (← Peek) with
    | Kind.Const =>
      let const_declaration_list := const_declaration_list ++ [← ParseConstDeclaration]
      if !(← Ok) then Fail else
      let _ ← ConsumeToken Kind.Semicolon
      if !(← Ok) then Fail else
      ParseFile.declarations identifier using_list n const_declaration_list
        enum_declaration_list interface_declaration_list struct_declaration_list
        union_declaration_list
    | Kind.Enum =>
      let enum_declaration_list := enum_declaration_list ++ [← ParseEnumDeclaration]
      if !(← Ok) then Fail else
      let _ ← ConsumeToken Kind.Semicolon
      if !(← Ok) then Fail else
      ParseFile.declarations identifier using_list n const_declaration_list
        enum_declaration_list interface_declaration_list struct_declaration_list
        union_declaration_list
    | Kind.Interface =>
      let interface_declaration_list :=
        interface_declaration_list ++ [← ParseInterfaceDeclaration]
      if !(← Ok) then Fail else
      let _ ← ConsumeToken Kind.Semicolon
      if !(← Ok) then Fail else
      ParseFile.declarations identifier using_list n const_declaration_list
        enum_declaration_list interface_declaration_list struct_declaration_list
        union_declaration_list
    | Kind.Struct =>
      let struct_declaration_list := struct_declaration_list ++ [← ParseStructDeclaration]
      if !(← Ok) then Fail else
      let _ ← ConsumeToken Kind.Semicolon
      if !(← Ok) then Fail else
      ParseFile.declarations identifier using_list n const_declaration_list
        enum_declaration_list interface_declaration_list struct_declaration_list
        union_declaration_list
    | Kind.Union =>
      let union_declaration_list := union_declaration_list ++ [← ParseUnionDeclaration]
      if !(← Ok) then Fail else
      let _ ← ConsumeToken Kind.Semicolon
      if !(← Ok) then Fail else
      ParseFile.declarations identifier using_list n const_declaration_list
        enum_declaration_list interface_declaration_list struct_declaration_list
        union_declaration_list
    | _ =>
      let _ ← ConsumeToken Kind.EndOfFile
      if !(← Ok) then Fail else
      pure (some (File.mk identifier using_list const_declaration_list enum_declaration_list
        interface_declaration_list struct_declaration_list union_declaration_list))

/-- The `while (parse_using() == More)` loop of `ParseFile` and what follows it. -/
def ParseFile.usings (identifier : Option CompoundIdentifier) :
    Nat → List (Option Using) → M (Option File)
  | 0, _ => exhausted
  | n + 1, using_list => do
    match (← Peek) with
    | Kind.Using =>
      let using_list := using_list ++ [← ParseUsing]
      if !(← Ok) then Fail else
      let _ ← ConsumeToken Kind.Semicolon
      if !(← Ok) then Fail else
      ParseFile.usings identifier n using_list
    | _ =>
      ParseFile.declarations identifier using_list ((← remaining) + 1) [] [] [] [] []

def ParseFile : M (Option File) := do
  let _ ← ConsumeToken Kind.Library
  if !(← Ok) then Fail else
  let identifier ← ParseCompoundIdentifier
  if !(← Ok) then Fail else
  let _ ← ConsumeToken Kind.Semicolon
  if !(← Ok) then Fail else
  ParseFile.usings identifier ((← remaining) + 1) []

/-! ## Fully populated nodes -/

/-- A mandatory child: the owned pointer holds a node, and the node satisfies `f`. -/
def present {α : Type} (f : α → Bool) : Option α → Bool
  | some x => f x
  | none => false

/-- An optional child: when the owned pointer holds a node, the node satisfies `f`. -/
def optional {α : Type} (f : α → Bool) : Option α → Bool
  | some x => f x
  | none => true

def CompoundIdentifier.populated (c : CompoundIdentifier) : Bool :=
  c.components.all Option.isSome

def Constant.populated : Constant → Bool
  | Constant.IdentifierConstant identifier => present CompoundIdentifier.populated identifier
  | Constant.LiteralConstant literal => literal.isSome

def Using.populated (u : Using) : Bool :=
  present CompoundIdentifier.populated u.using_path

def Type_.populated : Type_ → Bool
  | Type_.ArrayType (some element_type) element_count =>
    element_type.populated && present Constant.populated element_count
  | Type_.ArrayType none _ => false
  | Type_.VectorType (some element_type) maybe_element_count _ =>
    element_type.populated && optional Constant.populated maybe_element_count
  | Type_.VectorType none _ _ => false
  | Type_.StringType maybe_element_count _ => optional Constant.populated maybe_element_count
  | Type_.HandleType _ _ => true
  | Type_.PrimitiveType _ => true
  | Type_.RequestType identifier _ => present CompoundIdentifier.populated identifier
  | Type_.IdentifierType identifier _ => present CompoundIdentifier.populated identifier

def ConstDeclaration.populated (d : ConstDeclaration) : Bool :=
  present Type_.populated d.type && d.identifier.isSome && present Constant.populated d.constant

def EnumMemberValue.populated : EnumMemberValue → Bool
  | EnumMemberValue.EnumMemberValueIdentifier identifier =>
    present CompoundIdentifier.populated identifier
  | EnumMemberValue.EnumMemberValueNumeric literal => literal.isSome

def EnumMember.populated (m : EnumMember) : Bool :=
  m.identifier.isSome && optional EnumMemberValue.populated m.maybe_value

def EnumDeclaration.populated (d : EnumDeclaration) : Bool :=
  d.identifier.isSome && d.members.all (present EnumMember.populated)

def Parameter.populated (x : Parameter) : Bool :=
  present Type_.populated x.type && x.identifier.isSome

def ParameterList.populated (l : ParameterList) : Bool :=
  l.parameter_list.all (present Parameter.populated)

def InterfaceMemberMethod.populated (m : InterfaceMemberMethod) : Bool :=
  m.ordinal.isSome && m.identifier.isSome &&
    optional ParameterList.populated m.maybe_parameter_list &&
    optional ParameterList.populated m.maybe_response

def InterfaceDeclaration.populated (d : InterfaceDeclaration) : Bool :=
  d.identifier.isSome && d.superinterfaces.all (present CompoundIdentifier.populated) &&
    d.const_members.all (present ConstDeclaration.populated) &&
    d.enum_members.all (present EnumDeclaration.populated) &&
    d.method_members.all (present InterfaceMemberMethod.populated)

def StructMember.populated (m : StructMember) : Bool :=
  present Type_.populated m.type && m.identifier.isSome &&
    optional Constant.populated m.maybe_default_value

def StructDeclaration.populated (d : StructDeclaration) : Bool :=
  d.identifier.isSome && d.const_members.all (present ConstDeclaration.populated) &&
    d.enum_members.all (present EnumDeclaration.populated) &&
    d.members.all (present StructMember.populated)

def UnionMember.populated (m : UnionMember) : Bool :=
  present Type_.populated m.type && m.identifier.isSome

def UnionDeclaration.populated (d : UnionDeclaration) : Bool :=
  d.identifier.isSome && d.const_members.all (present ConstDeclaration.populated) &&
    d.enum_members.all (present EnumDeclaration.populated) &&
    d.members.all (present UnionMember.populated)

def File.populated (f : File) : Bool :=
  present CompoundIdentifier.populated f.identifier &&
    f.using_list.all (present Using.populated) &&
    f.const_declaration_list.all (present ConstDeclaration.populated) &&
    f.enum_declaration_list.all (present EnumDeclaration.populated) &&
    f.interface_declaration_list.all (present InterfaceDeclaration.populated) &&
    f.struct_declaration_list.all (present StructDeclaration.populated) &&
    f.union_declaration_list.all (present UnionDeclaration.populated)

/-! ## Reasoning about productions -/

/-- The state after `Consume()`. -/
def Parser.advance (p : Parser) : Parser :=
  Parser.mk (Lexer.mk p.lexer_.tokens.tail p.lexer_.eof_data p.lexer_.eof_location) p.ok_
    p.error_reporter_

/-- The text `Fail` reports when `last_token_` is `t`. -/
def diagnostic (t : Token) : String :=
  "found unexpected token: " ++ t.data ++ "\n" ++
    ("on line #" ++ toString t.location.line_number ++ ":\n\n") ++ t.location.source_line ++ "\n"

/-- The state after `Fail()`. -/
def Parser.failed (p : Parser) : Parser :=
  if p.ok_ then Parser.mk p.lexer_ false (p.error_reporter_ ++ [diagnostic p.last_token_]) else p

/-- The production `m`, run from `p`, returns, with a value and a state that satisfy `Q`. -/
def wp {α : Type} (m : M α) (Q : α → Parser → Prop) (p : Parser) : Prop :=
  ∃ a p', m p = some (a, p') ∧ Q a p'

/-- How the state may change while productions run: tokens are only consumed from the
front, the healthy flag only goes from true to false, and the sink receives one diagnostic,
at the moment the flag goes down, and nothing else. -/
structure Evolves (p p' : Parser) : Prop where
  suffix : p'.lexer_.tokens <:+ p.lexer_.tokens
  eof_data : p'.lexer_.eof_data = p.lexer_.eof_data
  eof_location : p'.lexer_.eof_location = p.lexer_.eof_location
  ok_mono : p'.ok_ = true → p.ok_ = true
  same : p'.ok_ = p.ok_ → p'.error_reporter_ = p.error_reporter_
  new : p.ok_ = true → p'.ok_ = false → ∃ d, p'.error_reporter_ = p.error_reporter_ ++ [d]

/-- What a production guarantees about its result: the state evolves from `p`, a `nullptr`
result leaves the parser unhealthy, and a node that is returned satisfies `pop`. -/
def Post {α : Type} (pop : α → Bool) (p : Parser) (a : Option α) (p' : Parser) : Prop :=
  Evolves p p' ∧ (a = none → p'.ok_ = false) ∧ ∀ x, a = some x → pop x = true

/-- What `ParseFile` guarantees on top of `Post`: a file is returned only by a healthy
parser. -/
def PostFile (p : Parser) (a : Option File) (p' : Parser) : Prop :=
  Post File.populated p a p' ∧ (a.isSome = true → p'.ok_ = true)

/-! ## The productions as one family -/

/-- A node of any class. -/
inductive Node
  | Identifier (node : Identifier)
  | CompoundIdentifier (node : CompoundIdentifier)
  | NumericLiteral (node : NumericLiteral)
  | Literal (node : Literal)
  | Constant (node : Constant)
  | Using (node : Using)
  | Type_ (node : Type_)
  | PrimitiveType (node : PrimitiveType)
  | ConstDeclaration (node : ConstDeclaration)
  | EnumMember (node : EnumMember)
  | EnumDeclaration (node : EnumDeclaration)
  | Parameter (node : Parameter)
  | ParameterList (node : ParameterList)
  | InterfaceMemberMethod (node : InterfaceMemberMethod)
  | InterfaceDeclaration (node : InterfaceDeclaration)
  | StructMember (node : StructMember)
  | StructDeclaration (node : StructDeclaration)
  | UnionMember (node : UnionMember)
  | UnionDeclaration (node : UnionDeclaration)
  | File (node : File)

/-- A node is fully populated: every mandatory child is there, no element of a list is
`nullptr`, and so on through the children. -/
def Node.populated : Node → Bool
  | Node.Identifier _ => true
  | Node.CompoundIdentifier node => node.populated
  | Node.NumericLiteral _ => true
  | Node.Literal _ => true
  | Node.Constant node => node.populated
  | Node.Using node => node.populated
  | Node.Type_ node => node.populated
  | Node.PrimitiveType _ => true
  | Node.ConstDeclaration node => node.populated
  | Node.EnumMember node => node.populated
  | Node.EnumDeclaration node => node.populated
  | Node.Parameter node => node.populated
  | Node.ParameterList node => node.populated
  | Node.InterfaceMemberMethod node => node.populated
  | Node.InterfaceDeclaration node => node.populated
  | Node.StructMember node => node.populated
  | Node.StructDeclaration node => node.populated
  | Node.UnionMember node => node.populated
  | Node.UnionDeclaration node => node.populated
  | Node.File node => node.populated

/-- The productions of `parser.cpp`, the member functions `Parse...` of `Parser`. -/
inductive Production
  | ParseIdentifier | ParseCompoundIdentifier | ParseStringLiteral | ParseNumericLiteral
  | ParseTrueLiteral | ParseFalseLiteral | ParseDefaultLiteral | ParseLiteral | ParseConstant
  | ParseUsing | ParseArrayType | ParseVectorType | ParseStringType | ParseHandleType
  | ParsePrimitiveType | ParseRequestType | ParseType | ParseConstDeclaration
  | ParseEnumMember | ParseEnumDeclaration | ParseParameter | ParseParameterList
  | ParseInterfaceMemberMethod | ParseInterfaceDeclaration | ParseStructMember
  | ParseStructDeclaration | ParseUnionMember | ParseUnionDeclaration | ParseFile
  deriving DecidableEq

/-- Run a production and forget the class of the node it returns. -/
def upcast {α : Type} (f : α → Node) (m : M (Option α)) : M (Option Node) := do
  pure ((← m).map f)

/-- Run the production of that name. -/
def Production.run : Production → M (Option Node)
  | Production.ParseIdentifier => upcast Node.Identifier fidl.ParseIdentifier
  | Production.ParseCompoundIdentifier =>
    upcast Node.CompoundIdentifier fidl.ParseCompoundIdentifier
  | Production.ParseStringLiteral => upcast Node.Literal fidl.ParseStringLiteral
  | Production.ParseNumericLiteral => upcast Node.NumericLiteral fidl.ParseNumericLiteral
  | Production.ParseTrueLiteral => upcast Node.Literal fidl.ParseTrueLiteral
  | Production.ParseFalseLiteral => upcast Node.Literal fidl.ParseFalseLiteral
  | Production.ParseDefaultLiteral => upcast Node.Literal fidl.ParseDefaultLiteral
  | Production.ParseLiteral => upcast Node.Literal fidl.ParseLiteral
  | Production.ParseConstant => upcast Node.Constant fidl.ParseConstant
  | Production.ParseUsing => upcast Node.Using fidl.ParseUsing
  | Production.ParseArrayType => upcast Node.Type_ (fidl.ParseArrayType fidl.ParseType)
  | Production.ParseVectorType => upcast Node.Type_ (fidl.ParseVectorType fidl.ParseType)
  | Production.ParseStringType => upcast Node.Type_ fidl.ParseStringType
  | Production.ParseHandleType => upcast Node.Type_ fidl.ParseHandleType
  | Production.ParsePrimitiveType => upcast Node.PrimitiveType fidl.ParsePrimitiveType
  | Production.ParseRequestType => upcast Node.Type_ fidl.ParseRequestType
  | Production.ParseType => upcast Node.Type_ fidl.ParseType
  | Production.ParseConstDeclaration => upcast Node.ConstDeclaration fidl.ParseConstDeclaration
  | Production.ParseEnumMember => upcast Node.EnumMember fidl.ParseEnumMember
  | Production.ParseEnumDeclaration => upcast Node.EnumDeclaration fidl.ParseEnumDeclaration
  | Production.ParseParameter => upcast Node.Parameter fidl.ParseParameter
  | Production.ParseParameterList => upcast Node.ParameterList fidl.ParseParameterList
  | Production.ParseInterfaceMemberMethod =>
    upcast Node.InterfaceMemberMethod fidl.ParseInterfaceMemberMethod
  | Production.ParseInterfaceDeclaration =>
    upcast Node.InterfaceDeclaration fidl.ParseInterfaceDeclaration
  | Production.ParseStructMember => upcast Node.StructMember fidl.ParseStructMember
  | Production.ParseStructDeclaration =>
    upcast Node.StructDeclaration fidl.ParseStructDeclaration
  | Production.ParseUnionMember => upcast Node.UnionMember fidl.ParseUnionMember
  | Production.ParseUnionDeclaration => upcast Node.UnionDeclaration fidl.ParseUnionDeclaration
  | Production.ParseFile => upcast Node.File fidl.ParseFile

/-! ## Example inputs -/

/-- A token of the one-line source text `line`. -/
def Token.on_line (line : String) (kind : Kind) (data : String) : Token :=
  Token.mk kind data (SourceLocation.mk 1 line)

/-- The token source of a one-line source text, given its tokens. -/
def Lexer.of_line (line : String) (tokens : List (Kind × String)) : Lexer :=
  Lexer.mk (tokens.map (fun t => Token.on_line line t.1 t.2)) "" (SourceLocation.mk 1 line)

/-- The tokens of `library foo; struct S { int32 x; };`. -/
def struct_with_member : Lexer :=
  Lexer.of_line "library foo; struct S \x7b int32 x; \x7d;"
    [(Kind.Library, "library"), (Kind.Identifier, "foo"), (Kind.Semicolon, ";"),
      (Kind.Struct, "struct"), (Kind.Identifier, "S"), (Kind.LeftCurly, "\x7b"),
      (Kind.Int32, "int32"), (Kind.Identifier, "x"), (Kind.Semicolon, ";"),
      (Kind.RightCurly, "\x7d"), (Kind.Semicolon, ";")]

/-- The tokens of a declaration `keyword X { ;`, whose body is ended by `;`. -/
def unclosed_body (keyword : Kind) (text : String) : Lexer :=
  Lexer.of_line (text ++ " X \x7b ;")
    [(keyword, text), (Kind.Identifier, "X"), (Kind.LeftCurly, "\x7b"), (Kind.Semicolon, ";")]

/-! ## What a healthy parser reads

`Reads.X tokens node rest`: from `tokens`, production `X` builds `node` and leaves `rest`
unconsumed.  Each rule is one path through the production on which the parser stays healthy,
with the tokens it consumes and the lookahead tests it makes. -/

/-- The kind of the lookahead token of a token list: `EndOfFile` when the list is used up. -/
def next : List Token → Kind
  | [] => Kind.EndOfFile
  | t :: _ => t.kind

namespace Reads

inductive PrimitiveType : List Token → fidl.PrimitiveType → List Token → Prop
  | mk {t : Token} {rest : List Token} {k : TypeKind} :
      ParsePrimitiveType.type_kind t.kind = some k →
      PrimitiveType (t :: rest) (fidl.PrimitiveType.mk k) rest

inductive Identifier : List Token → fidl.Identifier → List Token → Prop
  | mk {t : Token} {rest : List Token} : t.kind = Kind.Identifier →
      Identifier (t :: rest) (fidl.Identifier.mk t) rest

inductive NumericLiteral : List Token → fidl.NumericLiteral → List Token → Prop
  | mk {t : Token} {rest : List Token} : t.kind = Kind.NumericLiteral →
      NumericLiteral (t :: rest) (fidl.NumericLiteral.mk t) rest

/-- The components after the first: `('.' Identifier)*`, then a token that is not `.`. -/
inductive Components : List Token → List (Option fidl.Identifier) → List Token → Prop
  | done {ts : List Token} : next ts ≠ Kind.Dot → Components ts [] ts
  | more {dot identifier : Token} {ts rest : List Token}
      {components : List (Option fidl.Identifier)} :
      dot.kind = Kind.Dot → identifier.kind = Kind.Identifier → Components ts components rest →
      Components (dot :: identifier :: ts) (some (fidl.Identifier.mk identifier) :: components)
        rest

inductive CompoundIdentifier : List Token → fidl.CompoundIdentifier → List Token → Prop
  | mk {identifier : Token} {ts rest : List Token} {components : List (Option fidl.Identifier)} :
      identifier.kind = Kind.Identifier → Components ts components rest →
      CompoundIdentifier (identifier :: ts)
        (fidl.CompoundIdentifier.mk (some (fidl.Identifier.mk identifier) :: components)) rest

inductive Literal : List Token → fidl.Literal → List Token → Prop
  | string {t : Token} {rest : List Token} : t.kind = Kind.StringLiteral →
      Literal (t :: rest) (fidl.Literal.StringLiteral t) rest
  | numeric {t : Token} {rest : List Token} : t.kind = Kind.NumericLiteral →
      Literal (t :: rest) (fidl.Literal.NumericLiteral (fidl.NumericLiteral.mk t)) rest
  | true_ {t : Token} {rest : List Token} : t.kind = Kind.True →
      Literal (t :: rest) fidl.Literal.TrueLiteral rest
  | false_ {t : Token} {rest : List Token} : t.kind = Kind.False →
      Literal (t :: rest) fidl.Literal.FalseLiteral rest
  | default {t : Token} {rest : List Token} : t.kind = Kind.Default →
      Literal (t :: rest) fidl.Literal.DefaultLiteral rest

inductive Constant : List Token → fidl.Constant → List Token → Prop
  | identifier {ts rest : List Token} {x : fidl.CompoundIdentifier} :
      CompoundIdentifier ts x rest →
      Constant ts (fidl.Constant.IdentifierConstant (some x)) rest
  | literal {ts rest : List Token} {x : fidl.Literal} : Literal ts x rest →
      Constant ts (fidl.Constant.LiteralConstant (some x)) rest

/-- The optional element count `(':' Constant)?`. -/
inductive Count : List Token → Option fidl.Constant → List Token → Prop
  | some {colon : Token} {ts rest : List Token} {x : fidl.Constant} :
      colon.kind = Kind.Colon → Constant ts x rest → Count (colon :: ts) (some x) rest
  | none {ts : List Token} : next ts ≠ Kind.Colon → Count ts none ts

/-- The optional `'?'`. -/
inductive Nullability : List Token → fidl.Nullability → List Token → Prop
  | nullable {question : Token} {rest : List Token} : question.kind = Kind.Question →
      Nullability (question :: rest) fidl.Nullability.Nullable rest
  | nonnullable {ts : List Token} : next ts ≠ Kind.Question →
      Nullability ts fidl.Nullability.Nonnullable ts

/-- The optional `('<' subtype '>')` of a handle type. -/
inductive HandleSubtype : List Token → fidl.HandleSubtype → List Token → Prop
  | generic {ts : List Token} : next ts ≠ Kind.LeftAngle →
      HandleSubtype ts fidl.HandleSubtype.Handle ts
  | subtype {left keyword right : Token} {rest : List Token} {s : fidl.HandleSubtype} :
      left.kind = Kind.LeftAngle → ParseHandleType.subtype keyword.kind = some s →
      right.kind = Kind.RightAngle → HandleSubtype (left :: keyword :: right :: rest) s rest

inductive Type_ : List Token → fidl.Type_ → List Token → Prop
  | identifier {ts r rest : List Token} {x : fidl.CompoundIdentifier} {n : fidl.Nullability} :
      CompoundIdentifier ts x r → Nullability r n rest →
      Type_ ts (fidl.Type_.IdentifierType (some x) n) rest
  | array {array left right colon : Token} {ts r rest : List Token} {e : fidl.Type_}
      {c : fidl.Constant} :
      array.kind = Kind.Array → left.kind = Kind.LeftAngle →
      Type_ ts e (right :: colon :: r) → right.kind = Kind.RightAngle →
      colon.kind = Kind.Colon → Constant r c rest →
      Type_ (array :: left :: ts) (fidl.Type_.ArrayType (some e) (some c)) rest
  | vector {vector left right : Token} {ts r r2 rest : List Token} {e : fidl.Type_}
      {c : Option fidl.Constant} {n : fidl.Nullability} :
      vector.kind = Kind.Vector → left.kind = Kind.LeftAngle →
      Type_ ts e (right :: r) → right.kind = Kind.RightAngle →
      Count r c r2 → Nullability r2 n rest →
      Type_ (vector :: left :: ts) (fidl.Type_.VectorType (some e) c n) rest
  | string {string : Token} {ts r rest : List Token} {c : Option fidl.Constant}
      {n : fidl.Nullability} :
      string.kind = Kind.String → Count ts c r → Nullability r n rest →
      Type_ (string :: ts) (fidl.Type_.StringType c n) rest
  | handle {handle : Token} {ts r rest : List Token} {s : fidl.HandleSubtype}
      {n : fidl.Nullability} :
      handle.kind = Kind.Handle → HandleSubtype ts s r → Nullability r n rest →
      Type_ (handle :: ts) (fidl.Type_.HandleType s n) rest
  | request {request left right : Token} {ts r rest : List Token}
      {x : fidl.CompoundIdentifier} {n : fidl.Nullability} :
      request.kind = Kind.Request → left.kind = Kind.LeftAngle →
      CompoundIdentifier ts x (right :: r) → right.kind = Kind.RightAngle →
      Nullability r n rest →
      Type_ (request :: left :: ts) (fidl.Type_.RequestType (some x) n) rest
  | primitive {t : Token} {rest : List Token} {k : TypeKind} :
      ParsePrimitiveType.type_kind t.kind = some k →
      Type_ (t :: rest) (fidl.Type_.PrimitiveType (fidl.PrimitiveType.mk k)) rest

inductive Using : List Token → fidl.Using → List Token → Prop
  | plain {using_ : Token} {ts rest : List Token} {x : fidl.CompoundIdentifier} :
      using_.kind = Kind.Using → CompoundIdentifier ts x rest → next rest ≠ Kind.As →
      Using (using_ :: ts) (fidl.Using.mk (some x) none) rest
  | renamed {using_ as_ identifier : Token} {ts rest : List Token}
      {x : fidl.CompoundIdentifier} :
      using_.kind = Kind.Using → CompoundIdentifier ts x (as_ :: identifier :: rest) →
      as_.kind = Kind.As → identifier.kind = Kind.Identifier →
      Using (using_ :: ts) (fidl.Using.mk (some x) (some (fidl.Identifier.mk identifier))) rest

inductive ConstDeclaration : List Token → fidl.ConstDeclaration → List Token → Prop
  | mk {const_ identifier equal : Token} {ts r rest : List Token} {type : fidl.Type_}
      {constant : fidl.Constant} :
      const_.kind = Kind.Const → Type_ ts type (identifier :: equal :: r) →
      identifier.kind = Kind.Identifier → equal.kind = Kind.Equal → Constant r constant rest →
      ConstDeclaration (const_ :: ts)
        (fidl.ConstDeclaration.mk (some type) (some (fidl.Identifier.mk identifier))
          (some constant)) rest

inductive EnumMember : List Token → fidl.EnumMember → List Token → Prop
  | plain {identifier : Token} {rest : List Token} :
      identifier.kind = Kind.Identifier → next rest ≠ Kind.Equal →
      EnumMember (identifier :: rest)
        (fidl.EnumMember.mk (some (fidl.Identifier.mk identifier)) none) rest
  | identifier {identifier equal : Token} {ts rest : List Token}
      {x : fidl.CompoundIdentifier} :
      identifier.kind = Kind.Identifier → equal.kind = Kind.Equal →
      CompoundIdentifier ts x rest →
      EnumMember (identifier :: equal :: ts)
        (fidl.EnumMember.mk (some (fidl.Identifier.mk identifier))
          (some (EnumMemberValue.EnumMemberValueIdentifier (some x)))) rest
  | numeric {identifier equal literal : Token} {rest : List Token} :
      identifier.kind = Kind.Identifier → equal.kind = Kind.Equal →
      literal.kind = Kind.NumericLiteral →
      EnumMember (identifier :: equal :: literal :: rest)
        (fidl.EnumMember.mk (some (fidl.Identifier.mk identifier))
          (some (EnumMemberValue.EnumMemberValueNumeric
            (some (fidl.NumericLiteral.mk literal))))) rest

/-- The body of an enum after `{`: `(EnumMember ';')* '}'`. -/
inductive EnumMembers : List Token → List (Option fidl.EnumMember) → List Token → Prop
  | done {close : Token} {rest : List Token} : close.kind = Kind.RightCurly →
      EnumMembers (close :: rest) [] rest
  | more {semicolon : Token} {ts r rest : List Token} {m : fidl.EnumMember}
      {ms : List (Option fidl.EnumMember)} :
      EnumMember ts m (semicolon :: r) → semicolon.kind = Kind.Semicolon →
      EnumMembers r ms rest → EnumMembers ts (some m :: ms) rest

inductive EnumDeclaration : List Token → fidl.EnumDeclaration → List Token → Prop
  | plain {enum_ identifier open_ : Token} {ts rest : List Token}
      {ms : List (Option fidl.EnumMember)} :
      enum_.kind = Kind.Enum → identifier.kind = Kind.Identifier →
      open_.kind = Kind.LeftCurly → EnumMembers ts ms rest →
      EnumDeclaration (enum_ :: identifier :: open_ :: ts)
        (fidl.EnumDeclaration.mk (some (fidl.Identifier.mk identifier)) none ms) rest
  | typed {enum_ identifier colon type open_ : Token} {ts rest : List Token} {k : TypeKind}
      {ms : List (Option fidl.EnumMember)} :
      enum_.kind = Kind.Enum → identifier.kind = Kind.Identifier → colon.kind = Kind.Colon →
      ParsePrimitiveType.type_kind type.kind = some k →
      open_.kind = Kind.LeftCurly → EnumMembers ts ms rest →
      EnumDeclaration (enum_ :: identifier :: colon :: type :: open_ :: ts)
        (fidl.EnumDeclaration.mk (some (fidl.Identifier.mk identifier))
          (some (fidl.PrimitiveType.mk k)) ms) rest

inductive Parameter : List Token → fidl.Parameter → List Token → Prop
  | mk {identifier : Token} {ts rest : List Token} {type : fidl.Type_} :
      Type_ ts type (identifier :: rest) → identifier.kind = Kind.Identifier →
      Parameter ts (fidl.Parameter.mk (some type) (some (fidl.Identifier.mk identifier))) rest

/-- The parameters after the first: `(',' Parameter)*`, then a token that is not `,`. -/
inductive MoreParameters : List Token → List (Option fidl.Parameter) → List Token → Prop
  | done {ts : List Token} : next ts ≠ Kind.Comma → MoreParameters ts [] ts
  | more {comma : Token} {ts r rest : List Token} {x : fidl.Parameter}
      {xs : List (Option fidl.Parameter)} :
      comma.kind = Kind.Comma → Parameter ts x r → MoreParameters r xs rest →
      MoreParameters (comma :: ts) (some x :: xs) rest

inductive ParameterList : List Token → fidl.ParameterList → List Token → Prop
  | empty {ts : List Token} : TOKEN_TYPE_CASES (next ts) = false →
      ParameterList ts (fidl.ParameterList.mk []) ts
  | cons {ts r rest : List Token} {x : fidl.Parameter} {xs : List (Option fidl.Parameter)} :
      Parameter ts x r → MoreParameters r xs rest →
      ParameterList ts (fidl.ParameterList.mk (some x :: xs)) rest

/-- What the lambda `parse_params` reads: `'(' ParameterList ')'`. -/
inductive Params : List Token → fidl.ParameterList → List Token → Prop
  | mk {open_ close : Token} {ts rest : List Token} {x : fidl.ParameterList} :
      open_.kind = Kind.LeftParen → ParameterList ts x (close :: rest) →
      close.kind = Kind.RightParen → Params (open_ :: ts) x rest

inductive InterfaceMemberMethod : List Token → fidl.InterfaceMemberMethod → List Token → Prop
  | event {ordinal colon event identifier : Token} {ts rest : List Token}
      {response : fidl.ParameterList} :
      ordinal.kind = Kind.NumericLiteral → colon.kind = Kind.Colon →
      event.kind = Kind.Event → identifier.kind = Kind.Identifier → Params ts response rest →
      InterfaceMemberMethod (ordinal :: colon :: event :: identifier :: ts)
        (fidl.InterfaceMemberMethod.mk (some (fidl.NumericLiteral.mk ordinal))
          (some (fidl.Identifier.mk identifier)) none (some response)) rest
  | request_only {ordinal colon identifier : Token} {ts rest : List Token}
      {request : fidl.ParameterList} :
      ordinal.kind = Kind.NumericLiteral → colon.kind = Kind.Colon →
      identifier.kind = Kind.Identifier → Params ts request rest → next rest ≠ Kind.Arrow →
      InterfaceMemberMethod (ordinal :: colon :: identifier :: ts)
        (fidl.InterfaceMemberMethod.mk (some (fidl.NumericLiteral.mk ordinal))
          (some (fidl.Identifier.mk identifier)) (some request) none) rest
  | request_response {ordinal colon identifier arrow : Token} {ts r rest : List Token}
      {request response : fidl.ParameterList} :
      ordinal.kind = Kind.NumericLiteral → colon.kind = Kind.Colon →
      identifier.kind = Kind.Identifier → Params ts request (arrow :: r) →
      arrow.kind = Kind.Arrow → Params r response rest →
      InterfaceMemberMethod (ordinal :: colon :: identifier :: ts)
        (fidl.InterfaceMemberMethod.mk (some (fidl.NumericLiteral.mk ordinal))
          (some (fidl.Identifier.mk identifier)) (some request) (some response)) rest

/-- The body of an interface after `{`. -/
inductive InterfaceMembers : List Token → List (Option fidl.ConstDeclaration) →
    List (Option fidl.EnumDeclaration) → List (Option fidl.InterfaceMemberMethod) →
    List Token → Prop
  | done {close : Token} {rest : List Token} : close.kind = Kind.RightCurly →
      InterfaceMembers (close :: rest) [] [] [] rest
  | const {semicolon : Token} {ts r rest : List Token} {x : fidl.ConstDeclaration}
      {cs : List (Option fidl.ConstDeclaration)} {es : List (Option fidl.EnumDeclaration)}
      {ms : List (Option fidl.InterfaceMemberMethod)} :
      ConstDeclaration ts x (semicolon :: r) → semicolon.kind = Kind.Semicolon →
      InterfaceMembers r cs es ms rest → InterfaceMembers ts (some x :: cs) es ms rest
  | enum {semicolon : Token} {ts r rest : List Token} {x : fidl.EnumDeclaration}
      {cs : List (Option fidl.ConstDeclaration)} {es : List (Option fidl.EnumDeclaration)}
      {ms : List (Option fidl.InterfaceMemberMethod)} :
      EnumDeclaration ts x (semicolon :: r) → semicolon.kind = Kind.Semicolon →
      InterfaceMembers r cs es ms rest → InterfaceMembers ts cs (some x :: es) ms rest
  | method {semicolon : Token} {ts r rest : List Token} {x : fidl.InterfaceMemberMethod}
      {cs : List (Option fidl.ConstDeclaration)} {es : List (Option fidl.EnumDeclaration)}
      {ms : List (Option fidl.InterfaceMemberMethod)} :
      InterfaceMemberMethod ts x (semicolon :: r) → semicolon.kind = Kind.Semicolon →
      InterfaceMembers r cs es ms rest → InterfaceMembers ts cs es (some x :: ms) rest

/-- The superinterfaces after `:`: `CompoundIdentifier (',' CompoundIdentifier)*`. -/
inductive Superinterfaces : List Token → List (Option fidl.CompoundIdentifier) →
    List Token → Prop
  | last {ts rest : List Token} {x : fidl.CompoundIdentifier} :
      CompoundIdentifier ts x rest → next rest ≠ Kind.Comma →
      Superinterfaces ts [some x] rest
  | more {comma : Token} {ts r rest : List Token} {x : fidl.CompoundIdentifier}
      {xs : List (Option fidl.CompoundIdentifier)} :
      CompoundIdentifier ts x (comma :: r) → comma.kind = Kind.Comma →
      Superinterfaces r xs rest → Superinterfaces ts (some x :: xs) rest

inductive InterfaceDeclaration : List Token → fidl.InterfaceDeclaration → List Token → Prop
  | plain {interface identifier open_ : Token} {ts rest : List Token}
      {cs : List (Option fidl.ConstDeclaration)} {es : List (Option fidl.EnumDeclaration)}
      {ms : List (Option fidl.InterfaceMemberMethod)} :
      interface.kind = Kind.Interface → identifier.kind = Kind.Identifier →
      open_.kind = Kind.LeftCurly → InterfaceMembers ts cs es ms rest →
      InterfaceDeclaration (interface :: identifier :: open_ :: ts)
        (fidl.InterfaceDeclaration.mk (some (fidl.Identifier.mk identifier)) [] cs es ms) rest
  | derived {interface identifier colon open_ : Token} {ts r rest : List Token}
      {xs : List (Option fidl.CompoundIdentifier)}
      {cs : List (Option fidl.ConstDeclaration)} {es : List (Option fidl.EnumDeclaration)}
      {ms : List (Option fidl.InterfaceMemberMethod)} :
      interface.kind = Kind.Interface → identifier.kind = Kind.Identifier →
      colon.kind = Kind.Colon → Superinterfaces ts xs (open_ :: r) →
      open_.kind = Kind.LeftCurly → InterfaceMembers r cs es ms rest →
      InterfaceDeclaration (interface :: identifier :: colon :: ts)
        (fidl.InterfaceDeclaration.mk (some (fidl.Identifier.mk identifier)) xs cs es ms) rest

inductive StructMember : List Token → fidl.StructMember → List Token → Prop
  | plain {identifier : Token} {ts rest : List Token} {type : fidl.Type_} :
      Type_ ts type (identifier :: rest) → identifier.kind = Kind.Identifier →
      next rest ≠ Kind.Equal →
      StructMember ts
        (fidl.StructMember.mk (some type) (some (fidl.Identifier.mk identifier)) none) rest
  | default {identifier equal : Token} {ts r rest : List Token} {type : fidl.Type_}
      {value : fidl.Constant} :
      Type_ ts type (identifier :: equal :: r) → identifier.kind = Kind.Identifier →
      equal.kind = Kind.Equal → Constant r value rest →
      StructMember ts
        (fidl.StructMember.mk (some type) (some (fidl.Identifier.mk identifier)) (some value))
        rest

/-- The body of a struct after `{`. -/
inductive StructMembers : List Token → List (Option fidl.ConstDeclaration) →
    List (Option fidl.EnumDeclaration) → List (Option fidl.StructMember) →
    List Token → Prop
  | done {close : Token} {rest : List Token} : close.kind = Kind.RightCurly →
      StructMembers (close :: rest) [] [] [] rest
  | const {semicolon : Token} {ts r rest : List Token} {x : fidl.ConstDeclaration}
      {cs : List (Option fidl.ConstDeclaration)} {es : List (Option fidl.EnumDeclaration)}
      {ms : List (Option fidl.StructMember)} :
      ConstDeclaration ts x (semicolon :: r) → semicolon.kind = Kind.Semicolon →
      StructMembers r cs es ms rest → StructMembers ts (some x :: cs) es ms rest
  | enum {semicolon : Token} {ts r rest : List Token} {x : fidl.EnumDeclaration}
      {cs : List (Option fidl.ConstDeclaration)} {es : List (Option fidl.EnumDeclaration)}
      {ms : List (Option fidl.StructMember)} :
      EnumDeclaration ts x (semicolon :: r) → semicolon.kind = Kind.Semicolon →
      StructMembers r cs es ms rest → StructMembers ts cs (some x :: es) ms rest
  | member {semicolon : Token} {ts r rest : List Token} {x : fidl.StructMember}
      {cs : List (Option fidl.ConstDeclaration)} {es : List (Option fidl.EnumDeclaration)}
      {ms : List (Option fidl.StructMember)} :
      StructMember ts x (semicolon :: r) → semicolon.kind = Kind.Semicolon →
      StructMembers r cs es ms rest → StructMembers ts cs es (some x :: ms) rest

inductive StructDeclaration : List Token → fidl.StructDeclaration → List Token → Prop
  | mk {struct_ identifier open_ : Token} {ts rest : List Token}
      {cs : List (Option fidl.ConstDeclaration)} {es : List (Option fidl.EnumDeclaration)}
      {ms : List (Option fidl.StructMember)} :
      struct_.kind = Kind.Struct → identifier.kind = Kind.Identifier →
      open_.kind = Kind.LeftCurly → StructMembers ts cs es ms rest →
      StructDeclaration (struct_ :: identifier :: open_ :: ts)
        (fidl.StructDeclaration.mk (some (fidl.Identifier.mk identifier)) cs es ms) rest

inductive UnionMember : List Token → fidl.UnionMember → List Token → Prop
  | mk {identifier : Token} {ts rest : List Token} {type : fidl.Type_} :
      Type_ ts type (identifier :: rest) → identifier.kind = Kind.Identifier →
      UnionMember ts (fidl.UnionMember.mk (some type) (some (fidl.Identifier.mk identifier)))
        rest

/-- The body of a union after `{`. -/
inductive UnionMembers : List Token → List (Option fidl.ConstDeclaration) →
    List (Option fidl.EnumDeclaration) → List (Option fidl.UnionMember) →
    List Token → Prop
  | done {close : Token} {rest : List Token} : close.kind = Kind.RightCurly →
      UnionMembers (close :: rest) [] [] [] rest
  | const {semicolon : Token} {ts r rest : List Token} {x : fidl.ConstDeclaration}
      {cs : List (Option fidl.ConstDeclaration)} {es : List (Option fidl.EnumDeclaration)}
      {ms : List (Option fidl.UnionMember)} :
      ConstDeclaration ts x (semicolon :: r) → semicolon.kind = Kind.Semicolon →
      UnionMembers r cs es ms rest → UnionMembers ts (some x :: cs) es ms rest
  | enum {semicolon : Token} {ts r rest : List Token} {x : fidl.EnumDeclaration}
      {cs : List (Option fidl.ConstDeclaration)} {es : List (Option fidl.EnumDeclaration)}
      {ms : List (Option fidl.UnionMember)} :
      EnumDeclaration ts x (semicolon :: r) → semicolon.kind = Kind.Semicolon →
      UnionMembers r cs es ms rest → UnionMembers ts cs (some x :: es) ms rest
  | member {semicolon : Token} {ts r rest : List Token} {x : fidl.UnionMember}
      {cs : List (Option fidl.ConstDeclaration)} {es : List (Option fidl.EnumDeclaration)}
      {ms : List (Option fidl.UnionMember)} :
      UnionMember ts x (semicolon :: r) → semicolon.kind = Kind.Semicolon →
      UnionMembers r cs es ms rest → UnionMembers ts cs es (some x :: ms) rest

inductive UnionDeclaration : List Token → fidl.UnionDeclaration → List Token → Prop
  | mk {union_ identifier open_ : Token} {ts rest : List Token}
      {cs : List (Option fidl.ConstDeclaration)} {es : List (Option fidl.EnumDeclaration)}
      {ms : List (Option fidl.UnionMember)} :
      union_.kind = Kind.Union → identifier.kind = Kind.Identifier →
      open_.kind = Kind.LeftCurly → UnionMembers ts cs es ms rest →
      UnionDeclaration (union_ :: identifier :: open_ :: ts)
        (fidl.UnionDeclaration.mk (some (fidl.Identifier.mk identifier)) cs es ms) rest

/-- The five declaration lists of a file. -/
structure DeclarationLists where
  const_declaration_list : List (Option fidl.ConstDeclaration)
  enum_declaration_list : List (Option fidl.EnumDeclaration)
  interface_declaration_list : List (Option fidl.InterfaceDeclaration)
  struct_declaration_list : List (Option fidl.StructDeclaration)
  union_declaration_list : List (Option fidl.UnionDeclaration)

/-- The top-level declarations, each followed by `;`, and the `EndOfFile` after them. -/
inductive Declarations : List Token → DeclarationLists → List Token → Prop
  | done {ts : List Token} : next ts = Kind.EndOfFile →
      Declarations ts (DeclarationLists.mk [] [] [] [] []) ts.tail
  | const {semicolon : Token} {ts r rest : List Token} {x : fidl.ConstDeclaration}
      {d : DeclarationLists} :
      ConstDeclaration ts x (semicolon :: r) → semicolon.kind = Kind.Semicolon →
      Declarations r d rest →
      Declarations ts (DeclarationLists.mk (some x :: d.const_declaration_list)
        d.enum_declaration_list d.interface_declaration_list d.struct_declaration_list
        d.union_declaration_list) rest
  | enum {semicolon : Token} {ts r rest : List Token} {x : fidl.EnumDeclaration}
      {d : DeclarationLists} :
      EnumDeclaration ts x (semicolon :: r) → semicolon.kind = Kind.Semicolon →
      Declarations r d rest →
      Declarations ts (DeclarationLists.mk d.const_declaration_list
        (some x :: d.enum_declaration_list) d.interface_declaration_list
        d.struct_declaration_list d.union_declaration_list) rest
  | interface {semicolon : Token} {ts r rest : List Token} {x : fidl.InterfaceDeclaration}
      {d : DeclarationLists} :
      InterfaceDeclaration ts x (semicolon :: r) → semicolon.kind = Kind.Semicolon →
      Declarations r d rest →
      Declarations ts (DeclarationLists.mk d.const_declaration_list d.enum_declaration_list
        (some x :: d.interface_declaration_list) d.struct_declaration_list
        d.union_declaration_list) rest
  | struct {semicolon : Token} {ts r rest : List Token} {x : fidl.StructDeclaration}
      {d : DeclarationLists} :
      StructDeclaration ts x (semicolon :: r) → semicolon.kind = Kind.Semicolon →
      Declarations r d rest →
      Declarations ts (DeclarationLists.mk d.const_declaration_list d.enum_declaration_list
        d.interface_declaration_list (some x :: d.struct_declaration_list)
        d.union_declaration_list) rest
  | union {semicolon : Token} {ts r rest : List Token} {x : fidl.UnionDeclaration}
      {d : DeclarationLists} :
      UnionDeclaration ts x (semicolon :: r) → semicolon.kind = Kind.Semicolon →
      Declarations r d rest →
      Declarations ts (DeclarationLists.mk d.const_declaration_list d.enum_declaration_list
        d.interface_declaration_list d.struct_declaration_list
        (some x :: d.union_declaration_list)) rest

/-- The using clauses, each followed by `;`, then a token that is not `using`. -/
inductive Usings : List Token → List (Option fidl.Using) → List Token → Prop
  | done {ts : List Token} : next ts ≠ Kind.Using → Usings ts [] ts
  | more {semicolon : Token} {ts r rest : List Token} {x : fidl.Using}
      {xs : List (Option fidl.Using)} :
      Using ts x (semicolon :: r) → semicolon.kind = Kind.Semicolon → Usings r xs rest →
      Usings ts (some x :: xs) rest

inductive File : List Token → fidl.File → List Token → Prop
  | mk {library semicolon : Token} {ts r r2 rest : List Token}
      {x : fidl.CompoundIdentifier} {us : List (Option fidl.Using)} {d : DeclarationLists} :
      library.kind = Kind.Library → CompoundIdentifier ts x (semicolon :: r) →
      semicolon.kind = Kind.Semicolon → Usings r us r2 → Declarations r2 d rest →
      File (library :: ts)
        (fidl.File.mk (some x) us d.const_declaration_list d.enum_declaration_list
          d.interface_declaration_list d.struct_declaration_list d.union_declaration_list) rest

end Reads

/-- If the production `m`, run from `p`, returns, its value and state satisfy `Q`. -/
def wlp {α : Type} (m : M α) (Q : α → Parser → Prop) (p : Parser) : Prop :=
  ∀ a p', m p = some (a, p') → Q a p'

/-- A production that returns healthy has built a node that `R` relates to the tokens `ts`
it started from and the tokens it left. -/
def Sound {α : Type} (R : List Token → α → List Token → Prop) (ts : List Token)
    (a : Option α) (p' : Parser) : Prop :=
  p'.ok_ = true → ∃ x, a = some x ∧ R ts x p'.lexer_.tokens

/-- The parser `p` with `ts` as the tokens still to be consumed. -/
def Parser.at (p : Parser) (ts : List Token) : Parser :=
  Parser.mk (Lexer.mk ts p.lexer_.eof_data p.lexer_.eof_location) p.ok_ p.error_reporter_

/-! ## The grammar of the specification

The productions of §4.3 of the specification, written over token kinds with the usual
operators: sequence, alternative, option and repetition. The roles that the grammar leaves
to the reader are the token kinds of the same name: `NAME` is `Identifier`, `StringLit` is
`StringLiteral`, `NumericLit` is `NumericLiteral`, `PrimitiveType` is one of the twelve
primitive keywords and `HandleSubtypeKeyword` one of the nineteen subtype keywords that §3
enumerates. -/

namespace Grammar

/-- A language over token kinds. -/
abbrev Lang : Type := List Kind → Prop

/-- The terminal `'k'`. -/
def tok (k : Kind) : Lang := fun ks => ks = [k]

/-- One terminal out of `l`. -/
def oneOf (l : List Kind) : Lang := fun ks => ∃ k, k ∈ l ∧ ks = [k]

/-- The sequence `A B`. -/
def seq (A B : Lang) : Lang := fun ks => ∃ a b, ks = a ++ b ∧ A a ∧ B b

/-- The alternative `A | B`. -/
def alt (A B : Lang) : Lang := fun ks => A ks ∨ B ks

/-- The option `A?`. -/
def opt (A : Lang) : Lang := fun ks => ks = [] ∨ A ks

/-- The repetition `A*`. -/
inductive star (A : List Kind → Prop) : List Kind → Prop
  | nil : star A []
  | cons {a b : List Kind} : A a → star A b → star A (a ++ b)

/-- The sequence `A1 A2 ... An`. -/
def seqs : List Lang → Lang
  | [] => fun ks => ks = []
  | [A] => A
  | A :: B :: rest => seq A (seqs (B :: rest))

/-- The alternative `A1 | A2 | ... | An`. -/
def alts : List Lang → Lang
  | [] => fun _ => False
  | [A] => A
  | A :: B :: rest => alt A (alts (B :: rest))

/-- `Identifier := NAME`. -/
def Identifier : Lang := tok Kind.Identifier

/-- `CompoundIdentifier := Identifier ('.' Identifier)*`. -/
def CompoundIdentifier : Lang := seqs [Identifier, star (seqs [tok Kind.Dot, Identifier])]

/-- `Literal := StringLit | NumericLit | 'true' | 'false' | 'default'`. -/
def Literal : Lang :=
  alts [tok Kind.StringLiteral, tok Kind.NumericLiteral, tok Kind.True, tok Kind.False,
    tok Kind.Default]

/-- `Constant := CompoundIdentifier | Literal`. -/
def Constant : Lang := alts [CompoundIdentifier, Literal]

/-- The twelve primitive keywords: bool, status, int8/16/32/64, uint8/16/32/64,
float32/64. -/
def PrimitiveType : Lang :=
  oneOf [Kind.Bool, Kind.Status, Kind.Int8, Kind.Int16, Kind.Int32, Kind.Int64, Kind.Uint8,
    Kind.Uint16, Kind.Uint32, Kind.Uint64, Kind.Float32, Kind.Float64]

/-- The subtype keywords: process, thread, vmo, channel, event, port, interrupt, iomap, pci,
log, socket, resource, eventpair, job, vmar, fifo, hypervisor, guest, timer. -/
def HandleSubtypeKeyword : Lang :=
  oneOf [Kind.Process, Kind.Thread, Kind.Vmo, Kind.Channel, Kind.Event, Kind.Port,
    Kind.Interrupt, Kind.Iomap, Kind.Pci, Kind.Log, Kind.Socket, Kind.Resource,
    Kind.Eventpair, Kind.Job, Kind.Vmar, Kind.Fifo, Kind.Hypervisor, Kind.Guest, Kind.Timer]

/-- `StringType := 'string' (':' Constant)? '?'?`. -/
def StringType : Lang :=
  seqs [tok Kind.String, opt (seqs [tok Kind.Colon, Constant]), opt (tok Kind.Question)]

/-- `HandleType := 'handle' ('<' HandleSubtypeKeyword '>')? '?'?`. -/
def HandleType : Lang :=
  seqs [tok Kind.Handle,
    opt (seqs [tok Kind.LeftAngle, HandleSubtypeKeyword, tok Kind.RightAngle]),
    opt (tok Kind.Question)]

/-- `RequestType := 'request' '<' CompoundIdentifier '>' '?'?`. -/
def RequestType : Lang :=
  seqs [tok Kind.Request, tok Kind.LeftAngle, CompoundIdentifier, tok Kind.RightAngle,
    opt (tok Kind.Question)]

/-- `IdentifierType := CompoundIdentifier '?'?`. -/
def IdentifierType : Lang := seqs [CompoundIdentifier, opt (tok Kind.Question)]

/-- `Type := PrimitiveType | ArrayType | VectorType | StringType | HandleType | RequestType
| IdentifierType`, with the two productions that contain a `Type`,
`ArrayType := 'array' '<' Type '>' ':' Constant` and
`VectorType := 'vector' '<' Type '>' (':' Constant)? '?'?`, written out. -/
inductive Type_ : List Kind → Prop
  | primitive {ks : List Kind} : PrimitiveType ks → Type_ ks
  | array {t c : List Kind} : Type_ t → Constant c →
      Type_ (Kind.Array :: Kind.LeftAngle :: (t ++ Kind.RightAngle :: Kind.Colon :: c))
  | vector {t s : List Kind} : Type_ t →
      seqs [opt (seqs [tok Kind.Colon, Constant]), opt (tok Kind.Question)] s →
      Type_ (Kind.Vector :: Kind.LeftAngle :: (t ++ Kind.RightAngle :: s))
  | string {ks : List Kind} : StringType ks → Type_ ks
  | handle {ks : List Kind} : HandleType ks → Type_ ks
  | request {ks : List Kind} : RequestType ks → Type_ ks
  | identifier {ks : List Kind} : IdentifierType ks → Type_ ks

/-- `Using := 'using' CompoundIdentifier ('as' Identifier)?`. -/
def Using : Lang :=
  seqs [tok Kind.Using, CompoundIdentifier, opt (seqs [tok Kind.As, Identifier])]

/-- `ConstDeclaration := 'const' Type Identifier '=' Constant`. -/
def ConstDeclaration : Lang :=
  seqs [tok Kind.Const, Type_, Identifier, tok Kind.Equal, Constant]

/-- `EnumMember := Identifier ('=' (CompoundIdentifier | NumericLit))?`. -/
def EnumMember : Lang :=
  seqs [Identifier,
    opt (seqs [tok Kind.Equal, alts [CompoundIdentifier, tok Kind.NumericLiteral]])]

/-- `EnumDeclaration := 'enum' Identifier (':' PrimitiveType)? '{' (EnumMember ';')* '}'`. -/
def EnumDeclaration : Lang :=
  seqs [tok Kind.Enum, Identifier, opt (seqs [tok Kind.Colon, PrimitiveType]),
    tok Kind.LeftCurly, star (seqs [EnumMember, tok Kind.Semicolon]), tok Kind.RightCurly]

/-- `Parameter := Type Identifier`. -/
def Parameter : Lang := seqs [Type_, Identifier]

/-- `ParameterList := (Parameter (',' Parameter)*)?`. -/
def ParameterList : Lang := opt (seqs [Parameter, star (seqs [tok Kind.Comma, Parameter])])

/-- `InterfaceMethod := NumericLit ':' ( 'event' Identifier '(' ParameterList ')'
| Identifier '(' ParameterList ')' ('->' '(' ParameterList ')')? )`. -/
def InterfaceMethod : Lang :=
  seqs [tok Kind.NumericLiteral, tok Kind.Colon,
    alts [
      seqs [tok Kind.Event, Identifier, tok Kind.LeftParen, ParameterList,
        tok Kind.RightParen],
      seqs [Identifier, tok Kind.LeftParen, ParameterList, tok Kind.RightParen,
        opt (seqs [tok Kind.Arrow, tok Kind.LeftParen, ParameterList,
          tok Kind.RightParen])]]]

/-- `InterfaceDeclaration := 'interface' Identifier
(':' CompoundIdentifier (',' CompoundIdentifier)*)?
'{' ((ConstDeclaration|EnumDeclaration|InterfaceMethod) ';')* '}'`. -/
def InterfaceDeclaration : Lang :=
  seqs [tok Kind.Interface, Identifier,
    opt (seqs [tok Kind.Colon, CompoundIdentifier,
      star (seqs [tok Kind.Comma, CompoundIdentifier])]),
    tok Kind.LeftCurly,
    star (seqs [alts [ConstDeclaration, EnumDeclaration, InterfaceMethod],
      tok Kind.Semicolon]),
    tok Kind.RightCurly]

/-- `StructMember := Type Identifier ('=' Constant)?`. -/
def StructMember : Lang := seqs [Type_, Identifier, opt (seqs [tok Kind.Equal, Constant])]

/-- `StructDeclaration := 'struct' Identifier
'{' ((ConstDeclaration|EnumDeclaration|StructMember) ';')* '}'`. -/
def StructDeclaration : Lang :=
  seqs [tok Kind.Struct, Identifier, tok Kind.LeftCurly,
    star (seqs [alts [ConstDeclaration, EnumDeclaration, StructMember], tok Kind.Semicolon]),
    tok Kind.RightCurly]

/-- `UnionMember := Type Identifier`. -/
def UnionMember : Lang := seqs [Type_, Identifier]

/-- `UnionDeclaration := 'union' Identifier
'{' ((ConstDeclaration|EnumDeclaration|UnionMember) ';')* '}'`. -/
def UnionDeclaration : Lang :=
  seqs [tok Kind.Union, Identifier, tok Kind.LeftCurly,
    star (seqs [alts [ConstDeclaration, EnumDeclaration, UnionMember], tok Kind.Semicolon]),
    tok Kind.RightCurly]

/-- `File := 'library' CompoundIdentifier ';' (Using ';')*
((ConstDeclaration|EnumDeclaration|InterfaceDeclaration|StructDeclaration|UnionDeclaration)
';')* EndOfFile`. -/
def File : Lang :=
  seqs [tok Kind.Library, CompoundIdentifier, tok Kind.Semicolon,
    star (seqs [Using, tok Kind.Semicolon]),
    star (seqs [alts [ConstDeclaration, EnumDeclaration, InterfaceDeclaration,
      StructDeclaration, UnionDeclaration], tok Kind.Semicolon]),
    tok Kind.EndOfFile]

/-- No string of `L` contains the kind `k`. -/
def Avoids (k : Kind) (L : Lang) : Prop := ∀ ks, L ks → k ∉ ks

end Grammar

/-- The kinds of the tokens `ts`. -/
def kinds (ts : List Token) : List Kind := ts.map Token.kind

/-- The token kinds the parser can see: those before the first `EndOfFile`, and that
`EndOfFile`, which the lexer supplies itself once its tokens are used up. -/
def up_to_eof (ks : List Kind) : List Kind :=
  ks.takeWhile (fun k => k != Kind.EndOfFile) ++ [Kind.EndOfFile]

/-! ## Nullability and the example `vector<int32>:10?` -/

/-- The nullability a type node reports: the `nullability` member of the vector, string,
handle, request and identifier types; array and primitive types have none. -/
def Type_.nullability : Type_ → Option Nullability
  | Type_.ArrayType _ _ => none
  | Type_.VectorType _ _ nullability => some nullability
  | Type_.StringType _ nullability => some nullability
  | Type_.HandleType _ nullability => some nullability
  | Type_.PrimitiveType _ => none
  | Type_.RequestType _ nullability => some nullability
  | Type_.IdentifierType _ nullability => some nullability

/-- The tokens of `vector<int32>:10?`. -/
def vector_of_ten : Lexer :=
  Lexer.of_line "vector<int32>:10?"
    [(Kind.Vector, "vector"), (Kind.LeftAngle, "<"), (Kind.Int32, "int32"),
      (Kind.RightAngle, ">"), (Kind.Colon, ":"), (Kind.NumericLiteral, "10"),
      (Kind.Question, "?")]

/-! ## Dotted names -/

/-- The tokens `. i2 . i3 ... . in` of the pairs `(., ik)`. -/
def separated : List (Token × Token) → List Token
  | [] => []
  | di :: more => di.1 :: di.2 :: separated more

/-- The tokens of `a.b;`. -/
def a_dot_b : Lexer :=
  Lexer.of_line "a.b;"
    [(Kind.Identifier, "a"), (Kind.Dot, "."), (Kind.Identifier, "b"), (Kind.Semicolon, ";")]

/-! ## Declarations and members in source order -/

/-- A member of a braced body as it stands in the source: a const declaration, an enum
declaration, or a member proper (a method, a struct member, a union member). -/
inductive Member (α : Type)
  | const (declaration : ConstDeclaration)
  | enum (declaration : EnumDeclaration)
  | member (member : α)
  deriving DecidableEq

/-- The const declaration a member is, if it is one. -/
def Member.const? {α : Type} : Member α → Option ConstDeclaration
  | .const declaration => some declaration
  | _ => none

/-- The enum declaration a member is, if it is one. -/
def Member.enum? {α : Type} : Member α → Option EnumDeclaration
  | .enum declaration => some declaration
  | _ => none

/-- The member proper a member is, if it is one. -/
def Member.member? {α : Type} : Member α → Option α
  | .member x => some x
  | _ => none

/-- A top-level declaration as it stands in the source. -/
inductive Declaration
  | const (declaration : ConstDeclaration)
  | enum (declaration : EnumDeclaration)
  | interface (declaration : InterfaceDeclaration)
  | struct (declaration : StructDeclaration)
  | union (declaration : UnionDeclaration)
  deriving DecidableEq

def Declaration.const? : Declaration → Option ConstDeclaration
  | .const declaration => some declaration
  | _ => none

def Declaration.enum? : Declaration → Option EnumDeclaration
  | .enum declaration => some declaration
  | _ => none

def Declaration.interface? : Declaration → Option InterfaceDeclaration
  | .interface declaration => some declaration
  | _ => none

def Declaration.struct? : Declaration → Option StructDeclaration
  | .struct declaration => some declaration
  | _ => none

def Declaration.union? : Declaration → Option UnionDeclaration
  | .union declaration => some declaration
  | _ => none

namespace Reads

/-- The tokens `ts` begin with the items `xs`, in this order, each read by `R` and each
followed by `;`; `rest` is what follows the last `;`. -/
inductive Seq {α : Type} (R : List Token → α → List Token → Prop) :
    List Token → List α → List Token → Prop
  | nil {ts : List Token} : Seq R ts [] ts
  | cons {semicolon : Token} {ts r rest : List Token} {x : α} {xs : List α} :
      R ts x (semicolon :: r) → semicolon.kind = Kind.Semicolon → Seq R r xs rest →
      Seq R ts (x :: xs) rest

/-- One member of a braced body whose members proper are read by `R`. -/
inductive Item {α : Type} (R : List Token → α → List Token → Prop) :
    List Token → Member α → List Token → Prop
  | const {ts rest : List Token} {x : fidl.ConstDeclaration} :
      ConstDeclaration ts x rest → Item R ts (Member.const x) rest
  | enum {ts rest : List Token} {x : fidl.EnumDeclaration} :
      EnumDeclaration ts x rest → Item R ts (Member.enum x) rest
  | member {ts rest : List Token} {x : α} : R ts x rest → Item R ts (Member.member x) rest

/-- One top-level declaration. -/
inductive Declaration : List Token → fidl.Declaration → List Token → Prop
  | const {ts rest : List Token} {x : fidl.ConstDeclaration} :
      ConstDeclaration ts x rest → Declaration ts (fidl.Declaration.const x) rest
  | enum {ts rest : List Token} {x : fidl.EnumDeclaration} :
      EnumDeclaration ts x rest → Declaration ts (fidl.Declaration.enum x) rest
  | interface {ts rest : List Token} {x : fidl.InterfaceDeclaration} :
      InterfaceDeclaration ts x rest → Declaration ts (fidl.Declaration.interface x) rest
  | struct {ts rest : List Token} {x : fidl.StructDeclaration} :
      StructDeclaration ts x rest → Declaration ts (fidl.Declaration.struct x) rest
  | union {ts rest : List Token} {x : fidl.UnionDeclaration} :
      UnionDeclaration ts x rest → Declaration ts (fidl.Declaration.union x) rest

/-- The tokens determine what `R` reads from them and what it leaves. -/
def Functional {α : Type} (R : List Token → α → List Token → Prop) : Prop :=
  ∀ (ts : List Token) (x x' : α) (r r' : List Token), R ts x r → R ts x' r' → x = x' ∧ r = r'

/-- No item read by `R` begins with a token whose kind satisfies `E`. -/
def StartsOutside {α : Type} (R : List Token → α → List Token → Prop) (E : Kind → Prop) :
    Prop :=
  ∀ (ts : List Token) (x : α) (r : List Token), R ts x r → ¬ E (next ts)

end Reads

/-- The production `m`, run from `p`, fails: it returns with the parser unhealthy. -/
def fails {α : Type} (m : M (Option α)) (p : Parser) : Prop :=
  ∃ a p', m p = some (a, p') ∧ p'.ok_ = false

namespace Reads

/-- The tokens of an enum declaration up to and including its `{`, and the body after it. -/
inductive EnumHeader : List Token → List Token → Prop
  | plain {enum_ identifier open_ : Token} {body : List Token} :
      enum_.kind = Kind.Enum → identifier.kind = Kind.Identifier →
      open_.kind = Kind.LeftCurly → EnumHeader (enum_ :: identifier :: open_ :: body) body
  | typed {enum_ identifier colon type open_ : Token} {body : List Token} {k : TypeKind} :
      enum_.kind = Kind.Enum → identifier.kind = Kind.Identifier → colon.kind = Kind.Colon →
      ParsePrimitiveType.type_kind type.kind = some k → open_.kind = Kind.LeftCurly →
      EnumHeader (enum_ :: identifier :: colon :: type :: open_ :: body) body

/-- The tokens of an interface declaration up to and including its `{`, and the body after
it. -/
inductive InterfaceHeader : List Token → List Token → Prop
  | plain {interface identifier open_ : Token} {body : List Token} :
      interface.kind = Kind.Interface → identifier.kind = Kind.Identifier →
      open_.kind = Kind.LeftCurly →
      InterfaceHeader (interface :: identifier :: open_ :: body) body
  | derived {interface identifier colon open_ : Token} {ts body : List Token}
      {xs : List (Option fidl.CompoundIdentifier)} :
      interface.kind = Kind.Interface → identifier.kind = Kind.Identifier →
      colon.kind = Kind.Colon → Superinterfaces ts xs (open_ :: body) →
      open_.kind = Kind.LeftCurly →
      InterfaceHeader (interface :: identifier :: colon :: ts) body

/-- The tokens of a struct declaration up to and including its `{`, and the body after
it. -/
inductive StructHeader : List Token → List Token → Prop
  | mk {struct_ identifier open_ : Token} {body : List Token} :
      struct_.kind = Kind.Struct → identifier.kind = Kind.Identifier →
      open_.kind = Kind.LeftCurly → StructHeader (struct_ :: identifier :: open_ :: body) body

/-- The tokens of a union declaration up to and including its `{`, and the body after it. -/
inductive UnionHeader : List Token → List Token → Prop
  | mk {union_ identifier open_ : Token} {body : List Token} :
      union_.kind = Kind.Union → identifier.kind = Kind.Identifier →
      open_.kind = Kind.LeftCurly → UnionHeader (union_ :: identifier :: open_ :: body) body

end Reads

/-- The tokens of `library a; struct S { }; const bool c = true; struct T { };`. -/
def interleaved : Lexer :=
  Lexer.of_line "library a; struct S \x7b \x7d; const bool c = true; struct T \x7b \x7d;"
    [(Kind.Library, "library"), (Kind.Identifier, "a"), (Kind.Semicolon, ";"),
      (Kind.Struct, "struct"), (Kind.Identifier, "S"), (Kind.LeftCurly, "\x7b"),
      (Kind.RightCurly, "\x7d"), (Kind.Semicolon, ";"),
      (Kind.Const, "const"), (Kind.Bool, "bool"), (Kind.Identifier, "c"), (Kind.Equal, "="),
      (Kind.True, "true"), (Kind.Semicolon, ";"),
      (Kind.Struct, "struct"), (Kind.Identifier, "T"), (Kind.LeftCurly, "\x7b"),
      (Kind.RightCurly, "\x7d"), (Kind.Semicolon, ";")]

/-- The tokens of `1: Foo(int32 a) -> (bool ok)`. -/
def two_way_method : Lexer :=
  Lexer.of_line "1: Foo(int32 a) -> (bool ok)"
    [(Kind.NumericLiteral, "1"), (Kind.Colon, ":"), (Kind.Identifier, "Foo"),
      (Kind.LeftParen, "("), (Kind.Int32, "int32"), (Kind.Identifier, "a"),
      (Kind.RightParen, ")"), (Kind.Arrow, "->"), (Kind.LeftParen, "("),
      (Kind.Bool, "bool"), (Kind.Identifier, "ok"), (Kind.RightParen, ")")]

/-- The tokens of `1: Foo(int32 a);`. -/
def one_way_method : Lexer :=
  Lexer.of_line "1: Foo(int32 a);"
    [(Kind.NumericLiteral, "1"), (Kind.Colon, ":"), (Kind.Identifier, "Foo"),
      (Kind.LeftParen, "("), (Kind.Int32, "int32"), (Kind.Identifier, "a"),
      (Kind.RightParen, ")"), (Kind.Semicolon, ";")]

/-- The nineteen subtype keywords, each with the subtype of the same name. -/
def subtype_keywords : List (Kind × HandleSubtype) :=
  [(Kind.Process, HandleSubtype.Process), (Kind.Thread, HandleSubtype.Thread),
    (Kind.Vmo, HandleSubtype.Vmo), (Kind.Channel, HandleSubtype.Channel),
    (Kind.Event, HandleSubtype.Event), (Kind.Port, HandleSubtype.Port),
    (Kind.Interrupt, HandleSubtype.Interrupt), (Kind.Iomap, HandleSubtype.Iomap),
    (Kind.Pci, HandleSubtype.Pci), (Kind.Log, HandleSubtype.Log),
    (Kind.Socket, HandleSubtype.Socket), (Kind.Resource, HandleSubtype.Resource),
    (Kind.Eventpair, HandleSubtype.Eventpair), (Kind.Job, HandleSubtype.Job),
    (Kind.Vmar, HandleSubtype.Vmar), (Kind.Fifo, HandleSubtype.Fifo),
    (Kind.Hypervisor, HandleSubtype.Hypervisor), (Kind.Guest, HandleSubtype.Guest),
    (Kind.Timer, HandleSubtype.Timer)]

/-- The tokens of `handle<vmo>?`. -/
def handle_of_vmo : Lexer :=
  Lexer.of_line "handle<vmo>?"
    [(Kind.Handle, "handle"), (Kind.LeftAngle, "<"), (Kind.Vmo, "vmo"),
      (Kind.RightAngle, ">"), (Kind.Question, "?")]

/-- The tokens of `enum E : uint8 { A = 1; B; }`. -/
def enum_of_uint8 : Lexer :=
  Lexer.of_line "enum E : uint8 \x7b A = 1; B; \x7d"
    [(Kind.Enum, "enum"), (Kind.Identifier, "E"), (Kind.Colon, ":"), (Kind.Uint8, "uint8"),
      (Kind.LeftCurly, "\x7b"), (Kind.Identifier, "A"), (Kind.Equal, "="),
      (Kind.NumericLiteral, "1"), (Kind.Semicolon, ";"), (Kind.Identifier, "B"),
      (Kind.Semicolon, ";"), (Kind.RightCurly, "\x7d")]

namespace Reads

/-- The tokens begin with `library`, the library name, `;`, all the using clauses, each
followed by `;`, and the top-level declarations `declarations`, each followed by `;`; `rest`
is what follows. -/
inductive FilePrefix : List Token → List fidl.Declaration → List Token → Prop
  | mk {library semicolon : Token} {ts r1 r2 rest : List Token}
      {name : fidl.CompoundIdentifier} {usings : List fidl.Using}
      {declarations : List fidl.Declaration} :
      library.kind = Kind.Library → CompoundIdentifier ts name (semicolon :: r1) →
      semicolon.kind = Kind.Semicolon → Seq Using r1 usings r2 → next r2 ≠ Kind.Using →
      Seq Declaration r2 declarations rest → FilePrefix (library :: ts) declarations rest

end Reads

/-- The tokens of `union U { int32 x = 1; }`. -/
def union_with_default : Lexer :=
  Lexer.of_line "union U \x7b int32 x = 1; \x7d"
    [(Kind.Union, "union"), (Kind.Identifier, "U"), (Kind.LeftCurly, "\x7b"),
      (Kind.Int32, "int32"), (Kind.Identifier, "x"), (Kind.Equal, "="),
      (Kind.NumericLiteral, "1"), (Kind.Semicolon, ";"), (Kind.RightCurly, "\x7d")]

/-- The tokens of `const string NAME = "hi"`. -/
def const_of_string : Lexer :=
  Lexer.of_line "const string NAME = \"hi\""
    [(Kind.Const, "const"), (Kind.String, "string"), (Kind.Identifier, "NAME"),
      (Kind.Equal, "="), (Kind.StringLiteral, "\"hi\"")]

/-- The tokens of `interface I { int32 x; }`. -/
def interface_with_field : Lexer :=
  Lexer.of_line "interface I \x7b int32 x; \x7d"
    [(Kind.Interface, "interface"), (Kind.Identifier, "I"), (Kind.LeftCurly, "\x7b"),
      (Kind.Int32, "int32"), (Kind.Identifier, "x"), (Kind.Semicolon, ";"),
      (Kind.RightCurly, "\x7d")]

/-- The tokens of `struct S { };`. -/
def without_library : Lexer :=
  Lexer.of_line "struct S \x7b \x7d;"
    [(Kind.Struct, "struct"), (Kind.Identifier, "S"), (Kind.LeftCurly, "\x7b"),
      (Kind.RightCurly, "\x7d"), (Kind.Semicolon, ";")]

/-- The tokens of `library a; struct S { }; using b;`. -/
def using_after_declaration : Lexer :=
  Lexer.of_line "library a; struct S \x7b \x7d; using b;"
    [(Kind.Library, "library"), (Kind.Identifier, "a"), (Kind.Semicolon, ";"),
      (Kind.Struct, "struct"), (Kind.Identifier, "S"), (Kind.LeftCurly, "\x7b"),
      (Kind.RightCurly, "\x7d"), (Kind.Semicolon, ";"),
      (Kind.Using, "using"), (Kind.Identifier, "b"), (Kind.Semicolon, ";")]

/-- The tokens of `library a; struct S { }`. -/
def without_semicolon : Lexer :=
  Lexer.of_line "library a; struct S \x7b \x7d"
    [(Kind.Library, "library"), (Kind.Identifier, "a"), (Kind.Semicolon, ";"),
      (Kind.Struct, "struct"), (Kind.Identifier, "S"), (Kind.LeftCurly, "\x7b"),
      (Kind.RightCurly, "\x7d")]

/-- The tokens of `library a; struct S { }; }`. -/
def with_trailing_token : Lexer :=
  Lexer.of_line "library a; struct S \x7b \x7d; \x7d"
    [(Kind.Library, "library"), (Kind.Identifier, "a"), (Kind.Semicolon, ";"),
      (Kind.Struct, "struct"), (Kind.Identifier, "S"), (Kind.LeftCurly, "\x7b"),
      (Kind.RightCurly, "\x7d"), (Kind.Semicolon, ";"), (Kind.RightCurly, "\x7d")]

namespace Reads

/-- The tokens begin with `(',' Parameter)*`: the parameters `parameters`, each preceded by
`,`, in the order of the tokens; `rest` is what follows. -/
inductive Parameters : List Token → List fidl.Parameter → List Token → Prop
  | nil {ts : List Token} : Parameters ts [] ts
  | cons {comma : Token} {ts r rest : List Token} {x : fidl.Parameter}
      {xs : List fidl.Parameter} :
      comma.kind = Kind.Comma → Parameter ts x r → Parameters r xs rest →
      Parameters (comma :: ts) (x :: xs) rest

end Reads

/-- The tokens of `int32 a, bool b)`. -/
def two_parameters : Lexer :=
  Lexer.of_line "int32 a, bool b)"
    [(Kind.Int32, "int32"), (Kind.Identifier, "a"), (Kind.Comma, ","), (Kind.Bool, "bool"),
      (Kind.Identifier, "b"), (Kind.RightParen, ")")]

/-- The tokens of `int32 a, )`. -/
def trailing_comma : Lexer :=
  Lexer.of_line "int32 a, )"
    [(Kind.Int32, "int32"), (Kind.Identifier, "a"), (Kind.Comma, ","),
      (Kind.RightParen, ")")]

/-- The twelve primitive keywords, each with the type kind of its name. -/
def primitive_keywords : List (Kind × TypeKind) :=
  [(Kind.Bool, TypeKind.Bool), (Kind.Status, TypeKind.Status), (Kind.Int8, TypeKind.Int8),
    (Kind.Int16, TypeKind.Int16), (Kind.Int32, TypeKind.Int32), (Kind.Int64, TypeKind.Int64),
    (Kind.Uint8, TypeKind.Uint8), (Kind.Uint16, TypeKind.Uint16),
    (Kind.Uint32, TypeKind.Uint32), (Kind.Uint64, TypeKind.Uint64),
    (Kind.Float32, TypeKind.Float32), (Kind.Float64, TypeKind.Float64)]

/-- The tokens of `int32?`. -/
def primitive_then_question : Lexer :=
  Lexer.of_line "int32?" [(Kind.Int32, "int32"), (Kind.Question, "?")]

/-- The production `m`, run from `p`, returns, that is its budget of loop iterations is not
exhausted, and it leaves no more tokens than it found. -/
def Returns {α : Type} (m : M α) (p : Parser) : Prop :=
  ∃ a p', m p = some (a, p') ∧ p'.lexer_.tokens.length ≤ p.lexer_.tokens.length

/-- The tokens of `enum E { int32 x; }`. -/
def enum_with_typed_member : Lexer :=
  Lexer.of_line "enum E \x7b int32 x; \x7d"
    [(Kind.Enum, "enum"), (Kind.Identifier, "E"), (Kind.LeftCurly, "\x7b"),
      (Kind.Int32, "int32"), (Kind.Identifier, "x"), (Kind.Semicolon, ";"),
      (Kind.RightCurly, "\x7d")]

/-- The state `p` after the consumption of `n` more tokens. -/
def Parser.skip (p : Parser) (n : Nat) : Parser :=
  p.at (p.lexer_.tokens.drop n)

/-- From `p` to `p'` tokens were consumed and nothing else happened. -/
def Runs (p p' : Parser) : Prop :=
  ∃ j, p' = p.skip j

/-- From `p` to `p'` tokens were consumed, then `Fail()` was called, then at most `k` more
tokens were consumed, and nothing else happened. -/
def Halts (k : Nat) (p p' : Parser) : Prop :=
  ∃ j i, i ≤ k ∧ p' = ((p.skip j).failed).skip i

/-- The state `p'` a production leaves when it is run from `p`: healthy after the
consumption of tokens, or unhealthy at most `k` tokens after its call of `Fail()`. -/
def Track (k : Nat) (p p' : Parser) : Prop :=
  (p'.ok_ = true ∧ Runs p p') ∨ (p'.ok_ = false ∧ Halts k p p')

/-- The tokens of `library a; struct S { enum E { A = true; }; };`. -/
def failure_in_nested_body : Lexer :=
  Lexer.of_line "library a; struct S \x7b enum E \x7b A = true; \x7d; \x7d;"
    [(Kind.Library, "library"), (Kind.Identifier, "a"), (Kind.Semicolon, ";"),
      (Kind.Struct, "struct"), (Kind.Identifier, "S"), (Kind.LeftCurly, "\x7b"),
      (Kind.Enum, "enum"), (Kind.Identifier, "E"), (Kind.LeftCurly, "\x7b"),
      (Kind.Identifier, "A"), (Kind.Equal, "="), (Kind.True, "true"), (Kind.Semicolon, ";"),
      (Kind.RightCurly, "\x7d"), (Kind.Semicolon, ";"), (Kind.RightCurly, "\x7d"),
      (Kind.Semicolon, ";")]

/-! ## The calculus of `wp` -/

theorem wp_of_eq {α : Type} {m : M α} {p p0 : Parser} {a : α} (h : m p = some (a, p0))
    (Q : α → Parser → Prop) : wp m Q p ↔ Q a p0 := by
  unfold wp
  rw [h]
  constructor
  · rintro ⟨b, p', h', hq⟩
    cases h'
    exact hq
  · intro hq
    exact ⟨a, p0, rfl, hq⟩

theorem wp_pure {α : Type} (a : α) (Q : α → Parser → Prop) (p : Parser) :
    wp (pure a : M α) Q p ↔ Q a p :=
  wp_of_eq rfl Q

theorem wp_bind {α β : Type} (m : M α) (f : α → M β) (Q : β → Parser → Prop) (p : Parser) :
    wp (m >>= f) Q p ↔ wp m (fun a p' => wp (f a) Q p') p := by
  simp only [wp, bind, M.bind]
  constructor
  · rintro ⟨b, p', h, hq⟩
    cases hm : m p with
    | none => simp [hm] at h
    | some r => exact ⟨r.1, r.2, rfl, b, p', by simpa [hm] using h, hq⟩
  · rintro ⟨a, p1, hm, b, p', h, hq⟩
    exact ⟨b, p', by simpa [hm] using h, hq⟩

theorem wp_mono {α : Type} {m : M α} {Q Q' : α → Parser → Prop} {p : Parser}
    (h : wp m Q p) (hq : ∀ a p', Q a p' → Q' a p') : wp m Q' p := by
  obtain ⟨a, p', hm, ha⟩ := h
  exact ⟨a, p', hm, hq a p' ha⟩

theorem wp_exhausted {α : Type} (Q : α → Parser → Prop) (p : Parser) :
    wp (exhausted : M α) Q p ↔ False := by
  simp [wp, exhausted]

theorem wp_ite {α : Type} (c : Prop) [Decidable c] (t e : M α) (Q : α → Parser → Prop)
    (p : Parser) : wp (if c then t else e) Q p ↔ if c then wp t Q p else wp e Q p := by
  split <;> rfl

theorem wp_Ok (Q : Bool → Parser → Prop) (p : Parser) : wp Ok Q p ↔ Q p.ok_ p :=
  wp_of_eq rfl Q

theorem wp_Peek (Q : Kind → Parser → Prop) (p : Parser) :
    wp Peek Q p ↔ Q p.last_token_.kind p :=
  wp_of_eq rfl Q

theorem wp_remaining (Q : Nat → Parser → Prop) (p : Parser) :
    wp remaining Q p ↔ Q p.lexer_.tokens.length p :=
  wp_of_eq rfl Q

theorem wp_Consume (Q : Token → Parser → Prop) (p : Parser) :
    wp Consume Q p ↔ Q p.last_token_ p.advance :=
  wp_of_eq rfl Q

theorem Fail_eq {α : Type} (p : Parser) : (Fail : M (Option α)) p = some (none, p.failed) := by
  unfold Fail Parser.failed diagnostic
  split <;> simp [String.append_assoc]

theorem wp_Fail {α : Type} (Q : Option α → Parser → Prop) (p : Parser) :
    wp Fail Q p ↔ Q none p.failed :=
  wp_of_eq (Fail_eq p) Q

theorem wp_ConsumeToken (kind : Kind) (Q : Token → Parser → Prop) (p : Parser) :
    wp (ConsumeToken kind) Q p ↔
      Q p.last_token_ (if p.last_token_.kind = kind then p.advance else p.advance.failed) := by
  unfold ConsumeToken
  simp only [wp_bind, wp_Consume, wp_ite, wp_Fail, wp_pure]
  split <;> simp_all

theorem wp_MaybeConsumeToken (kind : Kind) (Q : Bool → Parser → Prop) (p : Parser) :
    wp (MaybeConsumeToken kind) Q p ↔
      if p.last_token_.kind = kind then Q true p.advance else Q false p := by
  unfold MaybeConsumeToken
  simp only [wp_bind, wp_Peek, wp_ite, wp_Consume, wp_pure]

@[simp] theorem Parser.advance_ok (p : Parser) : p.advance.ok_ = p.ok_ := rfl

@[simp] theorem Parser.failed_ok (p : Parser) : p.failed.ok_ = false := by
  unfold Parser.failed
  split <;> simp_all

theorem Parser.failed_of_not_ok {p : Parser} (h : p.ok_ = false) : p.failed = p := by
  simp [Parser.failed, h]

@[simp] theorem Parser.failed_lexer (p : Parser) : p.failed.lexer_ = p.lexer_ := by
  unfold Parser.failed
  split <;> rfl

theorem wp_FailUnlessOk (Q : Unit → Parser → Prop) (p : Parser) :
    wp FailUnlessOk Q p ↔ Q () p := by
  unfold FailUnlessOk
  simp only [wp_bind, wp_Ok, wp_ite, wp_Fail, wp_pure]
  cases h : p.ok_ <;> simp [Parser.failed, h]

/-! ## How the state evolves -/

theorem Evolves.refl (p : Parser) : Evolves p p :=
  ⟨List.suffix_refl _, rfl, rfl, id, fun _ => rfl, fun h h' => by simp [h] at h'⟩

theorem Evolves.trans {p q r : Parser} (h1 : Evolves p q) (h2 : Evolves q r) : Evolves p r := by
  refine ⟨h2.suffix.trans h1.suffix, h2.eof_data.trans h1.eof_data,
    h2.eof_location.trans h1.eof_location, fun h => h1.ok_mono (h2.ok_mono h), ?_, ?_⟩
  · intro h
    cases hp : p.ok_ <;> cases hq : q.ok_ <;> cases hr : r.ok_ <;>
      simp_all [h1.same, h2.same]
    · have := h1.ok_mono; simp_all
    · have := h2.ok_mono; simp_all
  · intro hp hr
    cases hq : q.ok_
    · obtain ⟨d, hd⟩ := h1.new hp hq
      exact ⟨d, by rw [h2.same (by rw [hq, hr]), hd]⟩
    · obtain ⟨d, hd⟩ := h2.new hq hr
      exact ⟨d, by rw [hd, h1.same (by rw [hq, hp])]⟩

theorem Evolves.advance {p q : Parser} (h : Evolves p q) : Evolves p q.advance :=
  h.trans ⟨List.tail_suffix _, rfl, rfl, id, fun _ => rfl, fun h h' => by
    simp [Parser.advance, h] at h'⟩

theorem Evolves.failed {p q : Parser} (h : Evolves p q) : Evolves p q.failed := by
  refine h.trans ?_
  unfold Parser.failed
  split
  · next hq => exact ⟨List.suffix_refl _, rfl, rfl, fun _ => hq, fun h => by simp [hq] at h,
      fun _ _ => ⟨_, rfl⟩⟩
  · exact Evolves.refl q

theorem Evolves.length_le {p q : Parser} (h : Evolves p q) :
    q.lexer_.tokens.length ≤ p.lexer_.tokens.length :=
  h.suffix.length_le

theorem Parser.advance_lt {p : Parser} {k : Kind} (hk : p.last_token_.kind = k)
    (hne : k ≠ Kind.EndOfFile) : p.advance.lexer_.tokens.length < p.lexer_.tokens.length := by
  unfold Parser.last_token_ at hk
  cases ht : p.lexer_.tokens with
  | nil => simp [ht, Lexer.end_of_file] at hk; exact absurd hk.symm hne
  | cons t ts => simp [Parser.advance, ht]

/-! ## Idioms of the productions -/

/-- A step that failed leaves the postcondition of the production true of `nullptr`. -/
theorem Post_fail {α : Type} (pop : α → Bool) {p0 p1 : Parser} (h : Evolves p0 p1)
    (hok : p1.ok_ = false) : Post pop p0 none p1 :=
  ⟨h, fun _ => hok, fun x hx => by simp at hx⟩

/-- The idiom `ConsumeToken(kind); if (!Ok()) return ...; ...`. -/
theorem wp_expect_or {β : Type} {kind : Kind} {F : M β} {K : Token → M β}
    {Q : β → Parser → Prop} {p0 p : Parser} (h0 : Evolves p0 p)
    (hfail : ∀ p1, Evolves p0 p1 → p1.ok_ = false → wp F Q p1)
    (hk : p.ok_ = true → p.last_token_.kind = kind → Evolves p0 p.advance →
      wp (K p.last_token_) Q p.advance) :
    wp (ConsumeToken kind >>= fun t => Ok >>= fun ok => if (!ok) = true then F else K t)
      Q p := by
  simp only [wp_bind, wp_ConsumeToken, wp_Ok, wp_ite]
  by_cases hkind : p.last_token_.kind = kind
  · simp only [hkind, if_true, Parser.advance_ok]
    cases hok : p.ok_
    · simp only [Bool.not_false, if_true]
      exact hfail _ h0.advance (by simp [hok])
    · simpa using hk hok hkind h0.advance
  · simp only [hkind, if_false, Parser.failed_ok, Bool.not_false, if_true]
    exact hfail _ h0.advance.failed (by simp)

/-- The idiom `ConsumeToken(kind); if (!Ok()) return Fail(); ...`. -/
theorem wp_expect {β : Type} {kind : Kind} {K : Token → M (Option β)}
    {Q : Option β → Parser → Prop} {p0 p : Parser} (h0 : Evolves p0 p)
    (hfail : ∀ p1, Evolves p0 p1 → p1.ok_ = false → Q none p1)
    (hk : p.ok_ = true → p.last_token_.kind = kind → Evolves p0 p.advance →
      wp (K p.last_token_) Q p.advance) :
    wp (ConsumeToken kind >>= fun t => Ok >>= fun ok => if (!ok) = true then Fail else K t)
      Q p :=
  wp_expect_or h0 (fun p1 h1 hok => (wp_Fail _ _).2 (hfail _ h1.failed (by simp))) hk

/-- The idiom `auto x = ParseX(); if (!Ok()) return ...; ...`. -/
theorem wp_sub_or {α β : Type} {m : M (Option α)} {pop : α → Bool} {F : Option α → M β}
    {K : Option α → M β} {Q : β → Parser → Prop} {p0 p : Parser} (hs : wp m (Post pop p) p)
    (h0 : Evolves p0 p)
    (hfail : ∀ a p1, Evolves p0 p1 → p1.ok_ = false → wp (F a) Q p1)
    (hk : ∀ x p1, Evolves p0 p1 → Evolves p p1 → p1.ok_ = true → pop x = true →
      wp (K (some x)) Q p1) :
    wp (m >>= fun a => Ok >>= fun ok => if (!ok) = true then F a else K a) Q p := by
  simp only [wp_bind, wp_Ok, wp_ite]
  refine wp_mono hs ?_
  rintro a p1 ⟨h1, hn, hp⟩
  cases hok : p1.ok_
  · simp only [Bool.not_false, if_true]
    exact hfail _ _ (h0.trans h1) hok
  · cases a with
    | none => simp [hok] at hn
    | some x => simpa using hk x p1 (h0.trans h1) h1 hok (hp x rfl)

/-- The idiom `auto x = ParseX(); if (!Ok()) return Fail(); ...`. -/
theorem wp_sub {α β : Type} {m : M (Option α)} {pop : α → Bool} {K : Option α → M (Option β)}
    {Q : Option β → Parser → Prop} {p0 p : Parser} (hs : wp m (Post pop p) p)
    (h0 : Evolves p0 p)
    (hfail : ∀ p1, Evolves p0 p1 → p1.ok_ = false → Q none p1)
    (hk : ∀ x p1, Evolves p0 p1 → Evolves p p1 → p1.ok_ = true → pop x = true →
      wp (K (some x)) Q p1) :
    wp (m >>= fun a => Ok >>= fun ok => if (!ok) = true then Fail else K a) Q p :=
  wp_sub_or hs h0 (fun _ p1 h1 hok => (wp_Fail _ _).2 (hfail _ h1.failed (by simp))) hk

/-- The idiom `if (MaybeConsumeToken(kind)) { if (!Ok()) return Fail(); ... } ...` in a
healthy state. -/
theorem wp_maybe {β : Type} {kind : Kind} {A B : M (Option β)}
    {Q : Option β → Parser → Prop} {p0 p : Parser} (h0 : Evolves p0 p) (hok : p.ok_ = true)
    (ha : p.last_token_.kind = kind → Evolves p0 p.advance → wp A Q p.advance)
    (hb : p.last_token_.kind ≠ kind → wp B Q p) :
    wp (MaybeConsumeToken kind >>= fun b => if b = true then
      Ok >>= fun ok => if (!ok) = true then Fail else A else B) Q p := by
  simp only [wp_bind, wp_MaybeConsumeToken]
  split
  · next hk =>
    simp only [if_true, wp_bind, wp_Ok, Parser.advance_ok, hok, Bool.not_true]
    simpa using ha hk h0.advance
  · next hk => simpa using hb hk

/-- The idiom `if (MaybeConsumeToken(kind)) ... else ...` without a check. -/
theorem wp_maybe_plain {β : Type} {kind : Kind} {A B : M (Option β)}
    {Q : Option β → Parser → Prop} {p0 p : Parser} (h0 : Evolves p0 p)
    (ha : p.last_token_.kind = kind → Evolves p0 p.advance → wp A Q p.advance)
    (hb : p.last_token_.kind ≠ kind → wp B Q p) :
    wp (MaybeConsumeToken kind >>= fun b => if b = true then A else B) Q p := by
  simp only [wp_bind, wp_MaybeConsumeToken]
  split
  · next hk => simpa using ha hk h0.advance
  · next hk => simpa using hb hk

/-- The idiom of the braced bodies: `list.emplace_back(ParseX()); if (!Ok()) Fail();
ConsumeToken(Semicolon); if (!Ok()) return Fail(); ...`. -/
theorem wp_member {α β : Type} {m : M (Option α)} {pop : α → Bool}
    {K : Option α → M (Option β)} {Q : Option β → Parser → Prop} {p0 p : Parser}
    (hs : wp m (Post pop p) p) (h0 : Evolves p0 p)
    (hfail : ∀ p1, Evolves p0 p1 → p1.ok_ = false → Q none p1)
    (hk : ∀ x p1, Evolves p0 p1 → p1.ok_ = true → pop x = true →
      p1.lexer_.tokens.length < p.lexer_.tokens.length → wp (K (some x)) Q p1) :
    wp (m >>= fun a => FailUnlessOk >>= fun _ => ConsumeToken Kind.Semicolon >>= fun _ =>
      Ok >>= fun ok => if (!ok) = true then Fail else K a) Q p := by
  rw [wp_bind]
  refine wp_mono hs ?_
  rintro a p1 ⟨h1, hn, hp⟩
  rw [wp_bind, wp_FailUnlessOk]
  refine wp_expect (h0.trans h1) hfail ?_
  intro hok hkind h01
  cases a with
  | none => simp [hok] at hn
  | some x =>
    exact hk x _ h01 hok (hp x rfl) (by
      have := Parser.advance_lt hkind (by decide)
      have := h1.length_le
      omega)

/-! ## What each production guarantees -/

theorem ParseIdentifier_spec (p : Parser) :
    wp ParseIdentifier (Post (fun _ => true) p) p := by
  unfold ParseIdentifier
  refine wp_expect (Evolves.refl p) (fun _ => Post_fail _) ?_
  intro _ _ h
  exact (wp_pure _ _ _).2 ⟨h, by simp, by simp⟩

theorem ParseCompoundIdentifier_loop_spec {p0 : Parser} (n : Nat) :
    ∀ (p : Parser) (components : List (Option Identifier)), Evolves p0 p →
      p.lexer_.tokens.length < n → components.all Option.isSome = true →
      wp (ParseCompoundIdentifier.loop n components)
        (Post CompoundIdentifier.populated p0) p := by
  induction n with
  | zero => intro p c _ hn; simp at hn
  | succ n ih =>
    intro p components h hn hc
    unfold ParseCompoundIdentifier.loop
    simp only [wp_bind, wp_Peek]
    split
    · next hk =>
      have hlt := Parser.advance_lt hk (by decide)
      simp only [wp_bind, wp_ConsumeToken, hk, if_true, wp_Ok, wp_ite, Parser.advance_ok]
      split
      · refine wp_mono (ParseIdentifier_spec _) ?_
        rintro a p1 ⟨h1, hn1, -⟩
        have h01 := h.advance.trans h1
        simp only [wp_pure, wp_Fail]
        split
        · exact Post_fail _ h01.failed (by simp)
        · refine ih _ _ h01 (by have := h1.length_le; omega) ?_
          cases a <;> simp_all
      · simp only [wp_pure, wp_Fail]
        split
        · exact Post_fail _ h.advance.failed (by simp)
        · simp_all
    · simp only [wp_pure]
      exact ⟨h, by simp, by simpa [CompoundIdentifier.populated] using hc⟩

theorem ParseCompoundIdentifier_spec (p : Parser) :
    wp ParseCompoundIdentifier (Post CompoundIdentifier.populated p) p := by
  unfold ParseCompoundIdentifier
  refine wp_sub (ParseIdentifier_spec p) (Evolves.refl p) (fun _ => Post_fail _) ?_
  intro x p1 h01 _ _ _
  simp only [wp_bind, wp_remaining]
  exact ParseCompoundIdentifier_loop_spec _ _ _ h01 (by omega) (by simp)

theorem ParseStringLiteral_spec (p : Parser) :
    wp ParseStringLiteral (Post (fun _ => true) p) p := by
  unfold ParseStringLiteral
  refine wp_expect (Evolves.refl p) (fun _ => Post_fail _) ?_
  intro _ _ h
  exact (wp_pure _ _ _).2 ⟨h, by simp, by simp⟩

theorem ParseNumericLiteral_spec (p : Parser) :
    wp ParseNumericLiteral (Post (fun _ => true) p) p := by
  unfold ParseNumericLiteral
  refine wp_expect (Evolves.refl p) (fun _ => Post_fail _) ?_
  intro _ _ h
  exact (wp_pure _ _ _).2 ⟨h, by simp, by simp⟩

theorem ParseTrueLiteral_spec (p : Parser) :
    wp ParseTrueLiteral (Post (fun _ => true) p) p := by
  unfold ParseTrueLiteral
  refine wp_expect (Evolves.refl p) (fun _ => Post_fail _) ?_
  intro _ _ h
  exact (wp_pure _ _ _).2 ⟨h, by simp, by simp⟩

theorem ParseFalseLiteral_spec (p : Parser) :
    wp ParseFalseLiteral (Post (fun _ => true) p) p := by
  unfold ParseFalseLiteral
  refine wp_expect (Evolves.refl p) (fun _ => Post_fail _) ?_
  intro _ _ h
  exact (wp_pure _ _ _).2 ⟨h, by simp, by simp⟩

theorem ParseDefaultLiteral_spec (p : Parser) :
    wp ParseDefaultLiteral (Post (fun _ => true) p) p := by
  unfold ParseDefaultLiteral
  refine wp_expect (Evolves.refl p) (fun _ => Post_fail _) ?_
  intro _ _ h
  exact (wp_pure _ _ _).2 ⟨h, by simp, by simp⟩

theorem ParseLiteral_spec (p : Parser) :
    wp ParseLiteral (Post (fun _ => true) p) p := by
  unfold ParseLiteral
  simp only [wp_bind, wp_Peek]
  split
  · exact ParseStringLiteral_spec p
  · rw [wp_bind]
    refine wp_mono (ParseNumericLiteral_spec p) ?_
    rintro a p1 ⟨h1, hn, -⟩
    refine (wp_pure _ _ _).2 ⟨h1, ?_, by simp⟩
    cases a <;> simp_all
  · exact ParseTrueLiteral_spec p
  · exact ParseFalseLiteral_spec p
  · exact ParseDefaultLiteral_spec p
  · exact (wp_Fail _ _).2 (Post_fail _ (Evolves.refl p).failed (by simp))

theorem ParseConstant_spec (p : Parser) :
    wp ParseConstant (Post Constant.populated p) p := by
  unfold ParseConstant
  simp only [wp_bind, wp_Peek]
  split
  · refine wp_sub (ParseCompoundIdentifier_spec p) (Evolves.refl p) (fun _ => Post_fail _) ?_
    intro x p1 h01 _ _ hx
    exact (wp_pure _ _ _).2 ⟨h01, by simp, by simp [Constant.populated, present, hx]⟩
  · simp only [wp_ite]
    split
    · refine wp_sub (ParseLiteral_spec p) (Evolves.refl p) (fun _ => Post_fail _) ?_
      intro x p1 h01 _ _ hx
      exact (wp_pure _ _ _).2 ⟨h01, by simp, by simp [Constant.populated]⟩
    · exact (wp_Fail _ _).2 (Post_fail _ (Evolves.refl p).failed (by simp))

theorem ParseUsing_spec (p : Parser) : wp ParseUsing (Post Using.populated p) p := by
  unfold ParseUsing
  refine wp_expect (Evolves.refl p) (fun _ => Post_fail _) ?_
  intro _ _ h
  refine wp_sub (ParseCompoundIdentifier_spec _) h (fun _ => Post_fail _) ?_
  intro x p1 h1 _ hok hx
  refine wp_maybe h1 hok ?_ ?_
  · intro _ h2
    refine wp_sub (ParseIdentifier_spec _) h2 (fun _ => Post_fail _) ?_
    intro y p2 h3 _ _ _
    exact (wp_pure _ _ _).2 ⟨h3, by simp, by simp [Using.populated, present, hx]⟩
  · intro _
    exact (wp_pure _ _ _).2 ⟨h1, by simp, by simp [Using.populated, present, hx]⟩

theorem ParseStringType_finish_spec {p0 p : Parser} (h : Evolves p0 p)
    (c : Option Constant) (hc : optional Constant.populated c = true) :
    wp (ParseStringType.finish c) (Post Type_.populated p0) p := by
  unfold ParseStringType.finish
  refine wp_maybe_plain h ?_ ?_
  · intro _ h1
    exact (wp_pure _ _ _).2 ⟨h1, by simp, by simp [Type_.populated, hc]⟩
  · intro _
    exact (wp_pure _ _ _).2 ⟨h, by simp, by simp [Type_.populated, hc]⟩

theorem ParseStringType_spec (p : Parser) :
    wp ParseStringType (Post Type_.populated p) p := by
  unfold ParseStringType
  refine wp_expect (Evolves.refl p) (fun _ => Post_fail _) ?_
  intro hok _ h
  refine wp_maybe h hok ?_ ?_
  · intro _ h2
    refine wp_sub (ParseConstant_spec _) h2 (fun _ => Post_fail _) ?_
    intro y p2 h3 _ _ hy
    exact ParseStringType_finish_spec h3 _ (by simp [optional, hy])
  · intro _
    exact ParseStringType_finish_spec h _ (by simp [optional])

theorem ParseHandleType_finish_spec {p0 p : Parser} (h : Evolves p0 p) (s : HandleSubtype) :
    wp (ParseHandleType.finish s) (Post Type_.populated p0) p := by
  unfold ParseHandleType.finish
  refine wp_maybe_plain h ?_ ?_
  · intro _ h1
    exact (wp_pure _ _ _).2 ⟨h1, by simp, by simp [Type_.populated]⟩
  · intro _
    exact (wp_pure _ _ _).2 ⟨h, by simp, by simp [Type_.populated]⟩

theorem ParseHandleType_spec (p : Parser) :
    wp ParseHandleType (Post Type_.populated p) p := by
  unfold ParseHandleType
  refine wp_expect (Evolves.refl p) (fun _ => Post_fail _) ?_
  intro hok _ h
  refine wp_maybe h hok ?_ ?_
  · intro _ h2
    simp only [wp_bind, wp_Peek]
    split
    · exact (wp_Fail _ _).2 (Post_fail _ h2.failed (by simp))
    · simp only [wp_bind, wp_Consume, wp_Ok, Parser.advance_ok, hok, Bool.not_true]
      simp only [Bool.false_eq_true, if_false]
      refine wp_expect h2.advance (fun _ => Post_fail _) ?_
      intro _ _ h3
      exact ParseHandleType_finish_spec h3 _
  · intro _
    exact ParseHandleType_finish_spec h _

theorem ParsePrimitiveType_spec (p : Parser) :
    wp ParsePrimitiveType (Post (fun _ => true) p) p := by
  unfold ParsePrimitiveType
  simp only [wp_bind, wp_Peek]
  split
  · exact (wp_Fail _ _).2 (Post_fail _ (Evolves.refl p).failed (by simp))
  · rw [wp_bind, wp_Peek]
    refine wp_expect (Evolves.refl p) (fun _ => Post_fail _) ?_
    intro _ _ h
    exact (wp_pure _ _ _).2 ⟨h, by simp, by simp⟩

theorem ParseRequestType_spec (p : Parser) :
    wp ParseRequestType (Post Type_.populated p) p := by
  unfold ParseRequestType
  refine wp_expect (Evolves.refl p) (fun _ => Post_fail _) ?_
  intro _ _ h
  refine wp_expect h (fun _ => Post_fail _) ?_
  intro _ _ h1
  refine wp_sub (ParseCompoundIdentifier_spec _) h1 (fun _ => Post_fail _) ?_
  intro x p1 h2 _ _ hx
  refine wp_expect h2 (fun _ => Post_fail _) ?_
  intro _ _ h3
  refine wp_maybe_plain h3 ?_ ?_
  · intro _ h4
    exact (wp_pure _ _ _).2 ⟨h4, by simp, by simp [Type_.populated, present, hx]⟩
  · intro _
    exact (wp_pure _ _ _).2 ⟨h3, by simp, by simp [Type_.populated, present, hx]⟩

theorem ParseArrayType_spec (rec : M (Option Type_)) (p : Parser)
    (hrec : ∀ q, q.lexer_.tokens.length < p.lexer_.tokens.length →
      wp rec (Post Type_.populated q) q) :
    wp (ParseArrayType rec) (Post Type_.populated p) p := by
  unfold ParseArrayType
  refine wp_expect (Evolves.refl p) (fun _ => Post_fail _) ?_
  intro _ hk h
  have hlt := Parser.advance_lt hk (by decide)
  refine wp_expect h (fun _ => Post_fail _) ?_
  intro _ _ h1
  refine wp_sub (hrec _ (by have := (Evolves.refl p.advance).advance.length_le; omega)) h1
    (fun _ => Post_fail _) ?_
  intro x p1 h2 _ _ hx
  refine wp_expect h2 (fun _ => Post_fail _) ?_
  intro _ _ h3
  refine wp_expect h3 (fun _ => Post_fail _) ?_
  intro _ _ h4
  refine wp_sub (ParseConstant_spec _) h4 (fun _ => Post_fail _) ?_
  intro y p2 h5 _ _ hy
  exact (wp_pure _ _ _).2 ⟨h5, by simp, by simp [Type_.populated, present, hx, hy]⟩

theorem ParseVectorType_finish_spec {p0 p : Parser} (h : Evolves p0 p) (e : Type_)
    (he : e.populated = true) (c : Option Constant)
    (hc : optional Constant.populated c = true) :
    wp (ParseVectorType.finish (some e) c) (Post Type_.populated p0) p := by
  unfold ParseVectorType.finish
  refine wp_maybe_plain h ?_ ?_
  · intro _ h1
    exact (wp_pure _ _ _).2 ⟨h1, by simp, by simp [Type_.populated, hc, he]⟩
  · intro _
    exact (wp_pure _ _ _).2 ⟨h, by simp, by simp [Type_.populated, hc, he]⟩

theorem ParseVectorType_spec (rec : M (Option Type_)) (p : Parser)
    (hrec : ∀ q, q.lexer_.tokens.length < p.lexer_.tokens.length →
      wp rec (Post Type_.populated q) q) :
    wp (ParseVectorType rec) (Post Type_.populated p) p := by
  unfold ParseVectorType
  refine wp_expect (Evolves.refl p) (fun _ => Post_fail _) ?_
  intro _ hk h
  have hlt := Parser.advance_lt hk (by decide)
  refine wp_expect h (fun _ => Post_fail _) ?_
  intro _ _ h1
  refine wp_sub (hrec _ (by have := (Evolves.refl p.advance).advance.length_le; omega)) h1
    (fun _ => Post_fail _) ?_
  intro x p1 h2 _ _ hx
  refine wp_expect h2 (fun _ => Post_fail _) ?_
  intro hok _ h3
  refine wp_maybe h3 hok ?_ ?_
  · intro _ h4
    refine wp_sub (ParseConstant_spec _) h4 (fun _ => Post_fail _) ?_
    intro y p2 h5 _ _ hy
    exact ParseVectorType_finish_spec h5 x hx _ (by simp [optional, hy])
  · intro _
    exact ParseVectorType_finish_spec h3 x hx _ (by simp [optional])

theorem ParseType_go_spec (n : Nat) :
    ∀ p : Parser, p.lexer_.tokens.length < n →
      wp (ParseType.go n) (Post Type_.populated p) p := by
  induction n with
  | zero => intro p hn; simp at hn
  | succ n ih =>
    intro p hn
    unfold ParseType.go
    simp only [wp_bind, wp_Peek]
    split
    · refine wp_sub (ParseCompoundIdentifier_spec _) (Evolves.refl p) (fun _ => Post_fail _) ?_
      intro x p1 h1 _ hok hx
      refine wp_maybe h1 hok ?_ ?_
      · intro _ h2
        exact (wp_pure _ _ _).2 ⟨h2, by simp, by simp [Type_.populated, present, hx]⟩
      · intro _
        exact (wp_pure _ _ _).2 ⟨h1, by simp, by simp [Type_.populated, present, hx]⟩
    · refine wp_sub (ParseArrayType_spec _ p (fun q hq => ih q (by omega))) (Evolves.refl p)
        (fun _ => Post_fail _) ?_
      intro x p1 h1 _ _ hx
      exact (wp_pure _ _ _).2 ⟨h1, by simp, by simp [hx]⟩
    · refine wp_sub (ParseVectorType_spec _ p (fun q hq => ih q (by omega))) (Evolves.refl p)
        (fun _ => Post_fail _) ?_
      intro x p1 h1 _ _ hx
      exact (wp_pure _ _ _).2 ⟨h1, by simp, by simp [hx]⟩
    · refine wp_sub (ParseStringType_spec p) (Evolves.refl p) (fun _ => Post_fail _) ?_
      intro x p1 h1 _ _ hx
      exact (wp_pure _ _ _).2 ⟨h1, by simp, by simp [hx]⟩
    · refine wp_sub (ParseHandleType_spec p) (Evolves.refl p) (fun _ => Post_fail _) ?_
      intro x p1 h1 _ _ hx
      exact (wp_pure _ _ _).2 ⟨h1, by simp, by simp [hx]⟩
    · refine wp_sub (ParseRequestType_spec p) (Evolves.refl p) (fun _ => Post_fail _) ?_
      intro x p1 h1 _ _ hx
      exact (wp_pure _ _ _).2 ⟨h1, by simp, by simp [hx]⟩
    · simp only [wp_ite]
      split
      · refine wp_sub (ParsePrimitiveType_spec p) (Evolves.refl p) (fun _ => Post_fail _) ?_
        intro x p1 h1 _ _ hx
        exact (wp_pure _ _ _).2 ⟨h1, by simp, by simp [Type_.populated]⟩
      · exact (wp_Fail _ _).2 (Post_fail _ (Evolves.refl p).failed (by simp))

theorem ParseType_spec (p : Parser) : wp ParseType (Post Type_.populated p) p := by
  unfold ParseType
  simp only [wp_bind, wp_remaining]
  exact ParseType_go_spec _ p (by omega)

theorem ParseConstDeclaration_spec (p : Parser) :
    wp ParseConstDeclaration (Post ConstDeclaration.populated p) p := by
  unfold ParseConstDeclaration
  refine wp_expect (Evolves.refl p) (fun _ => Post_fail _) ?_
  intro _ _ h
  refine wp_sub (ParseType_spec _) h (fun _ => Post_fail _) ?_
  intro x p1 h1 _ _ hx
  refine wp_sub (ParseIdentifier_spec _) h1 (fun _ => Post_fail _) ?_
  intro y p2 h2 _ _ _
  refine wp_expect h2 (fun _ => Post_fail _) ?_
  intro _ _ h3
  refine wp_sub (ParseConstant_spec _) h3 (fun _ => Post_fail _) ?_
  intro z p3 h4 _ _ hz
  exact (wp_pure _ _ _).2 ⟨h4, by simp, by simp [ConstDeclaration.populated, present, hx, hz]⟩

theorem ParseEnumMember_spec (p : Parser) :
    wp ParseEnumMember (Post EnumMember.populated p) p := by
  unfold ParseEnumMember
  refine wp_sub (ParseIdentifier_spec _) (Evolves.refl p) (fun _ => Post_fail _) ?_
  intro x p1 h1 _ hok _
  refine wp_maybe h1 hok ?_ ?_
  · intro _ h2
    simp only [wp_bind, wp_Peek]
    split
    · refine wp_sub (ParseCompoundIdentifier_spec _) h2 (fun _ => Post_fail _) ?_
      intro y p2 h3 _ _ hy
      exact (wp_pure _ _ _).2 ⟨h3, by simp, by
        simp [EnumMember.populated, optional, EnumMemberValue.populated, present, hy]⟩
    · refine wp_sub (ParseNumericLiteral_spec _) h2 (fun _ => Post_fail _) ?_
      intro y p2 h3 _ _ hy
      exact (wp_pure _ _ _).2 ⟨h3, by simp, by
        simp [EnumMember.populated, optional, EnumMemberValue.populated]⟩
    · exact (wp_Fail _ _).2 (Post_fail _ h2.failed (by simp))
  · intro _
    exact (wp_pure _ _ _).2 ⟨h1, by simp, by simp [EnumMember.populated, optional]⟩

/-- The end of a braced body: `ConsumeToken(RightCurly); if (!Ok()) Fail(); return node;`
returns the node whatever the token was. -/
theorem wp_close {β : Type} {pop : β → Bool} {x : β} {p0 p : Parser} (h0 : Evolves p0 p)
    (hx : pop x = true) :
    wp (ConsumeToken Kind.RightCurly >>= fun _ => FailUnlessOk >>= fun _ => pure (some x))
      (Post pop p0) p := by
  simp only [wp_bind, wp_ConsumeToken, wp_FailUnlessOk, wp_pure]
  refine ⟨?_, by simp, by simpa using hx⟩
  split
  · exact h0.advance
  · exact h0.advance.failed

theorem all_append_singleton {α : Type} (f : α → Bool) (l : List α) (x : α)
    (hl : l.all f = true) (hx : f x = true) : (l ++ [x]).all f = true := by
  simp only [List.all_append, List.all_cons, List.all_nil, Bool.and_true, Bool.and_eq_true]
  exact ⟨hl, hx⟩

theorem ParseEnumDeclaration_loop_spec {p0 : Parser} (identifier : Option Identifier)
    (subtype : Option PrimitiveType) (hi : identifier.isSome = true) (n : Nat) :
    ∀ (p : Parser) (members : List (Option EnumMember)), Evolves p0 p →
      p.lexer_.tokens.length < n → members.all (present EnumMember.populated) = true →
      wp (ParseEnumDeclaration.loop identifier subtype n members)
        (Post EnumDeclaration.populated p0) p := by
  induction n with
  | zero => intro p c _ hn; simp at hn
  | succ n ih =>
    intro p members h hn hm
    unfold ParseEnumDeclaration.loop
    rw [wp_bind, wp_Peek, wp_ite]
    split
    · refine wp_member (ParseEnumMember_spec p) h (fun _ => Post_fail _) ?_
      intro x p1 h1 _ hx hlt
      exact ih _ _ h1 (by omega) (all_append_singleton _ _ _ hm (by simpa [present] using hx))
    · exact wp_close h (by simp [EnumDeclaration.populated, hi, hm])

theorem ParseEnumDeclaration_body_spec {p0 p : Parser} (h : Evolves p0 p)
    (identifier : Option Identifier) (subtype : Option PrimitiveType)
    (hi : identifier.isSome = true) :
    wp (ParseEnumDeclaration.body identifier subtype) (Post EnumDeclaration.populated p0) p := by
  unfold ParseEnumDeclaration.body
  refine wp_expect h (fun _ => Post_fail _) ?_
  intro _ _ h1
  rw [wp_bind, wp_remaining]
  exact ParseEnumDeclaration_loop_spec _ _ hi _ _ _ h1 (by omega) (by simp)

theorem ParseEnumDeclaration_spec (p : Parser) :
    wp ParseEnumDeclaration (Post EnumDeclaration.populated p) p := by
  unfold ParseEnumDeclaration
  refine wp_expect (Evolves.refl p) (fun _ => Post_fail _) ?_
  intro _ _ h
  refine wp_sub (ParseIdentifier_spec _) h (fun _ => Post_fail _) ?_
  intro x p1 h1 _ hok _
  refine wp_maybe h1 hok ?_ ?_
  · intro _ h2
    refine wp_sub (ParsePrimitiveType_spec _) h2 (fun _ => Post_fail _) ?_
    intro y p2 h3 _ _ _
    exact ParseEnumDeclaration_body_spec h3 _ _ (by simp)
  · intro _
    exact ParseEnumDeclaration_body_spec h1 _ _ (by simp)

theorem ParseParameter_spec (p : Parser) :
    wp ParseParameter (Post Parameter.populated p) p := by
  unfold ParseParameter
  refine wp_sub (ParseType_spec _) (Evolves.refl p) (fun _ => Post_fail _) ?_
  intro x p1 h1 _ _ hx
  refine wp_sub (ParseIdentifier_spec _) h1 (fun _ => Post_fail _) ?_
  intro y p2 h2 _ _ _
  exact (wp_pure _ _ _).2 ⟨h2, by simp, by simp [Parameter.populated, present, hx]⟩

theorem ParseParameterList_loop_spec {p0 : Parser} (n : Nat) :
    ∀ (p : Parser) (parameter_list : List (Option Parameter)), Evolves p0 p →
      p.lexer_.tokens.length < n → parameter_list.all (present Parameter.populated) = true →
      wp (ParseParameterList.loop n parameter_list) (Post ParameterList.populated p0) p := by
  induction n with
  | zero => intro p c _ hn; simp at hn
  | succ n ih =>
    intro p parameter_list h hn hm
    unfold ParseParameterList.loop
    rw [wp_bind, wp_Peek, wp_ite]
    split
    · next hk =>
      have hlt := Parser.advance_lt hk (by decide)
      refine wp_expect h (fun _ => Post_fail _) ?_
      intro _ _ h1
      rw [wp_bind, wp_Peek, wp_ite]
      split
      · refine wp_sub (ParseParameter_spec _) h1 (fun _ => Post_fail _) ?_
        intro x p1 h2 h3 _ hx
        exact ih _ _ h2 (by have := h3.length_le; omega)
          (all_append_singleton _ _ _ hm (by simpa [present] using hx))
      · exact (wp_Fail _ _).2 (Post_fail _ h1.failed (by simp))
    · exact (wp_pure _ _ _).2 ⟨h, by simp, by simpa [ParameterList.populated] using hm⟩

theorem ParseParameterList_spec (p : Parser) :
    wp ParseParameterList (Post ParameterList.populated p) p := by
  unfold ParseParameterList
  rw [wp_bind, wp_Peek, wp_ite]
  split
  · refine wp_sub (ParseParameter_spec _) (Evolves.refl p) (fun _ => Post_fail _) ?_
    intro x p1 h1 _ _ hx
    rw [wp_bind, wp_remaining]
    exact ParseParameterList_loop_spec _ _ _ h1 (by omega) (by simpa [present] using hx)
  · exact (wp_pure _ _ _).2 ⟨Evolves.refl p, by simp, by simp [ParameterList.populated]⟩

theorem ParseInterfaceMemberMethod_parse_params_spec (p : Parser) :
    wp ParseInterfaceMemberMethod.parse_params (fun r p' => Evolves p p' ∧
      (r.1 = false → p'.ok_ = false) ∧
      (r.1 = true → p'.ok_ = true ∧ present ParameterList.populated r.2 = true)) p := by
  unfold ParseInterfaceMemberMethod.parse_params
  refine wp_expect_or (Evolves.refl p)
    (fun p1 h1 hok => (wp_pure _ _ _).2 ⟨h1, fun _ => hok, by simp⟩) ?_
  intro _ _ h
  refine wp_sub_or (ParseParameterList_spec _) h
    (fun _ p1 h1 hok => (wp_pure _ _ _).2 ⟨h1, fun _ => hok, by simp⟩) ?_
  intro x p1 h1 _ _ hx
  refine wp_expect_or h1
    (fun p2 h2 hok => (wp_pure _ _ _).2 ⟨h2, fun _ => hok, by simp⟩) ?_
  intro hok _ h2
  exact (wp_pure _ _ _).2 ⟨h2, by simp, fun _ => ⟨by simpa using hok, by simpa [present] using hx⟩⟩

/-- The idiom `if (!parse_params(&out)) return Fail(); ...`. -/
theorem wp_params {β : Type} {K : Bool × Option ParameterList → M (Option β)}
    {Q : Option β → Parser → Prop} {p0 p : Parser} (h0 : Evolves p0 p)
    (hfail : ∀ p1, Evolves p0 p1 → p1.ok_ = false → Q none p1)
    (hk : ∀ x p1, Evolves p0 p1 → p1.ok_ = true → ParameterList.populated x = true →
      wp (K (true, some x)) Q p1) :
    wp (ParseInterfaceMemberMethod.parse_params >>= fun r =>
      if (!r.1) = true then Fail else K r) Q p := by
  rw [wp_bind]
  refine wp_mono (ParseInterfaceMemberMethod_parse_params_spec p) ?_
  rintro ⟨ok, out⟩ p1 ⟨h1, hf, ht⟩
  cases ok with
  | false =>
    simp only [Bool.not_false, if_true, wp_Fail]
    exact hfail _ (h0.trans h1).failed (by simp)
  | true =>
    obtain ⟨hok, hp⟩ := ht rfl
    cases out with
    | none => simp [present] at hp
    | some x => simpa using hk x p1 (h0.trans h1) hok (by simpa [present] using hp)

theorem ParseInterfaceMemberMethod_spec (p : Parser) :
    wp ParseInterfaceMemberMethod (Post InterfaceMemberMethod.populated p) p := by
  unfold ParseInterfaceMemberMethod
  refine wp_sub (ParseNumericLiteral_spec _) (Evolves.refl p) (fun _ => Post_fail _) ?_
  intro o p1 h1 _ _ _
  refine wp_expect h1 (fun _ => Post_fail _) ?_
  intro _ _ h2
  refine wp_maybe_plain h2 ?_ ?_
  · intro _ h3
    refine wp_sub (ParseIdentifier_spec _) h3 (fun _ => Post_fail _) ?_
    intro y p2 h4 _ _ _
    refine wp_params h4 (fun _ => Post_fail _) ?_
    intro r p3 h5 _ hr
    exact (wp_pure _ _ _).2 ⟨h5, by simp, by
      simp [InterfaceMemberMethod.populated, optional, hr]⟩
  · intro _
    refine wp_sub (ParseIdentifier_spec _) h2 (fun _ => Post_fail _) ?_
    intro y p2 h4 _ _ _
    refine wp_params h4 (fun _ => Post_fail _) ?_
    intro r p3 h5 hok hr
    refine wp_maybe h5 hok ?_ ?_
    · intro _ h6
      refine wp_params h6 (fun _ => Post_fail _) ?_
      intro r2 p4 h7 _ hr2
      exact (wp_pure _ _ _).2 ⟨h7, by simp, by
        simp [InterfaceMemberMethod.populated, optional, hr, hr2]⟩
    · intro _
      exact (wp_pure _ _ _).2 ⟨h5, by simp, by
        simp [InterfaceMemberMethod.populated, optional, hr]⟩

theorem ParseInterfaceDeclaration_loop_spec {p0 : Parser} (identifier : Option Identifier)
    (superinterfaces : List (Option CompoundIdentifier)) (hi : identifier.isSome = true)
    (hs : superinterfaces.all (present CompoundIdentifier.populated) = true) (n : Nat) :
    ∀ (p : Parser) (const_members : List (Option ConstDeclaration))
      (enum_members : List (Option EnumDeclaration))
      (method_members : List (Option InterfaceMemberMethod)), Evolves p0 p →
      p.lexer_.tokens.length < n →
      const_members.all (present ConstDeclaration.populated) = true →
      enum_members.all (present EnumDeclaration.populated) = true →
      method_members.all (present InterfaceMemberMethod.populated) = true →
      wp (ParseInterfaceDeclaration.loop identifier superinterfaces n const_members
        enum_members method_members) (Post InterfaceDeclaration.populated p0) p := by
  induction n with
  | zero => intro p _ _ _ _ hn; simp at hn
  | succ n ih =>
    intro p cs es ms h hn hc he hm
    unfold ParseInterfaceDeclaration.loop
    rw [wp_bind, wp_Peek]
    split
    · refine wp_member (ParseConstDeclaration_spec p) h (fun _ => Post_fail _) ?_
      intro x p1 h1 _ hx hlt
      exact ih _ _ _ _ h1 (by omega)
        (all_append_singleton _ _ _ hc (by simpa [present] using hx)) he hm
    · refine wp_member (ParseEnumDeclaration_spec p) h (fun _ => Post_fail _) ?_
      intro x p1 h1 _ hx hlt
      exact ih _ _ _ _ h1 (by omega) hc
        (all_append_singleton _ _ _ he (by simpa [present] using hx)) hm
    · refine wp_member (ParseInterfaceMemberMethod_spec p) h (fun _ => Post_fail _) ?_
      intro x p1 h1 _ hx hlt
      exact ih _ _ _ _ h1 (by omega) hc he
        (all_append_singleton _ _ _ hm (by simpa [present] using hx))
    · exact wp_close h (by simp [InterfaceDeclaration.populated, hi, hs, hc, he, hm])

theorem ParseInterfaceDeclaration_body_spec {p0 p : Parser} (h : Evolves p0 p)
    (identifier : Option Identifier) (superinterfaces : List (Option CompoundIdentifier))
    (hi : identifier.isSome = true)
    (hs : superinterfaces.all (present CompoundIdentifier.populated) = true) :
    wp (ParseInterfaceDeclaration.body identifier superinterfaces)
      (Post InterfaceDeclaration.populated p0) p := by
  unfold ParseInterfaceDeclaration.body
  refine wp_expect h (fun _ => Post_fail _) ?_
  intro _ _ h1
  rw [wp_bind, wp_remaining]
  exact ParseInterfaceDeclaration_loop_spec _ _ hi hs _ _ _ _ _ h1 (by omega) (by simp)
    (by simp) (by simp)

theorem ParseInterfaceDeclaration_superinterfaces_spec {p0 : Parser}
    (identifier : Option Identifier) (hi : identifier.isSome = true) (n : Nat) :
    ∀ (p : Parser) (superinterfaces : List (Option CompoundIdentifier)), Evolves p0 p →
      p.lexer_.tokens.length < n →
      superinterfaces.all (present CompoundIdentifier.populated) = true →
      wp (ParseInterfaceDeclaration.superinterfaces identifier n superinterfaces)
        (Post InterfaceDeclaration.populated p0) p := by
  induction n with
  | zero => intro p _ _ hn; simp at hn
  | succ n ih =>
    intro p ss h hn hs
    unfold ParseInterfaceDeclaration.superinterfaces
    refine wp_sub (ParseCompoundIdentifier_spec p) h (fun _ => Post_fail _) ?_
    intro x p1 h1 h2 _ hx
    have hs1 := all_append_singleton _ _ _ hs
      (show present CompoundIdentifier.populated (some x) = true by simpa [present] using hx)
    simp only [wp_bind, wp_MaybeConsumeToken]
    split
    · next hk =>
      have hlt := Parser.advance_lt hk (by decide)
      simpa using ih _ _ h1.advance (by have := h2.length_le; omega) hs1
    · simpa using ParseInterfaceDeclaration_body_spec h1 _ _ hi hs1

theorem ParseInterfaceDeclaration_spec (p : Parser) :
    wp ParseInterfaceDeclaration (Post InterfaceDeclaration.populated p) p := by
  unfold ParseInterfaceDeclaration
  refine wp_expect (Evolves.refl p) (fun _ => Post_fail _) ?_
  intro _ _ h
  refine wp_sub (ParseIdentifier_spec _) h (fun _ => Post_fail _) ?_
  intro x p1 h1 _ _ _
  refine wp_maybe_plain h1 ?_ ?_
  · intro _ h2
    rw [wp_bind, wp_remaining]
    exact ParseInterfaceDeclaration_superinterfaces_spec _ (by simp) _ _ _ h2 (by omega)
      (by simp)
  · intro _
    exact ParseInterfaceDeclaration_body_spec h1 _ _ (by simp) (by simp)

theorem ParseStructMember_spec (p : Parser) :
    wp ParseStructMember (Post StructMember.populated p) p := by
  unfold ParseStructMember
  refine wp_sub (ParseType_spec _) (Evolves.refl p) (fun _ => Post_fail _) ?_
  intro x p1 h1 _ _ hx
  refine wp_sub (ParseIdentifier_spec _) h1 (fun _ => Post_fail _) ?_
  intro y p2 h2 _ hok _
  refine wp_maybe h2 hok ?_ ?_
  · intro _ h3
    refine wp_sub (ParseConstant_spec _) h3 (fun _ => Post_fail _) ?_
    intro z p3 h4 _ _ hz
    exact (wp_pure _ _ _).2 ⟨h4, by simp, by
      simp [StructMember.populated, present, optional, hx, hz]⟩
  · intro _
    exact (wp_pure _ _ _).2 ⟨h2, by simp, by
      simp [StructMember.populated, present, optional, hx]⟩

theorem ParseStructDeclaration_loop_spec {p0 : Parser} (identifier : Option Identifier)
    (hi : identifier.isSome = true) (n : Nat) :
    ∀ (p : Parser) (const_members : List (Option ConstDeclaration))
      (enum_members : List (Option EnumDeclaration))
      (members : List (Option StructMember)), Evolves p0 p →
      p.lexer_.tokens.length < n →
      const_members.all (present ConstDeclaration.populated) = true →
      enum_members.all (present EnumDeclaration.populated) = true →
      members.all (present StructMember.populated) = true →
      wp (ParseStructDeclaration.loop identifier n const_members enum_members members)
        (Post StructDeclaration.populated p0) p := by
  induction n with
  | zero => intro p _ _ _ _ hn; simp at hn
  | succ n ih =>
    intro p cs es ms h hn hc he hm
    unfold ParseStructDeclaration.loop
    rw [wp_bind, wp_Peek]
    split
    · refine wp_member (ParseConstDeclaration_spec p) h (fun _ => Post_fail _) ?_
      intro x p1 h1 _ hx hlt
      exact ih _ _ _ _ h1 (by omega)
        (all_append_singleton _ _ _ hc (by simpa [present] using hx)) he hm
    · refine wp_member (ParseEnumDeclaration_spec p) h (fun _ => Post_fail _) ?_
      intro x p1 h1 _ hx hlt
      exact ih _ _ _ _ h1 (by omega) hc
        (all_append_singleton _ _ _ he (by simpa [present] using hx)) hm
    · rw [wp_ite]
      split
      · refine wp_member (ParseStructMember_spec p) h (fun _ => Post_fail _) ?_
        intro x p1 h1 _ hx hlt
        exact ih _ _ _ _ h1 (by omega) hc he
          (all_append_singleton _ _ _ hm (by simpa [present] using hx))
      · exact wp_close h (by simp [StructDeclaration.populated, hi, hc, he, hm])

theorem ParseStructDeclaration_spec (p : Parser) :
    wp ParseStructDeclaration (Post StructDeclaration.populated p) p := by
  unfold ParseStructDeclaration
  refine wp_expect (Evolves.refl p) (fun _ => Post_fail _) ?_
  intro _ _ h
  refine wp_sub (ParseIdentifier_spec _) h (fun _ => Post_fail _) ?_
  intro x p1 h1 _ _ _
  refine wp_expect h1 (fun _ => Post_fail _) ?_
  intro _ _ h2
  rw [wp_bind, wp_remaining]
  exact ParseStructDeclaration_loop_spec _ (by simp) _ _ _ _ _ h2 (by omega) (by simp)
    (by simp) (by simp)

theorem ParseUnionMember_spec (p : Parser) :
    wp ParseUnionMember (Post UnionMember.populated p) p := by
  unfold ParseUnionMember
  refine wp_sub (ParseType_spec _) (Evolves.refl p) (fun _ => Post_fail _) ?_
  intro x p1 h1 _ _ hx
  refine wp_sub (ParseIdentifier_spec _) h1 (fun _ => Post_fail _) ?_
  intro y p2 h2 _ _ _
  exact (wp_pure _ _ _).2 ⟨h2, by simp, by simp [UnionMember.populated, present, hx]⟩

theorem ParseUnionDeclaration_loop_spec {p0 : Parser} (identifier : Option Identifier)
    (hi : identifier.isSome = true) (n : Nat) :
    ∀ (p : Parser) (const_members : List (Option ConstDeclaration))
      (enum_members : List (Option EnumDeclaration))
      (members : List (Option UnionMember)), Evolves p0 p →
      p.lexer_.tokens.length < n →
      const_members.all (present ConstDeclaration.populated) = true →
      enum_members.all (present EnumDeclaration.populated) = true →
      members.all (present UnionMember.populated) = true →
      wp (ParseUnionDeclaration.loop identifier n const_members enum_members members)
        (Post UnionDeclaration.populated p0) p := by
  induction n with
  | zero => intro p _ _ _ _ hn; simp at hn
  | succ n ih =>
    intro p cs es ms h hn hc he hm
    unfold ParseUnionDeclaration.loop
    rw [wp_bind, wp_Peek]
    split
    · refine wp_member (ParseConstDeclaration_spec p) h (fun _ => Post_fail _) ?_
      intro x p1 h1 _ hx hlt
      exact ih _ _ _ _ h1 (by omega)
        (all_append_singleton _ _ _ hc (by simpa [present] using hx)) he hm
    · refine wp_member (ParseEnumDeclaration_spec p) h (fun _ => Post_fail _) ?_
      intro x p1 h1 _ hx hlt
      exact ih _ _ _ _ h1 (by omega) hc
        (all_append_singleton _ _ _ he (by simpa [present] using hx)) hm
    · rw [wp_ite]
      split
      · refine wp_member (ParseUnionMember_spec p) h (fun _ => Post_fail _) ?_
        intro x p1 h1 _ hx hlt
        exact ih _ _ _ _ h1 (by omega) hc he
          (all_append_singleton _ _ _ hm (by simpa [present] using hx))
      · exact wp_close h (by simp [UnionDeclaration.populated, hi, hc, he, hm])

theorem ParseUnionDeclaration_spec (p : Parser) :
    wp ParseUnionDeclaration (Post UnionDeclaration.populated p) p := by
  unfold ParseUnionDeclaration
  refine wp_expect (Evolves.refl p) (fun _ => Post_fail _) ?_
  intro _ _ h
  refine wp_sub (ParseIdentifier_spec _) h (fun _ => Post_fail _) ?_
  intro x p1 h1 _ _ _
  refine wp_expect h1 (fun _ => Post_fail _) ?_
  intro _ _ h2
  rw [wp_bind, wp_remaining]
  exact ParseUnionDeclaration_loop_spec _ (by simp) _ _ _ _ _ h2 (by omega) (by simp)
    (by simp) (by simp)

theorem PostFile_fail {p0 p1 : Parser} (h : Evolves p0 p1) (hok : p1.ok_ = false) :
    PostFile p0 none p1 :=
  ⟨Post_fail _ h hok, by simp⟩

/-- The idiom of the top-level lists: `list.emplace_back(ParseX()); if (!Ok()) return Fail();
ConsumeToken(Semicolon); if (!Ok()) return Fail(); ...`. -/
theorem wp_declaration {α β : Type} {m : M (Option α)} {pop : α → Bool}
    {K : Option α → M (Option β)} {Q : Option β → Parser → Prop} {p0 p : Parser}
    (hs : wp m (Post pop p) p) (h0 : Evolves p0 p)
    (hfail : ∀ p1, Evolves p0 p1 → p1.ok_ = false → Q none p1)
    (hk : ∀ x p1, Evolves p0 p1 → p1.ok_ = true → pop x = true →
      p1.lexer_.tokens.length < p.lexer_.tokens.length → wp (K (some x)) Q p1) :
    wp (m >>= fun a => Ok >>= fun ok => if (!ok) = true then Fail else
      ConsumeToken Kind.Semicolon >>= fun _ =>
      Ok >>= fun ok => if (!ok) = true then Fail else K a) Q p := by
  refine wp_sub hs h0 hfail ?_
  intro x p1 h01 h1 _ hx
  refine wp_expect h01 hfail ?_
  intro hok hkind h2
  exact hk x _ h2 hok hx (by
    have := Parser.advance_lt hkind (by decide)
    have := h1.length_le
    omega)

theorem ParseFile_declarations_spec {p0 : Parser} (identifier : Option CompoundIdentifier)
    (using_list : List (Option Using))
    (hi : present CompoundIdentifier.populated identifier = true)
    (hu : using_list.all (present Using.populated) = true) (n : Nat) :
    ∀ (p : Parser) (cs : List (Option ConstDeclaration)) (es : List (Option EnumDeclaration))
      (is : List (Option InterfaceDeclaration)) (ss : List (Option StructDeclaration))
      (us : List (Option UnionDeclaration)), Evolves p0 p →
      p.lexer_.tokens.length < n →
      cs.all (present ConstDeclaration.populated) = true →
      es.all (present EnumDeclaration.populated) = true →
      is.all (present InterfaceDeclaration.populated) = true →
      ss.all (present StructDeclaration.populated) = true →
      us.all (present UnionDeclaration.populated) = true →
      wp (ParseFile.declarations identifier using_list n cs es is ss us) (PostFile p0) p := by
  induction n with
  | zero => intro p _ _ _ _ _ _ hn; simp at hn
  | succ n ih =>
    intro p cs es is ss us h hn hc he hi' hs hu'
    unfold ParseFile.declarations
    rw [wp_bind, wp_Peek]
    split
    · refine wp_declaration (ParseConstDeclaration_spec p) h (fun _ => PostFile_fail) ?_
      intro x p1 h1 _ hx hlt
      exact ih _ _ _ _ _ _ h1 (by omega)
        (all_append_singleton _ _ _ hc (by simpa [present] using hx)) he hi' hs hu'
    · refine wp_declaration (ParseEnumDeclaration_spec p) h (fun _ => PostFile_fail) ?_
      intro x p1 h1 _ hx hlt
      exact ih _ _ _ _ _ _ h1 (by omega) hc
        (all_append_singleton _ _ _ he (by simpa [present] using hx)) hi' hs hu'
    · refine wp_declaration (ParseInterfaceDeclaration_spec p) h (fun _ => PostFile_fail) ?_
      intro x p1 h1 _ hx hlt
      exact ih _ _ _ _ _ _ h1 (by omega) hc he
        (all_append_singleton _ _ _ hi' (by simpa [present] using hx)) hs hu'
    · refine wp_declaration (ParseStructDeclaration_spec p) h (fun _ => PostFile_fail) ?_
      intro x p1 h1 _ hx hlt
      exact ih _ _ _ _ _ _ h1 (by omega) hc he hi'
        (all_append_singleton _ _ _ hs (by simpa [present] using hx)) hu'
    · refine wp_declaration (ParseUnionDeclaration_spec p) h (fun _ => PostFile_fail) ?_
      intro x p1 h1 _ hx hlt
      exact ih _ _ _ _ _ _ h1 (by omega) hc he hi' hs
        (all_append_singleton _ _ _ hu' (by simpa [present] using hx))
    · refine wp_expect h (fun _ => PostFile_fail) ?_
      intro hok _ h1
      exact (wp_pure _ _ _).2 ⟨⟨h1, by simp, fun f hf => by
        cases hf
        simp only [File.populated, hi, hu, hc, he, hi', hs, hu', Bool.and_self]⟩,
        fun _ => by simpa using hok⟩

theorem ParseFile_usings_spec {p0 : Parser} (identifier : Option CompoundIdentifier)
    (hi : present CompoundIdentifier.populated identifier = true) (n : Nat) :
    ∀ (p : Parser) (using_list : List (Option Using)), Evolves p0 p →
      p.lexer_.tokens.length < n → using_list.all (present Using.populated) = true →
      wp (ParseFile.usings identifier n using_list) (PostFile p0) p := by
  induction n with
  | zero => intro p _ _ hn; simp at hn
  | succ n ih =>
    intro p us h hn hu
    unfold ParseFile.usings
    rw [wp_bind, wp_Peek]
    split
    · refine wp_declaration (ParseUsing_spec p) h (fun _ => PostFile_fail) ?_
      intro x p1 h1 _ hx hlt
      exact ih _ _ h1 (by omega)
        (all_append_singleton _ _ _ hu (by simpa [present] using hx))
    · rw [wp_bind, wp_remaining]
      exact ParseFile_declarations_spec _ _ hi hu _ _ _ _ _ _ _ h (by omega) (by simp)
        (by simp) (by simp) (by simp) (by simp)

theorem ParseFile_spec (p : Parser) : wp ParseFile (PostFile p) p := by
  unfold ParseFile
  refine wp_expect (Evolves.refl p) (fun _ => PostFile_fail) ?_
  intro _ _ h
  refine wp_sub (ParseCompoundIdentifier_spec _) h (fun _ => PostFile_fail) ?_
  intro x p1 h1 _ _ hx
  refine wp_expect h1 (fun _ => PostFile_fail) ?_
  intro _ _ h2
  rw [wp_bind, wp_remaining]
  exact ParseFile_usings_spec _ (by simpa [present] using hx) _ _ _ h2 (by omega) (by simp)

/-! ## Every production at once -/

theorem upcast_spec {α : Type} {f : α → Node} {m : M (Option α)} {pop : α → Bool} {p : Parser}
    (hs : wp m (Post pop p) p) (hf : ∀ x, pop x = true → (f x).populated = true) :
    wp (upcast f m) (Post Node.populated p) p := by
  unfold upcast
  rw [wp_bind]
  refine wp_mono hs ?_
  rintro a p1 ⟨h1, hn, hp⟩
  refine (wp_pure _ _ _).2 ⟨h1, ?_, ?_⟩
  · cases a <;> simp_all
  · cases a with
    | none => simp
    | some x =>
      intro y hy
      simp only [Option.map_some', Option.some.injEq] at hy
      subst hy
      exact hf x (hp x rfl)

theorem Production_spec (prod : Production) (p : Parser) :
    wp prod.run (Post Node.populated p) p := by
  cases prod
  case ParseIdentifier => exact upcast_spec (ParseIdentifier_spec p) (fun _ _ => rfl)
  case ParseCompoundIdentifier =>
    exact upcast_spec (ParseCompoundIdentifier_spec p) (fun _ h => h)
  case ParseStringLiteral => exact upcast_spec (ParseStringLiteral_spec p) (fun _ _ => rfl)
  case ParseNumericLiteral => exact upcast_spec (ParseNumericLiteral_spec p) (fun _ _ => rfl)
  case ParseTrueLiteral => exact upcast_spec (ParseTrueLiteral_spec p) (fun _ _ => rfl)
  case ParseFalseLiteral => exact upcast_spec (ParseFalseLiteral_spec p) (fun _ _ => rfl)
  case ParseDefaultLiteral => exact upcast_spec (ParseDefaultLiteral_spec p) (fun _ _ => rfl)
  case ParseLiteral => exact upcast_spec (ParseLiteral_spec p) (fun _ _ => rfl)
  case ParseConstant => exact upcast_spec (ParseConstant_spec p) (fun _ h => h)
  case ParseUsing => exact upcast_spec (ParseUsing_spec p) (fun _ h => h)
  case ParseArrayType =>
    exact upcast_spec (ParseArrayType_spec _ p (fun q _ => ParseType_spec q)) (fun _ h => h)
  case ParseVectorType =>
    exact upcast_spec (ParseVectorType_spec _ p (fun q _ => ParseType_spec q)) (fun _ h => h)
  case ParseStringType => exact upcast_spec (ParseStringType_spec p) (fun _ h => h)
  case ParseHandleType => exact upcast_spec (ParseHandleType_spec p) (fun _ h => h)
  case ParsePrimitiveType => exact upcast_spec (ParsePrimitiveType_spec p) (fun _ _ => rfl)
  case ParseRequestType => exact upcast_spec (ParseRequestType_spec p) (fun _ h => h)
  case ParseType => exact upcast_spec (ParseType_spec p) (fun _ h => h)
  case ParseConstDeclaration => exact upcast_spec (ParseConstDeclaration_spec p) (fun _ h => h)
  case ParseEnumMember => exact upcast_spec (ParseEnumMember_spec p) (fun _ h => h)
  case ParseEnumDeclaration => exact upcast_spec (ParseEnumDeclaration_spec p) (fun _ h => h)
  case ParseParameter => exact upcast_spec (ParseParameter_spec p) (fun _ h => h)
  case ParseParameterList => exact upcast_spec (ParseParameterList_spec p) (fun _ h => h)
  case ParseInterfaceMemberMethod =>
    exact upcast_spec (ParseInterfaceMemberMethod_spec p) (fun _ h => h)
  case ParseInterfaceDeclaration =>
    exact upcast_spec (ParseInterfaceDeclaration_spec p) (fun _ h => h)
  case ParseStructMember => exact upcast_spec (ParseStructMember_spec p) (fun _ h => h)
  case ParseStructDeclaration =>
    exact upcast_spec (ParseStructDeclaration_spec p) (fun _ h => h)
  case ParseUnionMember => exact upcast_spec (ParseUnionMember_spec p) (fun _ h => h)
  case ParseUnionDeclaration => exact upcast_spec (ParseUnionDeclaration_spec p) (fun _ h => h)
  case ParseFile =>
    exact upcast_spec (wp_mono (ParseFile_spec p) (fun _ _ h => h.1)) (fun _ h => h)

theorem Evolves_init {l : Lexer} {p' : Parser} (h : Evolves (Parser.init l) p') :
    (p'.ok_ = true → p'.error_reporter_ = []) ∧
      (p'.ok_ = false → ∃ d, p'.error_reporter_ = [d]) := by
  constructor
  · intro hok
    simpa [Parser.init] using h.same (by simp [hok, Parser.init])
  · intro hok
    obtain ⟨d, hd⟩ := h.new rfl hok
    exact ⟨d, by simpa [Parser.init] using hd⟩

/-! ## The claims -/

/-- C1: for every token stream, `ParseFile` on a fresh parser returns, and it returns a
`File` exactly when the sink received no diagnostic, `nullptr` exactly when the sink received
exactly one diagnostic. -/
theorem ParseFile_file_iff_no_diagnostic (l : Lexer) :
    ∃ file p', ParseFile (Parser.init l) = some (file, p') ∧
      (file.isSome = true ↔ p'.error_reporter_ = []) ∧
      (file = none ↔ ∃ d, p'.error_reporter_ = [d]) := by
  obtain ⟨file, p', hrun, ⟨hev, hnone, -⟩, hsome⟩ := ParseFile_spec (Parser.init l)
  obtain ⟨hgood, hbad⟩ := Evolves_init hev
  refine ⟨file, p', hrun, ?_, ?_⟩
  · constructor
    · exact fun h => hgood (hsome h)
    · intro h
      cases file with
      | some f => rfl
      | none =>
        obtain ⟨d, hd⟩ := hbad (hnone rfl)
        simp [h] at hd
  · constructor
    · exact fun h => hbad (hnone h)
    · rintro ⟨d, hd⟩
      cases file with
      | none => rfl
      | some f => simp [hgood (hsome rfl)] at hd

/-- C2: `Fail` always returns `nullptr`; when the parser is healthy it sends one diagnostic
to the sink and clears the healthy flag, otherwise it changes nothing.  Every production, and
each of `Consume`, `ConsumeToken` and `MaybeConsumeToken`, run from any state, returns and
leaves the healthy flag down if it was down, and the sink either as it was or, when the flag
went down, with one diagnostic more.  On a fresh parser instance every production therefore
leaves at most one diagnostic in the sink. -/
theorem at_most_one_diagnostic :
    (∀ (α : Type) (p : Parser), ∃ p', (Fail : M (Option α)) p = some (none, p') ∧
      (p.ok_ = true → p'.ok_ = false ∧ ∃ d, p'.error_reporter_ = p.error_reporter_ ++ [d]) ∧
      (p.ok_ = false → p' = p)) ∧
    (∀ (prod : Production) (p : Parser), ∃ a p', prod.run p = some (a, p') ∧
      (p.ok_ = false → p'.ok_ = false) ∧
      (p'.error_reporter_ = p.error_reporter_ ∨
        (p.ok_ = true ∧ p'.ok_ = false ∧ ∃ d, p'.error_reporter_ = p.error_reporter_ ++ [d]))) ∧
    (∀ (kind : Kind) (p : Parser),
      (∃ t p', Consume p = some (t, p') ∧ p'.ok_ = p.ok_ ∧
        p'.error_reporter_ = p.error_reporter_) ∧
      (∃ t p', ConsumeToken kind p = some (t, p') ∧ (p.ok_ = false → p'.ok_ = false) ∧
        (p'.error_reporter_ = p.error_reporter_ ∨ (p.ok_ = true ∧ p'.ok_ = false ∧
          ∃ d, p'.error_reporter_ = p.error_reporter_ ++ [d]))) ∧
      (∃ b p', MaybeConsumeToken kind p = some (b, p') ∧ p'.ok_ = p.ok_ ∧
        p'.error_reporter_ = p.error_reporter_)) ∧
    (∀ (prod : Production) (l : Lexer), ∃ a p', prod.run (Parser.init l) = some (a, p') ∧
      p'.error_reporter_.length ≤ 1) := by
  have key : ∀ {p p' : Parser}, Evolves p p' → (p.ok_ = false → p'.ok_ = false) ∧
      (p'.error_reporter_ = p.error_reporter_ ∨
        (p.ok_ = true ∧ p'.ok_ = false ∧ ∃ d, p'.error_reporter_ = p.error_reporter_ ++ [d])) := by
    intro p p' h
    constructor
    · intro hp
      cases hp' : p'.ok_
      · rfl
      · rw [h.ok_mono hp'] at hp
        cases hp
    · cases hp : p.ok_ <;> cases hp' : p'.ok_
      · exact Or.inl (h.same (by rw [hp, hp']))
      · rw [h.ok_mono hp'] at hp
        cases hp
      · exact Or.inr ⟨rfl, rfl, h.new hp hp'⟩
      · exact Or.inl (h.same (by rw [hp, hp']))
  refine ⟨?_, ?_, ?_, ?_⟩
  · intro α p
    refine ⟨p.failed, Fail_eq p, ?_, Parser.failed_of_not_ok⟩
    intro hok
    exact ⟨by simp, diagnostic p.last_token_, by simp [Parser.failed, hok]⟩
  · intro prod p
    obtain ⟨a, p', hrun, hev, -, -⟩ := Production_spec prod p
    exact ⟨a, p', hrun, key hev⟩
  · intro kind p
    refine ⟨⟨_, _, rfl, rfl, rfl⟩, ?_, ?_⟩
    · obtain ⟨t, p', hrun, hev⟩ := (wp_ConsumeToken kind (fun _ p' => Evolves p p') p).2 (by
        split
        · exact (Evolves.refl p).advance
        · exact (Evolves.refl p).advance.failed)
      exact ⟨t, p', hrun, key hev⟩
    · exact (wp_MaybeConsumeToken kind
        (fun _ p' => p'.ok_ = p.ok_ ∧ p'.error_reporter_ = p.error_reporter_) p).2 (by
        split <;> exact ⟨rfl, rfl⟩)
  · intro prod l
    obtain ⟨a, p', hrun, hev, -, -⟩ := Production_spec prod (Parser.init l)
    refine ⟨a, p', hrun, ?_⟩
    obtain ⟨hgood, hbad⟩ := Evolves_init hev
    cases hok : p'.ok_
    · obtain ⟨d, hd⟩ := hbad hok
      simp [hd]
    · simp [hgood hok]

/-- C4: in a healthy parser whose lookahead token has text `data` and a location on line
`line_number` with source line `source_line`, `Fail` appends to the sink exactly the text
"found unexpected token: " ++ data ++ "\n" ++ "on line #" ++ decimal line number ++ ":\n\n"
++ source line ++ "\n". -/
theorem Fail_diagnostic_text (α : Type) (kind : Kind) (data : String) (line_number : Nat)
    (source_line : String) (rest : List Token) (eof_data : String)
    (eof_location : SourceLocation) (reported : List String) :
    (Fail : M (Option α))
        (Parser.mk (Lexer.mk (Token.mk kind data (SourceLocation.mk line_number source_line)
          :: rest) eof_data eof_location) true reported) =
      some (none, Parser.mk (Lexer.mk (Token.mk kind data
          (SourceLocation.mk line_number source_line) :: rest) eof_data eof_location) false
        (reported ++ ["found unexpected token: " ++ data ++ "\n" ++ "on line #" ++
          toString line_number ++ ":\n\n" ++ source_line ++ "\n"])) := by
  simp only [Fail, Parser.last_token_, List.headD_cons, if_true, String.append_assoc]

/-- C6: when the token that ends the member list is not `}`, `ParseEnumDeclaration`,
`ParseInterfaceDeclaration`, `ParseStructDeclaration` and `ParseUnionDeclaration` return a
node, not `nullptr`, although the parser is unhealthy when they return. -/
theorem declaration_returned_unhealthy :
    (ParseEnumDeclaration (Parser.init (unclosed_body Kind.Enum "enum"))).map
        (fun r => (r.1.isSome, r.2.ok_)) = some (true, false) ∧
    (ParseInterfaceDeclaration (Parser.init (unclosed_body Kind.Interface "interface"))).map
        (fun r => (r.1.isSome, r.2.ok_)) = some (true, false) ∧
    (ParseStructDeclaration (Parser.init (unclosed_body Kind.Struct "struct"))).map
        (fun r => (r.1.isSome, r.2.ok_)) = some (true, false) ∧
    (ParseUnionDeclaration (Parser.init (unclosed_body Kind.Union "union"))).map
        (fun r => (r.1.isSome, r.2.ok_)) = some (true, false) := by
  refine ⟨?_, ?_, ?_, ?_⟩ <;> rfl

/-- C7: every production, run from any state on any token stream, returns, and a node it
returns is fully populated: every mandatory child is present and no element of a list is
`nullptr`, recursively through the tree. -/
theorem returned_node_populated (prod : Production) (p : Parser) :
    ∃ a p', prod.run p = some (a, p') ∧ a.all Node.populated = true := by
  obtain ⟨a, p', hrun, -, -, hpop⟩ := Production_spec prod p
  refine ⟨a, p', hrun, ?_⟩
  cases a with
  | none => rfl
  | some x => exact hpop x rfl

/-! ## The calculus of `wlp` -/

theorem wlp_of_eq {α : Type} {m : M α} {p p0 : Parser} {a : α} (h : m p = some (a, p0))
    (Q : α → Parser → Prop) : wlp m Q p ↔ Q a p0 := by
  unfold wlp
  rw [h]
  constructor
  · intro hq
    exact hq a p0 rfl
  · intro hq b p' h'
    cases h'
    exact hq

theorem wlp_of_wp {α : Type} {m : M α} {Q Q' : α → Parser → Prop} {p : Parser}
    (h : wp m Q p) (hq : ∀ a p', Q a p' → Q' a p') : wlp m Q' p := by
  obtain ⟨a, p0, hm, ha⟩ := h
  exact (wlp_of_eq hm Q').2 (hq a p0 ha)

theorem wp_and_wlp {α : Type} {m : M α} {Q Q' : α → Parser → Prop} {p : Parser}
    (h : wp m Q p) (h' : wlp m Q' p) : wp m (fun a p' => Q a p' ∧ Q' a p') p := by
  obtain ⟨a, p0, hm, ha⟩ := h
  exact ⟨a, p0, hm, ha, h' a p0 hm⟩

theorem wlp_pure {α : Type} (a : α) (Q : α → Parser → Prop) (p : Parser) :
    wlp (pure a : M α) Q p ↔ Q a p :=
  wlp_of_eq rfl Q

theorem wlp_bind {α β : Type} (m : M α) (f : α → M β) (Q : β → Parser → Prop) (p : Parser) :
    wlp (m >>= f) Q p ↔ wlp m (fun a p' => wlp (f a) Q p') p := by
  simp only [wlp, bind, M.bind]
  constructor
  · intro h a p1 hm b p' hf
    exact h b p' (by simpa [hm] using hf)
  · intro h b p' hb
    cases hm : m p with
    | none => simp [hm] at hb
    | some r =>
      obtain ⟨a, p1⟩ := r
      exact h a p1 hm b p' (by simpa [hm] using hb)

theorem wlp_mono {α : Type} {m : M α} {Q Q' : α → Parser → Prop} {p : Parser}
    (h : wlp m Q p) (hq : ∀ a p', Q a p' → Q' a p') : wlp m Q' p :=
  fun a p' hm => hq a p' (h a p' hm)

theorem wlp_exhausted {α : Type} (Q : α → Parser → Prop) (p : Parser) :
    wlp (exhausted : M α) Q p := by
  intro a p' h
  simp [exhausted] at h

theorem wlp_ite {α : Type} (c : Prop) [Decidable c] (t e : M α) (Q : α → Parser → Prop)
    (p : Parser) : wlp (if c then t else e) Q p ↔ if c then wlp t Q p else wlp e Q p := by
  split <;> rfl

theorem wlp_Ok (Q : Bool → Parser → Prop) (p : Parser) : wlp Ok Q p ↔ Q p.ok_ p :=
  wlp_of_eq rfl Q

theorem wlp_Peek (Q : Kind → Parser → Prop) (p : Parser) :
    wlp Peek Q p ↔ Q p.last_token_.kind p :=
  wlp_of_eq rfl Q

theorem wlp_remaining (Q : Nat → Parser → Prop) (p : Parser) :
    wlp remaining Q p ↔ Q p.lexer_.tokens.length p :=
  wlp_of_eq rfl Q

theorem wlp_Consume (Q : Token → Parser → Prop) (p : Parser) :
    wlp Consume Q p ↔ Q p.last_token_ p.advance :=
  wlp_of_eq rfl Q

theorem wlp_Fail {α : Type} (Q : Option α → Parser → Prop) (p : Parser) :
    wlp Fail Q p ↔ Q none p.failed :=
  wlp_of_eq (Fail_eq p) Q

theorem ConsumeToken_eq (kind : Kind) (p : Parser) :
    ConsumeToken kind p = some (p.last_token_,
      if p.last_token_.kind = kind then p.advance else p.advance.failed) := by
  obtain ⟨t, p', h, ht, hp⟩ := (wp_ConsumeToken kind
    (fun t p' => t = p.last_token_ ∧
      p' = if p.last_token_.kind = kind then p.advance else p.advance.failed) p).2 ⟨rfl, rfl⟩
  rw [h, ht, hp]

theorem MaybeConsumeToken_eq (kind : Kind) (p : Parser) :
    MaybeConsumeToken kind p =
      if p.last_token_.kind = kind then some (true, p.advance) else some (false, p) := by
  have h := (wp_MaybeConsumeToken kind
    (fun b p' => MaybeConsumeToken kind p = some (b, p')) p).1
  split
  · next hk =>
    cases hm : MaybeConsumeToken kind p with
    | none =>
      have := (wp_MaybeConsumeToken kind (fun _ _ => True) p).2 (by split <;> trivial)
      obtain ⟨b, p', hb, -⟩ := this
      rw [hm] at hb
      cases hb
    | some r =>
      have := h ⟨r.1, r.2, hm, hm⟩
      simpa [hk, hm] using this
  · next hk =>
    cases hm : MaybeConsumeToken kind p with
    | none =>
      have := (wp_MaybeConsumeToken kind (fun _ _ => True) p).2 (by split <;> trivial)
      obtain ⟨b, p', hb, -⟩ := this
      rw [hm] at hb
      cases hb
    | some r =>
      have := h ⟨r.1, r.2, hm, hm⟩
      simpa [hk, hm] using this

theorem wlp_ConsumeToken (kind : Kind) (Q : Token → Parser → Prop) (p : Parser) :
    wlp (ConsumeToken kind) Q p ↔
      Q p.last_token_ (if p.last_token_.kind = kind then p.advance else p.advance.failed) :=
  wlp_of_eq (ConsumeToken_eq kind p) Q

theorem wlp_MaybeConsumeToken (kind : Kind) (Q : Bool → Parser → Prop) (p : Parser) :
    wlp (MaybeConsumeToken kind) Q p ↔
      if p.last_token_.kind = kind then Q true p.advance else Q false p := by
  split
  · next hk => exact wlp_of_eq (by rw [MaybeConsumeToken_eq, if_pos hk]) Q
  · next hk => exact wlp_of_eq (by rw [MaybeConsumeToken_eq, if_neg hk]) Q

theorem wlp_FailUnlessOk (Q : Unit → Parser → Prop) (p : Parser) :
    wlp FailUnlessOk Q p ↔ Q () p := by
  obtain ⟨a, p', h, rfl⟩ := (wp_FailUnlessOk (fun _ p' => p' = p) p).2 rfl
  exact wlp_of_eq h Q

/-! ## Token lists -/

theorem last_token_kind {p : Parser} {ts : List Token} (h : p.lexer_.tokens = ts) :
    p.last_token_.kind = next ts := by
  subst h
  unfold Parser.last_token_ next
  cases p.lexer_.tokens <;> rfl

theorem tokens_of_kind {p : Parser} {ts : List Token} {k : Kind} (h : p.lexer_.tokens = ts)
    (hk : p.last_token_.kind = k) (hne : k ≠ Kind.EndOfFile) :
    ts = p.last_token_ :: p.advance.lexer_.tokens := by
  subst h
  unfold Parser.last_token_ at hk ⊢
  cases ht : p.lexer_.tokens with
  | nil => simp [ht, Lexer.end_of_file] at hk; exact absurd hk.symm hne
  | cons t ts => simp [Parser.advance, ht]

/-! ## Idioms of the productions, for `wlp` -/

/-- The idiom `ConsumeToken(kind); if (!Ok()) return ...; ...`. -/
theorem wlp_expect_or {β : Type} {kind : Kind} {F : M β} {K : Token → M β}
    {Q : β → Parser → Prop} {p : Parser} {ts : List Token}
    (hts : p.lexer_.tokens = ts) (hne : kind ≠ Kind.EndOfFile)
    (hF : ∀ p1, p1.ok_ = false → wlp F Q p1)
    (hk : p.ok_ = true → ∀ t ts' q, ts = t :: ts' → t.kind = kind → q.lexer_.tokens = ts' →
      q.ok_ = true → wlp (K t) Q q) :
    wlp (ConsumeToken kind >>= fun t => Ok >>= fun ok => if (!ok) = true then F else K t)
      Q p := by
  simp only [wlp_bind, wlp_ConsumeToken, wlp_Ok, wlp_ite]
  by_cases hkind : p.last_token_.kind = kind
  · simp only [hkind, if_true, Parser.advance_ok]
    cases hok : p.ok_
    · simp only [Bool.not_false, if_true]
      exact hF _ (by simp [hok])
    · simpa using hk hok _ _ p.advance (tokens_of_kind hts hkind hne) hkind rfl hok
  · simp only [hkind, if_false, Parser.failed_ok, Bool.not_false, if_true]
    exact hF _ (by simp)

/-- The idiom `ConsumeToken(kind); if (!Ok()) return Fail(); ...`. -/
theorem wlp_expect {β : Type} {kind : Kind} {K : Token → M (Option β)}
    {Q : Option β → Parser → Prop} {p : Parser} {ts : List Token}
    (hts : p.lexer_.tokens = ts) (hne : kind ≠ Kind.EndOfFile)
    (hQ : ∀ a p1, p1.ok_ = false → Q a p1)
    (hk : p.ok_ = true → ∀ t ts' q, ts = t :: ts' → t.kind = kind → q.lexer_.tokens = ts' →
      q.ok_ = true → wlp (K t) Q q) :
    wlp (ConsumeToken kind >>= fun t => Ok >>= fun ok => if (!ok) = true then Fail else K t)
      Q p :=
  wlp_expect_or hts hne (fun _ _ => (wlp_Fail _ _).2 (hQ _ _ (by simp))) hk

/-- The idiom `auto x = ParseX(); if (!Ok()) return ...; ...`. -/
theorem wlp_sub_or {α β : Type} {m : M (Option α)} {R : List Token → α → List Token → Prop}
    {F : Option α → M β} {K : Option α → M β} {Q : β → Parser → Prop} {p : Parser}
    {ts : List Token} (hs : wlp m (Sound R ts) p)
    (hF : ∀ a p1, p1.ok_ = false → wlp (F a) Q p1)
    (hk : ∀ x ts' q, R ts x ts' → q.lexer_.tokens = ts' → q.ok_ = true →
      wlp (K (some x)) Q q) :
    wlp (m >>= fun a => Ok >>= fun ok => if (!ok) = true then F a else K a) Q p := by
  simp only [wlp_bind, wlp_Ok, wlp_ite]
  refine wlp_mono hs ?_
  intro a p1 h1
  cases hok : p1.ok_
  · simp only [Bool.not_false, if_true]
    exact hF _ _ hok
  · obtain ⟨x, rfl, hx⟩ := h1 hok
    simpa using hk x _ p1 hx rfl hok

/-- The idiom `auto x = ParseX(); if (!Ok()) return Fail(); ...`. -/
theorem wlp_sub {α β : Type} {m : M (Option α)} {R : List Token → α → List Token → Prop}
    {K : Option α → M (Option β)} {Q : Option β → Parser → Prop} {p : Parser}
    {ts : List Token} (hs : wlp m (Sound R ts) p)
    (hQ : ∀ a p1, p1.ok_ = false → Q a p1)
    (hk : ∀ x ts' q, R ts x ts' → q.lexer_.tokens = ts' → q.ok_ = true →
      wlp (K (some x)) Q q) :
    wlp (m >>= fun a => Ok >>= fun ok => if (!ok) = true then Fail else K a) Q p :=
  wlp_sub_or hs (fun _ _ _ => (wlp_Fail _ _).2 (hQ _ _ (by simp))) hk

/-- The idiom `if (MaybeConsumeToken(kind)) { if (!Ok()) return Fail(); ... } ...`. -/
theorem wlp_maybe {β : Type} {kind : Kind} {A B : M (Option β)}
    {Q : Option β → Parser → Prop} {p : Parser} {ts : List Token}
    (hts : p.lexer_.tokens = ts) (hne : kind ≠ Kind.EndOfFile)
    (hQ : ∀ a p1, p1.ok_ = false → Q a p1)
    (ha : ∀ t ts' q, ts = t :: ts' → t.kind = kind → q.lexer_.tokens = ts' → q.ok_ = true →
      wlp A Q q)
    (hb : next ts ≠ kind → wlp B Q p) :
    wlp (MaybeConsumeToken kind >>= fun b => if b = true then
      Ok >>= fun ok => if (!ok) = true then Fail else A else B) Q p := by
  simp only [wlp_bind, wlp_MaybeConsumeToken]
  split
  · next hk =>
    simp only [if_true, wlp_bind, wlp_Ok, Parser.advance_ok, wlp_ite, wlp_Fail]
    by_cases hok : p.ok_ = true
    · simpa [hok] using ha _ _ p.advance (tokens_of_kind hts hk hne) hk rfl hok
    · simp only [Bool.not_eq_true] at hok
      simp only [hok, Bool.not_false, if_true]
      exact hQ _ _ (by simp)
  · next hk => simpa using hb (by rwa [← last_token_kind hts])

/-- The idiom `if (MaybeConsumeToken(kind)) ... else ...` without a check. -/
theorem wlp_maybe_plain {β : Type} {kind : Kind} {A B : M (Option β)}
    {Q : Option β → Parser → Prop} {p : Parser} {ts : List Token}
    (hts : p.lexer_.tokens = ts) (hne : kind ≠ Kind.EndOfFile)
    (ha : ∀ t ts' q, ts = t :: ts' → t.kind = kind → q.lexer_.tokens = ts' →
      q.ok_ = p.ok_ → wlp A Q q)
    (hb : next ts ≠ kind → wlp B Q p) :
    wlp (MaybeConsumeToken kind >>= fun b => if b = true then A else B) Q p := by
  simp only [wlp_bind, wlp_MaybeConsumeToken]
  split
  · next hk => simpa using ha _ _ p.advance (tokens_of_kind hts hk hne) hk rfl rfl
  · next hk => simpa using hb (by rwa [← last_token_kind hts])

theorem Sound_of_not_ok {α : Type} (R : List Token → α → List Token → Prop) (ts : List Token)
    (a : Option α) (p1 : Parser) (h : p1.ok_ = false) : Sound R ts a p1 := by
  intro hok
  rw [h] at hok
  cases hok

/-- A node returned by `return std::make_unique<...>(...)`. -/
theorem wlp_return {α : Type} {R : List Token → α → List Token → Prop} {ts ts' : List Token}
    {x : α} {q : Parser} (hq : q.lexer_.tokens = ts') (h : R ts x ts') :
    wlp (pure (some x)) (Sound R ts) q :=
  (wlp_pure _ _ _).2 (fun _ => ⟨x, rfl, hq ▸ h⟩)

/-! ## What a healthy parser has read -/

theorem ParseIdentifier_sound (p : Parser) (ts : List Token) (hts : p.lexer_.tokens = ts) :
    wlp ParseIdentifier (Sound Reads.Identifier ts) p := by
  unfold ParseIdentifier
  refine wlp_expect hts (by decide) (Sound_of_not_ok _ _) ?_
  rintro - t ts' q rfl hk hq -
  exact wlp_return hq (Reads.Identifier.mk hk)

theorem ParseCompoundIdentifier_loop_sound (n : Nat) :
    ∀ (p : Parser) (ts : List Token) (components : List (Option Identifier)),
      p.lexer_.tokens = ts →
      wlp (ParseCompoundIdentifier.loop n components)
        (Sound (fun ts x rest => ∃ more, x = CompoundIdentifier.mk (components ++ more) ∧
          Reads.Components ts more rest) ts) p := by
  induction n with
  | zero => intro p ts c _; exact wlp_exhausted _ _
  | succ n ih =>
    intro p ts components hts
    unfold ParseCompoundIdentifier.loop
    rw [wlp_bind, wlp_Peek]
    split
    · next hk =>
      have htoks := tokens_of_kind hts hk (by decide)
      simp only [wlp_bind, wlp_ConsumeToken, hk, if_true, wlp_Ok, wlp_ite, Parser.advance_ok]
      split
      · obtain ⟨ts1, hts1⟩ : ∃ ts1, p.advance.lexer_.tokens = ts1 := ⟨_, rfl⟩
        rw [hts1] at htoks
        refine wlp_mono (ParseIdentifier_sound _ ts1 hts1) ?_
        intro a p1 h1
        simp only [wlp_pure, wlp_Fail]
        split
        · exact Sound_of_not_ok _ _ _ _ (by simp)
        · next hok =>
          obtain ⟨x, rfl, hx⟩ := h1 (by simpa using hok)
          obtain ⟨hkt⟩ := hx
          refine wlp_mono (ih p1 _ _ rfl) ?_
          intro a p2 h2 hok2
          obtain ⟨y, rfl, more, rfl, hmore⟩ := h2 hok2
          rename_i t
          refine ⟨_, rfl, some (Identifier.mk t) :: more, by simp, ?_⟩
          rw [htoks]
          exact Reads.Components.more hk hkt hmore
      · simp only [wlp_pure, wlp_Fail]
        split
        · exact Sound_of_not_ok _ _ _ _ (by simp)
        · simp_all
    · next hk =>
      refine (wlp_pure _ _ _).2 (fun _ => ⟨_, rfl, [], by simp, ?_⟩)
      rw [hts]
      exact Reads.Components.done (by rw [← last_token_kind hts]; exact hk)

theorem ParseCompoundIdentifier_sound (p : Parser) (ts : List Token)
    (hts : p.lexer_.tokens = ts) :
    wlp ParseCompoundIdentifier (Sound Reads.CompoundIdentifier ts) p := by
  unfold ParseCompoundIdentifier
  refine wlp_sub (ParseIdentifier_sound p ts hts) (Sound_of_not_ok _ _) ?_
  rintro x ts' q ⟨hk⟩ hq -
  rw [wlp_bind, wlp_remaining]
  refine wlp_mono (ParseCompoundIdentifier_loop_sound _ q _ _ hq) ?_
  intro a p2 h2 hok2
  obtain ⟨y, rfl, more, rfl, hmore⟩ := h2 hok2
  exact ⟨_, rfl, Reads.CompoundIdentifier.mk hk hmore⟩

theorem ParseStringLiteral_sound (p : Parser) (ts : List Token) (hts : p.lexer_.tokens = ts) :
    wlp ParseStringLiteral (Sound Reads.Literal ts) p := by
  unfold ParseStringLiteral
  refine wlp_expect hts (by decide) (Sound_of_not_ok _ _) ?_
  rintro - t ts' q rfl hk hq -
  exact wlp_return hq (Reads.Literal.string hk)

theorem ParseNumericLiteral_sound (p : Parser) (ts : List Token) (hts : p.lexer_.tokens = ts) :
    wlp ParseNumericLiteral (Sound Reads.NumericLiteral ts) p := by
  unfold ParseNumericLiteral
  refine wlp_expect hts (by decide) (Sound_of_not_ok _ _) ?_
  rintro - t ts' q rfl hk hq -
  exact wlp_return hq (Reads.NumericLiteral.mk hk)

theorem ParseTrueLiteral_sound (p : Parser) (ts : List Token) (hts : p.lexer_.tokens = ts) :
    wlp ParseTrueLiteral (Sound Reads.Literal ts) p := by
  unfold ParseTrueLiteral
  refine wlp_expect hts (by decide) (Sound_of_not_ok _ _) ?_
  rintro - t ts' q rfl hk hq -
  exact wlp_return hq (Reads.Literal.true_ hk)

theorem ParseFalseLiteral_sound (p : Parser) (ts : List Token) (hts : p.lexer_.tokens = ts) :
    wlp ParseFalseLiteral (Sound Reads.Literal ts) p := by
  unfold ParseFalseLiteral
  refine wlp_expect hts (by decide) (Sound_of_not_ok _ _) ?_
  rintro - t ts' q rfl hk hq -
  exact wlp_return hq (Reads.Literal.false_ hk)

theorem ParseDefaultLiteral_sound (p : Parser) (ts : List Token) (hts : p.lexer_.tokens = ts) :
    wlp ParseDefaultLiteral (Sound Reads.Literal ts) p := by
  unfold ParseDefaultLiteral
  refine wlp_expect hts (by decide) (Sound_of_not_ok _ _) ?_
  rintro - t ts' q rfl hk hq -
  exact wlp_return hq (Reads.Literal.default hk)

theorem ParseLiteral_sound (p : Parser) (ts : List Token) (hts : p.lexer_.tokens = ts) :
    wlp ParseLiteral (Sound Reads.Literal ts) p := by
  unfold ParseLiteral
  rw [wlp_bind, wlp_Peek]
  split
  · exact ParseStringLiteral_sound p ts hts
  · rw [wlp_bind]
    refine wlp_mono (ParseNumericLiteral_sound p ts hts) ?_
    intro a p1 h1
    refine (wlp_pure _ _ _).2 (fun hok => ?_)
    obtain ⟨x, rfl, hx⟩ := h1 hok
    obtain ⟨hk⟩ := hx
    exact ⟨_, rfl, Reads.Literal.numeric hk⟩
  · exact ParseTrueLiteral_sound p ts hts
  · exact ParseFalseLiteral_sound p ts hts
  · exact ParseDefaultLiteral_sound p ts hts
  · exact (wlp_Fail _ _).2 (Sound_of_not_ok _ _ _ _ (by simp))

theorem ParseConstant_sound (p : Parser) (ts : List Token) (hts : p.lexer_.tokens = ts) :
    wlp ParseConstant (Sound Reads.Constant ts) p := by
  unfold ParseConstant
  rw [wlp_bind, wlp_Peek]
  split
  · refine wlp_sub (ParseCompoundIdentifier_sound p ts hts) (Sound_of_not_ok _ _) ?_
    rintro x ts' q hx hq -
    exact wlp_return hq (Reads.Constant.identifier hx)
  · rw [wlp_ite]
    split
    · refine wlp_sub (ParseLiteral_sound p ts hts) (Sound_of_not_ok _ _) ?_
      rintro x ts' q hx hq -
      exact wlp_return hq (Reads.Constant.literal hx)
    · exact (wlp_Fail _ _).2 (Sound_of_not_ok _ _ _ _ (by simp))

theorem ParseUsing_sound (p : Parser) (ts : List Token) (hts : p.lexer_.tokens = ts) :
    wlp ParseUsing (Sound Reads.Using ts) p := by
  unfold ParseUsing
  refine wlp_expect hts (by decide) (Sound_of_not_ok _ _) ?_
  rintro - t ts1 q rfl hk hq -
  refine wlp_sub (ParseCompoundIdentifier_sound q ts1 hq) (Sound_of_not_ok _ _) ?_
  rintro x ts2 q2 hx hq2 -
  refine wlp_maybe hq2 (by decide) (Sound_of_not_ok _ _) ?_ ?_
  · rintro t2 ts3 q3 rfl hk2 hq3 -
    refine wlp_sub (ParseIdentifier_sound q3 ts3 hq3) (Sound_of_not_ok _ _) ?_
    rintro y ts4 q4 ⟨hk3⟩ hq4 -
    exact wlp_return hq4 (Reads.Using.renamed hk hx hk2 hk3)
  · intro hne
    exact wlp_return hq2 (Reads.Using.plain hk hx hne)

/-- The idiom `if (MaybeConsumeToken(Question)) nullability = Nullable; return node;`. -/
theorem wlp_nullability {β : Type} {R : List Token → β → List Token → Prop}
    {f : Nullability → β} {p : Parser} {ts ts0 : List Token} (hts : p.lexer_.tokens = ts)
    (h : ∀ n rest, Reads.Nullability ts n rest → R ts0 (f n) rest) :
    wlp (MaybeConsumeToken Kind.Question >>= fun b =>
      if b = true then pure (some (f Nullability.Nullable))
      else pure (some (f Nullability.Nonnullable))) (Sound R ts0) p := by
  refine wlp_maybe_plain hts (by decide) ?_ ?_
  · rintro t ts' q rfl hk hq -
    exact wlp_return hq (h _ _ (Reads.Nullability.nullable hk))
  · intro hne
    exact wlp_return hts (h _ _ (Reads.Nullability.nonnullable hne))

theorem ParseStringType_sound (p : Parser) (ts : List Token) (hts : p.lexer_.tokens = ts) :
    wlp ParseStringType (Sound Reads.Type_ ts) p := by
  unfold ParseStringType
  refine wlp_expect hts (by decide) (Sound_of_not_ok _ _) ?_
  rintro - t ts1 q rfl hk hq -
  refine wlp_maybe hq (by decide) (Sound_of_not_ok _ _) ?_ ?_
  · rintro t2 ts2 q2 rfl hk2 hq2 -
    refine wlp_sub (ParseConstant_sound q2 ts2 hq2) (Sound_of_not_ok _ _) ?_
    rintro c ts3 q3 hc hq3 -
    exact wlp_nullability hq3
      (fun n rest hn => Reads.Type_.string hk (Reads.Count.some hk2 hc) hn)
  · intro hne
    exact wlp_nullability hq (fun n rest hn => Reads.Type_.string hk (Reads.Count.none hne) hn)

theorem subtype_ne_eof {k : Kind} {s : HandleSubtype} (h : ParseHandleType.subtype k = some s) :
    k ≠ Kind.EndOfFile := by
  rintro rfl
  simp [ParseHandleType.subtype] at h

theorem type_kind_ne_eof {k : Kind} {s : TypeKind} (h : ParsePrimitiveType.type_kind k = some s) :
    k ≠ Kind.EndOfFile := by
  rintro rfl
  simp [ParsePrimitiveType.type_kind] at h

theorem ParseHandleType_sound (p : Parser) (ts : List Token) (hts : p.lexer_.tokens = ts) :
    wlp ParseHandleType (Sound Reads.Type_ ts) p := by
  unfold ParseHandleType
  refine wlp_expect hts (by decide) (Sound_of_not_ok _ _) ?_
  rintro - t ts1 q rfl hk hq -
  refine wlp_maybe hq (by decide) (Sound_of_not_ok _ _) ?_ ?_
  · rintro t2 ts2 q2 rfl hk2 hq2 hok2
    rw [wlp_bind, wlp_Peek]
    split
    · exact (wlp_Fail _ _).2 (Sound_of_not_ok _ _ _ _ (by simp))
    · next s hs =>
      have htoks := tokens_of_kind hq2 rfl (subtype_ne_eof hs)
      obtain ⟨ts3, hts3⟩ : ∃ ts3, q2.advance.lexer_.tokens = ts3 := ⟨_, rfl⟩
      rw [hts3] at htoks
      subst htoks
      simp only [wlp_bind, wlp_Consume, wlp_Ok, Parser.advance_ok, hok2, Bool.not_true]
      simp only [Bool.false_eq_true, if_false]
      refine wlp_expect hts3 (by decide) (Sound_of_not_ok _ _) ?_
      rintro - t4 ts4 q4 rfl hk4 hq4 -
      exact wlp_nullability hq4
        (fun n rest hn => Reads.Type_.handle hk (Reads.HandleSubtype.subtype hk2 hs hk4) hn)
  · intro hne
    exact wlp_nullability hq
      (fun n rest hn => Reads.Type_.handle hk (Reads.HandleSubtype.generic hne) hn)

theorem ParsePrimitiveType_sound (p : Parser) (ts : List Token) (hts : p.lexer_.tokens = ts) :
    wlp ParsePrimitiveType (Sound Reads.PrimitiveType ts) p := by
  unfold ParsePrimitiveType
  rw [wlp_bind, wlp_Peek]
  split
  · exact (wlp_Fail _ _).2 (Sound_of_not_ok _ _ _ _ (by simp))
  · next k hk =>
    rw [wlp_bind, wlp_Peek]
    refine wlp_expect hts (type_kind_ne_eof hk) (Sound_of_not_ok _ _) ?_
    rintro - t ts1 q rfl hkt hq -
    exact wlp_return hq (Reads.PrimitiveType.mk (hkt ▸ hk))

theorem ParseRequestType_sound (p : Parser) (ts : List Token) (hts : p.lexer_.tokens = ts) :
    wlp ParseRequestType (Sound Reads.Type_ ts) p := by
  unfold ParseRequestType
  refine wlp_expect hts (by decide) (Sound_of_not_ok _ _) ?_
  rintro - t ts1 q rfl hk hq -
  refine wlp_expect hq (by decide) (Sound_of_not_ok _ _) ?_
  rintro - t2 ts2 q2 rfl hk2 hq2 -
  refine wlp_sub (ParseCompoundIdentifier_sound q2 ts2 hq2) (Sound_of_not_ok _ _) ?_
  rintro x ts3 q3 hx hq3 -
  refine wlp_expect hq3 (by decide) (Sound_of_not_ok _ _) ?_
  rintro - t4 ts4 q4 rfl hk4 hq4 -
  exact wlp_nullability hq4 (fun n rest hn => Reads.Type_.request hk hk2 hx hk4 hn)

theorem ParseArrayType_sound (rec : M (Option Type_))
    (hrec : ∀ p ts, p.lexer_.tokens = ts → wlp rec (Sound Reads.Type_ ts) p)
    (p : Parser) (ts : List Token) (hts : p.lexer_.tokens = ts) :
    wlp (ParseArrayType rec) (Sound Reads.Type_ ts) p := by
  unfold ParseArrayType
  refine wlp_expect hts (by decide) (Sound_of_not_ok _ _) ?_
  rintro - t ts1 q rfl hk hq -
  refine wlp_expect hq (by decide) (Sound_of_not_ok _ _) ?_
  rintro - t2 ts2 q2 rfl hk2 hq2 -
  refine wlp_sub (hrec q2 ts2 hq2) (Sound_of_not_ok _ _) ?_
  rintro e ts3 q3 he hq3 -
  refine wlp_expect hq3 (by decide) (Sound_of_not_ok _ _) ?_
  rintro - t4 ts4 q4 rfl hk4 hq4 -
  refine wlp_expect hq4 (by decide) (Sound_of_not_ok _ _) ?_
  rintro - t5 ts5 q5 rfl hk5 hq5 -
  refine wlp_sub (ParseConstant_sound q5 ts5 hq5) (Sound_of_not_ok _ _) ?_
  rintro c ts6 q6 hc hq6 -
  exact wlp_return hq6 (Reads.Type_.array hk hk2 he hk4 hk5 hc)

theorem ParseVectorType_sound (rec : M (Option Type_))
    (hrec : ∀ p ts, p.lexer_.tokens = ts → wlp rec (Sound Reads.Type_ ts) p)
    (p : Parser) (ts : List Token) (hts : p.lexer_.tokens = ts) :
    wlp (ParseVectorType rec) (Sound Reads.Type_ ts) p := by
  unfold ParseVectorType
  refine wlp_expect hts (by decide) (Sound_of_not_ok _ _) ?_
  rintro - t ts1 q rfl hk hq -
  refine wlp_expect hq (by decide) (Sound_of_not_ok _ _) ?_
  rintro - t2 ts2 q2 rfl hk2 hq2 -
  refine wlp_sub (hrec q2 ts2 hq2) (Sound_of_not_ok _ _) ?_
  rintro e ts3 q3 he hq3 -
  refine wlp_expect hq3 (by decide) (Sound_of_not_ok _ _) ?_
  rintro - t4 ts4 q4 rfl hk4 hq4 -
  refine wlp_maybe hq4 (by decide) (Sound_of_not_ok _ _) ?_ ?_
  · rintro t5 ts5 q5 rfl hk5 hq5 -
    refine wlp_sub (ParseConstant_sound q5 ts5 hq5) (Sound_of_not_ok _ _) ?_
    rintro c ts6 q6 hc hq6 -
    exact wlp_nullability hq6
      (fun n rest hn => Reads.Type_.vector hk hk2 he hk4 (Reads.Count.some hk5 hc) hn)
  · intro hne
    exact wlp_nullability hq4
      (fun n rest hn => Reads.Type_.vector hk hk2 he hk4 (Reads.Count.none hne) hn)

theorem ParseType_go_sound (n : Nat) :
    ∀ (p : Parser) (ts : List Token), p.lexer_.tokens = ts →
      wlp (ParseType.go n) (Sound Reads.Type_ ts) p := by
  induction n with
  | zero => intro p ts _; exact wlp_exhausted _ _
  | succ n ih =>
    intro p ts hts
    unfold ParseType.go
    rw [wlp_bind, wlp_Peek]
    split
    · refine wlp_sub (ParseCompoundIdentifier_sound p ts hts) (Sound_of_not_ok _ _) ?_
      rintro x ts1 q hx hq -
      refine wlp_maybe hq (by decide) (Sound_of_not_ok _ _) ?_ ?_
      · rintro t2 ts2 q2 rfl hk2 hq2 -
        exact wlp_return hq2 (Reads.Type_.identifier hx (Reads.Nullability.nullable hk2))
      · intro hne
        exact wlp_return hq (Reads.Type_.identifier hx (Reads.Nullability.nonnullable hne))
    · refine wlp_sub (ParseArrayType_sound _ ih p ts hts) (Sound_of_not_ok _ _) ?_
      rintro x ts1 q hx hq -
      exact wlp_return hq hx
    · refine wlp_sub (ParseVectorType_sound _ ih p ts hts) (Sound_of_not_ok _ _) ?_
      rintro x ts1 q hx hq -
      exact wlp_return hq hx
    · refine wlp_sub (ParseStringType_sound p ts hts) (Sound_of_not_ok _ _) ?_
      rintro x ts1 q hx hq -
      exact wlp_return hq hx
    · refine wlp_sub (ParseHandleType_sound p ts hts) (Sound_of_not_ok _ _) ?_
      rintro x ts1 q hx hq -
      exact wlp_return hq hx
    · refine wlp_sub (ParseRequestType_sound p ts hts) (Sound_of_not_ok _ _) ?_
      rintro x ts1 q hx hq -
      exact wlp_return hq hx
    · rw [wlp_ite]
      split
      · refine wlp_sub (ParsePrimitiveType_sound p ts hts) (Sound_of_not_ok _ _) ?_
        rintro x ts1 q ⟨hx⟩ hq -
        exact wlp_return hq (Reads.Type_.primitive hx)
      · exact (wlp_Fail _ _).2 (Sound_of_not_ok _ _ _ _ (by simp))

theorem ParseType_sound (p : Parser) (ts : List Token) (hts : p.lexer_.tokens = ts) :
    wlp ParseType (Sound Reads.Type_ ts) p := by
  unfold ParseType
  rw [wlp_bind, wlp_remaining]
  exact ParseType_go_sound _ p ts hts

theorem ParseConstDeclaration_sound (p : Parser) (ts : List Token)
    (hts : p.lexer_.tokens = ts) :
    wlp ParseConstDeclaration (Sound Reads.ConstDeclaration ts) p := by
  unfold ParseConstDeclaration
  refine wlp_expect hts (by decide) (Sound_of_not_ok _ _) ?_
  rintro - t ts1 q rfl hk hq -
  refine wlp_sub (ParseType_sound q ts1 hq) (Sound_of_not_ok _ _) ?_
  rintro ty ts2 q2 hty hq2 -
  refine wlp_sub (ParseIdentifier_sound q2 ts2 hq2) (Sound_of_not_ok _ _) ?_
  rintro i ts3 q3 ⟨hi⟩ hq3 -
  refine wlp_expect hq3 (by decide) (Sound_of_not_ok _ _) ?_
  rintro - t4 ts4 q4 rfl hk4 hq4 -
  refine wlp_sub (ParseConstant_sound q4 ts4 hq4) (Sound_of_not_ok _ _) ?_
  rintro c ts5 q5 hc hq5 -
  exact wlp_return hq5 (Reads.ConstDeclaration.mk hk hty hi hk4 hc)

theorem ParseEnumMember_sound (p : Parser) (ts : List Token) (hts : p.lexer_.tokens = ts) :
    wlp ParseEnumMember (Sound Reads.EnumMember ts) p := by
  unfold ParseEnumMember
  refine wlp_sub (ParseIdentifier_sound p ts hts) (Sound_of_not_ok _ _) ?_
  rintro i ts1 q ⟨hi⟩ hq -
  refine wlp_maybe hq (by decide) (Sound_of_not_ok _ _) ?_ ?_
  · rintro t2 ts2 q2 rfl hk2 hq2 -
    rw [wlp_bind, wlp_Peek]
    split
    · refine wlp_sub (ParseCompoundIdentifier_sound q2 ts2 hq2) (Sound_of_not_ok _ _) ?_
      rintro x ts3 q3 hx hq3 -
      exact wlp_return hq3 (Reads.EnumMember.identifier hi hk2 hx)
    · refine wlp_sub (ParseNumericLiteral_sound q2 ts2 hq2) (Sound_of_not_ok _ _) ?_
      rintro x ts3 q3 ⟨hx⟩ hq3 -
      exact wlp_return hq3 (Reads.EnumMember.numeric hi hk2 hx)
    · exact (wlp_Fail _ _).2 (Sound_of_not_ok _ _ _ _ (by simp))
  · intro hne
    exact wlp_return hq (Reads.EnumMember.plain hi hne)

/-- The idiom of the braced bodies: `list.emplace_back(ParseX()); if (!Ok()) Fail();
ConsumeToken(Semicolon); if (!Ok()) return Fail(); ...`. -/
theorem wlp_member {α β : Type} {m : M (Option α)} {R : List Token → α → List Token → Prop}
    {K : Option α → M (Option β)} {Q : Option β → Parser → Prop} {p : Parser}
    {ts : List Token} (hs : wlp m (Sound R ts) p)
    (hQ : ∀ a p1, p1.ok_ = false → Q a p1)
    (hk : ∀ x semicolon ts' q, R ts x (semicolon :: ts') → semicolon.kind = Kind.Semicolon →
      q.lexer_.tokens = ts' → q.ok_ = true → wlp (K (some x)) Q q) :
    wlp (m >>= fun a => FailUnlessOk >>= fun _ => ConsumeToken Kind.Semicolon >>= fun _ =>
      Ok >>= fun ok => if (!ok) = true then Fail else K a) Q p := by
  rw [wlp_bind]
  refine wlp_mono hs ?_
  intro a p1 h1
  rw [wlp_bind, wlp_FailUnlessOk]
  refine wlp_expect rfl (by decide) hQ ?_
  intro hok t ts' q htoks hkind hq hokq
  obtain ⟨x, rfl, hx⟩ := h1 hok
  exact hk x t ts' q (htoks ▸ hx) hkind hq hokq

/-- The idiom of the top-level lists: `list.emplace_back(ParseX()); if (!Ok()) return Fail();
ConsumeToken(Semicolon); if (!Ok()) return Fail(); ...`. -/
theorem wlp_declaration {α β : Type} {m : M (Option α)}
    {R : List Token → α → List Token → Prop} {K : Option α → M (Option β)}
    {Q : Option β → Parser → Prop} {p : Parser} {ts : List Token}
    (hs : wlp m (Sound R ts) p) (hQ : ∀ a p1, p1.ok_ = false → Q a p1)
    (hk : ∀ x semicolon ts' q, R ts x (semicolon :: ts') → semicolon.kind = Kind.Semicolon →
      q.lexer_.tokens = ts' → q.ok_ = true → wlp (K (some x)) Q q) :
    wlp (m >>= fun a => Ok >>= fun ok => if (!ok) = true then Fail else
      ConsumeToken Kind.Semicolon >>= fun _ =>
      Ok >>= fun ok => if (!ok) = true then Fail else K a) Q p := by
  refine wlp_sub hs hQ ?_
  intro x ts1 q1 hx hq1 _
  refine wlp_expect hq1 (by decide) hQ ?_
  rintro - t ts' q rfl hkind hq hokq
  exact hk x t ts' q hx hkind hq hokq

/-- The end of a braced body: `ConsumeToken(RightCurly); if (!Ok()) Fail(); return node;`. -/
theorem wlp_close {β : Type} {R : List Token → β → List Token → Prop} {x : β} {p : Parser}
    {ts ts0 : List Token} (hts : p.lexer_.tokens = ts)
    (h : ∀ t ts', ts = t :: ts' → t.kind = Kind.RightCurly → R ts0 x ts') :
    wlp (ConsumeToken Kind.RightCurly >>= fun _ => FailUnlessOk >>= fun _ => pure (some x))
      (Sound R ts0) p := by
  simp only [wlp_bind, wlp_ConsumeToken, wlp_FailUnlessOk, wlp_pure]
  split
  · next hk =>
    intro _
    exact ⟨x, rfl, h _ _ (tokens_of_kind hts hk (by decide)) hk⟩
  · exact Sound_of_not_ok _ _ _ _ (by simp)

theorem ParseEnumDeclaration_loop_sound (identifier : Option Identifier)
    (subtype : Option PrimitiveType) (n : Nat) :
    ∀ (p : Parser) (ts : List Token) (members : List (Option EnumMember)),
      p.lexer_.tokens = ts →
      wlp (ParseEnumDeclaration.loop identifier subtype n members)
        (Sound (fun ts x rest => ∃ more,
          x = EnumDeclaration.mk identifier subtype (members ++ more) ∧
          Reads.EnumMembers ts more rest) ts) p := by
  induction n with
  | zero => intro p ts _ _; exact wlp_exhausted _ _
  | succ n ih =>
    intro p ts members hts
    unfold ParseEnumDeclaration.loop
    rw [wlp_bind, wlp_Peek, wlp_ite]
    split
    · refine wlp_member (ParseEnumMember_sound p ts hts) (Sound_of_not_ok _ _) ?_
      intro x semicolon ts' q hx hsemi hq _
      refine wlp_mono (ih q ts' _ hq) ?_
      intro a p2 h2 hok2
      obtain ⟨y, rfl, more, rfl, hmore⟩ := h2 hok2
      exact ⟨_, rfl, some x :: more, by simp, Reads.EnumMembers.more hx hsemi hmore⟩
    · refine wlp_close hts ?_
      rintro t ts' rfl hk
      exact ⟨[], by simp, Reads.EnumMembers.done hk⟩

theorem ParseEnumDeclaration_body_sound (identifier : Option Identifier)
    (subtype : Option PrimitiveType) (p : Parser) (ts : List Token)
    (hts : p.lexer_.tokens = ts) :
    wlp (ParseEnumDeclaration.body identifier subtype)
      (Sound (fun ts x rest => ∃ open_ ts' ms, ts = open_ :: ts' ∧
        open_.kind = Kind.LeftCurly ∧ x = EnumDeclaration.mk identifier subtype ms ∧
        Reads.EnumMembers ts' ms rest) ts) p := by
  unfold ParseEnumDeclaration.body
  refine wlp_expect hts (by decide) (Sound_of_not_ok _ _) ?_
  rintro - t ts1 q rfl hk hq -
  rw [wlp_bind, wlp_remaining]
  refine wlp_mono (ParseEnumDeclaration_loop_sound _ _ _ q ts1 _ hq) ?_
  intro a p2 h2 hok2
  obtain ⟨y, rfl, more, rfl, hmore⟩ := h2 hok2
  exact ⟨_, rfl, t, ts1, more, rfl, hk, by simp, hmore⟩

theorem ParseEnumDeclaration_sound (p : Parser) (ts : List Token)
    (hts : p.lexer_.tokens = ts) :
    wlp ParseEnumDeclaration (Sound Reads.EnumDeclaration ts) p := by
  unfold ParseEnumDeclaration
  refine wlp_expect hts (by decide) (Sound_of_not_ok _ _) ?_
  rintro - t ts1 q rfl hk hq -
  refine wlp_sub (ParseIdentifier_sound q ts1 hq) (Sound_of_not_ok _ _) ?_
  rintro i ts2 q2 ⟨hi⟩ hq2 -
  refine wlp_maybe hq2 (by decide) (Sound_of_not_ok _ _) ?_ ?_
  · rintro t3 ts3 q3 rfl hk3 hq3 -
    refine wlp_sub (ParsePrimitiveType_sound q3 ts3 hq3) (Sound_of_not_ok _ _) ?_
    rintro s ts4 q4 ⟨hs⟩ hq4 -
    refine wlp_mono (ParseEnumDeclaration_body_sound _ _ q4 _ hq4) ?_
    intro a p2 h2 hok2
    obtain ⟨y, rfl, open_, ts', ms, rfl, hopen, rfl, hms⟩ := h2 hok2
    exact ⟨_, rfl, Reads.EnumDeclaration.typed hk hi hk3 hs hopen hms⟩
  · intro _
    refine wlp_mono (ParseEnumDeclaration_body_sound _ _ q2 _ hq2) ?_
    intro a p2 h2 hok2
    obtain ⟨y, rfl, open_, ts', ms, rfl, hopen, rfl, hms⟩ := h2 hok2
    exact ⟨_, rfl, Reads.EnumDeclaration.plain hk hi hopen hms⟩

theorem ParseParameter_sound (p : Parser) (ts : List Token) (hts : p.lexer_.tokens = ts) :
    wlp ParseParameter (Sound Reads.Parameter ts) p := by
  unfold ParseParameter
  refine wlp_sub (ParseType_sound p ts hts) (Sound_of_not_ok _ _) ?_
  rintro ty ts2 q2 hty hq2 -
  refine wlp_sub (ParseIdentifier_sound q2 ts2 hq2) (Sound_of_not_ok _ _) ?_
  rintro i ts3 q3 ⟨hi⟩ hq3 -
  exact wlp_return hq3 (Reads.Parameter.mk hty hi)

theorem ParseParameterList_loop_sound (n : Nat) :
    ∀ (p : Parser) (ts : List Token) (parameter_list : List (Option Parameter)),
      p.lexer_.tokens = ts →
      wlp (ParseParameterList.loop n parameter_list)
        (Sound (fun ts x rest => ∃ more, x = ParameterList.mk (parameter_list ++ more) ∧
          Reads.MoreParameters ts more rest) ts) p := by
  induction n with
  | zero => intro p ts _ _; exact wlp_exhausted _ _
  | succ n ih =>
    intro p ts parameter_list hts
    unfold ParseParameterList.loop
    rw [wlp_bind, wlp_Peek, wlp_ite]
    split
    · refine wlp_expect hts (by decide) (Sound_of_not_ok _ _) ?_
      rintro - t ts1 q rfl hk hq -
      rw [wlp_bind, wlp_Peek, wlp_ite]
      split
      · refine wlp_sub (ParseParameter_sound q ts1 hq) (Sound_of_not_ok _ _) ?_
        intro x ts2 q2 hx hq2 _
        refine wlp_mono (ih q2 ts2 _ hq2) ?_
        intro a p2 h2 hok2
        obtain ⟨y, rfl, more, rfl, hmore⟩ := h2 hok2
        exact ⟨_, rfl, some x :: more, by simp, Reads.MoreParameters.more hk hx hmore⟩
      · exact (wlp_Fail _ _).2 (Sound_of_not_ok _ _ _ _ (by simp))
    · next hk =>
      refine (wlp_pure _ _ _).2 (fun _ => ⟨_, rfl, [], by simp, ?_⟩)
      rw [hts]
      exact Reads.MoreParameters.done (by rw [← last_token_kind hts]; exact hk)

theorem ParseParameterList_sound (p : Parser) (ts : List Token) (hts : p.lexer_.tokens = ts) :
    wlp ParseParameterList (Sound Reads.ParameterList ts) p := by
  unfold ParseParameterList
  rw [wlp_bind, wlp_Peek, wlp_ite]
  split
  · refine wlp_sub (ParseParameter_sound p ts hts) (Sound_of_not_ok _ _) ?_
    intro x ts2 q2 hx hq2 _
    rw [wlp_bind, wlp_remaining]
    refine wlp_mono (ParseParameterList_loop_sound _ q2 ts2 _ hq2) ?_
    intro a p2 h2 hok2
    obtain ⟨y, rfl, more, rfl, hmore⟩ := h2 hok2
    exact ⟨_, rfl, Reads.ParameterList.cons hx hmore⟩
  · next hk =>
    refine (wlp_pure _ _ _).2 (fun _ => ⟨_, rfl, ?_⟩)
    rw [hts]
    exact Reads.ParameterList.empty (by
      rw [← last_token_kind hts]
      simpa using hk)

theorem ParseInterfaceMemberMethod_parse_params_sound (p : Parser) (ts : List Token)
    (hts : p.lexer_.tokens = ts) :
    wlp ParseInterfaceMemberMethod.parse_params (fun r p' => r.1 = true →
      p'.ok_ = true ∧ ∃ x, r.2 = some x ∧ Reads.Params ts x p'.lexer_.tokens) p := by
  unfold ParseInterfaceMemberMethod.parse_params
  refine wlp_expect_or hts (by decide)
    (fun p1 _ => (wlp_pure _ _ _).2 (fun h => by simp at h)) ?_
  rintro - t ts1 q rfl hk hq -
  refine wlp_sub_or (ParseParameterList_sound q ts1 hq)
    (fun _ p1 _ => (wlp_pure _ _ _).2 (fun h => by simp at h)) ?_
  intro x ts2 q2 hx hq2 _
  refine wlp_expect_or hq2 (by decide)
    (fun p1 _ => (wlp_pure _ _ _).2 (fun h => by simp at h)) ?_
  rintro - t3 ts3 q3 rfl hk3 hq3 hok3
  exact (wlp_pure _ _ _).2 (fun _ => ⟨hok3, x, rfl, hq3 ▸ Reads.Params.mk hk hx hk3⟩)

/-- The idiom `if (!parse_params(&out)) return Fail(); ...`. -/
theorem wlp_params {β : Type} {K : Bool × Option ParameterList → M (Option β)}
    {Q : Option β → Parser → Prop} {p : Parser} {ts : List Token}
    (hts : p.lexer_.tokens = ts) (hQ : ∀ a p1, p1.ok_ = false → Q a p1)
    (hk : ∀ x ts' q, Reads.Params ts x ts' → q.lexer_.tokens = ts' → q.ok_ = true →
      wlp (K (true, some x)) Q q) :
    wlp (ParseInterfaceMemberMethod.parse_params >>= fun r =>
      if (!r.1) = true then Fail else K r) Q p := by
  rw [wlp_bind]
  refine wlp_mono (ParseInterfaceMemberMethod_parse_params_sound p ts hts) ?_
  rintro ⟨ok, out⟩ p1 h1
  cases ok with
  | false =>
    simp only [Bool.not_false, if_true, wlp_Fail]
    exact hQ _ _ (by simp)
  | true =>
    obtain ⟨hok, x, hx, hr⟩ := h1 rfl
    simp only at hx
    subst hx
    simpa using hk x _ p1 hr rfl hok

theorem ParseInterfaceMemberMethod_sound (p : Parser) (ts : List Token)
    (hts : p.lexer_.tokens = ts) :
    wlp ParseInterfaceMemberMethod (Sound Reads.InterfaceMemberMethod ts) p := by
  unfold ParseInterfaceMemberMethod
  refine wlp_sub (ParseNumericLiteral_sound p ts hts) (Sound_of_not_ok _ _) ?_
  rintro o ts1 q ⟨ho⟩ hq -
  refine wlp_expect hq (by decide) (Sound_of_not_ok _ _) ?_
  rintro - t2 ts2 q2 rfl hk2 hq2 -
  refine wlp_maybe_plain hq2 (by decide) ?_ ?_
  · rintro t3 ts3 q3 rfl hk3 hq3 -
    refine wlp_sub (ParseIdentifier_sound q3 ts3 hq3) (Sound_of_not_ok _ _) ?_
    rintro i ts4 q4 ⟨hi⟩ hq4 -
    refine wlp_params hq4 (Sound_of_not_ok _ _) ?_
    intro r ts5 q5 hr hq5 _
    exact wlp_return hq5 (Reads.InterfaceMemberMethod.event ho hk2 hk3 hi hr)
  · intro _
    refine wlp_sub (ParseIdentifier_sound q2 ts2 hq2) (Sound_of_not_ok _ _) ?_
    rintro i ts4 q4 ⟨hi⟩ hq4 -
    refine wlp_params hq4 (Sound_of_not_ok _ _) ?_
    intro r ts5 q5 hr hq5 _
    refine wlp_maybe hq5 (by decide) (Sound_of_not_ok _ _) ?_ ?_
    · rintro t6 ts6 q6 rfl hk6 hq6 -
      refine wlp_params hq6 (Sound_of_not_ok _ _) ?_
      intro r2 ts7 q7 hr2 hq7 _
      exact wlp_return hq7 (Reads.InterfaceMemberMethod.request_response ho hk2 hi hr hk6 hr2)
    · intro hne
      exact wlp_return hq5 (Reads.InterfaceMemberMethod.request_only ho hk2 hi hr hne)

theorem ParseInterfaceDeclaration_loop_sound (identifier : Option Identifier)
    (superinterfaces : List (Option CompoundIdentifier)) (n : Nat) :
    ∀ (p : Parser) (ts : List Token) (cs : List (Option ConstDeclaration))
      (es : List (Option EnumDeclaration)) (ms : List (Option InterfaceMemberMethod)),
      p.lexer_.tokens = ts →
      wlp (ParseInterfaceDeclaration.loop identifier superinterfaces n cs es ms)
        (Sound (fun ts x rest => ∃ cs' es' ms',
          x = InterfaceDeclaration.mk identifier superinterfaces (cs ++ cs') (es ++ es')
            (ms ++ ms') ∧
          Reads.InterfaceMembers ts cs' es' ms' rest) ts) p := by
  induction n with
  | zero => intro p ts _ _ _ _; exact wlp_exhausted _ _
  | succ n ih =>
    intro p ts cs es ms hts
    unfold ParseInterfaceDeclaration.loop
    rw [wlp_bind, wlp_Peek]
    split
    · refine wlp_member (ParseConstDeclaration_sound p ts hts) (Sound_of_not_ok _ _) ?_
      intro x semicolon ts' q hx hsemi hq _
      refine wlp_mono (ih q ts' _ _ _ hq) ?_
      intro a p2 h2 hok2
      obtain ⟨y, rfl, cs', es', ms', rfl, hmore⟩ := h2 hok2
      exact ⟨_, rfl, some x :: cs', es', ms', by simp,
        Reads.InterfaceMembers.const hx hsemi hmore⟩
    · refine wlp_member (ParseEnumDeclaration_sound p ts hts) (Sound_of_not_ok _ _) ?_
      intro x semicolon ts' q hx hsemi hq _
      refine wlp_mono (ih q ts' _ _ _ hq) ?_
      intro a p2 h2 hok2
      obtain ⟨y, rfl, cs', es', ms', rfl, hmore⟩ := h2 hok2
      exact ⟨_, rfl, cs', some x :: es', ms', by simp,
        Reads.InterfaceMembers.enum hx hsemi hmore⟩
    · refine wlp_member (ParseInterfaceMemberMethod_sound p ts hts) (Sound_of_not_ok _ _) ?_
      intro x semicolon ts' q hx hsemi hq _
      refine wlp_mono (ih q ts' _ _ _ hq) ?_
      intro a p2 h2 hok2
      obtain ⟨y, rfl, cs', es', ms', rfl, hmore⟩ := h2 hok2
      exact ⟨_, rfl, cs', es', some x :: ms', by simp,
        Reads.InterfaceMembers.method hx hsemi hmore⟩
    · refine wlp_close hts ?_
      rintro t ts' rfl hk
      exact ⟨[], [], [], by simp, Reads.InterfaceMembers.done hk⟩

theorem ParseInterfaceDeclaration_body_sound (identifier : Option Identifier)
    (superinterfaces : List (Option CompoundIdentifier)) (p : Parser) (ts : List Token)
    (hts : p.lexer_.tokens = ts) :
    wlp (ParseInterfaceDeclaration.body identifier superinterfaces)
      (Sound (fun ts x rest => ∃ open_ ts' cs es ms, ts = open_ :: ts' ∧
        open_.kind = Kind.LeftCurly ∧
        x = InterfaceDeclaration.mk identifier superinterfaces cs es ms ∧
        Reads.InterfaceMembers ts' cs es ms rest) ts) p := by
  unfold ParseInterfaceDeclaration.body
  refine wlp_expect hts (by decide) (Sound_of_not_ok _ _) ?_
  rintro - t ts1 q rfl hk hq -
  rw [wlp_bind, wlp_remaining]
  refine wlp_mono (ParseInterfaceDeclaration_loop_sound _ _ _ q ts1 _ _ _ hq) ?_
  intro a p2 h2 hok2
  obtain ⟨y, rfl, cs', es', ms', rfl, hmore⟩ := h2 hok2
  exact ⟨_, rfl, t, ts1, cs', es', ms', rfl, hk, by simp, hmore⟩

theorem ParseInterfaceDeclaration_superinterfaces_sound (identifier : Option Identifier)
    (n : Nat) :
    ∀ (p : Parser) (ts : List Token) (superinterfaces : List (Option CompoundIdentifier)),
      p.lexer_.tokens = ts →
      wlp (ParseInterfaceDeclaration.superinterfaces identifier n superinterfaces)
        (Sound (fun ts x rest => ∃ more open_ r cs es ms,
          Reads.Superinterfaces ts more (open_ :: r) ∧ open_.kind = Kind.LeftCurly ∧
          x = InterfaceDeclaration.mk identifier (superinterfaces ++ more) cs es ms ∧
          Reads.InterfaceMembers r cs es ms rest) ts) p := by
  induction n with
  | zero => intro p ts _ _; exact wlp_exhausted _ _
  | succ n ih =>
    intro p ts superinterfaces hts
    unfold ParseInterfaceDeclaration.superinterfaces
    refine wlp_sub (ParseCompoundIdentifier_sound p ts hts) (Sound_of_not_ok _ _) ?_
    intro x ts1 q hx hq _
    simp only [wlp_bind, wlp_MaybeConsumeToken]
    split
    · next hk =>
      have htoks := tokens_of_kind hq hk (by decide)
      obtain ⟨ts2, hts2⟩ : ∃ ts2, q.advance.lexer_.tokens = ts2 := ⟨_, rfl⟩
      rw [hts2] at htoks
      subst htoks
      simp only [Bool.not_true, Bool.false_eq_true, if_false]
      refine wlp_mono (ih q.advance ts2 _ hts2) ?_
      intro a p2 h2 hok2
      obtain ⟨y, rfl, more, open_, r, cs, es, ms, hmore, hopen, rfl, hms⟩ := h2 hok2
      exact ⟨_, rfl, some x :: more, open_, r, cs, es, ms,
        Reads.Superinterfaces.more hx hk hmore, hopen, by simp, hms⟩
    · next hk =>
      simp only [Bool.not_false, if_true]
      refine wlp_mono (ParseInterfaceDeclaration_body_sound _ _ q ts1 hq) ?_
      intro a p2 h2 hok2
      obtain ⟨y, rfl, open_, ts', cs, es, ms, rfl, hopen, rfl, hms⟩ := h2 hok2
      refine ⟨_, rfl, [some x], open_, ts', cs, es, ms,
        Reads.Superinterfaces.last hx ?_, hopen, rfl, hms⟩
      show open_.kind ≠ Kind.Comma
      rw [hopen]
      decide

theorem ParseInterfaceDeclaration_sound (p : Parser) (ts : List Token)
    (hts : p.lexer_.tokens = ts) :
    wlp ParseInterfaceDeclaration (Sound Reads.InterfaceDeclaration ts) p := by
  unfold ParseInterfaceDeclaration
  refine wlp_expect hts (by decide) (Sound_of_not_ok _ _) ?_
  rintro - t ts1 q rfl hk hq -
  refine wlp_sub (ParseIdentifier_sound q ts1 hq) (Sound_of_not_ok _ _) ?_
  rintro i ts2 q2 ⟨hi⟩ hq2 -
  refine wlp_maybe_plain hq2 (by decide) ?_ ?_
  · rintro t3 ts3 q3 rfl hk3 hq3 -
    rw [wlp_bind, wlp_remaining]
    refine wlp_mono (ParseInterfaceDeclaration_superinterfaces_sound _ _ q3 ts3 _ hq3) ?_
    intro a p2 h2 hok2
    obtain ⟨y, rfl, more, open_, r, cs, es, ms, hmore, hopen, rfl, hms⟩ := h2 hok2
    exact ⟨_, rfl, Reads.InterfaceDeclaration.derived hk hi hk3 hmore hopen hms⟩
  · intro _
    refine wlp_mono (ParseInterfaceDeclaration_body_sound _ _ q2 _ hq2) ?_
    intro a p2 h2 hok2
    obtain ⟨y, rfl, open_, ts', cs, es, ms, rfl, hopen, rfl, hms⟩ := h2 hok2
    exact ⟨_, rfl, Reads.InterfaceDeclaration.plain hk hi hopen hms⟩

theorem ParseStructMember_sound (p : Parser) (ts : List Token) (hts : p.lexer_.tokens = ts) :
    wlp ParseStructMember (Sound Reads.StructMember ts) p := by
  unfold ParseStructMember
  refine wlp_sub (ParseType_sound p ts hts) (Sound_of_not_ok _ _) ?_
  rintro ty ts2 q2 hty hq2 -
  refine wlp_sub (ParseIdentifier_sound q2 ts2 hq2) (Sound_of_not_ok _ _) ?_
  rintro i ts3 q3 ⟨hi⟩ hq3 -
  refine wlp_maybe hq3 (by decide) (Sound_of_not_ok _ _) ?_ ?_
  · rintro t4 ts4 q4 rfl hk4 hq4 -
    refine wlp_sub (ParseConstant_sound q4 ts4 hq4) (Sound_of_not_ok _ _) ?_
    rintro c ts5 q5 hc hq5 -
    exact wlp_return hq5 (Reads.StructMember.default hty hi hk4 hc)
  · intro hne
    exact wlp_return hq3 (Reads.StructMember.plain hty hi hne)

theorem ParseStructDeclaration_loop_sound (identifier : Option Identifier) (n : Nat) :
    ∀ (p : Parser) (ts : List Token) (cs : List (Option ConstDeclaration))
      (es : List (Option EnumDeclaration)) (ms : List (Option StructMember)),
      p.lexer_.tokens = ts →
      wlp (ParseStructDeclaration.loop identifier n cs es ms)
        (Sound (fun ts x rest => ∃ cs' es' ms',
          x = StructDeclaration.mk identifier (cs ++ cs') (es ++ es') (ms ++ ms') ∧
          Reads.StructMembers ts cs' es' ms' rest) ts) p := by
  induction n with
  | zero => intro p ts _ _ _ _; exact wlp_exhausted _ _
  | succ n ih =>
    intro p ts cs es ms hts
    unfold ParseStructDeclaration.loop
    rw [wlp_bind, wlp_Peek]
    split
    · refine wlp_member (ParseConstDeclaration_sound p ts hts) (Sound_of_not_ok _ _) ?_
      intro x semicolon ts' q hx hsemi hq _
      refine wlp_mono (ih q ts' _ _ _ hq) ?_
      intro a p2 h2 hok2
      obtain ⟨y, rfl, cs', es', ms', rfl, hmore⟩ := h2 hok2
      exact ⟨_, rfl, some x :: cs', es', ms', by simp,
        Reads.StructMembers.const hx hsemi hmore⟩
    · refine wlp_member (ParseEnumDeclaration_sound p ts hts) (Sound_of_not_ok _ _) ?_
      intro x semicolon ts' q hx hsemi hq _
      refine wlp_mono (ih q ts' _ _ _ hq) ?_
      intro a p2 h2 hok2
      obtain ⟨y, rfl, cs', es', ms', rfl, hmore⟩ := h2 hok2
      exact ⟨_, rfl, cs', some x :: es', ms', by simp,
        Reads.StructMembers.enum hx hsemi hmore⟩
    · rw [wlp_ite]
      split
      · refine wlp_member (ParseStructMember_sound p ts hts) (Sound_of_not_ok _ _) ?_
        intro x semicolon ts' q hx hsemi hq _
        refine wlp_mono (ih q ts' _ _ _ hq) ?_
        intro a p2 h2 hok2
        obtain ⟨y, rfl, cs', es', ms', rfl, hmore⟩ := h2 hok2
        exact ⟨_, rfl, cs', es', some x :: ms', by simp,
          Reads.StructMembers.member hx hsemi hmore⟩
      · refine wlp_close hts ?_
        rintro t ts' rfl hk
        exact ⟨[], [], [], by simp, Reads.StructMembers.done hk⟩

theorem ParseStructDeclaration_sound (p : Parser) (ts : List Token)
    (hts : p.lexer_.tokens = ts) :
    wlp ParseStructDeclaration (Sound Reads.StructDeclaration ts) p := by
  unfold ParseStructDeclaration
  refine wlp_expect hts (by decide) (Sound_of_not_ok _ _) ?_
  rintro - t ts1 q rfl hk hq -
  refine wlp_sub (ParseIdentifier_sound q ts1 hq) (Sound_of_not_ok _ _) ?_
  rintro i ts2 q2 ⟨hi⟩ hq2 -
  refine wlp_expect hq2 (by decide) (Sound_of_not_ok _ _) ?_
  rintro - t3 ts3 q3 rfl hk3 hq3 -
  rw [wlp_bind, wlp_remaining]
  refine wlp_mono (ParseStructDeclaration_loop_sound _ _ q3 ts3 _ _ _ hq3) ?_
  intro a p2 h2 hok2
  obtain ⟨y, rfl, cs', es', ms', rfl, hmore⟩ := h2 hok2
  exact ⟨_, rfl, by simpa using Reads.StructDeclaration.mk hk hi hk3 hmore⟩

theorem ParseUnionMember_sound (p : Parser) (ts : List Token) (hts : p.lexer_.tokens = ts) :
    wlp ParseUnionMember (Sound Reads.UnionMember ts) p := by
  unfold ParseUnionMember
  refine wlp_sub (ParseType_sound p ts hts) (Sound_of_not_ok _ _) ?_
  rintro ty ts2 q2 hty hq2 -
  refine wlp_sub (ParseIdentifier_sound q2 ts2 hq2) (Sound_of_not_ok _ _) ?_
  rintro i ts3 q3 ⟨hi⟩ hq3 -
  exact wlp_return hq3 (Reads.UnionMember.mk hty hi)

theorem ParseUnionDeclaration_loop_sound (identifier : Option Identifier) (n : Nat) :
    ∀ (p : Parser) (ts : List Token) (cs : List (Option ConstDeclaration))
      (es : List (Option EnumDeclaration)) (ms : List (Option UnionMember)),
      p.lexer_.tokens = ts →
      wlp (ParseUnionDeclaration.loop identifier n cs es ms)
        (Sound (fun ts x rest => ∃ cs' es' ms',
          x = UnionDeclaration.mk identifier (cs ++ cs') (es ++ es') (ms ++ ms') ∧
          Reads.UnionMembers ts cs' es' ms' rest) ts) p := by
  induction n with
  | zero => intro p ts _ _ _ _; exact wlp_exhausted _ _
  | succ n ih =>
    intro p ts cs es ms hts
    unfold ParseUnionDeclaration.loop
    rw [wlp_bind, wlp_Peek]
    split
    · refine wlp_member (ParseConstDeclaration_sound p ts hts) (Sound_of_not_ok _ _) ?_
      intro x semicolon ts' q hx hsemi hq _
      refine wlp_mono (ih q ts' _ _ _ hq) ?_
      intro a p2 h2 hok2
      obtain ⟨y, rfl, cs', es', ms', rfl, hmore⟩ := h2 hok2
      exact ⟨_, rfl, some x :: cs', es', ms', by simp,
        Reads.UnionMembers.const hx hsemi hmore⟩
    · refine wlp_member (ParseEnumDeclaration_sound p ts hts) (Sound_of_not_ok _ _) ?_
      intro x semicolon ts' q hx hsemi hq _
      refine wlp_mono (ih q ts' _ _ _ hq) ?_
      intro a p2 h2 hok2
      obtain ⟨y, rfl, cs', es', ms', rfl, hmore⟩ := h2 hok2
      exact ⟨_, rfl, cs', some x :: es', ms', by simp,
        Reads.UnionMembers.enum hx hsemi hmore⟩
    · rw [wlp_ite]
      split
      · refine wlp_member (ParseUnionMember_sound p ts hts) (Sound_of_not_ok _ _) ?_
        intro x semicolon ts' q hx hsemi hq _
        refine wlp_mono (ih q ts' _ _ _ hq) ?_
        intro a p2 h2 hok2
        obtain ⟨y, rfl, cs', es', ms', rfl, hmore⟩ := h2 hok2
        exact ⟨_, rfl, cs', es', some x :: ms', by simp,
          Reads.UnionMembers.member hx hsemi hmore⟩
      · refine wlp_close hts ?_
        rintro t ts' rfl hk
        exact ⟨[], [], [], by simp, Reads.UnionMembers.done hk⟩

theorem ParseUnionDeclaration_sound (p : Parser) (ts : List Token)
    (hts : p.lexer_.tokens = ts) :
    wlp ParseUnionDeclaration (Sound Reads.UnionDeclaration ts) p := by
  unfold ParseUnionDeclaration
  refine wlp_expect hts (by decide) (Sound_of_not_ok _ _) ?_
  rintro - t ts1 q rfl hk hq -
  refine wlp_sub (ParseIdentifier_sound q ts1 hq) (Sound_of_not_ok _ _) ?_
  rintro i ts2 q2 ⟨hi⟩ hq2 -
  refine wlp_expect hq2 (by decide) (Sound_of_not_ok _ _) ?_
  rintro - t3 ts3 q3 rfl hk3 hq3 -
  rw [wlp_bind, wlp_remaining]
  refine wlp_mono (ParseUnionDeclaration_loop_sound _ _ q3 ts3 _ _ _ hq3) ?_
  intro a p2 h2 hok2
  obtain ⟨y, rfl, cs', es', ms', rfl, hmore⟩ := h2 hok2
  exact ⟨_, rfl, by simpa using Reads.UnionDeclaration.mk hk hi hk3 hmore⟩

theorem ParseFile_declarations_sound (identifier : Option CompoundIdentifier)
    (using_list : List (Option Using)) (n : Nat) :
    ∀ (p : Parser) (ts : List Token) (cs : List (Option ConstDeclaration))
      (es : List (Option EnumDeclaration)) (is : List (Option InterfaceDeclaration))
      (ss : List (Option StructDeclaration)) (us : List (Option UnionDeclaration)),
      p.lexer_.tokens = ts →
      wlp (ParseFile.declarations identifier using_list n cs es is ss us)
        (Sound (fun ts x rest => ∃ d : Reads.DeclarationLists,
          x = File.mk identifier using_list (cs ++ d.const_declaration_list)
            (es ++ d.enum_declaration_list) (is ++ d.interface_declaration_list)
            (ss ++ d.struct_declaration_list) (us ++ d.union_declaration_list) ∧
          Reads.Declarations ts d rest) ts) p := by
  induction n with
  | zero => intro p ts _ _ _ _ _ _; exact wlp_exhausted _ _
  | succ n ih =>
    intro p ts cs es is ss us hts
    unfold ParseFile.declarations
    rw [wlp_bind, wlp_Peek]
    split
    · refine wlp_declaration (ParseConstDeclaration_sound p ts hts) (Sound_of_not_ok _ _) ?_
      intro x semicolon ts' q hx hsemi hq _
      refine wlp_mono (ih q ts' _ _ _ _ _ hq) ?_
      intro a p2 h2 hok2
      obtain ⟨y, rfl, d, rfl, hmore⟩ := h2 hok2
      exact ⟨_, rfl, _, by simp, Reads.Declarations.const hx hsemi hmore⟩
    · refine wlp_declaration (ParseEnumDeclaration_sound p ts hts) (Sound_of_not_ok _ _) ?_
      intro x semicolon ts' q hx hsemi hq _
      refine wlp_mono (ih q ts' _ _ _ _ _ hq) ?_
      intro a p2 h2 hok2
      obtain ⟨y, rfl, d, rfl, hmore⟩ := h2 hok2
      exact ⟨_, rfl, _, by simp, Reads.Declarations.enum hx hsemi hmore⟩
    · refine wlp_declaration (ParseInterfaceDeclaration_sound p ts hts)
        (Sound_of_not_ok _ _) ?_
      intro x semicolon ts' q hx hsemi hq _
      refine wlp_mono (ih q ts' _ _ _ _ _ hq) ?_
      intro a p2 h2 hok2
      obtain ⟨y, rfl, d, rfl, hmore⟩ := h2 hok2
      exact ⟨_, rfl, _, by simp, Reads.Declarations.interface hx hsemi hmore⟩
    · refine wlp_declaration (ParseStructDeclaration_sound p ts hts) (Sound_of_not_ok _ _) ?_
      intro x semicolon ts' q hx hsemi hq _
      refine wlp_mono (ih q ts' _ _ _ _ _ hq) ?_
      intro a p2 h2 hok2
      obtain ⟨y, rfl, d, rfl, hmore⟩ := h2 hok2
      exact ⟨_, rfl, _, by simp, Reads.Declarations.struct hx hsemi hmore⟩
    · refine wlp_declaration (ParseUnionDeclaration_sound p ts hts) (Sound_of_not_ok _ _) ?_
      intro x semicolon ts' q hx hsemi hq _
      refine wlp_mono (ih q ts' _ _ _ _ _ hq) ?_
      intro a p2 h2 hok2
      obtain ⟨y, rfl, d, rfl, hmore⟩ := h2 hok2
      exact ⟨_, rfl, _, by simp, Reads.Declarations.union hx hsemi hmore⟩
    · simp only [wlp_bind, wlp_ConsumeToken, wlp_Ok, wlp_ite, wlp_Fail, wlp_pure]
      by_cases hk : p.last_token_.kind = Kind.EndOfFile
      · simp only [hk, if_true, Parser.advance_ok]
        split
        · exact Sound_of_not_ok _ _ _ _ (by simp)
        · intro _
          refine ⟨_, rfl, Reads.DeclarationLists.mk [] [] [] [] [], by simp, ?_⟩
          have := @Reads.Declarations.done ts (by rw [← last_token_kind hts]; exact hk)
          simpa [Parser.advance, hts] using this
      · simp only [hk, if_false, Parser.failed_ok, Bool.not_false, if_true]
        exact Sound_of_not_ok _ _ _ _ (by simp)

theorem ParseFile_usings_sound (identifier : Option CompoundIdentifier) (n : Nat) :
    ∀ (p : Parser) (ts : List Token) (using_list : List (Option Using)),
      p.lexer_.tokens = ts →
      wlp (ParseFile.usings identifier n using_list)
        (Sound (fun ts x rest => ∃ (more : List (Option Using)) (r : List Token)
          (d : Reads.DeclarationLists),
          Reads.Usings ts more r ∧
          x = File.mk identifier (using_list ++ more) d.const_declaration_list
            d.enum_declaration_list d.interface_declaration_list d.struct_declaration_list
            d.union_declaration_list ∧
          Reads.Declarations r d rest) ts) p := by
  induction n with
  | zero => intro p ts _ _; exact wlp_exhausted _ _
  | succ n ih =>
    intro p ts using_list hts
    unfold ParseFile.usings
    rw [wlp_bind, wlp_Peek]
    split
    · refine wlp_declaration (ParseUsing_sound p ts hts) (Sound_of_not_ok _ _) ?_
      intro x semicolon ts' q hx hsemi hq _
      refine wlp_mono (ih q ts' _ hq) ?_
      intro a p2 h2 hok2
      obtain ⟨y, rfl, more, r, d, hmore, rfl, hd⟩ := h2 hok2
      exact ⟨_, rfl, some x :: more, r, d, Reads.Usings.more hx hsemi hmore, by simp, hd⟩
    · next hk =>
      rw [wlp_bind, wlp_remaining]
      refine wlp_mono (ParseFile_declarations_sound _ _ _ p ts _ _ _ _ _ hts) ?_
      intro a p2 h2 hok2
      obtain ⟨y, rfl, d, rfl, hd⟩ := h2 hok2
      refine ⟨_, rfl, [], ts, d, Reads.Usings.done ?_, by simp, hd⟩
      rw [← last_token_kind hts]
      exact hk

theorem ParseFile_sound (p : Parser) (ts : List Token) (hts : p.lexer_.tokens = ts) :
    wlp ParseFile (Sound Reads.File ts) p := by
  unfold ParseFile
  refine wlp_expect hts (by decide) (Sound_of_not_ok _ _) ?_
  rintro - t ts1 q rfl hk hq -
  refine wlp_sub (ParseCompoundIdentifier_sound q ts1 hq) (Sound_of_not_ok _ _) ?_
  rintro x ts2 q2 hx hq2 -
  refine wlp_expect hq2 (by decide) (Sound_of_not_ok _ _) ?_
  rintro - t3 ts3 q3 rfl hk3 hq3 -
  rw [wlp_bind, wlp_remaining]
  refine wlp_mono (ParseFile_usings_sound _ _ q3 ts3 _ hq3) ?_
  intro a p2 h2 hok2
  obtain ⟨y, rfl, more, r, d, hmore, rfl, hd⟩ := h2 hok2
  exact ⟨_, rfl, by simpa using Reads.File.mk hk hx hk3 hmore hd⟩

/-! ## Running the productions on tokens that a healthy parser can read -/

@[simp] theorem Parser.at_tokens (p : Parser) (ts : List Token) :
    (p.at ts).lexer_.tokens = ts := rfl

@[simp] theorem Parser.at_ok (p : Parser) (ts : List Token) : (p.at ts).ok_ = p.ok_ := rfl

@[simp] theorem Parser.at_at (p : Parser) (ts ts' : List Token) :
    (p.at ts).at ts' = p.at ts' := rfl

@[simp] theorem Parser.at_advance (p : Parser) (t : Token) (ts : List Token) :
    (p.at (t :: ts)).advance = p.at ts := rfl

@[simp] theorem Parser.at_last_token (p : Parser) (t : Token) (ts : List Token) :
    (p.at (t :: ts)).last_token_ = t := rfl

theorem Parser.at_self (p : Parser) : p.at p.lexer_.tokens = p := rfl

theorem Parser.at_last_kind (p : Parser) (ts : List Token) :
    (p.at ts).last_token_.kind = next ts :=
  last_token_kind rfl

theorem bind_eq {α β : Type} {m : M α} {f : α → M β} {p p1 : Parser} {a : α}
    (h : m p = some (a, p1)) : (m >>= f) p = f a p1 := by
  show M.bind m f p = f a p1
  unfold M.bind
  rw [h]

theorem Peek_at (p : Parser) (ts : List Token) : Peek (p.at ts) = some (next ts, p.at ts) := by
  show some ((p.at ts).last_token_.kind, p.at ts) = _
  rw [Parser.at_last_kind]

theorem Ok_at (p : Parser) (ts : List Token) : Ok (p.at ts) = some (p.ok_, p.at ts) := rfl

theorem remaining_at (p : Parser) (ts : List Token) :
    remaining (p.at ts) = some (ts.length, p.at ts) := rfl

theorem ConsumeToken_at {p : Parser} {t : Token} {ts : List Token} {kind : Kind}
    (hk : t.kind = kind) : ConsumeToken kind (p.at (t :: ts)) = some (t, p.at ts) := by
  rw [ConsumeToken_eq]
  simp [hk]

theorem MaybeConsumeToken_at {p : Parser} {t : Token} {ts : List Token} {kind : Kind}
    (hk : t.kind = kind) : MaybeConsumeToken kind (p.at (t :: ts)) = some (true, p.at ts) := by
  rw [MaybeConsumeToken_eq]
  simp [hk]

theorem MaybeConsumeToken_at_not {p : Parser} {ts : List Token} {kind : Kind}
    (hk : next ts ≠ kind) : MaybeConsumeToken kind (p.at ts) = some (false, p.at ts) := by
  rw [MaybeConsumeToken_eq, Parser.at_last_kind]
  simp [hk]

/-- The idiom `ConsumeToken(kind); if (!Ok()) return Fail(); ...` on the expected token. -/
theorem run_expect {β : Type} {kind : Kind} {K : Token → M (Option β)} {p : Parser}
    {t : Token} {ts : List Token} (hk : t.kind = kind) (hok : p.ok_ = true) :
    (ConsumeToken kind >>= fun t => Ok >>= fun ok => if (!ok) = true then Fail else K t)
      (p.at (t :: ts)) = K t (p.at ts) := by
  rw [bind_eq (ConsumeToken_at hk), bind_eq (Ok_at p ts)]
  simp [hok]

/-- The idiom `auto x = ParseX(); if (!Ok()) return Fail(); ...` when `ParseX` succeeds. -/
theorem run_sub {α β : Type} {m : M (Option α)} {K : Option α → M (Option β)} {p : Parser}
    {ts rest : List Token} {a : Option α} (h : m (p.at ts) = some (a, p.at rest))
    (hok : p.ok_ = true) :
    (m >>= fun a => Ok >>= fun ok => if (!ok) = true then Fail else K a) (p.at ts) =
      K a (p.at rest) := by
  rw [bind_eq h, bind_eq (Ok_at p rest)]
  simp [hok]

/-- The idiom `if (MaybeConsumeToken(kind)) { if (!Ok()) return Fail(); ... }` on that
token. -/
theorem run_maybe {β : Type} {kind : Kind} {A B : M (Option β)} {p : Parser} {t : Token}
    {ts : List Token} (hk : t.kind = kind) (hok : p.ok_ = true) :
    (MaybeConsumeToken kind >>= fun b => if b = true then
      Ok >>= fun ok => if (!ok) = true then Fail else A else B) (p.at (t :: ts)) =
      A (p.at ts) := by
  rw [bind_eq (MaybeConsumeToken_at hk)]
  simp only [if_true]
  rw [bind_eq (Ok_at p ts)]
  simp [hok]

/-- The idiom `if (MaybeConsumeToken(kind)) ...` on that token. -/
theorem run_maybe_plain {β : Type} {kind : Kind} {A B : M β} {p : Parser} {t : Token}
    {ts : List Token} (hk : t.kind = kind) :
    (MaybeConsumeToken kind >>= fun b => if b = true then A else B) (p.at (t :: ts)) =
      A (p.at ts) := by
  rw [bind_eq (MaybeConsumeToken_at hk)]
  simp

/-- The idiom `if (MaybeConsumeToken(kind)) ...` on another token. -/
theorem run_maybe_not {β : Type} {kind : Kind} {A B : M β} {p : Parser} {ts : List Token}
    (hk : next ts ≠ kind) :
    (MaybeConsumeToken kind >>= fun b => if b = true then A else B) (p.at ts) =
      B (p.at ts) := by
  rw [bind_eq (MaybeConsumeToken_at_not hk)]
  simp

theorem run_nullability {β : Type} {f : Nullability → β} {p : Parser} {ts rest : List Token}
    {n : Nullability} (h : Reads.Nullability ts n rest) :
    (MaybeConsumeToken Kind.Question >>= fun b =>
      if b = true then pure (some (f Nullability.Nullable))
      else pure (some (f Nullability.Nonnullable))) (p.at ts) = some (some (f n), p.at rest) := by
  cases h with
  | nullable hk => rw [run_maybe_plain hk]; rfl
  | nonnullable hk => rw [run_maybe_not hk]; rfl

theorem ParseIdentifier_complete {ts rest : List Token} {x : Identifier}
    (h : Reads.Identifier ts x rest) (p : Parser) (hok : p.ok_ = true) :
    ParseIdentifier (p.at ts) = some (some x, p.at rest) := by
  obtain ⟨hk⟩ := h
  unfold ParseIdentifier
  rw [run_expect hk hok]
  rfl

theorem wp_eq_iff {α : Type} {m : M α} {p q : Parser} {x : α} :
    wp m (fun a p' => a = x ∧ p' = q) p ↔ m p = some (x, q) := by
  constructor
  · rintro ⟨a, p', h, rfl, rfl⟩
    exact h
  · intro h
    exact ⟨x, q, h, rfl, rfl⟩

theorem wp_congr {α : Type} {m m' : M α} {p p' : Parser} (h : m p = m' p')
    (Q : α → Parser → Prop) : wp m Q p ↔ wp m' Q p' := by
  unfold wp
  rw [h]

theorem ParseCompoundIdentifier_loop_complete {ts rest : List Token}
    {more : List (Option Identifier)} (h : Reads.Components ts more rest) (p : Parser)
    (hok : p.ok_ = true) :
    ∀ (n : Nat) (components : List (Option Identifier)), ts.length < n →
      ParseCompoundIdentifier.loop n components (p.at ts) =
        some (some (CompoundIdentifier.mk (components ++ more)), p.at rest) := by
  induction h with
  | done hk =>
    intro n components hn
    cases n with
    | zero => simp at hn
    | succ n =>
      refine wp_eq_iff.1 ?_
      unfold ParseCompoundIdentifier.loop
      rw [wp_bind, wp_Peek, Parser.at_last_kind]
      split
      · next hdot => exact absurd hdot hk
      · exact (wp_pure _ _ _).2 ⟨by simp, rfl⟩
  | more hdot hid _ ih =>
    intro n components hn
    cases n with
    | zero => simp at hn
    | succ n =>
      refine wp_eq_iff.1 ?_
      unfold ParseCompoundIdentifier.loop
      rw [wp_bind, wp_Peek, Parser.at_last_kind]
      simp only [next, hdot]
      simp only [wp_bind, wp_ConsumeToken, wp_Ok, wp_ite, wp_pure, Parser.at_last_token, hdot,
        if_true, Parser.at_advance, Parser.at_ok, hok]
      refine (wp_of_eq (ParseIdentifier_complete (Reads.Identifier.mk hid) p hok) _).2 ?_
      simp only [wp_pure, Parser.at_ok, hok, Bool.not_true, Bool.false_eq_true, if_false]
      refine wp_eq_iff.2 ?_
      rw [ih n _ (by simp at hn; omega)]
      simp

theorem wp_run_expect {β : Type} {kind : Kind} {K : Token → M (Option β)}
    {Q : Option β → Parser → Prop} {p : Parser} {t : Token} {ts : List Token}
    (hk : t.kind = kind) (hok : p.ok_ = true) :
    wp (ConsumeToken kind >>= fun t => Ok >>= fun ok => if (!ok) = true then Fail else K t) Q
      (p.at (t :: ts)) ↔ wp (K t) Q (p.at ts) :=
  wp_congr (run_expect hk hok) Q

theorem wp_run_sub {α β : Type} {m : M (Option α)} {K : Option α → M (Option β)}
    {Q : Option β → Parser → Prop} {p : Parser} {ts rest : List Token} {a : Option α}
    (h : m (p.at ts) = some (a, p.at rest)) (hok : p.ok_ = true) :
    wp (m >>= fun a => Ok >>= fun ok => if (!ok) = true then Fail else K a) Q (p.at ts) ↔
      wp (K a) Q (p.at rest) :=
  wp_congr (run_sub h hok) Q

theorem wp_run_maybe {β : Type} {kind : Kind} {A B : M (Option β)}
    {Q : Option β → Parser → Prop} {p : Parser} {t : Token} {ts : List Token}
    (hk : t.kind = kind) (hok : p.ok_ = true) :
    wp (MaybeConsumeToken kind >>= fun b => if b = true then
      Ok >>= fun ok => if (!ok) = true then Fail else A else B) Q (p.at (t :: ts)) ↔
      wp A Q (p.at ts) :=
  wp_congr (run_maybe hk hok) Q

theorem wp_run_maybe_plain {β : Type} {kind : Kind} {A B : M β} {Q : β → Parser → Prop}
    {p : Parser} {t : Token} {ts : List Token} (hk : t.kind = kind) :
    wp (MaybeConsumeToken kind >>= fun b => if b = true then A else B) Q (p.at (t :: ts)) ↔
      wp A Q (p.at ts) :=
  wp_congr (run_maybe_plain hk) Q

theorem wp_run_maybe_not {β : Type} {kind : Kind} {A B : M β} {Q : β → Parser → Prop}
    {p : Parser} {ts : List Token} (hk : next ts ≠ kind) :
    wp (MaybeConsumeToken kind >>= fun b => if b = true then A else B) Q (p.at ts) ↔
      wp B Q (p.at ts) :=
  wp_congr (run_maybe_not hk) Q

/-- The idiom of the braced bodies on a member followed by `;`. -/
theorem wp_run_member {α β : Type} {m : M (Option α)} {K : Option α → M (Option β)}
    {Q : Option β → Parser → Prop} {p : Parser} {ts r : List Token} {semicolon : Token}
    {a : Option α} (h : m (p.at ts) = some (a, p.at (semicolon :: r)))
    (hsemi : semicolon.kind = Kind.Semicolon) (hok : p.ok_ = true) :
    wp (m >>= fun a => FailUnlessOk >>= fun _ => ConsumeToken Kind.Semicolon >>= fun _ =>
      Ok >>= fun ok => if (!ok) = true then Fail else K a) Q (p.at ts) ↔
      wp (K a) Q (p.at r) := by
  rw [wp_bind, wp_of_eq h, wp_bind, wp_FailUnlessOk]
  exact wp_run_expect hsemi hok

/-- The idiom of the top-level lists on a declaration followed by `;`. -/
theorem wp_run_declaration {α β : Type} {m : M (Option α)} {K : Option α → M (Option β)}
    {Q : Option β → Parser → Prop} {p : Parser} {ts r : List Token} {semicolon : Token}
    {a : Option α} (h : m (p.at ts) = some (a, p.at (semicolon :: r)))
    (hsemi : semicolon.kind = Kind.Semicolon) (hok : p.ok_ = true) :
    wp (m >>= fun a => Ok >>= fun ok => if (!ok) = true then Fail else
      ConsumeToken Kind.Semicolon >>= fun _ =>
      Ok >>= fun ok => if (!ok) = true then Fail else K a) Q (p.at ts) ↔
      wp (K a) Q (p.at r) := by
  rw [wp_run_sub h hok]
  exact wp_run_expect hsemi hok

/-- The end of a braced body on `}`. -/
theorem wp_run_close {β : Type} {x : β} {Q : Option β → Parser → Prop} {p : Parser}
    {t : Token} {ts : List Token} (hk : t.kind = Kind.RightCurly) :
    wp (ConsumeToken Kind.RightCurly >>= fun _ => FailUnlessOk >>= fun _ => pure (some x)) Q
      (p.at (t :: ts)) ↔ Q (some x) (p.at ts) := by
  rw [wp_bind, wp_of_eq (ConsumeToken_at hk), wp_bind, wp_FailUnlessOk, wp_pure]

theorem wp_run_nullability {β : Type} {f : Nullability → β} {Q : Option β → Parser → Prop}
    {p : Parser} {ts rest : List Token} {n : Nullability} (h : Reads.Nullability ts n rest) :
    wp (MaybeConsumeToken Kind.Question >>= fun b =>
      if b = true then pure (some (f Nullability.Nullable))
      else pure (some (f Nullability.Nonnullable))) Q (p.at ts) ↔
      Q (some (f n)) (p.at rest) :=
  wp_of_eq (run_nullability h) Q

/-- What a production leaves is not longer than what it started from. -/
theorem length_le_of_run {α : Type} {m : M (Option α)} {pop : α → Bool} {p : Parser}
    {ts rest : List Token} {a : Option α} (hs : wp m (Post pop (p.at ts)) (p.at ts))
    (h : m (p.at ts) = some (a, p.at rest)) : rest.length ≤ ts.length := by
  obtain ⟨a', p', h', hev, -⟩ := hs
  rw [h] at h'
  cases h'
  exact hev.length_le

theorem ParseCompoundIdentifier_complete {ts rest : List Token} {x : CompoundIdentifier}
    (h : Reads.CompoundIdentifier ts x rest) (p : Parser) (hok : p.ok_ = true) :
    ParseCompoundIdentifier (p.at ts) = some (some x, p.at rest) := by
  obtain ⟨hid, hmore⟩ := h
  refine wp_eq_iff.1 ?_
  unfold ParseCompoundIdentifier
  refine (wp_run_sub (ParseIdentifier_complete (Reads.Identifier.mk hid) p hok) hok).2 ?_
  rw [wp_bind, wp_remaining]
  refine wp_eq_iff.2 ?_
  rw [ParseCompoundIdentifier_loop_complete hmore p hok _ _ (by simp)]
  rfl

theorem CompoundIdentifier_next {ts rest : List Token} {x : CompoundIdentifier}
    (h : Reads.CompoundIdentifier ts x rest) : next ts = Kind.Identifier := by
  obtain ⟨hid, -⟩ := h
  exact hid

theorem ParseNumericLiteral_complete {ts rest : List Token} {x : NumericLiteral}
    (h : Reads.NumericLiteral ts x rest) (p : Parser) (hok : p.ok_ = true) :
    ParseNumericLiteral (p.at ts) = some (some x, p.at rest) := by
  obtain ⟨hk⟩ := h
  unfold ParseNumericLiteral
  rw [run_expect hk hok]
  rfl

theorem ParseLiteral_complete {ts rest : List Token} {x : Literal}
    (h : Reads.Literal ts x rest) (p : Parser) (hok : p.ok_ = true) :
    ParseLiteral (p.at ts) = some (some x, p.at rest) := by
  refine wp_eq_iff.1 ?_
  unfold ParseLiteral
  rw [wp_bind, wp_Peek, Parser.at_last_kind]
  cases h with
  | string hk =>
    simp only [next, hk]
    refine wp_eq_iff.2 ?_
    unfold ParseStringLiteral
    rw [run_expect hk hok]
    rfl
  | numeric hk =>
    simp only [next, hk]
    rw [wp_bind, wp_of_eq (ParseNumericLiteral_complete (Reads.NumericLiteral.mk hk) p hok)]
    exact (wp_pure _ _ _).2 ⟨rfl, rfl⟩
  | true_ hk =>
    simp only [next, hk]
    refine wp_eq_iff.2 ?_
    unfold ParseTrueLiteral
    rw [run_expect hk hok]
    rfl
  | false_ hk =>
    simp only [next, hk]
    refine wp_eq_iff.2 ?_
    unfold ParseFalseLiteral
    rw [run_expect hk hok]
    rfl
  | default hk =>
    simp only [next, hk]
    refine wp_eq_iff.2 ?_
    unfold ParseDefaultLiteral
    rw [run_expect hk hok]
    rfl

theorem Literal_next {ts rest : List Token} {x : Literal} (h : Reads.Literal ts x rest) :
    TOKEN_LITERAL_CASES (next ts) = true ∧ next ts ≠ Kind.Identifier := by
  cases h <;> simp_all [next, TOKEN_LITERAL_CASES]

theorem ParseConstant_complete {ts rest : List Token} {x : Constant}
    (h : Reads.Constant ts x rest) (p : Parser) (hok : p.ok_ = true) :
    ParseConstant (p.at ts) = some (some x, p.at rest) := by
  refine wp_eq_iff.1 ?_
  unfold ParseConstant
  rw [wp_bind, wp_Peek, Parser.at_last_kind]
  cases h with
  | identifier hx =>
    simp only [CompoundIdentifier_next hx]
    refine (wp_run_sub (ParseCompoundIdentifier_complete hx p hok) hok).2 ?_
    exact (wp_pure _ _ _).2 ⟨rfl, rfl⟩
  | literal hx =>
    obtain ⟨hlit, hne⟩ := Literal_next hx
    split
    · next hid => exact absurd hid hne
    · rw [wp_ite, if_pos hlit]
      refine (wp_run_sub (ParseLiteral_complete hx p hok) hok).2 ?_
      exact (wp_pure _ _ _).2 ⟨rfl, rfl⟩

theorem ParseUsing_complete {ts rest : List Token} {x : Using}
    (h : Reads.Using ts x rest) (p : Parser) (hok : p.ok_ = true) :
    ParseUsing (p.at ts) = some (some x, p.at rest) := by
  refine wp_eq_iff.1 ?_
  unfold ParseUsing
  cases h with
  | plain hk hx hne =>
    refine (wp_run_expect hk hok).2 ?_
    refine (wp_run_sub (ParseCompoundIdentifier_complete hx p hok) hok).2 ?_
    refine (wp_run_maybe_not hne).2 ?_
    exact (wp_pure _ _ _).2 ⟨rfl, rfl⟩
  | renamed hk hx has hid =>
    refine (wp_run_expect hk hok).2 ?_
    refine (wp_run_sub (ParseCompoundIdentifier_complete hx p hok) hok).2 ?_
    refine (wp_run_maybe has hok).2 ?_
    refine (wp_run_sub (ParseIdentifier_complete (Reads.Identifier.mk hid) p hok) hok).2 ?_
    exact (wp_pure _ _ _).2 ⟨rfl, rfl⟩

theorem ParseStringType_complete {string : Token} {ts r rest : List Token}
    {c : Option Constant} {n : Nullability} (hk : string.kind = Kind.String)
    (hc : Reads.Count ts c r) (hn : Reads.Nullability r n rest) (p : Parser)
    (hok : p.ok_ = true) :
    ParseStringType (p.at (string :: ts)) = some (some (Type_.StringType c n), p.at rest) := by
  refine wp_eq_iff.1 ?_
  unfold ParseStringType
  refine (wp_run_expect hk hok).2 ?_
  cases hc with
  | some hcolon hx =>
    refine (wp_run_maybe hcolon hok).2 ?_
    refine (wp_run_sub (ParseConstant_complete hx p hok) hok).2 ?_
    unfold ParseStringType.finish
    exact (wp_run_nullability hn).2 ⟨rfl, rfl⟩
  | none hne =>
    refine (wp_run_maybe_not hne).2 ?_
    unfold ParseStringType.finish
    exact (wp_run_nullability hn).2 ⟨rfl, rfl⟩

theorem ParseHandleType_complete {handle : Token} {ts r rest : List Token}
    {s : HandleSubtype} {n : Nullability} (hk : handle.kind = Kind.Handle)
    (hs : Reads.HandleSubtype ts s r) (hn : Reads.Nullability r n rest) (p : Parser)
    (hok : p.ok_ = true) :
    ParseHandleType (p.at (handle :: ts)) = some (some (Type_.HandleType s n), p.at rest) := by
  refine wp_eq_iff.1 ?_
  unfold ParseHandleType
  refine (wp_run_expect hk hok).2 ?_
  cases hs with
  | generic hne =>
    refine (wp_run_maybe_not hne).2 ?_
    unfold ParseHandleType.finish
    exact (wp_run_nullability hn).2 ⟨rfl, rfl⟩
  | subtype hleft hsub hright =>
    refine (wp_run_maybe hleft hok).2 ?_
    rw [wp_bind, wp_Peek, Parser.at_last_kind]
    simp only [next, hsub]
    rw [wp_bind, wp_Consume, wp_bind, wp_Ok]
    simp only [Parser.at_advance, Parser.at_ok, hok, Bool.not_true, Bool.false_eq_true,
      if_false]
    refine (wp_run_expect hright hok).2 ?_
    unfold ParseHandleType.finish
    exact (wp_run_nullability hn).2 ⟨rfl, rfl⟩

theorem ParsePrimitiveType_complete {ts rest : List Token} {x : PrimitiveType}
    (h : Reads.PrimitiveType ts x rest) (p : Parser) (hok : p.ok_ = true) :
    ParsePrimitiveType (p.at ts) = some (some x, p.at rest) := by
  obtain ⟨hk⟩ := h
  refine wp_eq_iff.1 ?_
  unfold ParsePrimitiveType
  rw [wp_bind, wp_Peek, Parser.at_last_kind]
  simp only [next, hk]
  rw [wp_bind, wp_Peek]
  refine (wp_run_expect rfl hok).2 ?_
  exact (wp_pure _ _ _).2 ⟨rfl, rfl⟩

theorem ParseRequestType_complete {request left right : Token} {ts r rest : List Token}
    {x : CompoundIdentifier} {n : Nullability} (hk : request.kind = Kind.Request)
    (hleft : left.kind = Kind.LeftAngle) (hx : Reads.CompoundIdentifier ts x (right :: r))
    (hright : right.kind = Kind.RightAngle) (hn : Reads.Nullability r n rest) (p : Parser)
    (hok : p.ok_ = true) :
    ParseRequestType (p.at (request :: left :: ts)) =
      some (some (Type_.RequestType (some x) n), p.at rest) := by
  refine wp_eq_iff.1 ?_
  unfold ParseRequestType
  refine (wp_run_expect hk hok).2 ?_
  refine (wp_run_expect hleft hok).2 ?_
  refine (wp_run_sub (ParseCompoundIdentifier_complete hx p hok) hok).2 ?_
  refine (wp_run_expect hright hok).2 ?_
  exact (wp_run_nullability hn).2 ⟨rfl, rfl⟩

theorem ParseArrayType_complete {rec : M (Option Type_)} {array left right colon : Token}
    {ts r rest : List Token} {e : Type_} {c : Constant} {p : Parser}
    (hk : array.kind = Kind.Array) (hleft : left.kind = Kind.LeftAngle)
    (he : rec (p.at ts) = some (some e, p.at (right :: colon :: r)))
    (hright : right.kind = Kind.RightAngle) (hcolon : colon.kind = Kind.Colon)
    (hc : Reads.Constant r c rest) (hok : p.ok_ = true) :
    ParseArrayType rec (p.at (array :: left :: ts)) =
      some (some (Type_.ArrayType (some e) (some c)), p.at rest) := by
  refine wp_eq_iff.1 ?_
  unfold ParseArrayType
  refine (wp_run_expect hk hok).2 ?_
  refine (wp_run_expect hleft hok).2 ?_
  refine (wp_run_sub he hok).2 ?_
  refine (wp_run_expect hright hok).2 ?_
  refine (wp_run_expect hcolon hok).2 ?_
  refine (wp_run_sub (ParseConstant_complete hc p hok) hok).2 ?_
  exact (wp_pure _ _ _).2 ⟨rfl, rfl⟩

theorem ParseVectorType_complete {rec : M (Option Type_)} {vector left right : Token}
    {ts r r2 rest : List Token} {e : Type_} {c : Option Constant} {n : Nullability}
    {p : Parser} (hk : vector.kind = Kind.Vector) (hleft : left.kind = Kind.LeftAngle)
    (he : rec (p.at ts) = some (some e, p.at (right :: r)))
    (hright : right.kind = Kind.RightAngle) (hc : Reads.Count r c r2)
    (hn : Reads.Nullability r2 n rest) (hok : p.ok_ = true) :
    ParseVectorType rec (p.at (vector :: left :: ts)) =
      some (some (Type_.VectorType (some e) c n), p.at rest) := by
  refine wp_eq_iff.1 ?_
  unfold ParseVectorType
  refine (wp_run_expect hk hok).2 ?_
  refine (wp_run_expect hleft hok).2 ?_
  refine (wp_run_sub he hok).2 ?_
  refine (wp_run_expect hright hok).2 ?_
  cases hc with
  | some hcolon hx =>
    refine (wp_run_maybe hcolon hok).2 ?_
    refine (wp_run_sub (ParseConstant_complete hx p hok) hok).2 ?_
    unfold ParseVectorType.finish
    exact (wp_run_nullability hn).2 ⟨rfl, rfl⟩
  | none hne =>
    refine (wp_run_maybe_not hne).2 ?_
    unfold ParseVectorType.finish
    exact (wp_run_nullability hn).2 ⟨rfl, rfl⟩

theorem type_kind_cases {k : Kind} {s : TypeKind} (h : ParsePrimitiveType.type_kind k = some s) :
    TOKEN_PRIMITIVE_TYPE_CASES k = true ∧ k ≠ Kind.Identifier ∧ k ≠ Kind.Array ∧
      k ≠ Kind.Vector ∧ k ≠ Kind.String ∧ k ≠ Kind.Handle ∧ k ≠ Kind.Request := by
  cases k <;> simp [ParsePrimitiveType.type_kind] at h <;>
    simp [TOKEN_PRIMITIVE_TYPE_CASES]

theorem ParseType_go_complete {ts rest : List Token} {x : Type_} (h : Reads.Type_ ts x rest)
    (p : Parser) (hok : p.ok_ = true) :
    ∀ n : Nat, ts.length < n → ParseType.go n (p.at ts) = some (some x, p.at rest) := by
  induction h with
  | identifier hx hn =>
    intro n hlt
    cases n with
    | zero => simp at hlt
    | succ n =>
      refine wp_eq_iff.1 ?_
      unfold ParseType.go
      rw [wp_bind, wp_Peek, Parser.at_last_kind]
      simp only [CompoundIdentifier_next hx]
      refine (wp_run_sub (ParseCompoundIdentifier_complete hx p hok) hok).2 ?_
      cases hn with
      | nullable hq =>
        refine (wp_run_maybe hq hok).2 ?_
        exact (wp_pure _ _ _).2 ⟨rfl, rfl⟩
      | nonnullable hq =>
        refine (wp_run_maybe_not hq).2 ?_
        exact (wp_pure _ _ _).2 ⟨rfl, rfl⟩
  | array hk hleft _ hright hcolon hc ih =>
    intro n hlt
    cases n with
    | zero => simp at hlt
    | succ n =>
      refine wp_eq_iff.1 ?_
      unfold ParseType.go
      rw [wp_bind, wp_Peek, Parser.at_last_kind]
      simp only [next, hk]
      refine (wp_run_sub (ParseArrayType_complete hk hleft
        (ih n (by simp at hlt; omega)) hright hcolon hc hok) hok).2 ?_
      exact (wp_pure _ _ _).2 ⟨rfl, rfl⟩
  | vector hk hleft _ hright hc hn ih =>
    intro n hlt
    cases n with
    | zero => simp at hlt
    | succ n =>
      refine wp_eq_iff.1 ?_
      unfold ParseType.go
      rw [wp_bind, wp_Peek, Parser.at_last_kind]
      simp only [next, hk]
      refine (wp_run_sub (ParseVectorType_complete hk hleft
        (ih n (by simp at hlt; omega)) hright hc hn hok) hok).2 ?_
      exact (wp_pure _ _ _).2 ⟨rfl, rfl⟩
  | string hk hc hn =>
    intro n hlt
    cases n with
    | zero => simp at hlt
    | succ n =>
      refine wp_eq_iff.1 ?_
      unfold ParseType.go
      rw [wp_bind, wp_Peek, Parser.at_last_kind]
      simp only [next, hk]
      refine (wp_run_sub (ParseStringType_complete hk hc hn p hok) hok).2 ?_
      exact (wp_pure _ _ _).2 ⟨rfl, rfl⟩
  | handle hk hs hn =>
    intro n hlt
    cases n with
    | zero => simp at hlt
    | succ n =>
      refine wp_eq_iff.1 ?_
      unfold ParseType.go
      rw [wp_bind, wp_Peek, Parser.at_last_kind]
      simp only [next, hk]
      refine (wp_run_sub (ParseHandleType_complete hk hs hn p hok) hok).2 ?_
      exact (wp_pure _ _ _).2 ⟨rfl, rfl⟩
  | request hk hleft hx hright hn =>
    intro n hlt
    cases n with
    | zero => simp at hlt
    | succ n =>
      refine wp_eq_iff.1 ?_
      unfold ParseType.go
      rw [wp_bind, wp_Peek, Parser.at_last_kind]
      simp only [next, hk]
      refine (wp_run_sub (ParseRequestType_complete hk hleft hx hright hn p hok) hok).2 ?_
      exact (wp_pure _ _ _).2 ⟨rfl, rfl⟩
  | @primitive t rest k hk =>
    intro n hlt
    cases n with
    | zero => simp at hlt
    | succ n =>
      have hrun := ParsePrimitiveType_complete (@Reads.PrimitiveType.mk t rest k hk) p hok
      refine wp_eq_iff.1 ?_
      unfold ParseType.go
      rw [wp_bind, wp_Peek, Parser.at_last_kind]
      simp only [next]
      cases hkind : t.kind <;> simp [ParsePrimitiveType.type_kind, hkind] at hk <;>
        simp only [TOKEN_PRIMITIVE_TYPE_CASES, if_true] <;>
        exact (wp_run_sub hrun hok).2 ((wp_pure _ _ _).2 ⟨rfl, rfl⟩)

theorem ParseType_complete {ts rest : List Token} {x : Type_} (h : Reads.Type_ ts x rest)
    (p : Parser) (hok : p.ok_ = true) :
    ParseType (p.at ts) = some (some x, p.at rest) := by
  refine wp_eq_iff.1 ?_
  unfold ParseType
  rw [wp_bind, wp_remaining]
  exact wp_eq_iff.2 (ParseType_go_complete h p hok _ (by simp))

theorem TOKEN_TYPE_CASES_of_primitive {k : Kind} (h : TOKEN_PRIMITIVE_TYPE_CASES k = true) :
    TOKEN_TYPE_CASES k = true := by
  cases k <;> simp [TOKEN_PRIMITIVE_TYPE_CASES] at h <;> rfl

theorem Type_next {ts rest : List Token} {x : Type_} (h : Reads.Type_ ts x rest) :
    TOKEN_TYPE_CASES (next ts) = true := by
  cases h with
  | identifier hx _ => rw [CompoundIdentifier_next hx]; rfl
  | array hk => simp only [next, hk]; rfl
  | vector hk => simp only [next, hk]; rfl
  | string hk => simp only [next, hk]; rfl
  | handle hk => simp only [next, hk]; rfl
  | request hk => simp only [next, hk]; rfl
  | primitive hk => exact TOKEN_TYPE_CASES_of_primitive (type_kind_cases hk).1

theorem not_const_enum_of_type {k : Kind} (h : TOKEN_TYPE_CASES k = true) :
    k ≠ Kind.Const ∧ k ≠ Kind.Enum := by
  constructor <;> rintro rfl <;> simp [TOKEN_TYPE_CASES, TOKEN_PRIMITIVE_TYPE_CASES] at h

theorem ParseConstDeclaration_complete {ts rest : List Token} {x : ConstDeclaration}
    (h : Reads.ConstDeclaration ts x rest) (p : Parser) (hok : p.ok_ = true) :
    ParseConstDeclaration (p.at ts) = some (some x, p.at rest) := by
  obtain ⟨hk, hty, hid, heq, hc⟩ := h
  refine wp_eq_iff.1 ?_
  unfold ParseConstDeclaration
  refine (wp_run_expect hk hok).2 ?_
  refine (wp_run_sub (ParseType_complete hty p hok) hok).2 ?_
  refine (wp_run_sub (ParseIdentifier_complete (Reads.Identifier.mk hid) p hok) hok).2 ?_
  refine (wp_run_expect heq hok).2 ?_
  refine (wp_run_sub (ParseConstant_complete hc p hok) hok).2 ?_
  exact (wp_pure _ _ _).2 ⟨rfl, rfl⟩

theorem ConstDeclaration_next {ts rest : List Token} {x : ConstDeclaration}
    (h : Reads.ConstDeclaration ts x rest) : next ts = Kind.Const := by
  obtain ⟨hk, -⟩ := h
  exact hk

theorem ParseEnumMember_complete {ts rest : List Token} {x : EnumMember}
    (h : Reads.EnumMember ts x rest) (p : Parser) (hok : p.ok_ = true) :
    ParseEnumMember (p.at ts) = some (some x, p.at rest) := by
  refine wp_eq_iff.1 ?_
  unfold ParseEnumMember
  cases h with
  | plain hid hne =>
    refine (wp_run_sub (ParseIdentifier_complete (Reads.Identifier.mk hid) p hok) hok).2 ?_
    refine (wp_run_maybe_not hne).2 ?_
    exact (wp_pure _ _ _).2 ⟨rfl, rfl⟩
  | identifier hid heq hx =>
    refine (wp_run_sub (ParseIdentifier_complete (Reads.Identifier.mk hid) p hok) hok).2 ?_
    refine (wp_run_maybe heq hok).2 ?_
    rw [wp_bind, wp_Peek, Parser.at_last_kind]
    simp only [CompoundIdentifier_next hx]
    refine (wp_run_sub (ParseCompoundIdentifier_complete hx p hok) hok).2 ?_
    exact (wp_pure _ _ _).2 ⟨rfl, rfl⟩
  | numeric hid heq hnum =>
    refine (wp_run_sub (ParseIdentifier_complete (Reads.Identifier.mk hid) p hok) hok).2 ?_
    refine (wp_run_maybe heq hok).2 ?_
    rw [wp_bind, wp_Peek, Parser.at_last_kind]
    simp only [next, hnum]
    refine (wp_run_sub (ParseNumericLiteral_complete (Reads.NumericLiteral.mk hnum) p hok)
      hok).2 ?_
    exact (wp_pure _ _ _).2 ⟨rfl, rfl⟩

theorem EnumMember_next {ts rest : List Token} {x : EnumMember}
    (h : Reads.EnumMember ts x rest) : next ts = Kind.Identifier := by
  cases h <;> assumption

theorem ParseEnumDeclaration_loop_complete (identifier : Option Identifier)
    (subtype : Option PrimitiveType) {ts rest : List Token} {more : List (Option EnumMember)}
    (h : Reads.EnumMembers ts more rest) (p : Parser) (hok : p.ok_ = true) :
    ∀ (n : Nat) (members : List (Option EnumMember)), ts.length < n →
      ParseEnumDeclaration.loop identifier subtype n members (p.at ts) =
        some (some (EnumDeclaration.mk identifier subtype (members ++ more)), p.at rest) := by
  induction h with
  | done hk =>
    intro n members hn
    cases n with
    | zero => simp at hn
    | succ n =>
      refine wp_eq_iff.1 ?_
      unfold ParseEnumDeclaration.loop
      rw [wp_bind, wp_Peek, Parser.at_last_kind, wp_ite]
      simp only [next, hk]
      rw [if_neg (by decide)]
      exact wp_run_close hk |>.2 ⟨by simp, rfl⟩
  | more hx hsemi _ ih =>
    intro n members hn
    cases n with
    | zero => simp at hn
    | succ n =>
      have hrun := ParseEnumMember_complete hx p hok
      have hlen := length_le_of_run (ParseEnumMember_spec _) hrun
      refine wp_eq_iff.1 ?_
      unfold ParseEnumDeclaration.loop
      rw [wp_bind, wp_Peek, Parser.at_last_kind, wp_ite, EnumMember_next hx,
        if_pos (show TOKEN_TYPE_CASES Kind.Identifier = true from rfl)]
      refine (wp_run_member hrun hsemi hok).2 ?_
      refine wp_eq_iff.2 ?_
      rw [ih n _ (by simp at hlen; omega)]
      simp

theorem ParseEnumDeclaration_body_complete (identifier : Option Identifier)
    (subtype : Option PrimitiveType) {open_ : Token} {ts rest : List Token}
    {ms : List (Option EnumMember)} (hopen : open_.kind = Kind.LeftCurly)
    (h : Reads.EnumMembers ts ms rest) (p : Parser) (hok : p.ok_ = true) :
    ParseEnumDeclaration.body identifier subtype (p.at (open_ :: ts)) =
      some (some (EnumDeclaration.mk identifier subtype ms), p.at rest) := by
  refine wp_eq_iff.1 ?_
  unfold ParseEnumDeclaration.body
  refine (wp_run_expect hopen hok).2 ?_
  rw [wp_bind, wp_remaining]
  refine wp_eq_iff.2 ?_
  rw [ParseEnumDeclaration_loop_complete _ _ h p hok _ _ (by simp)]
  rfl

theorem ParseEnumDeclaration_complete {ts rest : List Token} {x : EnumDeclaration}
    (h : Reads.EnumDeclaration ts x rest) (p : Parser) (hok : p.ok_ = true) :
    ParseEnumDeclaration (p.at ts) = some (some x, p.at rest) := by
  refine wp_eq_iff.1 ?_
  unfold ParseEnumDeclaration
  cases h with
  | plain hk hid hopen hms =>
    refine (wp_run_expect hk hok).2 ?_
    refine (wp_run_sub (ParseIdentifier_complete (Reads.Identifier.mk hid) p hok) hok).2 ?_
    refine (wp_run_maybe_not (by simp only [next, hopen]; decide)).2 ?_
    exact wp_eq_iff.2 (ParseEnumDeclaration_body_complete _ _ hopen hms p hok)
  | typed hk hid hcolon htype hopen hms =>
    refine (wp_run_expect hk hok).2 ?_
    refine (wp_run_sub (ParseIdentifier_complete (Reads.Identifier.mk hid) p hok) hok).2 ?_
    refine (wp_run_maybe hcolon hok).2 ?_
    refine (wp_run_sub (ParsePrimitiveType_complete (Reads.PrimitiveType.mk htype) p hok)
      hok).2 ?_
    exact wp_eq_iff.2 (ParseEnumDeclaration_body_complete _ _ hopen hms p hok)

theorem EnumDeclaration_next {ts rest : List Token} {x : EnumDeclaration}
    (h : Reads.EnumDeclaration ts x rest) : next ts = Kind.Enum := by
  cases h <;> assumption

theorem ParseParameter_complete {ts rest : List Token} {x : Parameter}
    (h : Reads.Parameter ts x rest) (p : Parser) (hok : p.ok_ = true) :
    ParseParameter (p.at ts) = some (some x, p.at rest) := by
  obtain ⟨hty, hid⟩ := h
  refine wp_eq_iff.1 ?_
  unfold ParseParameter
  refine (wp_run_sub (ParseType_complete hty p hok) hok).2 ?_
  refine (wp_run_sub (ParseIdentifier_complete (Reads.Identifier.mk hid) p hok) hok).2 ?_
  exact (wp_pure _ _ _).2 ⟨rfl, rfl⟩

theorem Parameter_next {ts rest : List Token} {x : Parameter}
    (h : Reads.Parameter ts x rest) : TOKEN_TYPE_CASES (next ts) = true := by
  obtain ⟨hty, -⟩ := h
  exact Type_next hty

theorem ParseParameterList_loop_complete {ts rest : List Token}
    {more : List (Option Parameter)} (h : Reads.MoreParameters ts more rest) (p : Parser)
    (hok : p.ok_ = true) :
    ∀ (n : Nat) (parameter_list : List (Option Parameter)), ts.length < n →
      ParseParameterList.loop n parameter_list (p.at ts) =
        some (some (ParameterList.mk (parameter_list ++ more)), p.at rest) := by
  induction h with
  | done hk =>
    intro n parameter_list hn
    cases n with
    | zero => simp at hn
    | succ n =>
      refine wp_eq_iff.1 ?_
      unfold ParseParameterList.loop
      rw [wp_bind, wp_Peek, Parser.at_last_kind, wp_ite, if_neg hk]
      exact (wp_pure _ _ _).2 ⟨by simp, rfl⟩
  | more hcomma hx _ ih =>
    intro n parameter_list hn
    cases n with
    | zero => simp at hn
    | succ n =>
      have hrun := ParseParameter_complete hx p hok
      have hlen := length_le_of_run (ParseParameter_spec _) hrun
      refine wp_eq_iff.1 ?_
      unfold ParseParameterList.loop
      rw [wp_bind, wp_Peek, Parser.at_last_kind, wp_ite,
        if_pos (show next (_ :: _) = Kind.Comma from hcomma)]
      refine (wp_run_expect hcomma hok).2 ?_
      rw [wp_bind, wp_Peek, Parser.at_last_kind, wp_ite, if_pos (Parameter_next hx)]
      refine (wp_run_sub hrun hok).2 ?_
      refine wp_eq_iff.2 ?_
      rw [ih n _ (by simp at hn; omega)]
      simp

theorem ParseParameterList_complete {ts rest : List Token} {x : ParameterList}
    (h : Reads.ParameterList ts x rest) (p : Parser) (hok : p.ok_ = true) :
    ParseParameterList (p.at ts) = some (some x, p.at rest) := by
  refine wp_eq_iff.1 ?_
  unfold ParseParameterList
  rw [wp_bind, wp_Peek, Parser.at_last_kind, wp_ite]
  cases h with
  | empty hk =>
    rw [if_neg (by simp [hk])]
    exact (wp_pure _ _ _).2 ⟨rfl, rfl⟩
  | cons hx hmore =>
    rw [if_pos (Parameter_next hx)]
    refine (wp_run_sub (ParseParameter_complete hx p hok) hok).2 ?_
    rw [wp_bind, wp_remaining]
    refine wp_eq_iff.2 ?_
    rw [ParseParameterList_loop_complete hmore p hok _ _ (by simp)]
    rfl

theorem ParseInterfaceMemberMethod_parse_params_complete {ts rest : List Token}
    {x : ParameterList} (h : Reads.Params ts x rest) (p : Parser) (hok : p.ok_ = true) :
    ParseInterfaceMemberMethod.parse_params (p.at ts) = some ((true, some x), p.at rest) := by
  obtain ⟨hopen, hx, hclose⟩ := h
  unfold ParseInterfaceMemberMethod.parse_params
  rw [bind_eq (ConsumeToken_at hopen), bind_eq (Ok_at p _)]
  simp only [hok, Bool.not_true, Bool.false_eq_true, if_false]
  rw [bind_eq (ParseParameterList_complete hx p hok), bind_eq (Ok_at p _)]
  simp only [hok, Bool.not_true, Bool.false_eq_true, if_false]
  rw [bind_eq (ConsumeToken_at hclose), bind_eq (Ok_at p _)]
  simp only [hok, Bool.not_true, Bool.false_eq_true, if_false]
  rfl

theorem wp_run_params {β : Type} {K : Bool × Option ParameterList → M (Option β)}
    {Q : Option β → Parser → Prop} {p : Parser} {ts rest : List Token} {x : ParameterList}
    (h : Reads.Params ts x rest) (hok : p.ok_ = true) :
    wp (ParseInterfaceMemberMethod.parse_params >>= fun r =>
      if (!r.1) = true then Fail else K r) Q (p.at ts) ↔ wp (K (true, some x)) Q (p.at rest) := by
  rw [wp_bind, wp_of_eq (ParseInterfaceMemberMethod_parse_params_complete h p hok)]
  simp

theorem ParseInterfaceMemberMethod_complete {ts rest : List Token}
    {x : InterfaceMemberMethod} (h : Reads.InterfaceMemberMethod ts x rest) (p : Parser)
    (hok : p.ok_ = true) :
    ParseInterfaceMemberMethod (p.at ts) = some (some x, p.at rest) := by
  refine wp_eq_iff.1 ?_
  unfold ParseInterfaceMemberMethod
  cases h with
  | event ho hcolon hev hid hr =>
    refine (wp_run_sub (ParseNumericLiteral_complete (Reads.NumericLiteral.mk ho) p hok)
      hok).2 ?_
    refine (wp_run_expect hcolon hok).2 ?_
    refine (wp_run_maybe_plain hev).2 ?_
    refine (wp_run_sub (ParseIdentifier_complete (Reads.Identifier.mk hid) p hok) hok).2 ?_
    refine (wp_run_params hr hok).2 ?_
    exact (wp_pure _ _ _).2 ⟨rfl, rfl⟩
  | request_only ho hcolon hid hr hne =>
    refine (wp_run_sub (ParseNumericLiteral_complete (Reads.NumericLiteral.mk ho) p hok)
      hok).2 ?_
    refine (wp_run_expect hcolon hok).2 ?_
    refine (wp_run_maybe_not (by simp only [next, hid]; decide)).2 ?_
    refine (wp_run_sub (ParseIdentifier_complete (Reads.Identifier.mk hid) p hok) hok).2 ?_
    refine (wp_run_params hr hok).2 ?_
    refine (wp_run_maybe_not hne).2 ?_
    exact (wp_pure _ _ _).2 ⟨rfl, rfl⟩
  | request_response ho hcolon hid hr harrow hr2 =>
    refine (wp_run_sub (ParseNumericLiteral_complete (Reads.NumericLiteral.mk ho) p hok)
      hok).2 ?_
    refine (wp_run_expect hcolon hok).2 ?_
    refine (wp_run_maybe_not (by simp only [next, hid]; decide)).2 ?_
    refine (wp_run_sub (ParseIdentifier_complete (Reads.Identifier.mk hid) p hok) hok).2 ?_
    refine (wp_run_params hr hok).2 ?_
    refine (wp_run_maybe harrow hok).2 ?_
    refine (wp_run_params hr2 hok).2 ?_
    exact (wp_pure _ _ _).2 ⟨rfl, rfl⟩

theorem InterfaceMemberMethod_next {ts rest : List Token} {x : InterfaceMemberMethod}
    (h : Reads.InterfaceMemberMethod ts x rest) : next ts = Kind.NumericLiteral := by
  cases h <;> assumption

theorem ParseInterfaceDeclaration_loop_complete (identifier : Option Identifier)
    (superinterfaces : List (Option CompoundIdentifier)) {ts rest : List Token}
    {cs : List (Option ConstDeclaration)} {es : List (Option EnumDeclaration)}
    {ms : List (Option InterfaceMemberMethod)} (h : Reads.InterfaceMembers ts cs es ms rest)
    (p : Parser) (hok : p.ok_ = true) :
    ∀ (n : Nat) (cs0 : List (Option ConstDeclaration)) (es0 : List (Option EnumDeclaration))
      (ms0 : List (Option InterfaceMemberMethod)), ts.length < n →
      ParseInterfaceDeclaration.loop identifier superinterfaces n cs0 es0 ms0 (p.at ts) =
        some (some (InterfaceDeclaration.mk identifier superinterfaces (cs0 ++ cs) (es0 ++ es)
          (ms0 ++ ms)), p.at rest) := by
  induction h with
  | done hk =>
    intro n cs0 es0 ms0 hn
    cases n with
    | zero => simp at hn
    | succ n =>
      refine wp_eq_iff.1 ?_
      unfold ParseInterfaceDeclaration.loop
      rw [wp_bind, wp_Peek, Parser.at_last_kind]
      simp only [next, hk]
      exact wp_run_close hk |>.2 ⟨by simp, rfl⟩
  | const hx hsemi _ ih =>
    intro n cs0 es0 ms0 hn
    cases n with
    | zero => simp at hn
    | succ n =>
      have hrun := ParseConstDeclaration_complete hx p hok
      have hlen := length_le_of_run (ParseConstDeclaration_spec _) hrun
      refine wp_eq_iff.1 ?_
      unfold ParseInterfaceDeclaration.loop
      rw [wp_bind, wp_Peek, Parser.at_last_kind]
      simp only [ConstDeclaration_next hx]
      refine (wp_run_member hrun hsemi hok).2 ?_
      refine wp_eq_iff.2 ?_
      rw [ih n _ _ _ (by simp at hlen; omega)]
      simp
  | enum hx hsemi _ ih =>
    intro n cs0 es0 ms0 hn
    cases n with
    | zero => simp at hn
    | succ n =>
      have hrun := ParseEnumDeclaration_complete hx p hok
      have hlen := length_le_of_run (ParseEnumDeclaration_spec _) hrun
      refine wp_eq_iff.1 ?_
      unfold ParseInterfaceDeclaration.loop
      rw [wp_bind, wp_Peek, Parser.at_last_kind]
      simp only [EnumDeclaration_next hx]
      refine (wp_run_member hrun hsemi hok).2 ?_
      refine wp_eq_iff.2 ?_
      rw [ih n _ _ _ (by simp at hlen; omega)]
      simp
  | method hx hsemi _ ih =>
    intro n cs0 es0 ms0 hn
    cases n with
    | zero => simp at hn
    | succ n =>
      have hrun := ParseInterfaceMemberMethod_complete hx p hok
      have hlen := length_le_of_run (ParseInterfaceMemberMethod_spec _) hrun
      refine wp_eq_iff.1 ?_
      unfold ParseInterfaceDeclaration.loop
      rw [wp_bind, wp_Peek, Parser.at_last_kind]
      simp only [InterfaceMemberMethod_next hx]
      refine (wp_run_member hrun hsemi hok).2 ?_
      refine wp_eq_iff.2 ?_
      rw [ih n _ _ _ (by simp at hlen; omega)]
      simp

theorem ParseInterfaceDeclaration_body_complete (identifier : Option Identifier)
    (superinterfaces : List (Option CompoundIdentifier)) {open_ : Token}
    {ts rest : List Token} {cs : List (Option ConstDeclaration)}
    {es : List (Option EnumDeclaration)} {ms : List (Option InterfaceMemberMethod)}
    (hopen : open_.kind = Kind.LeftCurly) (h : Reads.InterfaceMembers ts cs es ms rest)
    (p : Parser) (hok : p.ok_ = true) :
    ParseInterfaceDeclaration.body identifier superinterfaces (p.at (open_ :: ts)) =
      some (some (InterfaceDeclaration.mk identifier superinterfaces cs es ms), p.at rest) := by
  refine wp_eq_iff.1 ?_
  unfold ParseInterfaceDeclaration.body
  refine (wp_run_expect hopen hok).2 ?_
  rw [wp_bind, wp_remaining]
  refine wp_eq_iff.2 ?_
  rw [ParseInterfaceDeclaration_loop_complete _ _ h p hok _ _ _ _ (by simp)]
  rfl

theorem ParseInterfaceDeclaration_superinterfaces_complete (identifier : Option Identifier)
    {open_ : Token} {ts r rest : List Token} {xs : List (Option CompoundIdentifier)}
    {cs : List (Option ConstDeclaration)} {es : List (Option EnumDeclaration)}
    {ms : List (Option InterfaceMemberMethod)} (h : Reads.Superinterfaces ts xs (open_ :: r))
    (hopen : open_.kind = Kind.LeftCurly) (hms : Reads.InterfaceMembers r cs es ms rest)
    (p : Parser) (hok : p.ok_ = true) :
    ∀ (n : Nat) (xs0 : List (Option CompoundIdentifier)), ts.length < n →
      ParseInterfaceDeclaration.superinterfaces identifier n xs0 (p.at ts) =
        some (some (InterfaceDeclaration.mk identifier (xs0 ++ xs) cs es ms), p.at rest) := by
  obtain ⟨mid, hmid⟩ : ∃ mid, mid = open_ :: r := ⟨_, rfl⟩
  rw [← hmid] at h
  induction h with
  | last hx hne =>
    intro n xs0 hn
    cases n with
    | zero => simp at hn
    | succ n =>
      subst hmid
      refine wp_eq_iff.1 ?_
      unfold ParseInterfaceDeclaration.superinterfaces
      refine (wp_run_sub (ParseCompoundIdentifier_complete hx p hok) hok).2 ?_
      rw [wp_bind, wp_of_eq (MaybeConsumeToken_at_not hne)]
      simp only [Bool.not_false, if_true]
      exact wp_eq_iff.2 (ParseInterfaceDeclaration_body_complete _ _ hopen hms p hok)
  | more hx hcomma _ ih =>
    intro n xs0 hn
    cases n with
    | zero => simp at hn
    | succ n =>
      have hrun := ParseCompoundIdentifier_complete hx p hok
      have hlen := length_le_of_run (ParseCompoundIdentifier_spec _) hrun
      refine wp_eq_iff.1 ?_
      unfold ParseInterfaceDeclaration.superinterfaces
      refine (wp_run_sub hrun hok).2 ?_
      rw [wp_bind, wp_of_eq (MaybeConsumeToken_at hcomma)]
      simp only [Bool.not_true, Bool.false_eq_true, if_false]
      refine wp_eq_iff.2 ?_
      rw [ih hmid n _ (by simp at hlen; omega)]
      simp

theorem ParseInterfaceDeclaration_complete {ts rest : List Token} {x : InterfaceDeclaration}
    (h : Reads.InterfaceDeclaration ts x rest) (p : Parser) (hok : p.ok_ = true) :
    ParseInterfaceDeclaration (p.at ts) = some (some x, p.at rest) := by
  refine wp_eq_iff.1 ?_
  unfold ParseInterfaceDeclaration
  cases h with
  | plain hk hid hopen hms =>
    refine (wp_run_expect hk hok).2 ?_
    refine (wp_run_sub (ParseIdentifier_complete (Reads.Identifier.mk hid) p hok) hok).2 ?_
    refine (wp_run_maybe_not (by simp only [next, hopen]; decide)).2 ?_
    exact wp_eq_iff.2 (ParseInterfaceDeclaration_body_complete _ _ hopen hms p hok)
  | derived hk hid hcolon hxs hopen hms =>
    refine (wp_run_expect hk hok).2 ?_
    refine (wp_run_sub (ParseIdentifier_complete (Reads.Identifier.mk hid) p hok) hok).2 ?_
    refine (wp_run_maybe_plain hcolon).2 ?_
    rw [wp_bind, wp_remaining]
    refine wp_eq_iff.2 ?_
    rw [ParseInterfaceDeclaration_superinterfaces_complete _ hxs hopen hms p hok _ _ (by simp)]
    rfl

theorem ParseStructMember_complete {ts rest : List Token} {x : StructMember}
    (h : Reads.StructMember ts x rest) (p : Parser) (hok : p.ok_ = true) :
    ParseStructMember (p.at ts) = some (some x, p.at rest) := by
  refine wp_eq_iff.1 ?_
  unfold ParseStructMember
  cases h with
  | plain hty hid hne =>
    refine (wp_run_sub (ParseType_complete hty p hok) hok).2 ?_
    refine (wp_run_sub (ParseIdentifier_complete (Reads.Identifier.mk hid) p hok) hok).2 ?_
    refine (wp_run_maybe_not hne).2 ?_
    exact (wp_pure _ _ _).2 ⟨rfl, rfl⟩
  | default hty hid heq hc =>
    refine (wp_run_sub (ParseType_complete hty p hok) hok).2 ?_
    refine (wp_run_sub (ParseIdentifier_complete (Reads.Identifier.mk hid) p hok) hok).2 ?_
    refine (wp_run_maybe heq hok).2 ?_
    refine (wp_run_sub (ParseConstant_complete hc p hok) hok).2 ?_
    exact (wp_pure _ _ _).2 ⟨rfl, rfl⟩

theorem StructMember_next {ts rest : List Token} {x : StructMember}
    (h : Reads.StructMember ts x rest) : TOKEN_TYPE_CASES (next ts) = true := by
  cases h with
  | plain hty => exact Type_next hty
  | default hty => exact Type_next hty

theorem ParseStructDeclaration_loop_complete (identifier : Option Identifier)
    {ts rest : List Token} {cs : List (Option ConstDeclaration)}
    {es : List (Option EnumDeclaration)} {ms : List (Option StructMember)}
    (h : Reads.StructMembers ts cs es ms rest) (p : Parser) (hok : p.ok_ = true) :
    ∀ (n : Nat) (cs0 : List (Option ConstDeclaration)) (es0 : List (Option EnumDeclaration))
      (ms0 : List (Option StructMember)), ts.length < n →
      ParseStructDeclaration.loop identifier n cs0 es0 ms0 (p.at ts) =
        some (some (StructDeclaration.mk identifier (cs0 ++ cs) (es0 ++ es) (ms0 ++ ms)),
          p.at rest) := by
  induction h with
  | done hk =>
    intro n cs0 es0 ms0 hn
    cases n with
    | zero => simp at hn
    | succ n =>
      refine wp_eq_iff.1 ?_
      unfold ParseStructDeclaration.loop
      rw [wp_bind, wp_Peek, Parser.at_last_kind]
      simp only [next, hk]
      rw [wp_ite, if_neg (by decide)]
      exact wp_run_close hk |>.2 ⟨by simp, rfl⟩
  | const hx hsemi _ ih =>
    intro n cs0 es0 ms0 hn
    cases n with
    | zero => simp at hn
    | succ n =>
      have hrun := ParseConstDeclaration_complete hx p hok
      have hlen := length_le_of_run (ParseConstDeclaration_spec _) hrun
      refine wp_eq_iff.1 ?_
      unfold ParseStructDeclaration.loop
      rw [wp_bind, wp_Peek, Parser.at_last_kind]
      simp only [ConstDeclaration_next hx]
      refine (wp_run_member hrun hsemi hok).2 ?_
      refine wp_eq_iff.2 ?_
      rw [ih n _ _ _ (by simp at hlen; omega)]
      simp
  | enum hx hsemi _ ih =>
    intro n cs0 es0 ms0 hn
    cases n with
    | zero => simp at hn
    | succ n =>
      have hrun := ParseEnumDeclaration_complete hx p hok
      have hlen := length_le_of_run (ParseEnumDeclaration_spec _) hrun
      refine wp_eq_iff.1 ?_
      unfold ParseStructDeclaration.loop
      rw [wp_bind, wp_Peek, Parser.at_last_kind]
      simp only [EnumDeclaration_next hx]
      refine (wp_run_member hrun hsemi hok).2 ?_
      refine wp_eq_iff.2 ?_
      rw [ih n _ _ _ (by simp at hlen; omega)]
      simp
  | member hx hsemi _ ih =>
    intro n cs0 es0 ms0 hn
    cases n with
    | zero => simp at hn
    | succ n =>
      have hrun := ParseStructMember_complete hx p hok
      have hlen := length_le_of_run (ParseStructMember_spec _) hrun
      have hty := StructMember_next hx
      obtain ⟨hc, he⟩ := not_const_enum_of_type hty
      refine wp_eq_iff.1 ?_
      unfold ParseStructDeclaration.loop
      rw [wp_bind, wp_Peek, Parser.at_last_kind]
      split
      · exact absurd ‹_› hc
      · exact absurd ‹_› he
      · rw [wp_ite, if_pos hty]
        refine (wp_run_member hrun hsemi hok).2 ?_
        refine wp_eq_iff.2 ?_
        rw [ih n _ _ _ (by simp at hlen; omega)]
        simp

theorem ParseStructDeclaration_complete {ts rest : List Token} {x : StructDeclaration}
    (h : Reads.StructDeclaration ts x rest) (p : Parser) (hok : p.ok_ = true) :
    ParseStructDeclaration (p.at ts) = some (some x, p.at rest) := by
  obtain ⟨hk, hid, hopen, hms⟩ := h
  refine wp_eq_iff.1 ?_
  unfold ParseStructDeclaration
  refine (wp_run_expect hk hok).2 ?_
  refine (wp_run_sub (ParseIdentifier_complete (Reads.Identifier.mk hid) p hok) hok).2 ?_
  refine (wp_run_expect hopen hok).2 ?_
  rw [wp_bind, wp_remaining]
  refine wp_eq_iff.2 ?_
  rw [ParseStructDeclaration_loop_complete _ hms p hok _ _ _ _ (by simp)]
  rfl

theorem ParseUnionMember_complete {ts rest : List Token} {x : UnionMember}
    (h : Reads.UnionMember ts x rest) (p : Parser) (hok : p.ok_ = true) :
    ParseUnionMember (p.at ts) = some (some x, p.at rest) := by
  obtain ⟨hty, hid⟩ := h
  refine wp_eq_iff.1 ?_
  unfold ParseUnionMember
  refine (wp_run_sub (ParseType_complete hty p hok) hok).2 ?_
  refine (wp_run_sub (ParseIdentifier_complete (Reads.Identifier.mk hid) p hok) hok).2 ?_
  exact (wp_pure _ _ _).2 ⟨rfl, rfl⟩

theorem UnionMember_next {ts rest : List Token} {x : UnionMember}
    (h : Reads.UnionMember ts x rest) : TOKEN_TYPE_CASES (next ts) = true := by
  obtain ⟨hty, -⟩ := h
  exact Type_next hty

theorem ParseUnionDeclaration_loop_complete (identifier : Option Identifier)
    {ts rest : List Token} {cs : List (Option ConstDeclaration)}
    {es : List (Option EnumDeclaration)} {ms : List (Option UnionMember)}
    (h : Reads.UnionMembers ts cs es ms rest) (p : Parser) (hok : p.ok_ = true) :
    ∀ (n : Nat) (cs0 : List (Option ConstDeclaration)) (es0 : List (Option EnumDeclaration))
      (ms0 : List (Option UnionMember)), ts.length < n →
      ParseUnionDeclaration.loop identifier n cs0 es0 ms0 (p.at ts) =
        some (some (UnionDeclaration.mk identifier (cs0 ++ cs) (es0 ++ es) (ms0 ++ ms)),
          p.at rest) := by
  induction h with
  | done hk =>
    intro n cs0 es0 ms0 hn
    cases n with
    | zero => simp at hn
    | succ n =>
      refine wp_eq_iff.1 ?_
      unfold ParseUnionDeclaration.loop
      rw [wp_bind, wp_Peek, Parser.at_last_kind]
      simp only [next, hk]
      rw [wp_ite, if_neg (by decide)]
      exact wp_run_close hk |>.2 ⟨by simp, rfl⟩
  | const hx hsemi _ ih =>
    intro n cs0 es0 ms0 hn
    cases n with
    | zero => simp at hn
    | succ n =>
      have hrun := ParseConstDeclaration_complete hx p hok
      have hlen := length_le_of_run (ParseConstDeclaration_spec _) hrun
      refine wp_eq_iff.1 ?_
      unfold ParseUnionDeclaration.loop
      rw [wp_bind, wp_Peek, Parser.at_last_kind]
      simp only [ConstDeclaration_next hx]
      refine (wp_run_member hrun hsemi hok).2 ?_
      refine wp_eq_iff.2 ?_
      rw [ih n _ _ _ (by simp at hlen; omega)]
      simp
  | enum hx hsemi _ ih =>
    intro n cs0 es0 ms0 hn
    cases n with
    | zero => simp at hn
    | succ n =>
      have hrun := ParseEnumDeclaration_complete hx p hok
      have hlen := length_le_of_run (ParseEnumDeclaration_spec _) hrun
      refine wp_eq_iff.1 ?_
      unfold ParseUnionDeclaration.loop
      rw [wp_bind, wp_Peek, Parser.at_last_kind]
      simp only [EnumDeclaration_next hx]
      refine (wp_run_member hrun hsemi hok).2 ?_
      refine wp_eq_iff.2 ?_
      rw [ih n _ _ _ (by simp at hlen; omega)]
      simp
  | member hx hsemi _ ih =>
    intro n cs0 es0 ms0 hn
    cases n with
    | zero => simp at hn
    | succ n =>
      have hrun := ParseUnionMember_complete hx p hok
      have hlen := length_le_of_run (ParseUnionMember_spec _) hrun
      have hty := UnionMember_next hx
      obtain ⟨hc, he⟩ := not_const_enum_of_type hty
      refine wp_eq_iff.1 ?_
      unfold ParseUnionDeclaration.loop
      rw [wp_bind, wp_Peek, Parser.at_last_kind]
      split
      · exact absurd ‹_› hc
      · exact absurd ‹_› he
      · rw [wp_ite, if_pos hty]
        refine (wp_run_member hrun hsemi hok).2 ?_
        refine wp_eq_iff.2 ?_
        rw [ih n _ _ _ (by simp at hlen; omega)]
        simp

theorem ParseUnionDeclaration_complete {ts rest : List Token} {x : UnionDeclaration}
    (h : Reads.UnionDeclaration ts x rest) (p : Parser) (hok : p.ok_ = true) :
    ParseUnionDeclaration (p.at ts) = some (some x, p.at rest) := by
  obtain ⟨hk, hid, hopen, hms⟩ := h
  refine wp_eq_iff.1 ?_
  unfold ParseUnionDeclaration
  refine (wp_run_expect hk hok).2 ?_
  refine (wp_run_sub (ParseIdentifier_complete (Reads.Identifier.mk hid) p hok) hok).2 ?_
  refine (wp_run_expect hopen hok).2 ?_
  rw [wp_bind, wp_remaining]
  refine wp_eq_iff.2 ?_
  rw [ParseUnionDeclaration_loop_complete _ hms p hok _ _ _ _ (by simp)]
  rfl

theorem InterfaceDeclaration_next {ts rest : List Token} {x : InterfaceDeclaration}
    (h : Reads.InterfaceDeclaration ts x rest) : next ts = Kind.Interface := by
  cases h <;> assumption

theorem StructDeclaration_next {ts rest : List Token} {x : StructDeclaration}
    (h : Reads.StructDeclaration ts x rest) : next ts = Kind.Struct := by
  cases h; assumption

theorem UnionDeclaration_next {ts rest : List Token} {x : UnionDeclaration}
    (h : Reads.UnionDeclaration ts x rest) : next ts = Kind.Union := by
  cases h; assumption

theorem Using_next {ts rest : List Token} {x : Using}
    (h : Reads.Using ts x rest) : next ts = Kind.Using := by
  cases h <;> assumption

theorem Parser.at_tail_eq_advance (p : Parser) (ts : List Token) :
    (p.at ts).advance = p.at ts.tail := rfl

theorem ParseFile_declarations_complete (identifier : Option CompoundIdentifier)
    (using_list : List (Option Using)) {ts rest : List Token} {d : Reads.DeclarationLists}
    (h : Reads.Declarations ts d rest) (p : Parser) (hok : p.ok_ = true) :
    ∀ (n : Nat) (cs0 : List (Option ConstDeclaration)) (es0 : List (Option EnumDeclaration))
      (is0 : List (Option InterfaceDeclaration)) (ss0 : List (Option StructDeclaration))
      (us0 : List (Option UnionDeclaration)), ts.length < n →
      ParseFile.declarations identifier using_list n cs0 es0 is0 ss0 us0 (p.at ts) =
        some (some (File.mk identifier using_list (cs0 ++ d.const_declaration_list)
          (es0 ++ d.enum_declaration_list) (is0 ++ d.interface_declaration_list)
          (ss0 ++ d.struct_declaration_list) (us0 ++ d.union_declaration_list)),
          p.at rest) := by
  induction h with
  | @done ts hk =>
    intro n cs0 es0 is0 ss0 us0 hn
    cases n with
    | zero => simp at hn
    | succ n =>
      refine wp_eq_iff.1 ?_
      unfold ParseFile.declarations
      rw [wp_bind, wp_Peek, Parser.at_last_kind]
      simp only [hk]
      rw [wp_bind, wp_ConsumeToken, Parser.at_last_kind, if_pos hk, wp_bind, wp_Ok]
      simp only [Parser.advance_ok, Parser.at_ok, hok, Bool.not_true, Bool.false_eq_true,
        if_false]
      exact (wp_pure _ _ _).2 ⟨by simp, rfl⟩
  | const hx hsemi _ ih =>
    intro n cs0 es0 is0 ss0 us0 hn
    cases n with
    | zero => simp at hn
    | succ n =>
      have hrun := ParseConstDeclaration_complete hx p hok
      have hlen := length_le_of_run (ParseConstDeclaration_spec _) hrun
      refine wp_eq_iff.1 ?_
      unfold ParseFile.declarations
      rw [wp_bind, wp_Peek, Parser.at_last_kind]
      simp only [ConstDeclaration_next hx]
      refine (wp_run_declaration hrun hsemi hok).2 ?_
      refine wp_eq_iff.2 ?_
      rw [ih n _ _ _ _ _ (by simp at hlen; omega)]
      simp
  | enum hx hsemi _ ih =>
    intro n cs0 es0 is0 ss0 us0 hn
    cases n with
    | zero => simp at hn
    | succ n =>
      have hrun := ParseEnumDeclaration_complete hx p hok
      have hlen := length_le_of_run (ParseEnumDeclaration_spec _) hrun
      refine wp_eq_iff.1 ?_
      unfold ParseFile.declarations
      rw [wp_bind, wp_Peek, Parser.at_last_kind]
      simp only [EnumDeclaration_next hx]
      refine (wp_run_declaration hrun hsemi hok).2 ?_
      refine wp_eq_iff.2 ?_
      rw [ih n _ _ _ _ _ (by simp at hlen; omega)]
      simp
  | interface hx hsemi _ ih =>
    intro n cs0 es0 is0 ss0 us0 hn
    cases n with
    | zero => simp at hn
    | succ n =>
      have hrun := ParseInterfaceDeclaration_complete hx p hok
      have hlen := length_le_of_run (ParseInterfaceDeclaration_spec _) hrun
      refine wp_eq_iff.1 ?_
      unfold ParseFile.declarations
      rw [wp_bind, wp_Peek, Parser.at_last_kind]
      simp only [InterfaceDeclaration_next hx]
      refine (wp_run_declaration hrun hsemi hok).2 ?_
      refine wp_eq_iff.2 ?_
      rw [ih n _ _ _ _ _ (by simp at hlen; omega)]
      simp
  | struct hx hsemi _ ih =>
    intro n cs0 es0 is0 ss0 us0 hn
    cases n with
    | zero => simp at hn
    | succ n =>
      have hrun := ParseStructDeclaration_complete hx p hok
      have hlen := length_le_of_run (ParseStructDeclaration_spec _) hrun
      refine wp_eq_iff.1 ?_
      unfold ParseFile.declarations
      rw [wp_bind, wp_Peek, Parser.at_last_kind]
      simp only [StructDeclaration_next hx]
      refine (wp_run_declaration hrun hsemi hok).2 ?_
      refine wp_eq_iff.2 ?_
      rw [ih n _ _ _ _ _ (by simp at hlen; omega)]
      simp
  | union hx hsemi _ ih =>
    intro n cs0 es0 is0 ss0 us0 hn
    cases n with
    | zero => simp at hn
    | succ n =>
      have hrun := ParseUnionDeclaration_complete hx p hok
      have hlen := length_le_of_run (ParseUnionDeclaration_spec _) hrun
      refine wp_eq_iff.1 ?_
      unfold ParseFile.declarations
      rw [wp_bind, wp_Peek, Parser.at_last_kind]
      simp only [UnionDeclaration_next hx]
      refine (wp_run_declaration hrun hsemi hok).2 ?_
      refine wp_eq_iff.2 ?_
      rw [ih n _ _ _ _ _ (by simp at hlen; omega)]
      simp

theorem ParseFile_usings_complete (identifier : Option CompoundIdentifier)
    {ts r rest : List Token} {us : List (Option Using)} {d : Reads.DeclarationLists}
    (h : Reads.Usings ts us r) (hd : Reads.Declarations r d rest) (p : Parser)
    (hok : p.ok_ = true) :
    ∀ (n : Nat) (us0 : List (Option Using)), ts.length < n →
      ParseFile.usings identifier n us0 (p.at ts) =
        some (some (File.mk identifier (us0 ++ us) d.const_declaration_list
          d.enum_declaration_list d.interface_declaration_list d.struct_declaration_list
          d.union_declaration_list), p.at rest) := by
  induction h with
  | done hne =>
    intro n us0 hn
    cases n with
    | zero => simp at hn
    | succ n =>
      refine wp_eq_iff.1 ?_
      unfold ParseFile.usings
      rw [wp_bind, wp_Peek, Parser.at_last_kind]
      split
      · exact absurd ‹_› hne
      · rw [wp_bind, wp_remaining]
        refine wp_eq_iff.2 ?_
        rw [ParseFile_declarations_complete _ _ hd p hok _ _ _ _ _ _ (by simp)]
        simp
  | more hx hsemi _ ih =>
    intro n us0 hn
    cases n with
    | zero => simp at hn
    | succ n =>
      have hrun := ParseUsing_complete hx p hok
      have hlen := length_le_of_run (ParseUsing_spec _) hrun
      refine wp_eq_iff.1 ?_
      unfold ParseFile.usings
      rw [wp_bind, wp_Peek, Parser.at_last_kind]
      simp only [Using_next hx]
      refine (wp_run_declaration hrun hsemi hok).2 ?_
      refine wp_eq_iff.2 ?_
      rw [ih hd n _ (by simp at hlen; omega)]
      simp

theorem ParseFile_complete {ts rest : List Token} {x : File}
    (h : Reads.File ts x rest) (p : Parser) (hok : p.ok_ = true) :
    ParseFile (p.at ts) = some (some x, p.at rest) := by
  obtain ⟨hk, hx, hsemi, hus, hd⟩ := h
  refine wp_eq_iff.1 ?_
  unfold ParseFile
  refine (wp_run_expect hk hok).2 ?_
  refine (wp_run_sub (ParseCompoundIdentifier_complete hx p hok) hok).2 ?_
  refine (wp_run_expect hsemi hok).2 ?_
  rw [wp_bind, wp_remaining]
  refine wp_eq_iff.2 ?_
  rw [ParseFile_usings_complete _ hus hd p hok _ _ (by simp)]
  rfl

/-! ## The grammar of the specification and what the parser reads -/

namespace Grammar

theorem tok_intro {t : Token} {k : Kind} (h : t.kind = k) : tok k (kinds [t]) := by
  simp [tok, kinds, h]

theorem oneOf_intro {t : Token} {l : List Kind} (h : t.kind ∈ l) : oneOf l (kinds [t]) :=
  ⟨t.kind, h, rfl⟩

theorem seq_intro {A B : Lang} {c1 c2 : List Token} (h1 : A (kinds c1)) (h2 : B (kinds c2)) :
    seq A B (kinds (c1 ++ c2)) :=
  ⟨_, _, by simp [kinds], h1, h2⟩

theorem seq_tok_intro {B : Lang} {t : Token} {k : Kind} {c : List Token} (h : t.kind = k)
    (h2 : B (kinds c)) : seq (tok k) B (kinds (t :: c)) :=
  seq_intro (tok_intro h) h2

theorem opt_nil {A : Lang} : opt A (kinds []) := Or.inl rfl

theorem opt_some {A : Lang} {c : List Token} (h : A (kinds c)) : opt A (kinds c) := Or.inr h

theorem star_nil {A : Lang} : star A (kinds []) := star.nil

theorem star_cons {A : Lang} {c1 c2 : List Token} (h1 : A (kinds c1))
    (h2 : star A (kinds c2)) : star A (kinds (c1 ++ c2)) := by
  have := star.cons h1 h2
  simpa [kinds] using this

theorem tok_inv {k : Kind} {c : List Token} (h : tok k (kinds c)) :
    ∃ t, c = [t] ∧ t.kind = k := by
  unfold tok kinds at h
  match c, h with
  | [t], h => exact ⟨t, rfl, by simpa using h⟩

theorem oneOf_inv {l : List Kind} {c : List Token} (h : oneOf l (kinds c)) :
    ∃ t, c = [t] ∧ t.kind ∈ l := by
  obtain ⟨k, hk, h⟩ := h
  unfold kinds at h
  match c, h with
  | [t], h =>
    refine ⟨t, rfl, ?_⟩
    simp at h
    rwa [h]

theorem seq_inv {A B : Lang} {c : List Token} (h : seq A B (kinds c)) :
    ∃ c1 c2, c = c1 ++ c2 ∧ A (kinds c1) ∧ B (kinds c2) := by
  obtain ⟨a, b, hab, ha, hb⟩ := h
  unfold kinds at hab
  obtain ⟨c1, c2, rfl, rfl, rfl⟩ := List.map_eq_append_iff.1 hab
  exact ⟨c1, c2, rfl, ha, hb⟩

theorem seq_tok_inv {B : Lang} {k : Kind} {c : List Token} (h : seq (tok k) B (kinds c)) :
    ∃ t c2, c = t :: c2 ∧ t.kind = k ∧ B (kinds c2) := by
  obtain ⟨c1, c2, rfl, h1, h2⟩ := seq_inv h
  obtain ⟨t, rfl, hk⟩ := tok_inv h1
  exact ⟨t, c2, rfl, hk, h2⟩

theorem opt_inv {A : Lang} {c : List Token} (h : opt A (kinds c)) : c = [] ∨ A (kinds c) := by
  rcases h with h | h
  · left
    simpa [kinds] using h
  · exact Or.inr h

theorem star_ind {A : Lang} {P : List Token → Prop} (hnil : P [])
    (hcons : ∀ c1 c2, A (kinds c1) → star A (kinds c2) → P c2 → P (c1 ++ c2)) :
    ∀ c, star A (kinds c) → P c := by
  have key : ∀ ks, star A ks → ∀ c, kinds c = ks → P c := by
    intro ks h
    induction h with
    | nil =>
      intro c hc
      have : c = [] := by simpa [kinds] using hc
      rw [this]
      exact hnil
    | cons ha hb ih =>
      intro c hc
      unfold kinds at hc
      obtain ⟨c1, c2, rfl, rfl, rfl⟩ := List.map_eq_append_iff.1 hc
      exact hcons c1 c2 ha hb (ih c2 rfl)
  intro c h
  exact key _ h c rfl

end Grammar

/-! ### What the parser reads is derivable -/

theorem Components_derivable {ts rest : List Token} {xs : List (Option Identifier)}
    (h : Reads.Components ts xs rest) :
    ∃ c, ts = c ++ rest ∧
      Grammar.star (Grammar.seqs [Grammar.tok Kind.Dot, Grammar.Identifier]) (kinds c) := by
  induction h with
  | done _ => exact ⟨[], rfl, Grammar.star_nil⟩
  | @more dot identifier ts rest _ hd hi _ ih =>
    obtain ⟨c, rfl, hg⟩ := ih
    exact ⟨[dot, identifier] ++ c, by simp,
      Grammar.star_cons (Grammar.seq_tok_intro hd (Grammar.tok_intro hi)) hg⟩

theorem CompoundIdentifier_derivable {ts rest : List Token} {x : CompoundIdentifier}
    (h : Reads.CompoundIdentifier ts x rest) :
    ∃ c, ts = c ++ rest ∧ Grammar.CompoundIdentifier (kinds c) := by
  obtain @⟨identifier, ts, rest, _, hid, hmore⟩ := h
  obtain ⟨c, rfl, hg⟩ := Components_derivable hmore
  exact ⟨identifier :: c, by simp, Grammar.seq_tok_intro hid hg⟩

theorem Literal_derivable {ts rest : List Token} {x : Literal} (h : Reads.Literal ts x rest) :
    ∃ c, ts = c ++ rest ∧ Grammar.Literal (kinds c) := by
  cases h with
  | @string t _ hk => exact ⟨[t], rfl, Or.inl (Grammar.tok_intro hk)⟩
  | @numeric t _ hk => exact ⟨[t], rfl, Or.inr (Or.inl (Grammar.tok_intro hk))⟩
  | @true_ t _ hk => exact ⟨[t], rfl, Or.inr (Or.inr (Or.inl (Grammar.tok_intro hk)))⟩
  | @false_ t _ hk =>
    exact ⟨[t], rfl, Or.inr (Or.inr (Or.inr (Or.inl (Grammar.tok_intro hk))))⟩
  | @default t _ hk =>
    exact ⟨[t], rfl, Or.inr (Or.inr (Or.inr (Or.inr (Grammar.tok_intro hk))))⟩

theorem Constant_derivable {ts rest : List Token} {x : Constant}
    (h : Reads.Constant ts x rest) : ∃ c, ts = c ++ rest ∧ Grammar.Constant (kinds c) := by
  cases h with
  | identifier hx =>
    obtain ⟨c, rfl, hg⟩ := CompoundIdentifier_derivable hx
    exact ⟨c, rfl, Or.inl hg⟩
  | literal hx =>
    obtain ⟨c, rfl, hg⟩ := Literal_derivable hx
    exact ⟨c, rfl, Or.inr hg⟩

theorem Count_derivable {ts rest : List Token} {x : Option Constant}
    (h : Reads.Count ts x rest) :
    ∃ c, ts = c ++ rest ∧
      Grammar.opt (Grammar.seqs [Grammar.tok Kind.Colon, Grammar.Constant]) (kinds c) := by
  cases h with
  | @some colon _ _ _ hk hx =>
    obtain ⟨c, rfl, hg⟩ := Constant_derivable hx
    exact ⟨colon :: c, by simp, Grammar.opt_some (Grammar.seq_tok_intro hk hg)⟩
  | none _ => exact ⟨[], rfl, Grammar.opt_nil⟩

theorem Nullability_derivable {ts rest : List Token} {n : Nullability}
    (h : Reads.Nullability ts n rest) :
    ∃ c, ts = c ++ rest ∧ Grammar.opt (Grammar.tok Kind.Question) (kinds c) := by
  cases h with
  | @nullable question _ hk =>
    exact ⟨[question], rfl, Grammar.opt_some (Grammar.tok_intro hk)⟩
  | nonnullable _ => exact ⟨[], rfl, Grammar.opt_nil⟩

theorem subtype_keyword {k : Kind} {s : HandleSubtype}
    (h : ParseHandleType.subtype k = some s) :
    k ∈ [Kind.Process, Kind.Thread, Kind.Vmo, Kind.Channel, Kind.Event, Kind.Port,
      Kind.Interrupt, Kind.Iomap, Kind.Pci, Kind.Log, Kind.Socket, Kind.Resource,
      Kind.Eventpair, Kind.Job, Kind.Vmar, Kind.Fifo, Kind.Hypervisor, Kind.Guest,
      Kind.Timer] := by
  cases k <;> simp [ParseHandleType.subtype] at h <;> decide

theorem primitive_keyword {k : Kind} {s : TypeKind}
    (h : ParsePrimitiveType.type_kind k = some s) :
    k ∈ [Kind.Bool, Kind.Status, Kind.Int8, Kind.Int16, Kind.Int32, Kind.Int64, Kind.Uint8,
      Kind.Uint16, Kind.Uint32, Kind.Uint64, Kind.Float32, Kind.Float64] := by
  cases k <;> simp [ParsePrimitiveType.type_kind] at h <;> decide

theorem HandleSubtype_derivable {ts rest : List Token} {s : HandleSubtype}
    (h : Reads.HandleSubtype ts s rest) :
    ∃ c, ts = c ++ rest ∧
      Grammar.opt (Grammar.seqs [Grammar.tok Kind.LeftAngle, Grammar.HandleSubtypeKeyword,
        Grammar.tok Kind.RightAngle]) (kinds c) := by
  cases h with
  | generic _ => exact ⟨[], rfl, Grammar.opt_nil⟩
  | @subtype left keyword right _ _ hl hs hr =>
    exact ⟨[left, keyword, right], rfl, Grammar.opt_some (Grammar.seq_tok_intro hl
      (@Grammar.seq_intro _ _ [keyword] [right] (Grammar.oneOf_intro (subtype_keyword hs))
        (Grammar.tok_intro hr)))⟩

theorem Type_derivable {ts rest : List Token} {x : Type_} (h : Reads.Type_ ts x rest) :
    ∃ c, ts = c ++ rest ∧ Grammar.Type_ (kinds c) := by
  induction h with
  | identifier hx hn =>
    obtain ⟨c2, rfl, g2⟩ := Nullability_derivable hn
    obtain ⟨c1, rfl, g1⟩ := CompoundIdentifier_derivable hx
    exact ⟨c1 ++ c2, by simp, Grammar.Type_.identifier (Grammar.seq_intro g1 g2)⟩
  | @array array left right colon _ _ _ _ _ ha hl _ hr hc hx ih =>
    obtain ⟨c2, rfl, g2⟩ := Constant_derivable hx
    obtain ⟨c1, rfl, g1⟩ := ih
    refine ⟨array :: left :: (c1 ++ right :: colon :: c2), by simp, ?_⟩
    have := Grammar.Type_.array g1 g2
    simpa [kinds, ha, hl, hr, hc] using this
  | @vector vector left right _ _ _ _ _ _ _ hv hl _ hr hc hn ih =>
    obtain ⟨c3, rfl, g3⟩ := Nullability_derivable hn
    obtain ⟨c2, rfl, g2⟩ := Count_derivable hc
    obtain ⟨c1, rfl, g1⟩ := ih
    refine ⟨vector :: left :: (c1 ++ right :: (c2 ++ c3)), by simp, ?_⟩
    have := Grammar.Type_.vector g1 (Grammar.seq_intro g2 g3)
    simpa [kinds, hv, hl, hr] using this
  | @string string _ _ _ _ _ hs hc hn =>
    obtain ⟨c3, rfl, g3⟩ := Nullability_derivable hn
    obtain ⟨c2, rfl, g2⟩ := Count_derivable hc
    exact ⟨string :: (c2 ++ c3), by simp,
      Grammar.Type_.string (Grammar.seq_tok_intro hs (Grammar.seq_intro g2 g3))⟩
  | @handle handle _ _ _ _ _ hh hs hn =>
    obtain ⟨c3, rfl, g3⟩ := Nullability_derivable hn
    obtain ⟨c2, rfl, g2⟩ := HandleSubtype_derivable hs
    exact ⟨handle :: (c2 ++ c3), by simp,
      Grammar.Type_.handle (Grammar.seq_tok_intro hh (Grammar.seq_intro g2 g3))⟩
  | @request request left right _ _ _ _ _ hq hl hx hr hn =>
    obtain ⟨c3, rfl, g3⟩ := Nullability_derivable hn
    obtain ⟨c1, rfl, g1⟩ := CompoundIdentifier_derivable hx
    exact ⟨request :: left :: (c1 ++ right :: c3), by simp,
      Grammar.Type_.request (Grammar.seq_tok_intro hq (Grammar.seq_tok_intro hl
        (Grammar.seq_intro g1 (Grammar.seq_tok_intro hr g3))))⟩
  | @primitive t _ _ hk =>
    exact ⟨[t], rfl, Grammar.Type_.primitive (Grammar.oneOf_intro (primitive_keyword hk))⟩

theorem Using_derivable {ts rest : List Token} {x : Using} (h : Reads.Using ts x rest) :
    ∃ c, ts = c ++ rest ∧ Grammar.Using (kinds c) := by
  cases h with
  | @plain using_ _ _ _ hu hx _ =>
    obtain ⟨c, rfl, g⟩ := CompoundIdentifier_derivable hx
    refine ⟨using_ :: (c ++ []), by simp, ?_⟩
    exact Grammar.seq_tok_intro hu (Grammar.seq_intro g Grammar.opt_nil)
  | @renamed using_ as_ identifier _ _ _ hu hx ha hi =>
    obtain ⟨c, rfl, g⟩ := CompoundIdentifier_derivable hx
    refine ⟨using_ :: (c ++ [as_, identifier]), by simp, ?_⟩
    exact Grammar.seq_tok_intro hu (Grammar.seq_intro g
      (Grammar.opt_some (Grammar.seq_tok_intro ha (Grammar.tok_intro hi))))

theorem ConstDeclaration_derivable {ts rest : List Token} {x : ConstDeclaration}
    (h : Reads.ConstDeclaration ts x rest) :
    ∃ c, ts = c ++ rest ∧ Grammar.ConstDeclaration (kinds c) := by
  obtain @⟨const_, identifier, equal, _, _, _, _, _, hk, hty, hid, heq, hc⟩ := h
  obtain ⟨c2, rfl, g2⟩ := Constant_derivable hc
  obtain ⟨c1, rfl, g1⟩ := Type_derivable hty
  refine ⟨const_ :: (c1 ++ identifier :: equal :: c2), by simp, ?_⟩
  exact Grammar.seq_tok_intro hk (Grammar.seq_intro g1 (Grammar.seq_tok_intro hid
    (Grammar.seq_tok_intro heq g2)))

theorem EnumMember_derivable {ts rest : List Token} {x : EnumMember}
    (h : Reads.EnumMember ts x rest) :
    ∃ c, ts = c ++ rest ∧ Grammar.EnumMember (kinds c) := by
  cases h with
  | @plain identifier _ hi _ =>
    exact ⟨identifier :: [], rfl, Grammar.seq_tok_intro hi Grammar.opt_nil⟩
  | @identifier identifier equal _ _ _ hi he hx =>
    obtain ⟨c, rfl, g⟩ := CompoundIdentifier_derivable hx
    exact ⟨identifier :: equal :: c, by simp, Grammar.seq_tok_intro hi
      (Grammar.opt_some (Grammar.seq_tok_intro he (Or.inl g)))⟩
  | @numeric identifier equal literal _ hi he hl =>
    exact ⟨identifier :: equal :: [literal], rfl, Grammar.seq_tok_intro hi
      (Grammar.opt_some (Grammar.seq_tok_intro he (Or.inr (Grammar.tok_intro hl))))⟩

theorem EnumMembers_derivable {ts rest : List Token} {ms : List (Option EnumMember)}
    (h : Reads.EnumMembers ts ms rest) :
    ∃ c close, ts = c ++ close :: rest ∧ close.kind = Kind.RightCurly ∧
      Grammar.star (Grammar.seqs [Grammar.EnumMember, Grammar.tok Kind.Semicolon])
        (kinds c) := by
  induction h with
  | @done close _ hk => exact ⟨[], close, rfl, hk, Grammar.star_nil⟩
  | @more semicolon _ _ _ _ _ hx hs _ ih =>
    obtain ⟨c2, close, rfl, hk, g2⟩ := ih
    obtain ⟨c1, rfl, g1⟩ := EnumMember_derivable hx
    exact ⟨(c1 ++ [semicolon]) ++ c2, close, by simp, hk,
      Grammar.star_cons (Grammar.seq_intro g1 (Grammar.tok_intro hs)) g2⟩

theorem EnumDeclaration_derivable {ts rest : List Token} {x : EnumDeclaration}
    (h : Reads.EnumDeclaration ts x rest) :
    ∃ c, ts = c ++ rest ∧ Grammar.EnumDeclaration (kinds c) := by
  cases h with
  | @plain enum_ identifier open_ _ _ _ he hi ho hms =>
    obtain ⟨c, close, rfl, hk, g⟩ := EnumMembers_derivable hms
    refine ⟨enum_ :: identifier :: ([] ++ open_ :: (c ++ [close])), by simp, ?_⟩
    exact Grammar.seq_tok_intro he (Grammar.seq_tok_intro hi (Grammar.seq_intro
      Grammar.opt_nil (Grammar.seq_tok_intro ho (Grammar.seq_intro g
        (Grammar.tok_intro hk)))))
  | @typed enum_ identifier colon type open_ _ _ _ _ he hi hc ht ho hms =>
    obtain ⟨c, close, rfl, hk, g⟩ := EnumMembers_derivable hms
    refine ⟨enum_ :: identifier :: ([colon, type] ++ open_ :: (c ++ [close])), by simp, ?_⟩
    exact Grammar.seq_tok_intro he (Grammar.seq_tok_intro hi (Grammar.seq_intro
      (Grammar.opt_some (Grammar.seq_tok_intro hc
        (Grammar.oneOf_intro (primitive_keyword ht))))
      (Grammar.seq_tok_intro ho (Grammar.seq_intro g (Grammar.tok_intro hk)))))

theorem Parameter_derivable {ts rest : List Token} {x : Parameter}
    (h : Reads.Parameter ts x rest) :
    ∃ c, ts = c ++ rest ∧ Grammar.Parameter (kinds c) := by
  obtain @⟨identifier, _, _, _, hty, hid⟩ := h
  obtain ⟨c, rfl, g⟩ := Type_derivable hty
  exact ⟨c ++ [identifier], by simp, Grammar.seq_intro g (Grammar.tok_intro hid)⟩

theorem MoreParameters_derivable {ts rest : List Token} {xs : List (Option Parameter)}
    (h : Reads.MoreParameters ts xs rest) :
    ∃ c, ts = c ++ rest ∧
      Grammar.star (Grammar.seqs [Grammar.tok Kind.Comma, Grammar.Parameter]) (kinds c) := by
  induction h with
  | done _ => exact ⟨[], rfl, Grammar.star_nil⟩
  | @more comma _ _ _ _ _ hc hx _ ih =>
    obtain ⟨c2, rfl, g2⟩ := ih
    obtain ⟨c1, rfl, g1⟩ := Parameter_derivable hx
    exact ⟨(comma :: c1) ++ c2, by simp,
      Grammar.star_cons (Grammar.seq_tok_intro hc g1) g2⟩

theorem ParameterList_derivable {ts rest : List Token} {x : ParameterList}
    (h : Reads.ParameterList ts x rest) :
    ∃ c, ts = c ++ rest ∧ Grammar.ParameterList (kinds c) := by
  cases h with
  | empty _ => exact ⟨[], rfl, Grammar.opt_nil⟩
  | cons hx hmore =>
    obtain ⟨c2, rfl, g2⟩ := MoreParameters_derivable hmore
    obtain ⟨c1, rfl, g1⟩ := Parameter_derivable hx
    exact ⟨c1 ++ c2, by simp, Grammar.opt_some (Grammar.seq_intro g1 g2)⟩

theorem Params_derivable {ts rest : List Token} {x : ParameterList}
    (h : Reads.Params ts x rest) :
    ∃ c, ts = c ++ rest ∧
      Grammar.seqs [Grammar.tok Kind.LeftParen, Grammar.ParameterList,
        Grammar.tok Kind.RightParen] (kinds c) := by
  obtain @⟨open_, close, _, _, _, ho, hx, hc⟩ := h
  obtain ⟨c, rfl, g⟩ := ParameterList_derivable hx
  exact ⟨open_ :: (c ++ [close]), by simp,
    Grammar.seq_tok_intro ho (Grammar.seq_intro g (Grammar.tok_intro hc))⟩

theorem InterfaceMemberMethod_derivable {ts rest : List Token} {x : InterfaceMemberMethod}
    (h : Reads.InterfaceMemberMethod ts x rest) :
    ∃ c, ts = c ++ rest ∧ Grammar.InterfaceMethod (kinds c) := by
  cases h with
  | @event ordinal colon event identifier _ _ _ ho hc he hi hr =>
    obtain ⟨c, rfl, g⟩ := Params_derivable hr
    exact ⟨ordinal :: colon :: event :: identifier :: c, by simp,
      Grammar.seq_tok_intro ho (Grammar.seq_tok_intro hc (Or.inl
        (Grammar.seq_tok_intro he (Grammar.seq_tok_intro hi g))))⟩
  | @request_only ordinal colon identifier _ _ _ ho hc hi hr _ =>
    obtain @⟨open_, close, _, _, _, hop, hx, hcl⟩ := hr
    obtain ⟨c, rfl, g⟩ := ParameterList_derivable hx
    refine ⟨ordinal :: colon :: identifier :: open_ :: (c ++ close :: []), by simp, ?_⟩
    exact Grammar.seq_tok_intro ho (Grammar.seq_tok_intro hc (Or.inr
      (Grammar.seq_tok_intro hi (Grammar.seq_tok_intro hop (Grammar.seq_intro g
        (Grammar.seq_tok_intro hcl Grammar.opt_nil))))))
  | @request_response ordinal colon identifier arrow _ _ _ _ _ ho hc hi hr ha hr2 =>
    obtain ⟨c2, rfl, g2⟩ := Params_derivable hr2
    obtain @⟨open_, close, _, _, _, hop, hx, hcl⟩ := hr
    obtain ⟨c, rfl, g⟩ := ParameterList_derivable hx
    refine ⟨ordinal :: colon :: identifier :: open_ :: (c ++ close :: arrow :: c2),
      by simp, ?_⟩
    exact Grammar.seq_tok_intro ho (Grammar.seq_tok_intro hc (Or.inr
      (Grammar.seq_tok_intro hi (Grammar.seq_tok_intro hop (Grammar.seq_intro g
        (Grammar.seq_tok_intro hcl (Grammar.opt_some (Grammar.seq_tok_intro ha g2))))))))

theorem InterfaceMembers_derivable {ts rest : List Token}
    {cs : List (Option ConstDeclaration)} {es : List (Option EnumDeclaration)}
    {ms : List (Option InterfaceMemberMethod)} (h : Reads.InterfaceMembers ts cs es ms rest) :
    ∃ c close, ts = c ++ close :: rest ∧ close.kind = Kind.RightCurly ∧
      Grammar.star (Grammar.seqs [Grammar.alts [Grammar.ConstDeclaration,
        Grammar.EnumDeclaration, Grammar.InterfaceMethod], Grammar.tok Kind.Semicolon])
        (kinds c) := by
  induction h with
  | @done close _ hk => exact ⟨[], close, rfl, hk, Grammar.star_nil⟩
  | @const semicolon _ _ _ _ _ _ _ hx hs _ ih =>
    obtain ⟨c2, close, rfl, hk, g2⟩ := ih
    obtain ⟨c1, rfl, g1⟩ := ConstDeclaration_derivable hx
    exact ⟨(c1 ++ [semicolon]) ++ c2, close, by simp, hk,
      Grammar.star_cons (Grammar.seq_intro (Or.inl g1) (Grammar.tok_intro hs)) g2⟩
  | @enum semicolon _ _ _ _ _ _ _ hx hs _ ih =>
    obtain ⟨c2, close, rfl, hk, g2⟩ := ih
    obtain ⟨c1, rfl, g1⟩ := EnumDeclaration_derivable hx
    exact ⟨(c1 ++ [semicolon]) ++ c2, close, by simp, hk,
      Grammar.star_cons (Grammar.seq_intro (Or.inr (Or.inl g1)) (Grammar.tok_intro hs)) g2⟩
  | @method semicolon _ _ _ _ _ _ _ hx hs _ ih =>
    obtain ⟨c2, close, rfl, hk, g2⟩ := ih
    obtain ⟨c1, rfl, g1⟩ := InterfaceMemberMethod_derivable hx
    exact ⟨(c1 ++ [semicolon]) ++ c2, close, by simp, hk,
      Grammar.star_cons (Grammar.seq_intro (Or.inr (Or.inr g1)) (Grammar.tok_intro hs)) g2⟩

theorem Superinterfaces_derivable {ts rest : List Token}
    {xs : List (Option CompoundIdentifier)} (h : Reads.Superinterfaces ts xs rest) :
    ∃ c, ts = c ++ rest ∧
      Grammar.seqs [Grammar.CompoundIdentifier,
        Grammar.star (Grammar.seqs [Grammar.tok Kind.Comma, Grammar.CompoundIdentifier])]
        (kinds c) := by
  induction h with
  | last hx _ =>
    obtain ⟨c, rfl, g⟩ := CompoundIdentifier_derivable hx
    exact ⟨c ++ [], by simp, Grammar.seq_intro g Grammar.star_nil⟩
  | @more comma _ _ _ _ _ hx hc _ ih =>
    obtain ⟨c2, rfl, g2⟩ := ih
    obtain ⟨c1, rfl, g1⟩ := CompoundIdentifier_derivable hx
    obtain ⟨d1, d2, rfl, gd1, gd2⟩ := Grammar.seq_inv g2
    exact ⟨c1 ++ ((comma :: d1) ++ d2), by simp,
      Grammar.seq_intro g1 (Grammar.star_cons (Grammar.seq_tok_intro hc gd1) gd2)⟩

theorem InterfaceDeclaration_derivable {ts rest : List Token} {x : InterfaceDeclaration}
    (h : Reads.InterfaceDeclaration ts x rest) :
    ∃ c, ts = c ++ rest ∧ Grammar.InterfaceDeclaration (kinds c) := by
  cases h with
  | @plain interface identifier open_ _ _ _ _ _ hk hi ho hms =>
    obtain ⟨c, close, rfl, hc, g⟩ := InterfaceMembers_derivable hms
    refine ⟨interface :: identifier :: ([] ++ open_ :: (c ++ [close])), by simp, ?_⟩
    exact Grammar.seq_tok_intro hk (Grammar.seq_tok_intro hi (Grammar.seq_intro
      Grammar.opt_nil (Grammar.seq_tok_intro ho (Grammar.seq_intro g
        (Grammar.tok_intro hc)))))
  | @derived interface identifier colon open_ _ _ _ _ _ _ _ hk hi hcol hxs ho hms =>
    obtain ⟨c, close, rfl, hc, g⟩ := InterfaceMembers_derivable hms
    obtain ⟨c1, rfl, g1⟩ := Superinterfaces_derivable hxs
    refine ⟨interface :: identifier :: ((colon :: c1) ++ open_ :: (c ++ [close])),
      by simp, ?_⟩
    exact Grammar.seq_tok_intro hk (Grammar.seq_tok_intro hi (Grammar.seq_intro
      (Grammar.opt_some (Grammar.seq_tok_intro hcol g1))
      (Grammar.seq_tok_intro ho (Grammar.seq_intro g (Grammar.tok_intro hc)))))

theorem StructMember_derivable {ts rest : List Token} {x : StructMember}
    (h : Reads.StructMember ts x rest) :
    ∃ c, ts = c ++ rest ∧ Grammar.StructMember (kinds c) := by
  cases h with
  | @plain identifier _ _ _ hty hid _ =>
    obtain ⟨c, rfl, g⟩ := Type_derivable hty
    exact ⟨c ++ identifier :: [], by simp,
      Grammar.seq_intro g (Grammar.seq_tok_intro hid Grammar.opt_nil)⟩
  | @default identifier equal _ _ _ _ _ hty hid heq hc =>
    obtain ⟨c2, rfl, g2⟩ := Constant_derivable hc
    obtain ⟨c, rfl, g⟩ := Type_derivable hty
    exact ⟨c ++ identifier :: equal :: c2, by simp,
      Grammar.seq_intro g (Grammar.seq_tok_intro hid
        (Grammar.opt_some (Grammar.seq_tok_intro heq g2)))⟩

theorem StructMembers_derivable {ts rest : List Token}
    {cs : List (Option ConstDeclaration)} {es : List (Option EnumDeclaration)}
    {ms : List (Option StructMember)} (h : Reads.StructMembers ts cs es ms rest) :
    ∃ c close, ts = c ++ close :: rest ∧ close.kind = Kind.RightCurly ∧
      Grammar.star (Grammar.seqs [Grammar.alts [Grammar.ConstDeclaration,
        Grammar.EnumDeclaration, Grammar.StructMember], Grammar.tok Kind.Semicolon])
        (kinds c) := by
  induction h with
  | @done close _ hk => exact ⟨[], close, rfl, hk, Grammar.star_nil⟩
  | @const semicolon _ _ _ _ _ _ _ hx hs _ ih =>
    obtain ⟨c2, close, rfl, hk, g2⟩ := ih
    obtain ⟨c1, rfl, g1⟩ := ConstDeclaration_derivable hx
    exact ⟨(c1 ++ [semicolon]) ++ c2, close, by simp, hk,
      Grammar.star_cons (Grammar.seq_intro (Or.inl g1) (Grammar.tok_intro hs)) g2⟩
  | @enum semicolon _ _ _ _ _ _ _ hx hs _ ih =>
    obtain ⟨c2, close, rfl, hk, g2⟩ := ih
    obtain ⟨c1, rfl, g1⟩ := EnumDeclaration_derivable hx
    exact ⟨(c1 ++ [semicolon]) ++ c2, close, by simp, hk,
      Grammar.star_cons (Grammar.seq_intro (Or.inr (Or.inl g1)) (Grammar.tok_intro hs)) g2⟩
  | @member semicolon _ _ _ _ _ _ _ hx hs _ ih =>
    obtain ⟨c2, close, rfl, hk, g2⟩ := ih
    obtain ⟨c1, rfl, g1⟩ := StructMember_derivable hx
    exact ⟨(c1 ++ [semicolon]) ++ c2, close, by simp, hk,
      Grammar.star_cons (Grammar.seq_intro (Or.inr (Or.inr g1)) (Grammar.tok_intro hs)) g2⟩

theorem StructDeclaration_derivable {ts rest : List Token} {x : StructDeclaration}
    (h : Reads.StructDeclaration ts x rest) :
    ∃ c, ts = c ++ rest ∧ Grammar.StructDeclaration (kinds c) := by
  obtain @⟨struct_, identifier, open_, _, _, _, _, _, hk, hi, ho, hms⟩ := h
  obtain ⟨c, close, rfl, hc, g⟩ := StructMembers_derivable hms
  refine ⟨struct_ :: identifier :: open_ :: (c ++ [close]), by simp, ?_⟩
  exact Grammar.seq_tok_intro hk (Grammar.seq_tok_intro hi (Grammar.seq_tok_intro ho
    (Grammar.seq_intro g (Grammar.tok_intro hc))))

theorem UnionMember_derivable {ts rest : List Token} {x : UnionMember}
    (h : Reads.UnionMember ts x rest) :
    ∃ c, ts = c ++ rest ∧ Grammar.UnionMember (kinds c) := by
  obtain @⟨identifier, _, _, _, hty, hid⟩ := h
  obtain ⟨c, rfl, g⟩ := Type_derivable hty
  exact ⟨c ++ [identifier], by simp, Grammar.seq_intro g (Grammar.tok_intro hid)⟩

theorem UnionMembers_derivable {ts rest : List Token}
    {cs : List (Option ConstDeclaration)} {es : List (Option EnumDeclaration)}
    {ms : List (Option UnionMember)} (h : Reads.UnionMembers ts cs es ms rest) :
    ∃ c close, ts = c ++ close :: rest ∧ close.kind = Kind.RightCurly ∧
      Grammar.star (Grammar.seqs [Grammar.alts [Grammar.ConstDeclaration,
        Grammar.EnumDeclaration, Grammar.UnionMember], Grammar.tok Kind.Semicolon])
        (kinds c) := by
  induction h with
  | @done close _ hk => exact ⟨[], close, rfl, hk, Grammar.star_nil⟩
  | @const semicolon _ _ _ _ _ _ _ hx hs _ ih =>
    obtain ⟨c2, close, rfl, hk, g2⟩ := ih
    obtain ⟨c1, rfl, g1⟩ := ConstDeclaration_derivable hx
    exact ⟨(c1 ++ [semicolon]) ++ c2, close, by simp, hk,
      Grammar.star_cons (Grammar.seq_intro (Or.inl g1) (Grammar.tok_intro hs)) g2⟩
  | @enum semicolon _ _ _ _ _ _ _ hx hs _ ih =>
    obtain ⟨c2, close, rfl, hk, g2⟩ := ih
    obtain ⟨c1, rfl, g1⟩ := EnumDeclaration_derivable hx
    exact ⟨(c1 ++ [semicolon]) ++ c2, close, by simp, hk,
      Grammar.star_cons (Grammar.seq_intro (Or.inr (Or.inl g1)) (Grammar.tok_intro hs)) g2⟩
  | @member semicolon _ _ _ _ _ _ _ hx hs _ ih =>
    obtain ⟨c2, close, rfl, hk, g2⟩ := ih
    obtain ⟨c1, rfl, g1⟩ := UnionMember_derivable hx
    exact ⟨(c1 ++ [semicolon]) ++ c2, close, by simp, hk,
      Grammar.star_cons (Grammar.seq_intro (Or.inr (Or.inr g1)) (Grammar.tok_intro hs)) g2⟩

theorem UnionDeclaration_derivable {ts rest : List Token} {x : UnionDeclaration}
    (h : Reads.UnionDeclaration ts x rest) :
    ∃ c, ts = c ++ rest ∧ Grammar.UnionDeclaration (kinds c) := by
  obtain @⟨union_, identifier, open_, _, _, _, _, _, hk, hi, ho, hms⟩ := h
  obtain ⟨c, close, rfl, hc, g⟩ := UnionMembers_derivable hms
  refine ⟨union_ :: identifier :: open_ :: (c ++ [close]), by simp, ?_⟩
  exact Grammar.seq_tok_intro hk (Grammar.seq_tok_intro hi (Grammar.seq_tok_intro ho
    (Grammar.seq_intro g (Grammar.tok_intro hc))))

theorem Declarations_derivable {ts rest : List Token} {d : Reads.DeclarationLists}
    (h : Reads.Declarations ts d rest) :
    ∃ c r, ts = c ++ r ∧ next r = Kind.EndOfFile ∧ rest = r.tail ∧
      Grammar.star (Grammar.seqs [Grammar.alts [Grammar.ConstDeclaration,
        Grammar.EnumDeclaration, Grammar.InterfaceDeclaration, Grammar.StructDeclaration,
        Grammar.UnionDeclaration], Grammar.tok Kind.Semicolon]) (kinds c) := by
  induction h with
  | @done ts hk => exact ⟨[], ts, rfl, hk, rfl, Grammar.star_nil⟩
  | @const semicolon _ _ _ _ _ hx hs _ ih =>
    obtain ⟨c2, r, rfl, hk, hrest, g2⟩ := ih
    obtain ⟨c1, rfl, g1⟩ := ConstDeclaration_derivable hx
    exact ⟨(c1 ++ [semicolon]) ++ c2, r, by simp, hk, hrest,
      Grammar.star_cons (Grammar.seq_intro (Or.inl g1) (Grammar.tok_intro hs)) g2⟩
  | @enum semicolon _ _ _ _ _ hx hs _ ih =>
    obtain ⟨c2, r, rfl, hk, hrest, g2⟩ := ih
    obtain ⟨c1, rfl, g1⟩ := EnumDeclaration_derivable hx
    exact ⟨(c1 ++ [semicolon]) ++ c2, r, by simp, hk, hrest,
      Grammar.star_cons (Grammar.seq_intro (Or.inr (Or.inl g1)) (Grammar.tok_intro hs)) g2⟩
  | @interface semicolon _ _ _ _ _ hx hs _ ih =>
    obtain ⟨c2, r, rfl, hk, hrest, g2⟩ := ih
    obtain ⟨c1, rfl, g1⟩ := InterfaceDeclaration_derivable hx
    exact ⟨(c1 ++ [semicolon]) ++ c2, r, by simp, hk, hrest,
      Grammar.star_cons (Grammar.seq_intro (Or.inr (Or.inr (Or.inl g1)))
        (Grammar.tok_intro hs)) g2⟩
  | @struct semicolon _ _ _ _ _ hx hs _ ih =>
    obtain ⟨c2, r, rfl, hk, hrest, g2⟩ := ih
    obtain ⟨c1, rfl, g1⟩ := StructDeclaration_derivable hx
    exact ⟨(c1 ++ [semicolon]) ++ c2, r, by simp, hk, hrest,
      Grammar.star_cons (Grammar.seq_intro (Or.inr (Or.inr (Or.inr (Or.inl g1))))
        (Grammar.tok_intro hs)) g2⟩
  | @union semicolon _ _ _ _ _ hx hs _ ih =>
    obtain ⟨c2, r, rfl, hk, hrest, g2⟩ := ih
    obtain ⟨c1, rfl, g1⟩ := UnionDeclaration_derivable hx
    exact ⟨(c1 ++ [semicolon]) ++ c2, r, by simp, hk, hrest,
      Grammar.star_cons (Grammar.seq_intro (Or.inr (Or.inr (Or.inr (Or.inr g1))))
        (Grammar.tok_intro hs)) g2⟩

theorem Usings_derivable {ts rest : List Token} {us : List (Option Using)}
    (h : Reads.Usings ts us rest) :
    ∃ c, ts = c ++ rest ∧
      Grammar.star (Grammar.seqs [Grammar.Using, Grammar.tok Kind.Semicolon]) (kinds c) := by
  induction h with
  | done _ => exact ⟨[], rfl, Grammar.star_nil⟩
  | @more semicolon _ _ _ _ _ hx hs _ ih =>
    obtain ⟨c2, rfl, g2⟩ := ih
    obtain ⟨c1, rfl, g1⟩ := Using_derivable hx
    exact ⟨(c1 ++ [semicolon]) ++ c2, by simp,
      Grammar.star_cons (Grammar.seq_intro g1 (Grammar.tok_intro hs)) g2⟩

/-- Kinds followed by `EndOfFile` are the kinds of the tokens followed by an `EndOfFile`
token. -/
theorem kinds_end (c : List Token) :
    kinds c ++ [Kind.EndOfFile] = kinds (c ++ [Token.mk Kind.EndOfFile "" ⟨0, ""⟩]) := by
  simp [kinds]

theorem File_derivable {ts rest : List Token} {x : File} (h : Reads.File ts x rest) :
    ∃ c r, ts = c ++ r ∧ next r = Kind.EndOfFile ∧ rest = r.tail ∧
      Grammar.File (kinds c ++ [Kind.EndOfFile]) := by
  obtain @⟨library, semicolon, _, _, _, _, _, _, _, hk, hx, hs, hus, hd⟩ := h
  obtain ⟨c3, r, rfl, hr, hrest, g3⟩ := Declarations_derivable hd
  obtain ⟨c2, rfl, g2⟩ := Usings_derivable hus
  obtain ⟨c1, rfl, g1⟩ := CompoundIdentifier_derivable hx
  refine ⟨library :: (c1 ++ semicolon :: (c2 ++ c3)), r, by simp, hr, hrest, ?_⟩
  rw [kinds_end]
  have : library :: (c1 ++ semicolon :: (c2 ++ c3)) ++ [Token.mk Kind.EndOfFile "" ⟨0, ""⟩] =
      library :: (c1 ++ semicolon :: (c2 ++ (c3 ++ [Token.mk Kind.EndOfFile "" ⟨0, ""⟩]))) := by
    simp
  rw [this]
  exact Grammar.seq_tok_intro hk (Grammar.seq_intro g1 (Grammar.seq_tok_intro hs
    (Grammar.seq_intro g2 (Grammar.seq_intro g3 (Grammar.tok_intro rfl)))))

/-! ### What is derivable is read -/

theorem kinds_eq_cons {c : List Token} {k : Kind} {ks : List Kind} (h : kinds c = k :: ks) :
    ∃ t c2, c = t :: c2 ∧ t.kind = k ∧ kinds c2 = ks := by
  unfold kinds at h
  match c, h with
  | t :: c2, h =>
    simp only [List.map_cons, List.cons.injEq] at h
    exact ⟨t, c2, rfl, h.1, h.2⟩

theorem kinds_eq_append {c : List Token} {a b : List Kind} (h : kinds c = a ++ b) :
    ∃ c1 c2, c = c1 ++ c2 ∧ kinds c1 = a ∧ kinds c2 = b := by
  unfold kinds at h
  obtain ⟨c1, c2, rfl, rfl, rfl⟩ := List.map_eq_append_iff.1 h
  exact ⟨c1, c2, rfl, rfl, rfl⟩

theorem Components_readable {c : List Token}
    (h : Grammar.star (Grammar.seqs [Grammar.tok Kind.Dot, Grammar.Identifier]) (kinds c)) :
    ∀ rest, next rest ≠ Kind.Dot → ∃ xs, Reads.Components (c ++ rest) xs rest := by
  refine Grammar.star_ind (P := fun c => ∀ rest, next rest ≠ Kind.Dot →
    ∃ xs, Reads.Components (c ++ rest) xs rest) ?_ ?_ c h
  · intro rest hne
    exact ⟨_, Reads.Components.done hne⟩
  · intro c1 c2 h1 _ ih rest hne
    obtain ⟨dot, c3, rfl, hd, h3⟩ := Grammar.seq_tok_inv h1
    obtain ⟨identifier, rfl, hi⟩ := Grammar.tok_inv h3
    obtain ⟨xs, hxs⟩ := ih rest hne
    exact ⟨_, by simpa using Reads.Components.more hd hi hxs⟩

theorem CompoundIdentifier_readable {c : List Token}
    (h : Grammar.CompoundIdentifier (kinds c)) (rest : List Token)
    (hne : next rest ≠ Kind.Dot) : ∃ x, Reads.CompoundIdentifier (c ++ rest) x rest := by
  obtain ⟨identifier, c2, rfl, hi, h2⟩ := Grammar.seq_tok_inv h
  obtain ⟨xs, hxs⟩ := Components_readable h2 rest hne
  exact ⟨_, Reads.CompoundIdentifier.mk hi hxs⟩

theorem Literal_readable {c : List Token} (h : Grammar.Literal (kinds c))
    (rest : List Token) : ∃ x, Reads.Literal (c ++ rest) x rest := by
  rcases h with h | h | h | h | h <;> obtain ⟨t, rfl, hk⟩ := Grammar.tok_inv h
  · exact ⟨_, Reads.Literal.string hk⟩
  · exact ⟨_, Reads.Literal.numeric hk⟩
  · exact ⟨_, Reads.Literal.true_ hk⟩
  · exact ⟨_, Reads.Literal.false_ hk⟩
  · exact ⟨_, Reads.Literal.default hk⟩

theorem Constant_readable {c : List Token} (h : Grammar.Constant (kinds c))
    (rest : List Token) (hne : next rest ≠ Kind.Dot) :
    ∃ x, Reads.Constant (c ++ rest) x rest := by
  rcases h with h | h
  · obtain ⟨x, hx⟩ := CompoundIdentifier_readable h rest hne
    exact ⟨_, Reads.Constant.identifier hx⟩
  · obtain ⟨x, hx⟩ := Literal_readable h rest
    exact ⟨_, Reads.Constant.literal hx⟩

theorem Count_readable {c : List Token}
    (h : Grammar.opt (Grammar.seqs [Grammar.tok Kind.Colon, Grammar.Constant]) (kinds c))
    (rest : List Token) (hc : next rest ≠ Kind.Colon) (hd : next rest ≠ Kind.Dot) :
    ∃ x, Reads.Count (c ++ rest) x rest := by
  rcases Grammar.opt_inv h with rfl | h
  · exact ⟨_, Reads.Count.none hc⟩
  · obtain ⟨colon, c2, rfl, hk, h2⟩ := Grammar.seq_tok_inv h
    obtain ⟨x, hx⟩ := Constant_readable h2 rest hd
    exact ⟨_, Reads.Count.some hk hx⟩

theorem Nullability_readable {c : List Token}
    (h : Grammar.opt (Grammar.tok Kind.Question) (kinds c)) (rest : List Token)
    (hq : next rest ≠ Kind.Question) : ∃ n, Reads.Nullability (c ++ rest) n rest := by
  rcases Grammar.opt_inv h with rfl | h
  · exact ⟨_, Reads.Nullability.nonnullable hq⟩
  · obtain ⟨t, rfl, hk⟩ := Grammar.tok_inv h
    exact ⟨_, Reads.Nullability.nullable hk⟩

/-- The first token after an optional `?` is `?` or the one that follows. -/
theorem next_opt {c : List Token} {k : Kind} (h : Grammar.opt (Grammar.tok k) (kinds c))
    (rest : List Token) : next (c ++ rest) = k ∨ next (c ++ rest) = next rest := by
  rcases Grammar.opt_inv h with rfl | h
  · exact Or.inr rfl
  · obtain ⟨t, rfl, hk⟩ := Grammar.tok_inv h
    exact Or.inl hk

theorem Count_Nullability_readable {c : List Token}
    (h : Grammar.seqs [Grammar.opt (Grammar.seqs [Grammar.tok Kind.Colon, Grammar.Constant]),
      Grammar.opt (Grammar.tok Kind.Question)] (kinds c))
    (rest : List Token) (hq : next rest ≠ Kind.Question) (hc : next rest ≠ Kind.Colon)
    (hd : next rest ≠ Kind.Dot) :
    ∃ x n r, Reads.Count (c ++ rest) x r ∧ Reads.Nullability r n rest := by
  obtain ⟨c1, c2, rfl, h1, h2⟩ := Grammar.seq_inv h
  obtain ⟨n, hn⟩ := Nullability_readable h2 rest hq
  have hnext := next_opt h2 rest
  obtain ⟨x, hx⟩ := Count_readable h1 (c2 ++ rest)
    (by rcases hnext with h | h <;> rw [h] <;> first | decide | assumption)
    (by rcases hnext with h | h <;> rw [h] <;> first | decide | assumption)
  exact ⟨x, n, _, by simpa using hx, hn⟩

theorem subtype_of_keyword {k : Kind}
    (h : k ∈ [Kind.Process, Kind.Thread, Kind.Vmo, Kind.Channel, Kind.Event, Kind.Port,
      Kind.Interrupt, Kind.Iomap, Kind.Pci, Kind.Log, Kind.Socket, Kind.Resource,
      Kind.Eventpair, Kind.Job, Kind.Vmar, Kind.Fifo, Kind.Hypervisor, Kind.Guest,
      Kind.Timer]) : ∃ s, ParseHandleType.subtype k = some s := by
  simp only [List.mem_cons, List.mem_singleton, List.not_mem_nil, or_false] at h
  rcases h with h | h | h | h | h | h | h | h | h | h | h | h | h | h | h | h | h | h | h <;>
    subst h <;> exact ⟨_, rfl⟩

theorem type_kind_of_keyword {k : Kind}
    (h : k ∈ [Kind.Bool, Kind.Status, Kind.Int8, Kind.Int16, Kind.Int32, Kind.Int64,
      Kind.Uint8, Kind.Uint16, Kind.Uint32, Kind.Uint64, Kind.Float32, Kind.Float64]) :
    ∃ s, ParsePrimitiveType.type_kind k = some s := by
  simp only [List.mem_cons, List.mem_singleton, List.not_mem_nil, or_false] at h
  rcases h with h | h | h | h | h | h | h | h | h | h | h | h <;>
    subst h <;> exact ⟨_, rfl⟩

theorem HandleSubtype_readable {c : List Token}
    (h : Grammar.opt (Grammar.seqs [Grammar.tok Kind.LeftAngle, Grammar.HandleSubtypeKeyword,
      Grammar.tok Kind.RightAngle]) (kinds c))
    (rest : List Token) (hl : next rest ≠ Kind.LeftAngle) :
    ∃ s, Reads.HandleSubtype (c ++ rest) s rest := by
  rcases Grammar.opt_inv h with rfl | h
  · exact ⟨_, Reads.HandleSubtype.generic hl⟩
  · obtain ⟨left, c2, rfl, hk, h2⟩ := Grammar.seq_tok_inv h
    obtain ⟨c3, c4, rfl, h3, h4⟩ := Grammar.seq_inv h2
    obtain ⟨keyword, rfl, hkey⟩ := Grammar.oneOf_inv h3
    obtain ⟨right, rfl, hr⟩ := Grammar.tok_inv h4
    obtain ⟨s, hs⟩ := subtype_of_keyword hkey
    exact ⟨s, Reads.HandleSubtype.subtype hk hs hr⟩

theorem Type_readable_aux {ks : List Kind} (h : Grammar.Type_ ks) :
    ∀ (c rest : List Token), kinds c = ks → next rest ≠ Kind.Dot →
      next rest ≠ Kind.Question → next rest ≠ Kind.Colon → next rest ≠ Kind.LeftAngle →
      ∃ x, Reads.Type_ (c ++ rest) x rest := by
  induction h with
  | primitive h =>
    intro c rest hc _ _ _ _
    subst hc
    obtain ⟨t, rfl, hk⟩ := Grammar.oneOf_inv h
    obtain ⟨s, hs⟩ := type_kind_of_keyword hk
    exact ⟨_, Reads.Type_.primitive hs⟩
  | array _ hconst ih =>
    intro c rest hc hd _ _ _
    obtain ⟨array, c1, rfl, ha, hc⟩ := kinds_eq_cons hc
    obtain ⟨left, c2, rfl, hl, hc⟩ := kinds_eq_cons hc
    obtain ⟨c3, c4, rfl, h3, hc⟩ := kinds_eq_append hc
    obtain ⟨right, c5, rfl, hr, hc⟩ := kinds_eq_cons hc
    obtain ⟨colon, c6, rfl, hcol, hc⟩ := kinds_eq_cons hc
    subst hc
    obtain ⟨x, hx⟩ := Constant_readable hconst rest hd
    obtain ⟨e, he⟩ := ih c3 (right :: colon :: (c6 ++ rest)) h3
      (by simp [next, hr]) (by simp [next, hr]) (by simp [next, hr]) (by simp [next, hr])
    exact ⟨_, by simpa using Reads.Type_.array ha hl he hr hcol hx⟩
  | vector _ hs ih =>
    intro c rest hc hd hq hcolon _
    obtain ⟨vector, c1, rfl, hv, hc⟩ := kinds_eq_cons hc
    obtain ⟨left, c2, rfl, hl, hc⟩ := kinds_eq_cons hc
    obtain ⟨c3, c4, rfl, h3, hc⟩ := kinds_eq_append hc
    obtain ⟨right, c5, rfl, hr, hc⟩ := kinds_eq_cons hc
    subst hc
    obtain ⟨x, n, r, hx, hn⟩ := Count_Nullability_readable hs rest hq hcolon hd
    obtain ⟨e, he⟩ := ih c3 (right :: (c5 ++ rest)) h3
      (by simp [next, hr]) (by simp [next, hr]) (by simp [next, hr]) (by simp [next, hr])
    exact ⟨_, by simpa using Reads.Type_.vector hv hl he hr hx hn⟩
  | string h =>
    intro c rest hc hd hq hcolon _
    subst hc
    obtain ⟨string, c2, rfl, hs, h2⟩ := Grammar.seq_tok_inv h
    obtain ⟨x, n, r, hx, hn⟩ := Count_Nullability_readable h2 rest hq hcolon hd
    exact ⟨_, Reads.Type_.string hs hx hn⟩
  | handle h =>
    intro c rest hc _ hq _ hleft
    subst hc
    obtain ⟨handle, c2, rfl, hh, h2⟩ := Grammar.seq_tok_inv h
    obtain ⟨c3, c4, rfl, h3, h4⟩ := Grammar.seq_inv h2
    obtain ⟨n, hn⟩ := Nullability_readable h4 rest hq
    obtain ⟨s, hs⟩ := HandleSubtype_readable h3 (c4 ++ rest)
      (by rcases next_opt h4 rest with h | h <;> rw [h] <;> first | decide | assumption)
    exact ⟨_, by simpa using Reads.Type_.handle hh hs hn⟩
  | request h =>
    intro c rest hc _ hq _ _
    subst hc
    obtain ⟨request, c2, rfl, hreq, h2⟩ := Grammar.seq_tok_inv h
    obtain ⟨left, c3, rfl, hl, h3⟩ := Grammar.seq_tok_inv h2
    obtain ⟨c4, c5, rfl, h4, h5⟩ := Grammar.seq_inv h3
    obtain ⟨right, c6, rfl, hr, h6⟩ := Grammar.seq_tok_inv h5
    obtain ⟨n, hn⟩ := Nullability_readable h6 rest hq
    obtain ⟨x, hx⟩ := CompoundIdentifier_readable h4 (right :: (c6 ++ rest))
      (by simp [next, hr])
    exact ⟨_, by simpa using Reads.Type_.request hreq hl hx hr hn⟩
  | identifier h =>
    intro c rest hc hd hq _ _
    subst hc
    obtain ⟨c1, c2, rfl, h1, h2⟩ := Grammar.seq_inv h
    obtain ⟨n, hn⟩ := Nullability_readable h2 rest hq
    obtain ⟨x, hx⟩ := CompoundIdentifier_readable h1 (c2 ++ rest)
      (by rcases next_opt h2 rest with h | h <;> rw [h] <;> first | decide | assumption)
    exact ⟨_, by simpa using Reads.Type_.identifier hx hn⟩

/-- A derivable type before an identifier is read as a type. -/
theorem Type_readable {c : List Token} (h : Grammar.Type_ (kinds c)) {identifier : Token}
    (hi : identifier.kind = Kind.Identifier) (rest : List Token) :
    ∃ x, Reads.Type_ (c ++ identifier :: rest) x (identifier :: rest) :=
  Type_readable_aux h c _ rfl (by simp [next, hi]) (by simp [next, hi]) (by simp [next, hi])
    (by simp [next, hi])

theorem Using_readable {c : List Token} (h : Grammar.Using (kinds c)) (rest : List Token)
    (ha : next rest ≠ Kind.As) (hd : next rest ≠ Kind.Dot) :
    ∃ x, Reads.Using (c ++ rest) x rest := by
  obtain ⟨using_, c1, rfl, hu, h1⟩ := Grammar.seq_tok_inv h
  obtain ⟨c2, c3, rfl, h2, h3⟩ := Grammar.seq_inv h1
  rcases Grammar.opt_inv h3 with rfl | h3
  · obtain ⟨x, hx⟩ := CompoundIdentifier_readable h2 rest hd
    exact ⟨_, by simpa using Reads.Using.plain hu hx ha⟩
  · obtain ⟨as_, c4, rfl, has, h4⟩ := Grammar.seq_tok_inv h3
    obtain ⟨identifier, rfl, hi⟩ := Grammar.tok_inv h4
    obtain ⟨x, hx⟩ := CompoundIdentifier_readable h2 (as_ :: identifier :: rest)
      (by simp [next, has])
    exact ⟨_, by simpa using Reads.Using.renamed hu hx has hi⟩

theorem ConstDeclaration_readable {c : List Token} (h : Grammar.ConstDeclaration (kinds c))
    (rest : List Token) (hd : next rest ≠ Kind.Dot) :
    ∃ x, Reads.ConstDeclaration (c ++ rest) x rest := by
  obtain ⟨const_, c1, rfl, hk, h1⟩ := Grammar.seq_tok_inv h
  obtain ⟨c2, c3, rfl, h2, h3⟩ := Grammar.seq_inv h1
  obtain ⟨identifier, c4, rfl, hi, h4⟩ := Grammar.seq_tok_inv h3
  obtain ⟨equal, c5, rfl, he, h5⟩ := Grammar.seq_tok_inv h4
  obtain ⟨x, hx⟩ := Constant_readable h5 rest hd
  obtain ⟨ty, hty⟩ := Type_readable h2 hi (equal :: (c5 ++ rest))
  exact ⟨_, by simpa using Reads.ConstDeclaration.mk hk hty hi he hx⟩

theorem EnumMember_readable {c : List Token} (h : Grammar.EnumMember (kinds c))
    (rest : List Token) (he : next rest ≠ Kind.Equal) (hd : next rest ≠ Kind.Dot) :
    ∃ x, Reads.EnumMember (c ++ rest) x rest := by
  obtain ⟨identifier, c1, rfl, hi, h1⟩ := Grammar.seq_tok_inv h
  rcases Grammar.opt_inv h1 with rfl | h1
  · exact ⟨_, Reads.EnumMember.plain hi he⟩
  · obtain ⟨equal, c2, rfl, heq, h2⟩ := Grammar.seq_tok_inv h1
    rcases h2 with h2 | h2
    · obtain ⟨x, hx⟩ := CompoundIdentifier_readable h2 rest hd
      exact ⟨_, Reads.EnumMember.identifier hi heq hx⟩
    · obtain ⟨literal, rfl, hl⟩ := Grammar.tok_inv h2
      exact ⟨_, Reads.EnumMember.numeric hi heq hl⟩

theorem EnumMembers_readable {c : List Token}
    (h : Grammar.star (Grammar.seqs [Grammar.EnumMember, Grammar.tok Kind.Semicolon])
      (kinds c)) {close : Token} (hc : close.kind = Kind.RightCurly) (rest : List Token) :
    ∃ ms, Reads.EnumMembers (c ++ close :: rest) ms rest := by
  refine Grammar.star_ind (P := fun c =>
    ∃ ms, Reads.EnumMembers (c ++ close :: rest) ms rest) ?_ ?_ c h
  · exact ⟨_, Reads.EnumMembers.done hc⟩
  · rintro c1 c2 h1 - ⟨ms, hms⟩
    obtain ⟨c3, c4, rfl, h3, h4⟩ := Grammar.seq_inv h1
    obtain ⟨semicolon, rfl, hs⟩ := Grammar.tok_inv h4
    obtain ⟨x, hx⟩ := EnumMember_readable h3 (semicolon :: (c2 ++ close :: rest))
      (by simp [next, hs]) (by simp [next, hs])
    exact ⟨_, by simpa using Reads.EnumMembers.more hx hs hms⟩

theorem EnumDeclaration_readable {c : List Token} (h : Grammar.EnumDeclaration (kinds c))
    (rest : List Token) : ∃ x, Reads.EnumDeclaration (c ++ rest) x rest := by
  obtain ⟨enum_, c1, rfl, he, h1⟩ := Grammar.seq_tok_inv h
  obtain ⟨identifier, c2, rfl, hi, h2⟩ := Grammar.seq_tok_inv h1
  obtain ⟨c3, c4, rfl, h3, h4⟩ := Grammar.seq_inv h2
  obtain ⟨open_, c5, rfl, ho, h5⟩ := Grammar.seq_tok_inv h4
  obtain ⟨c6, c7, rfl, h6, h7⟩ := Grammar.seq_inv h5
  obtain ⟨close, rfl, hc⟩ := Grammar.tok_inv h7
  obtain ⟨ms, hms⟩ := EnumMembers_readable h6 hc rest
  rcases Grammar.opt_inv h3 with rfl | h3
  · exact ⟨_, by simpa using Reads.EnumDeclaration.plain he hi ho hms⟩
  · obtain ⟨colon, c8, rfl, hcol, h8⟩ := Grammar.seq_tok_inv h3
    obtain ⟨type, rfl, hty⟩ := Grammar.oneOf_inv h8
    obtain ⟨k, hk⟩ := type_kind_of_keyword hty
    exact ⟨_, by simpa using Reads.EnumDeclaration.typed he hi hcol hk ho hms⟩

theorem Parameter_readable {c : List Token} (h : Grammar.Parameter (kinds c))
    (rest : List Token) : ∃ x, Reads.Parameter (c ++ rest) x rest := by
  obtain ⟨c1, c2, rfl, h1, h2⟩ := Grammar.seq_inv h
  obtain ⟨identifier, rfl, hi⟩ := Grammar.tok_inv h2
  obtain ⟨ty, hty⟩ := Type_readable h1 hi rest
  exact ⟨_, by simpa using Reads.Parameter.mk hty hi⟩

theorem MoreParameters_readable {c : List Token}
    (h : Grammar.star (Grammar.seqs [Grammar.tok Kind.Comma, Grammar.Parameter]) (kinds c))
    (rest : List Token) (hne : next rest ≠ Kind.Comma) :
    ∃ xs, Reads.MoreParameters (c ++ rest) xs rest := by
  refine Grammar.star_ind (P := fun c =>
    ∃ xs, Reads.MoreParameters (c ++ rest) xs rest) ?_ ?_ c h
  · exact ⟨_, Reads.MoreParameters.done hne⟩
  · rintro c1 c2 h1 - ⟨xs, hxs⟩
    obtain ⟨comma, c3, rfl, hc, h3⟩ := Grammar.seq_tok_inv h1
    obtain ⟨x, hx⟩ := Parameter_readable h3 (c2 ++ rest)
    exact ⟨_, by simpa using Reads.MoreParameters.more hc hx hxs⟩

theorem ParameterList_readable {c : List Token} (h : Grammar.ParameterList (kinds c))
    (rest : List Token) (hne : next rest ≠ Kind.Comma)
    (hty : TOKEN_TYPE_CASES (next rest) = false) :
    ∃ x, Reads.ParameterList (c ++ rest) x rest := by
  rcases Grammar.opt_inv h with rfl | h
  · exact ⟨_, Reads.ParameterList.empty hty⟩
  · obtain ⟨c1, c2, rfl, h1, h2⟩ := Grammar.seq_inv h
    obtain ⟨xs, hxs⟩ := MoreParameters_readable h2 rest hne
    obtain ⟨x, hx⟩ := Parameter_readable h1 (c2 ++ rest)
    exact ⟨_, by simpa using Reads.ParameterList.cons hx hxs⟩

theorem Params_readable {c : List Token}
    (h : Grammar.seqs [Grammar.tok Kind.LeftParen, Grammar.ParameterList,
      Grammar.tok Kind.RightParen] (kinds c)) (rest : List Token) :
    ∃ x, Reads.Params (c ++ rest) x rest := by
  obtain ⟨open_, c1, rfl, ho, h1⟩ := Grammar.seq_tok_inv h
  obtain ⟨c2, c3, rfl, h2, h3⟩ := Grammar.seq_inv h1
  obtain ⟨close, rfl, hc⟩ := Grammar.tok_inv h3
  obtain ⟨x, hx⟩ := ParameterList_readable h2 (close :: rest) (by simp [next, hc])
    (by simp [next, hc, TOKEN_TYPE_CASES, TOKEN_PRIMITIVE_TYPE_CASES])
  exact ⟨_, by simpa using Reads.Params.mk ho hx hc⟩

theorem InterfaceMethod_readable {c : List Token} (h : Grammar.InterfaceMethod (kinds c))
    (rest : List Token) (hne : next rest ≠ Kind.Arrow) :
    ∃ x, Reads.InterfaceMemberMethod (c ++ rest) x rest := by
  obtain ⟨ordinal, c1, rfl, ho, h1⟩ := Grammar.seq_tok_inv h
  obtain ⟨colon, c2, rfl, hc, h2⟩ := Grammar.seq_tok_inv h1
  rcases h2 with h2 | h2
  · obtain ⟨event, c3, rfl, he, h3⟩ := Grammar.seq_tok_inv h2
    obtain ⟨identifier, c4, rfl, hi, h4⟩ := Grammar.seq_tok_inv h3
    obtain ⟨x, hx⟩ := Params_readable h4 rest
    exact ⟨_, Reads.InterfaceMemberMethod.event ho hc he hi hx⟩
  · obtain ⟨identifier, c3, rfl, hi, h3⟩ := Grammar.seq_tok_inv h2
    obtain ⟨open_, c4, rfl, hop, h4⟩ := Grammar.seq_tok_inv h3
    obtain ⟨c5, c6, rfl, h5, h6⟩ := Grammar.seq_inv h4
    obtain ⟨close, c7, rfl, hcl, h7⟩ := Grammar.seq_tok_inv h6
    have hparams : Grammar.seqs [Grammar.tok Kind.LeftParen, Grammar.ParameterList,
        Grammar.tok Kind.RightParen] (kinds (open_ :: (c5 ++ [close]))) :=
      Grammar.seq_tok_intro hop (Grammar.seq_intro h5 (Grammar.tok_intro hcl))
    obtain ⟨x, hx⟩ := Params_readable hparams (c7 ++ rest)
    rcases Grammar.opt_inv h7 with rfl | h7
    · have hx2 : Reads.Params (open_ :: (c5 ++ close :: rest)) x rest := by simpa using hx
      exact ⟨_, by simpa using Reads.InterfaceMemberMethod.request_only ho hc hi hx2 hne⟩
    · obtain ⟨arrow, c8, rfl, ha, h8⟩ := Grammar.seq_tok_inv h7
      obtain ⟨y, hy⟩ := Params_readable h8 rest
      have hx2 : Reads.Params (open_ :: (c5 ++ close :: arrow :: (c8 ++ rest))) x
          (arrow :: (c8 ++ rest)) := by simpa using hx
      have hm := Reads.InterfaceMemberMethod.request_response ho hc hi hx2 ha hy
      exact ⟨_, by simpa using hm⟩

theorem InterfaceMembers_readable {c : List Token}
    (h : Grammar.star (Grammar.seqs [Grammar.alts [Grammar.ConstDeclaration,
      Grammar.EnumDeclaration, Grammar.InterfaceMethod], Grammar.tok Kind.Semicolon])
      (kinds c)) {close : Token} (hc : close.kind = Kind.RightCurly) (rest : List Token) :
    ∃ cs es ms, Reads.InterfaceMembers (c ++ close :: rest) cs es ms rest := by
  refine Grammar.star_ind (P := fun c =>
    ∃ cs es ms, Reads.InterfaceMembers (c ++ close :: rest) cs es ms rest) ?_ ?_ c h
  · exact ⟨_, _, _, Reads.InterfaceMembers.done hc⟩
  · rintro c1 c2 h1 - ⟨cs, es, ms, hms⟩
    obtain ⟨c3, c4, rfl, h3, h4⟩ := Grammar.seq_inv h1
    obtain ⟨semicolon, rfl, hs⟩ := Grammar.tok_inv h4
    rcases h3 with h3 | h3 | h3
    · obtain ⟨x, hx⟩ := ConstDeclaration_readable h3 (semicolon :: (c2 ++ close :: rest))
        (by simp [next, hs])
      exact ⟨_, _, _, by simpa using Reads.InterfaceMembers.const hx hs hms⟩
    · obtain ⟨x, hx⟩ := EnumDeclaration_readable h3 (semicolon :: (c2 ++ close :: rest))
      exact ⟨_, _, _, by simpa using Reads.InterfaceMembers.enum hx hs hms⟩
    · obtain ⟨x, hx⟩ := InterfaceMethod_readable h3 (semicolon :: (c2 ++ close :: rest))
        (by simp [next, hs])
      exact ⟨_, _, _, by simpa using Reads.InterfaceMembers.method hx hs hms⟩

theorem Superinterfaces_readable {c : List Token}
    (h : Grammar.star (Grammar.seqs [Grammar.tok Kind.Comma, Grammar.CompoundIdentifier])
      (kinds c)) (rest : List Token) (hne : next rest ≠ Kind.Comma)
    (hd : next rest ≠ Kind.Dot) :
    ∀ c1, Grammar.CompoundIdentifier (kinds c1) →
      ∃ xs, Reads.Superinterfaces (c1 ++ (c ++ rest)) xs rest := by
  refine Grammar.star_ind (P := fun c => ∀ c1, Grammar.CompoundIdentifier (kinds c1) →
      ∃ xs, Reads.Superinterfaces (c1 ++ (c ++ rest)) xs rest) ?_ ?_ c h
  · intro c1 h1
    obtain ⟨x, hx⟩ := CompoundIdentifier_readable h1 rest hd
    exact ⟨_, Reads.Superinterfaces.last hx hne⟩
  · intro c2 c3 h2 _ ih c1 h1
    obtain ⟨comma, c4, rfl, hc, h4⟩ := Grammar.seq_tok_inv h2
    obtain ⟨xs, hxs⟩ := ih c4 h4
    obtain ⟨x, hx⟩ := CompoundIdentifier_readable h1 (comma :: (c4 ++ (c3 ++ rest)))
      (by simp [next, hc])
    exact ⟨_, by simpa using Reads.Superinterfaces.more hx hc hxs⟩

theorem InterfaceDeclaration_readable {c : List Token}
    (h : Grammar.InterfaceDeclaration (kinds c)) (rest : List Token) :
    ∃ x, Reads.InterfaceDeclaration (c ++ rest) x rest := by
  obtain ⟨interface, c1, rfl, hk, h1⟩ := Grammar.seq_tok_inv h
  obtain ⟨identifier, c2, rfl, hi, h2⟩ := Grammar.seq_tok_inv h1
  obtain ⟨c3, c4, rfl, h3, h4⟩ := Grammar.seq_inv h2
  obtain ⟨open_, c5, rfl, ho, h5⟩ := Grammar.seq_tok_inv h4
  obtain ⟨c6, c7, rfl, h6, h7⟩ := Grammar.seq_inv h5
  obtain ⟨close, rfl, hc⟩ := Grammar.tok_inv h7
  obtain ⟨cs, es, ms, hms⟩ := InterfaceMembers_readable h6 hc rest
  rcases Grammar.opt_inv h3 with rfl | h3
  · exact ⟨_, by simpa using Reads.InterfaceDeclaration.plain hk hi ho hms⟩
  · obtain ⟨colon, c8, rfl, hcol, h8⟩ := Grammar.seq_tok_inv h3
    obtain ⟨c9, c10, rfl, h9, h10⟩ := Grammar.seq_inv h8
    obtain ⟨xs, hxs⟩ := Superinterfaces_readable h10 (open_ :: (c6 ++ close :: rest))
      (by simp [next, ho]) (by simp [next, ho]) c9 h9
    exact ⟨_, by simpa using Reads.InterfaceDeclaration.derived hk hi hcol hxs ho hms⟩

theorem StructMember_readable {c : List Token} (h : Grammar.StructMember (kinds c))
    (rest : List Token) (he : next rest ≠ Kind.Equal) (hd : next rest ≠ Kind.Dot) :
    ∃ x, Reads.StructMember (c ++ rest) x rest := by
  obtain ⟨c1, c2, rfl, h1, h2⟩ := Grammar.seq_inv h
  obtain ⟨identifier, c3, rfl, hi, h3⟩ := Grammar.seq_tok_inv h2
  rcases Grammar.opt_inv h3 with rfl | h3
  · obtain ⟨ty, hty⟩ := Type_readable h1 hi rest
    exact ⟨_, by simpa using Reads.StructMember.plain hty hi he⟩
  · obtain ⟨equal, c4, rfl, heq, h4⟩ := Grammar.seq_tok_inv h3
    obtain ⟨x, hx⟩ := Constant_readable h4 rest hd
    obtain ⟨ty, hty⟩ := Type_readable h1 hi (equal :: (c4 ++ rest))
    exact ⟨_, by simpa using Reads.StructMember.default hty hi heq hx⟩

theorem StructMembers_readable {c : List Token}
    (h : Grammar.star (Grammar.seqs [Grammar.alts [Grammar.ConstDeclaration,
      Grammar.EnumDeclaration, Grammar.StructMember], Grammar.tok Kind.Semicolon])
      (kinds c)) {close : Token} (hc : close.kind = Kind.RightCurly) (rest : List Token) :
    ∃ cs es ms, Reads.StructMembers (c ++ close :: rest) cs es ms rest := by
  refine Grammar.star_ind (P := fun c =>
    ∃ cs es ms, Reads.StructMembers (c ++ close :: rest) cs es ms rest) ?_ ?_ c h
  · exact ⟨_, _, _, Reads.StructMembers.done hc⟩
  · rintro c1 c2 h1 - ⟨cs, es, ms, hms⟩
    obtain ⟨c3, c4, rfl, h3, h4⟩ := Grammar.seq_inv h1
    obtain ⟨semicolon, rfl, hs⟩ := Grammar.tok_inv h4
    rcases h3 with h3 | h3 | h3
    · obtain ⟨x, hx⟩ := ConstDeclaration_readable h3 (semicolon :: (c2 ++ close :: rest))
        (by simp [next, hs])
      exact ⟨_, _, _, by simpa using Reads.StructMembers.const hx hs hms⟩
    · obtain ⟨x, hx⟩ := EnumDeclaration_readable h3 (semicolon :: (c2 ++ close :: rest))
      exact ⟨_, _, _, by simpa using Reads.StructMembers.enum hx hs hms⟩
    · obtain ⟨x, hx⟩ := StructMember_readable h3 (semicolon :: (c2 ++ close :: rest))
        (by simp [next, hs]) (by simp [next, hs])
      exact ⟨_, _, _, by simpa using Reads.StructMembers.member hx hs hms⟩

theorem StructDeclaration_readable {c : List Token}
    (h : Grammar.StructDeclaration (kinds c)) (rest : List Token) :
    ∃ x, Reads.StructDeclaration (c ++ rest) x rest := by
  obtain ⟨struct_, c1, rfl, hk, h1⟩ := Grammar.seq_tok_inv h
  obtain ⟨identifier, c2, rfl, hi, h2⟩ := Grammar.seq_tok_inv h1
  obtain ⟨open_, c3, rfl, ho, h3⟩ := Grammar.seq_tok_inv h2
  obtain ⟨c4, c5, rfl, h4, h5⟩ := Grammar.seq_inv h3
  obtain ⟨close, rfl, hc⟩ := Grammar.tok_inv h5
  obtain ⟨cs, es, ms, hms⟩ := StructMembers_readable h4 hc rest
  exact ⟨_, by simpa using Reads.StructDeclaration.mk hk hi ho hms⟩

theorem UnionMember_readable {c : List Token} (h : Grammar.UnionMember (kinds c))
    (rest : List Token) : ∃ x, Reads.UnionMember (c ++ rest) x rest := by
  obtain ⟨c1, c2, rfl, h1, h2⟩ := Grammar.seq_inv h
  obtain ⟨identifier, rfl, hi⟩ := Grammar.tok_inv h2
  obtain ⟨ty, hty⟩ := Type_readable h1 hi rest
  exact ⟨_, by simpa using Reads.UnionMember.mk hty hi⟩

theorem UnionMembers_readable {c : List Token}
    (h : Grammar.star (Grammar.seqs [Grammar.alts [Grammar.ConstDeclaration,
      Grammar.EnumDeclaration, Grammar.UnionMember], Grammar.tok Kind.Semicolon])
      (kinds c)) {close : Token} (hc : close.kind = Kind.RightCurly) (rest : List Token) :
    ∃ cs es ms, Reads.UnionMembers (c ++ close :: rest) cs es ms rest := by
  refine Grammar.star_ind (P := fun c =>
    ∃ cs es ms, Reads.UnionMembers (c ++ close :: rest) cs es ms rest) ?_ ?_ c h
  · exact ⟨_, _, _, Reads.UnionMembers.done hc⟩
  · rintro c1 c2 h1 - ⟨cs, es, ms, hms⟩
    obtain ⟨c3, c4, rfl, h3, h4⟩ := Grammar.seq_inv h1
    obtain ⟨semicolon, rfl, hs⟩ := Grammar.tok_inv h4
    rcases h3 with h3 | h3 | h3
    · obtain ⟨x, hx⟩ := ConstDeclaration_readable h3 (semicolon :: (c2 ++ close :: rest))
        (by simp [next, hs])
      exact ⟨_, _, _, by simpa using Reads.UnionMembers.const hx hs hms⟩
    · obtain ⟨x, hx⟩ := EnumDeclaration_readable h3 (semicolon :: (c2 ++ close :: rest))
      exact ⟨_, _, _, by simpa using Reads.UnionMembers.enum hx hs hms⟩
    · obtain ⟨x, hx⟩ := UnionMember_readable h3 (semicolon :: (c2 ++ close :: rest))
      exact ⟨_, _, _, by simpa using Reads.UnionMembers.member hx hs hms⟩

theorem UnionDeclaration_readable {c : List Token}
    (h : Grammar.UnionDeclaration (kinds c)) (rest : List Token) :
    ∃ x, Reads.UnionDeclaration (c ++ rest) x rest := by
  obtain ⟨union_, c1, rfl, hk, h1⟩ := Grammar.seq_tok_inv h
  obtain ⟨identifier, c2, rfl, hi, h2⟩ := Grammar.seq_tok_inv h1
  obtain ⟨open_, c3, rfl, ho, h3⟩ := Grammar.seq_tok_inv h2
  obtain ⟨c4, c5, rfl, h4, h5⟩ := Grammar.seq_inv h3
  obtain ⟨close, rfl, hc⟩ := Grammar.tok_inv h5
  obtain ⟨cs, es, ms, hms⟩ := UnionMembers_readable h4 hc rest
  exact ⟨_, by simpa using Reads.UnionDeclaration.mk hk hi ho hms⟩

theorem Declarations_readable {c : List Token}
    (h : Grammar.star (Grammar.seqs [Grammar.alts [Grammar.ConstDeclaration,
      Grammar.EnumDeclaration, Grammar.InterfaceDeclaration, Grammar.StructDeclaration,
      Grammar.UnionDeclaration], Grammar.tok Kind.Semicolon]) (kinds c))
    (r : List Token) (hr : next r = Kind.EndOfFile) :
    ∃ d, Reads.Declarations (c ++ r) d r.tail := by
  refine Grammar.star_ind (P := fun c => ∃ d, Reads.Declarations (c ++ r) d r.tail) ?_ ?_ c h
  · exact ⟨_, Reads.Declarations.done hr⟩
  · rintro c1 c2 h1 - ⟨d, hd⟩
    obtain ⟨c3, c4, rfl, h3, h4⟩ := Grammar.seq_inv h1
    obtain ⟨semicolon, rfl, hs⟩ := Grammar.tok_inv h4
    rcases h3 with h3 | h3 | h3 | h3 | h3
    · obtain ⟨x, hx⟩ := ConstDeclaration_readable h3 (semicolon :: (c2 ++ r))
        (by simp [next, hs])
      exact ⟨_, by simpa using Reads.Declarations.const hx hs hd⟩
    · obtain ⟨x, hx⟩ := EnumDeclaration_readable h3 (semicolon :: (c2 ++ r))
      exact ⟨_, by simpa using Reads.Declarations.enum hx hs hd⟩
    · obtain ⟨x, hx⟩ := InterfaceDeclaration_readable h3 (semicolon :: (c2 ++ r))
      exact ⟨_, by simpa using Reads.Declarations.interface hx hs hd⟩
    · obtain ⟨x, hx⟩ := StructDeclaration_readable h3 (semicolon :: (c2 ++ r))
      exact ⟨_, by simpa using Reads.Declarations.struct hx hs hd⟩
    · obtain ⟨x, hx⟩ := UnionDeclaration_readable h3 (semicolon :: (c2 ++ r))
      exact ⟨_, by simpa using Reads.Declarations.union hx hs hd⟩

theorem Declarations_next {ts rest : List Token} {d : Reads.DeclarationLists}
    (h : Reads.Declarations ts d rest) : next ts ≠ Kind.Using := by
  cases h with
  | done hk => rw [hk]; decide
  | const hx => rw [ConstDeclaration_next hx]; decide
  | enum hx => rw [EnumDeclaration_next hx]; decide
  | interface hx => rw [InterfaceDeclaration_next hx]; decide
  | struct hx => rw [StructDeclaration_next hx]; decide
  | union hx => rw [UnionDeclaration_next hx]; decide

theorem Usings_readable {c : List Token}
    (h : Grammar.star (Grammar.seqs [Grammar.Using, Grammar.tok Kind.Semicolon]) (kinds c))
    (rest : List Token) (hne : next rest ≠ Kind.Using) :
    ∃ us, Reads.Usings (c ++ rest) us rest := by
  refine Grammar.star_ind (P := fun c => ∃ us, Reads.Usings (c ++ rest) us rest) ?_ ?_ c h
  · exact ⟨_, Reads.Usings.done hne⟩
  · rintro c1 c2 h1 - ⟨us, hus⟩
    obtain ⟨c3, c4, rfl, h3, h4⟩ := Grammar.seq_inv h1
    obtain ⟨semicolon, rfl, hs⟩ := Grammar.tok_inv h4
    obtain ⟨x, hx⟩ := Using_readable h3 (semicolon :: (c2 ++ rest))
      (by simp [next, hs]) (by simp [next, hs])
    exact ⟨_, by simpa using Reads.Usings.more hx hs hus⟩

/-- The parts of a derivation of `File`. -/
theorem File_parts {ks : List Kind} (h : Grammar.File (ks ++ [Kind.EndOfFile])) :
    ∃ a1 a2 a3 a4, ks = Kind.Library :: (a1 ++ Kind.Semicolon :: (a2 ++ (a3 ++ a4))) ∧
      a4 = [] ∧ Grammar.CompoundIdentifier a1 ∧
      Grammar.star (Grammar.seqs [Grammar.Using, Grammar.tok Kind.Semicolon]) a2 ∧
      Grammar.star (Grammar.seqs [Grammar.alts [Grammar.ConstDeclaration,
        Grammar.EnumDeclaration, Grammar.InterfaceDeclaration, Grammar.StructDeclaration,
        Grammar.UnionDeclaration], Grammar.tok Kind.Semicolon]) a3 := by
  obtain ⟨l, b1, e1, hl, a1, b2, e2, h1, s, b3, e3, hs, a2, b4, e4, h2, a3, b5, e5, h3, h5⟩ := h
  have hl : l = [Kind.Library] := hl
  have hs : s = [Kind.Semicolon] := hs
  have h5 : b5 = [Kind.EndOfFile] := h5
  subst hl hs h5 e5 e4 e3 e2
  refine ⟨a1, a2, a3, [], ?_, rfl, h1, h2, h3⟩
  have : ks ++ [Kind.EndOfFile] =
      (Kind.Library :: (a1 ++ Kind.Semicolon :: (a2 ++ (a3 ++ []))) ++ [Kind.EndOfFile]) := by
    rw [e1]
    simp
  exact List.append_cancel_right this

theorem File_readable {c : List Token} (h : Grammar.File (kinds c ++ [Kind.EndOfFile]))
    (r : List Token) (hr : next r = Kind.EndOfFile) :
    ∃ x, Reads.File (c ++ r) x r.tail := by
  obtain ⟨a1, a2, a3, a4, hks, rfl, h1, h2, h3⟩ := File_parts h
  obtain ⟨library, c1, rfl, hl, e1⟩ := kinds_eq_cons hks
  obtain ⟨c2, c3, rfl, rfl, e2⟩ := kinds_eq_append e1
  obtain ⟨semicolon, c4, rfl, hs, e3⟩ := kinds_eq_cons e2
  obtain ⟨c5, c6, rfl, rfl, e4⟩ := kinds_eq_append e3
  obtain ⟨c7, c8, rfl, rfl, e5⟩ := kinds_eq_append e4
  have : c8 = [] := by simpa [kinds] using e5
  subst this
  obtain ⟨d, hd⟩ := Declarations_readable h3 r hr
  obtain ⟨us, hus⟩ := Usings_readable h2 (c7 ++ r) (Declarations_next hd)
  obtain ⟨x, hx⟩ := CompoundIdentifier_readable h1 (semicolon :: (c5 ++ (c7 ++ r)))
    (by simp [next, hs])
  exact ⟨_, by simpa using Reads.File.mk hl hx hs hus hd⟩

/-! ### No derivation contains `EndOfFile` before its end -/

theorem avoids_tok {k t : Kind} (h : t ≠ k) : Grammar.Avoids k (Grammar.tok t) := by
  intro ks hks
  have : ks = [t] := hks
  subst this
  simpa using fun e => h e.symm

theorem avoids_oneOf {k : Kind} {l : List Kind} (h : k ∉ l) :
    Grammar.Avoids k (Grammar.oneOf l) := by
  rintro ks ⟨t, ht, rfl⟩
  simp only [List.mem_singleton]
  rintro rfl
  exact h ht

theorem avoids_seq {k : Kind} {A B : Grammar.Lang} (hA : Grammar.Avoids k A)
    (hB : Grammar.Avoids k B) : Grammar.Avoids k (Grammar.seq A B) := by
  rintro ks ⟨a, b, rfl, ha, hb⟩
  simp only [List.mem_append, not_or]
  exact ⟨hA a ha, hB b hb⟩

theorem avoids_alt {k : Kind} {A B : Grammar.Lang} (hA : Grammar.Avoids k A)
    (hB : Grammar.Avoids k B) : Grammar.Avoids k (Grammar.alt A B) := by
  rintro ks (h | h)
  · exact hA ks h
  · exact hB ks h

theorem avoids_opt {k : Kind} {A : Grammar.Lang} (hA : Grammar.Avoids k A) :
    Grammar.Avoids k (Grammar.opt A) := by
  rintro ks (h | h)
  · have : ks = [] := h
    subst this
    simp
  · exact hA ks h

theorem avoids_star {k : Kind} {A : Grammar.Lang} (hA : Grammar.Avoids k A) :
    Grammar.Avoids k (Grammar.star A) := by
  intro ks h
  induction h with
  | nil => simp
  | cons ha _ ih =>
    simp only [List.mem_append, not_or]
    exact ⟨hA _ ha, ih⟩

theorem avoids_CompoundIdentifier :
    Grammar.Avoids Kind.EndOfFile Grammar.CompoundIdentifier :=
  avoids_seq (avoids_tok (by decide))
    (avoids_star (avoids_seq (avoids_tok (by decide)) (avoids_tok (by decide))))

theorem avoids_Constant : Grammar.Avoids Kind.EndOfFile Grammar.Constant :=
  avoids_alt avoids_CompoundIdentifier (avoids_alt (avoids_tok (by decide))
    (avoids_alt (avoids_tok (by decide)) (avoids_alt (avoids_tok (by decide))
      (avoids_alt (avoids_tok (by decide)) (avoids_tok (by decide))))))

theorem avoids_Count_Nullability :
    Grammar.Avoids Kind.EndOfFile
      (Grammar.seqs [Grammar.opt (Grammar.seqs [Grammar.tok Kind.Colon, Grammar.Constant]),
        Grammar.opt (Grammar.tok Kind.Question)]) :=
  avoids_seq (avoids_opt (avoids_seq (avoids_tok (by decide)) avoids_Constant))
    (avoids_opt (avoids_tok (by decide)))

theorem avoids_Type : Grammar.Avoids Kind.EndOfFile Grammar.Type_ := by
  intro ks h
  induction h with
  | primitive h => exact avoids_oneOf (by decide) _ h
  | array _ hc ih => simp [ih, avoids_Constant _ hc]
  | vector _ hs ih => simp [ih, avoids_Count_Nullability _ hs]
  | string h =>
    exact avoids_seq (avoids_tok (by decide)) avoids_Count_Nullability _ h
  | handle h =>
    exact avoids_seq (avoids_tok (by decide)) (avoids_seq (avoids_opt
      (avoids_seq (avoids_tok (by decide)) (avoids_seq (avoids_oneOf (by decide))
        (avoids_tok (by decide))))) (avoids_opt (avoids_tok (by decide)))) _ h
  | request h =>
    exact avoids_seq (avoids_tok (by decide)) (avoids_seq (avoids_tok (by decide))
      (avoids_seq avoids_CompoundIdentifier (avoids_seq (avoids_tok (by decide))
        (avoids_opt (avoids_tok (by decide)))))) _ h
  | identifier h =>
    exact avoids_seq avoids_CompoundIdentifier (avoids_opt (avoids_tok (by decide))) _ h

theorem avoids_Using : Grammar.Avoids Kind.EndOfFile Grammar.Using :=
  avoids_seq (avoids_tok (by decide)) (avoids_seq avoids_CompoundIdentifier
    (avoids_opt (avoids_seq (avoids_tok (by decide)) (avoids_tok (by decide)))))

theorem avoids_ConstDeclaration : Grammar.Avoids Kind.EndOfFile Grammar.ConstDeclaration :=
  avoids_seq (avoids_tok (by decide)) (avoids_seq avoids_Type
    (avoids_seq (avoids_tok (by decide)) (avoids_seq (avoids_tok (by decide))
      avoids_Constant)))

theorem avoids_EnumDeclaration : Grammar.Avoids Kind.EndOfFile Grammar.EnumDeclaration :=
  avoids_seq (avoids_tok (by decide)) (avoids_seq (avoids_tok (by decide))
    (avoids_seq (avoids_opt (avoids_seq (avoids_tok (by decide))
      (avoids_oneOf (by decide))))
    (avoids_seq (avoids_tok (by decide))
      (avoids_seq (avoids_star (avoids_seq
        (avoids_seq (avoids_tok (by decide)) (avoids_opt (avoids_seq (avoids_tok (by decide))
          (avoids_alt avoids_CompoundIdentifier (avoids_tok (by decide))))))
        (avoids_tok (by decide))))
      (avoids_tok (by decide))))))

theorem avoids_Parameter : Grammar.Avoids Kind.EndOfFile Grammar.Parameter :=
  avoids_seq avoids_Type (avoids_tok (by decide))

theorem avoids_ParameterList : Grammar.Avoids Kind.EndOfFile Grammar.ParameterList :=
  avoids_opt (avoids_seq avoids_Parameter
    (avoids_star (avoids_seq (avoids_tok (by decide)) avoids_Parameter)))

theorem avoids_InterfaceMethod : Grammar.Avoids Kind.EndOfFile Grammar.InterfaceMethod :=
  avoids_seq (avoids_tok (by decide)) (avoids_seq (avoids_tok (by decide))
    (avoids_alt
      (avoids_seq (avoids_tok (by decide)) (avoids_seq (avoids_tok (by decide))
        (avoids_seq (avoids_tok (by decide)) (avoids_seq avoids_ParameterList
          (avoids_tok (by decide))))))
      (avoids_seq (avoids_tok (by decide)) (avoids_seq (avoids_tok (by decide))
        (avoids_seq avoids_ParameterList (avoids_seq (avoids_tok (by decide))
          (avoids_opt (avoids_seq (avoids_tok (by decide))
            (avoids_seq (avoids_tok (by decide)) (avoids_seq avoids_ParameterList
              (avoids_tok (by decide))))))))))))

theorem avoids_InterfaceDeclaration :
    Grammar.Avoids Kind.EndOfFile Grammar.InterfaceDeclaration :=
  avoids_seq (avoids_tok (by decide)) (avoids_seq (avoids_tok (by decide))
    (avoids_seq (avoids_opt (avoids_seq (avoids_tok (by decide))
      (avoids_seq avoids_CompoundIdentifier
        (avoids_star (avoids_seq (avoids_tok (by decide)) avoids_CompoundIdentifier)))))
    (avoids_seq (avoids_tok (by decide))
      (avoids_seq (avoids_star (avoids_seq
        (avoids_alt avoids_ConstDeclaration (avoids_alt avoids_EnumDeclaration
          avoids_InterfaceMethod))
        (avoids_tok (by decide))))
      (avoids_tok (by decide))))))

theorem avoids_StructDeclaration : Grammar.Avoids Kind.EndOfFile Grammar.StructDeclaration :=
  avoids_seq (avoids_tok (by decide)) (avoids_seq (avoids_tok (by decide))
    (avoids_seq (avoids_tok (by decide))
      (avoids_seq (avoids_star (avoids_seq
        (avoids_alt avoids_ConstDeclaration (avoids_alt avoids_EnumDeclaration
          (avoids_seq avoids_Type (avoids_seq (avoids_tok (by decide))
            (avoids_opt (avoids_seq (avoids_tok (by decide)) avoids_Constant))))))
        (avoids_tok (by decide))))
      (avoids_tok (by decide)))))

theorem avoids_UnionDeclaration : Grammar.Avoids Kind.EndOfFile Grammar.UnionDeclaration :=
  avoids_seq (avoids_tok (by decide)) (avoids_seq (avoids_tok (by decide))
    (avoids_seq (avoids_tok (by decide))
      (avoids_seq (avoids_star (avoids_seq
        (avoids_alt avoids_ConstDeclaration (avoids_alt avoids_EnumDeclaration
          (avoids_seq avoids_Type (avoids_tok (by decide)))))
        (avoids_tok (by decide))))
      (avoids_tok (by decide)))))

/-- In a derivation of `File`, `EndOfFile` is the last kind and no other. -/
theorem File_end {ks : List Kind} (h : Grammar.File (ks ++ [Kind.EndOfFile])) :
    Kind.EndOfFile ∉ ks := by
  obtain ⟨a1, a2, a3, a4, rfl, rfl, h1, h2, h3⟩ := File_parts h
  have e1 := avoids_CompoundIdentifier _ h1
  have e2 := avoids_star (avoids_seq avoids_Using (avoids_tok (by decide))) _ h2
  have e3 := avoids_star (avoids_seq (avoids_alt avoids_ConstDeclaration
    (avoids_alt avoids_EnumDeclaration (avoids_alt avoids_InterfaceDeclaration
      (avoids_alt avoids_StructDeclaration avoids_UnionDeclaration))))
    (avoids_tok (by decide))) _ h3
  simp [e1, e2, e3]

/-- Every token stream splits at its first `EndOfFile`, or at its end. -/
theorem split_at_eof (ts : List Token) :
    ∃ c r, ts = c ++ r ∧ next r = Kind.EndOfFile ∧ Kind.EndOfFile ∉ kinds c := by
  induction ts with
  | nil => exact ⟨[], [], rfl, rfl, by simp [kinds]⟩
  | cons t ts ih =>
    by_cases ht : t.kind = Kind.EndOfFile
    · exact ⟨[], t :: ts, rfl, ht, by simp [kinds]⟩
    · obtain ⟨c, r, rfl, hr, hc⟩ := ih
      refine ⟨t :: c, r, rfl, hr, ?_⟩
      simp only [kinds, List.map_cons, List.mem_cons, not_or]
      exact ⟨fun e => ht e.symm, hc⟩

theorem up_to_eof_append {c r : List Token} (hc : Kind.EndOfFile ∉ kinds c)
    (hr : next r = Kind.EndOfFile) :
    up_to_eof (kinds (c ++ r)) = kinds c ++ [Kind.EndOfFile] := by
  unfold up_to_eof
  congr 1
  induction c with
  | nil =>
    cases r with
    | nil => rfl
    | cons t r =>
      have : t.kind = Kind.EndOfFile := hr
      simp [kinds, this]
  | cons t c ih =>
    simp only [kinds, List.map_cons, List.mem_cons, not_or] at hc
    have ht : t.kind ≠ Kind.EndOfFile := fun e => hc.1 e.symm
    have := ih hc.2
    simp only [kinds, List.map_append] at this
    simp [kinds, ht, this]

/-- The shortest file, `library NAME ;`, is derivable. -/
theorem File_library_only :
    Grammar.File [Kind.Library, Kind.Identifier, Kind.Semicolon, Kind.EndOfFile] :=
  ⟨[Kind.Library], [Kind.Identifier, Kind.Semicolon, Kind.EndOfFile], rfl, rfl,
    [Kind.Identifier], [Kind.Semicolon, Kind.EndOfFile], rfl,
    ⟨[Kind.Identifier], [], rfl, rfl, Grammar.star.nil⟩,
    [Kind.Semicolon], [Kind.EndOfFile], rfl, rfl,
    [], [Kind.EndOfFile], rfl, Grammar.star.nil,
    [], [Kind.EndOfFile], rfl, Grammar.star.nil, rfl⟩

/-- A file without its `;` after the library name is not derivable. -/
theorem File_without_semicolon :
    ¬ Grammar.File [Kind.Library, Kind.Identifier, Kind.EndOfFile] := by
  intro h
  obtain ⟨a1, a2, a3, a4, hks, -, -, -, -⟩ := @File_parts [Kind.Library, Kind.Identifier] h
  have h1 : Kind.Semicolon ∈ [Kind.Library, Kind.Identifier] := by
    rw [hks]
    simp
  simp at h1

/-- C5: `ParseFile`, run by a fresh parser on any token stream, returns, and it returns a
`File` if and only if the token kinds up to and including the first `EndOfFile` are
derivable from the `File` production of the grammar of §4.3; on every other stream it
returns absence. -/
theorem ParseFile_accepts_iff_derivable (l : Lexer) :
    ∃ file p', ParseFile (Parser.init l) = some (file, p') ∧
      (file.isSome = true ↔ Grammar.File (up_to_eof (kinds l.tokens))) ∧
      (¬ Grammar.File (up_to_eof (kinds l.tokens)) → file = none) := by
  obtain ⟨file, p', hrun, -, hsome⟩ := ParseFile_spec (Parser.init l)
  have hiff : file.isSome = true ↔ Grammar.File (up_to_eof (kinds l.tokens)) := by
    constructor
    · intro h
      obtain ⟨x, -, hx⟩ := ParseFile_sound (Parser.init l) l.tokens rfl file p' hrun (hsome h)
      obtain ⟨c, r, hts, hr, -, hg⟩ := File_derivable hx
      rw [hts, up_to_eof_append (File_end hg) hr]
      exact hg
    · intro h
      obtain ⟨c, r, hts, hr, hc⟩ := split_at_eof l.tokens
      rw [hts, up_to_eof_append hc hr] at h
      obtain ⟨x, hx⟩ := File_readable h r hr
      have hcomplete := ParseFile_complete hx (Parser.init l) rfl
      rw [← hts] at hcomplete
      have hself : (Parser.init l).at l.tokens = Parser.init l := rfl
      rw [hself, hrun] at hcomplete
      cases hcomplete
      rfl
  refine ⟨file, p', hrun, hiff, ?_⟩
  intro h
  cases file with
  | none => rfl
  | some x => exact absurd (hiff.1 rfl) h

/-! ## A type is returned only by a healthy parser -/

/-- A node is returned only by a healthy parser. -/
theorem wlp_check {α β : Type} {m : M α} {K : α → M (Option β)} {p : Parser}
    (hk : ∀ a q, q.ok_ = true → wlp (K a) (fun b p' => b.isSome = true → p'.ok_ = true) q) :
    wlp (m >>= fun a => Ok >>= fun ok => if (!ok) = true then Fail else K a)
      (fun b p' => b.isSome = true → p'.ok_ = true) p := by
  rw [wlp_bind]
  intro a p1 _
  rw [wlp_bind, wlp_Ok, wlp_ite]
  cases hok : p1.ok_
  · simp only [Bool.not_false, if_true, wlp_Fail]
    intro h
    cases h
  · simpa using hk a p1 hok

theorem wlp_question {β : Type} {A B : M (Option β)} {kind : Kind} {p : Parser}
    (ha : ∀ q, q.ok_ = p.ok_ → wlp A (fun b p' => b.isSome = true → p'.ok_ = true) q)
    (hb : wlp B (fun b p' => b.isSome = true → p'.ok_ = true) p) :
    wlp (MaybeConsumeToken kind >>= fun b => if b = true then A else B)
      (fun b p' => b.isSome = true → p'.ok_ = true) p := by
  simp only [wlp_bind, wlp_MaybeConsumeToken]
  split
  · simpa using ha p.advance rfl
  · simpa using hb

theorem wlp_checked {β : Type} {K : M (Option β)} {p : Parser}
    (hk : p.ok_ = true → wlp K (fun b p' => b.isSome = true → p'.ok_ = true) p) :
    wlp (Ok >>= fun ok => if (!ok) = true then Fail else K)
      (fun b p' => b.isSome = true → p'.ok_ = true) p := by
  rw [wlp_bind, wlp_Ok, wlp_ite]
  cases hok : p.ok_
  · simp only [Bool.not_false, if_true, wlp_Fail]
    intro h
    cases h
  · simpa using hk hok

theorem wlp_healthy {β : Type} (x : β) {p : Parser} (hok : p.ok_ = true) :
    wlp (pure (some x)) (fun b p' => b.isSome = true → p'.ok_ = true) p :=
  (wlp_pure _ _ _).2 (fun _ => hok)

theorem wlp_finish {β : Type} (f : Nullability → β) {p : Parser} (hok : p.ok_ = true) :
    wlp (MaybeConsumeToken Kind.Question >>= fun b =>
      if b = true then pure (some (f Nullability.Nullable))
      else pure (some (f Nullability.Nonnullable)))
      (fun b p' => b.isSome = true → p'.ok_ = true) p :=
  wlp_question (fun _ hq => wlp_healthy _ (hq.trans hok)) (wlp_healthy _ hok)

theorem ParseArrayType_strict (rec : M (Option Type_)) (p : Parser) :
    wlp (ParseArrayType rec) (fun b p' => b.isSome = true → p'.ok_ = true) p := by
  unfold ParseArrayType
  refine wlp_check fun _ _ _ => wlp_check fun _ _ _ => wlp_check fun _ _ _ =>
    wlp_check fun _ _ _ => wlp_check fun _ _ _ => wlp_check fun _ _ hok => wlp_healthy _ hok

theorem ParseVectorType_strict (rec : M (Option Type_)) (p : Parser) :
    wlp (ParseVectorType rec) (fun b p' => b.isSome = true → p'.ok_ = true) p := by
  unfold ParseVectorType
  refine wlp_check fun _ _ _ => wlp_check fun _ _ _ => wlp_check fun _ _ _ =>
    wlp_check fun _ q hok => wlp_question ?_ ?_
  · intro q2 hq2
    refine wlp_checked fun _ => wlp_check fun _ _ hok3 => ?_
    unfold ParseVectorType.finish
    exact wlp_finish _ hok3
  · unfold ParseVectorType.finish
    exact wlp_finish _ hok

theorem ParseStringType_strict (p : Parser) :
    wlp ParseStringType (fun b p' => b.isSome = true → p'.ok_ = true) p := by
  unfold ParseStringType
  refine wlp_check fun _ q hok => wlp_question ?_ ?_
  · intro q2 hq2
    refine wlp_checked fun _ => wlp_check fun _ _ hok3 => ?_
    unfold ParseStringType.finish
    exact wlp_finish _ hok3
  · unfold ParseStringType.finish
    exact wlp_finish _ hok

theorem wlp_pure_healthy {β : Type} (b : Option β) {p : Parser} (hok : p.ok_ = true) :
    wlp (pure b) (fun b p' => b.isSome = true → p'.ok_ = true) p :=
  (wlp_pure _ _ _).2 (fun _ => hok)

theorem ParseType_go_strict (n : Nat) (p : Parser) :
    wlp (ParseType.go n) (fun b p' => b.isSome = true → p'.ok_ = true) p := by
  cases n with
  | zero => exact wlp_exhausted _ _
  | succ n =>
    unfold ParseType.go
    rw [wlp_bind, wlp_Peek]
    split
    · refine wlp_check fun _ q hok => wlp_question ?_ (wlp_healthy _ hok)
      intro q2 hq2
      exact wlp_checked fun hok2 => wlp_healthy _ hok2
    · exact wlp_check fun _ _ hok => wlp_pure_healthy _ hok
    · exact wlp_check fun _ _ hok => wlp_pure_healthy _ hok
    · exact wlp_check fun _ _ hok => wlp_pure_healthy _ hok
    · exact wlp_check fun _ _ hok => wlp_pure_healthy _ hok
    · exact wlp_check fun _ _ hok => wlp_pure_healthy _ hok
    · rw [wlp_ite]
      split
      · exact wlp_check fun _ _ hok => wlp_pure_healthy _ hok
      · rw [wlp_Fail]
        intro h
        cases h

theorem ParseType_strict (p : Parser) :
    wlp ParseType (fun b p' => b.isSome = true → p'.ok_ = true) p := by
  unfold ParseType
  rw [wlp_bind, wlp_remaining]
  exact ParseType_go_strict _ p

/-- What is read from given tokens as a type is determined by the tokens. -/
theorem Type_deterministic {ts r1 r2 : List Token} {e1 e2 : Type_}
    (h1 : Reads.Type_ ts e1 r1) (h2 : Reads.Type_ ts e2 r2) : e1 = e2 ∧ r1 = r2 := by
  have c1 := ParseType_complete h1 (Parser.init (Lexer.mk [] "" ⟨0, ""⟩)) rfl
  have c2 := ParseType_complete h2 (Parser.init (Lexer.mk [] "" ⟨0, ""⟩)) rfl
  rw [c1] at c2
  simp only [Option.some.injEq, Prod.mk.injEq] at c2
  exact ⟨c2.1, congrArg (fun q => q.lexer_.tokens) c2.2⟩

/-- What `Reads.Count` says about the tokens: a count is read exactly when the next token is
`:`, and it is the constant read after that token. -/
theorem Count_colon {r r2 : List Token} {c : Option Constant} (h : Reads.Count r c r2) :
    (c.isSome = true ↔ next r = Kind.Colon) ∧ (∀ k, c = some k → Reads.Constant r.tail k r2) ∧
      (c = none → r2 = r) := by
  cases h with
  | some hk hx =>
    refine ⟨⟨fun _ => hk, fun _ => rfl⟩, ?_, fun h => (by cases h)⟩
    rintro k ⟨⟩
    exact hx
  | none hne =>
    exact ⟨⟨fun h => (by cases h), fun h => absurd h hne⟩, fun k h => (by cases h),
      fun _ => rfl⟩

/-- C8: element counts obey their declared optionality. Every `ArrayType` that
`ParseArrayType` returns has an element type and a count, and on `array < T >` that is not
followed by `:` and a constant it returns `nullptr`, unhealthy. A `VectorType` that
`ParseVectorType` returns, and a `StringType` that `ParseStringType` returns, has a count
if and only if the token right after the `>`, respectively after `string`, is `:`, and the
count is then the constant (`Reads.Constant`: a compound identifier or any literal) read
after that `:`. On `vector<int32>:10?` `ParseType` returns the nullable vector of `int32`
with count `10` and consumes all seven tokens. -/
theorem element_counts_obey_optionality :
    (∀ (p p' : Parser) (e : Option Type_) (c : Option Constant),
      ParseArrayType ParseType p = some (some (Type_.ArrayType e c), p') →
        e.isSome = true ∧ c.isSome = true) ∧
    (∀ (p : Parser) (array left right : Token) (ts r : List Token) (e : Type_),
      p.ok_ = true → array.kind = Kind.Array → left.kind = Kind.LeftAngle →
      Reads.Type_ ts e (right :: r) → right.kind = Kind.RightAngle →
      (¬ ∃ colon r2 c rest, r = colon :: r2 ∧ colon.kind = Kind.Colon ∧
        Reads.Constant r2 c rest) →
      ∃ p', ParseArrayType ParseType (p.at (array :: left :: ts)) = some (none, p') ∧
        p'.ok_ = false) ∧
    (∀ (p p' : Parser) (e : Option Type_) (c : Option Constant) (n : Nullability),
      ParseVectorType ParseType p = some (some (Type_.VectorType e c n), p') →
        ∃ (vector left right : Token) (ts r r2 : List Token) (element : Type_),
          p.lexer_.tokens = vector :: left :: ts ∧ vector.kind = Kind.Vector ∧
          left.kind = Kind.LeftAngle ∧ e = some element ∧
          Reads.Type_ ts element (right :: r) ∧ right.kind = Kind.RightAngle ∧
          (c.isSome = true ↔ next r = Kind.Colon) ∧
          (∀ k, c = some k → Reads.Constant r.tail k r2) ∧ (c = none → r2 = r) ∧
          Reads.Nullability r2 n p'.lexer_.tokens) ∧
    (∀ (p p' : Parser) (c : Option Constant) (n : Nullability),
      ParseStringType p = some (some (Type_.StringType c n), p') →
        ∃ (string : Token) (r r2 : List Token),
          p.lexer_.tokens = string :: r ∧ string.kind = Kind.String ∧
          (c.isSome = true ↔ next r = Kind.Colon) ∧
          (∀ k, c = some k → Reads.Constant r.tail k r2) ∧ (c = none → r2 = r) ∧
          Reads.Nullability r2 n p'.lexer_.tokens) ∧
    (ParseType (Parser.init vector_of_ten)).map (fun r => (r.1, r.2.ok_, r.2.lexer_.tokens)) =
      some (some (Type_.VectorType
        (some (Type_.PrimitiveType (PrimitiveType.mk TypeKind.Int32)))
        (some (Constant.LiteralConstant (some (Literal.NumericLiteral (NumericLiteral.mk
          (Token.on_line "vector<int32>:10?" Kind.NumericLiteral "10"))))))
        Nullability.Nullable), true, []) := by
  refine ⟨?_, ?_, ?_, ?_, rfl⟩
  · intro p p' e c hrun
    obtain ⟨a, q, hrun2, -, -, hpop⟩ := ParseArrayType_spec ParseType p
      (fun q _ => ParseType_spec q)
    rw [hrun] at hrun2
    cases hrun2
    have := hpop _ rfl
    cases e <;> cases c <;> simp [Type_.populated, present] at this ⊢
  · intro p array left right ts r e hok ha hl he hr hnot
    obtain ⟨a, p', hrun, -, hnone, -⟩ := ParseArrayType_spec ParseType
      (p.at (array :: left :: ts)) (fun q _ => ParseType_spec q)
    cases a with
    | none => exact ⟨p', hrun, hnone rfl⟩
    | some x =>
      exfalso
      have hok2 := ParseArrayType_strict ParseType _ _ _ hrun rfl
      obtain ⟨y, -, hy⟩ := ParseArrayType_sound ParseType ParseType_sound _
        (array :: left :: ts) rfl _ _ hrun hok2
      obtain ⟨rest, hrest⟩ : ∃ rest, p'.lexer_.tokens = rest := ⟨_, rfl⟩
      rw [hrest] at hy
      cases hy with
      | identifier hx _ =>
        have hid := CompoundIdentifier_next hx
        simp only [next, ha] at hid
        cases hid
      | array _ _ he2 _ hcolon hc =>
        obtain ⟨-, hrr⟩ := Type_deterministic he he2
        simp only [List.cons.injEq] at hrr
        exact hnot ⟨_, _, _, _, hrr.2, hcolon, hc⟩
      | vector hk => rw [ha] at hk; cases hk
      | string hk => rw [ha] at hk; cases hk
      | handle hk => rw [ha] at hk; cases hk
      | request hk => rw [ha] at hk; cases hk
      | primitive hk => rw [ha] at hk; cases hk
  · intro p p' e c n hrun
    have hok := ParseVectorType_strict ParseType p _ _ hrun rfl
    obtain ⟨ts, hts⟩ : ∃ ts, p.lexer_.tokens = ts := ⟨_, rfl⟩
    obtain ⟨x, hx, hr⟩ := ParseVectorType_sound ParseType ParseType_sound p ts hts _ _ hrun hok
    cases hx
    obtain ⟨rest, hrest⟩ : ∃ rest, p'.lexer_.tokens = rest := ⟨_, rfl⟩
    rw [hrest] at hr
    cases hr with
    | vector hv hl he hright hc hn =>
      obtain ⟨h1, h2, h3⟩ := Count_colon hc
      exact ⟨_, _, _, _, _, _, _, hts, hv, hl, rfl, he, hright, h1, h2, h3, hrest ▸ hn⟩
  · intro p p' c n hrun
    have hok := ParseStringType_strict p _ _ hrun rfl
    obtain ⟨ts, hts⟩ : ∃ ts, p.lexer_.tokens = ts := ⟨_, rfl⟩
    obtain ⟨x, hx, hr⟩ := ParseStringType_sound p ts hts _ _ hrun hok
    cases hx
    obtain ⟨rest, hrest⟩ : ∃ rest, p'.lexer_.tokens = rest := ⟨_, rfl⟩
    rw [hrest] at hr
    cases hr with
    | string hs hc hn =>
      obtain ⟨h1, h2, h3⟩ := Count_colon hc
      exact ⟨_, _, _, hts, hs, h1, h2, h3, hrest ▸ hn⟩

/-! ## Nullability and the trailing `?` -/

theorem no_question_last {b : List Token} (h : Kind.Question ∉ kinds b) :
    b.getLast?.map Token.kind ≠ some Kind.Question := by
  cases hl : b.getLast? with
  | none => simp
  | some t =>
    simp only [Option.map_some', ne_eq, Option.some.injEq]
    intro hk
    apply h
    rw [← hk]
    exact List.mem_map_of_mem _ (List.mem_of_getLast?_eq_some hl)

theorem getLast_append_cons (a : List Token) (t : Token) (c : List Token) :
    (a ++ t :: c).getLast? = (t :: c).getLast? := by
  induction a with
  | nil => rfl
  | cons x a ih =>
    cases h : a ++ t :: c with
    | nil => simp at h
    | cons y l =>
      rw [List.cons_append, h, List.getLast?_cons_cons, ← h, ih]

/-- After a body that does not end in `?`, the node is nullable exactly when the last token
consumed is `?`. -/
theorem Nullability_ends {b r rest : List Token} {n : Nullability}
    (hlast : b.getLast?.map Token.kind ≠ some Kind.Question)
    (hn : Reads.Nullability r n rest) :
    ∃ consumed, b ++ r = consumed ++ rest ∧
      (n = Nullability.Nullable ↔ consumed.getLast?.map Token.kind = some Kind.Question) ∧
      (n = Nullability.Nonnullable → next rest ≠ Kind.Question) := by
  cases hn with
  | @nullable question _ hk =>
    refine ⟨b ++ [question], by simp, ?_, fun h => (by cases h)⟩
    rw [getLast_append_cons]
    simp [hk]
  | nonnullable hne =>
    refine ⟨b, rfl, ?_, fun _ => hne⟩
    constructor
    · intro h
      cases h
    · intro h
      exact absurd h hlast

theorem question_CompoundIdentifier :
    Grammar.Avoids Kind.Question Grammar.CompoundIdentifier :=
  avoids_seq (avoids_tok (by decide))
    (avoids_star (avoids_seq (avoids_tok (by decide)) (avoids_tok (by decide))))

theorem question_Count :
    Grammar.Avoids Kind.Question
      (Grammar.opt (Grammar.seqs [Grammar.tok Kind.Colon, Grammar.Constant])) :=
  avoids_opt (avoids_seq (avoids_tok (by decide))
    (avoids_alt question_CompoundIdentifier (avoids_alt (avoids_tok (by decide))
      (avoids_alt (avoids_tok (by decide)) (avoids_alt (avoids_tok (by decide))
        (avoids_alt (avoids_tok (by decide)) (avoids_tok (by decide))))))))

theorem question_HandleSubtype :
    Grammar.Avoids Kind.Question
      (Grammar.opt (Grammar.seqs [Grammar.tok Kind.LeftAngle, Grammar.HandleSubtypeKeyword,
        Grammar.tok Kind.RightAngle])) :=
  avoids_opt (avoids_seq (avoids_tok (by decide)) (avoids_seq (avoids_oneOf (by decide))
    (avoids_tok (by decide))))

/-- What `Reads.Type_` says about the trailing `?` of the five types that have a
nullability. -/
theorem Type_ends {ts rest : List Token} {x : Type_} {n : Nullability}
    (h : Reads.Type_ ts x rest) (hx : x.nullability = some n) :
    ∃ consumed, ts = consumed ++ rest ∧
      (n = Nullability.Nullable ↔ consumed.getLast?.map Token.kind = some Kind.Question) ∧
      (n = Nullability.Nonnullable → next rest ≠ Kind.Question) := by
  cases h with
  | identifier hc hn =>
    cases hx
    obtain ⟨c, rfl, g⟩ := CompoundIdentifier_derivable hc
    exact Nullability_ends (no_question_last (question_CompoundIdentifier _ g)) hn
  | array => cases hx
  | @vector vector left right _ _ _ _ _ _ _ hv hl he hr hc hn =>
    cases hx
    obtain ⟨c2, rfl, g2⟩ := Count_derivable hc
    obtain ⟨c1, rfl, -⟩ := Type_derivable he
    have hlast : ((vector :: left :: c1) ++ right :: c2).getLast?.map Token.kind ≠
        some Kind.Question := by
      rw [getLast_append_cons]
      apply no_question_last
      simp only [kinds, List.map_cons, List.mem_cons, not_or]
      exact ⟨by rw [hr]; decide, question_Count _ g2⟩
    obtain ⟨c, hc, hrest⟩ := Nullability_ends hlast hn
    exact ⟨c, by simpa using hc, hrest⟩
  | @string string _ _ _ _ _ hs hc hn =>
    cases hx
    obtain ⟨c2, rfl, g2⟩ := Count_derivable hc
    have hlast : (string :: c2).getLast?.map Token.kind ≠ some Kind.Question := by
      apply no_question_last
      simp only [kinds, List.map_cons, List.mem_cons, not_or]
      exact ⟨by rw [hs]; decide, question_Count _ g2⟩
    obtain ⟨c, hc, hrest⟩ := Nullability_ends hlast hn
    exact ⟨c, by simpa using hc, hrest⟩
  | @handle handle _ _ _ _ _ hh hs hn =>
    cases hx
    obtain ⟨c2, rfl, g2⟩ := HandleSubtype_derivable hs
    have hlast : (handle :: c2).getLast?.map Token.kind ≠ some Kind.Question := by
      apply no_question_last
      simp only [kinds, List.map_cons, List.mem_cons, not_or]
      exact ⟨by rw [hh]; decide, question_HandleSubtype _ g2⟩
    obtain ⟨c, hc, hrest⟩ := Nullability_ends hlast hn
    exact ⟨c, by simpa using hc, hrest⟩
  | @request request left right _ _ _ _ _ hq hl hc hr hn =>
    cases hx
    obtain ⟨c1, rfl, -⟩ := CompoundIdentifier_derivable hc
    have hlast : ((request :: left :: c1) ++ right :: []).getLast?.map Token.kind ≠
        some Kind.Question := by
      rw [getLast_append_cons]
      simp [hr]
    obtain ⟨c, hc, hrest⟩ := Nullability_ends hlast hn
    exact ⟨c, by simpa using hc, hrest⟩
  | primitive => cases hx

/-- C9: when `ParseType` returns a vector, string, handle, request or identifier type, the
tokens it consumed are a prefix of the tokens it started from, the node is nullable if and
only if the last token consumed is `?`, and a node that is not nullable leaves a token
that is not `?` as the next one. -/
theorem nullable_iff_trailing_question (p p' : Parser) (type : Type_) (n : Nullability)
    (hrun : ParseType p = some (some type, p')) (hn : type.nullability = some n) :
    ∃ consumed, p.lexer_.tokens = consumed ++ p'.lexer_.tokens ∧
      (n = Nullability.Nullable ↔ consumed.getLast?.map Token.kind = some Kind.Question) ∧
      (n = Nullability.Nonnullable → p'.last_token_.kind ≠ Kind.Question) := by
  have hok := ParseType_strict p _ _ hrun rfl
  obtain ⟨x, hx, hr⟩ := ParseType_sound p _ rfl _ _ hrun hok
  cases hx
  obtain ⟨c, hc, hiff, hnon⟩ := Type_ends hr hn
  refine ⟨c, hc, hiff, ?_⟩
  rw [last_token_kind rfl]
  exact hnon

theorem nullable_iff_trailing_question_witness :
    ParseType (Parser.init vector_of_ten) =
      some (some (Type_.VectorType
        (some (Type_.PrimitiveType (PrimitiveType.mk TypeKind.Int32)))
        (some (Constant.LiteralConstant (some (Literal.NumericLiteral (NumericLiteral.mk
          (Token.on_line "vector<int32>:10?" Kind.NumericLiteral "10"))))))
        Nullability.Nullable),
        Parser.mk (Lexer.mk [] "" (SourceLocation.mk 1 "vector<int32>:10?")) true []) ∧
    ∃ consumed, (Parser.init vector_of_ten).lexer_.tokens = consumed ++ [] ∧
      (Nullability.Nullable = Nullability.Nullable ↔
        consumed.getLast?.map Token.kind = some Kind.Question) ∧
      (Nullability.Nullable = Nullability.Nonnullable →
        (Parser.mk (Lexer.mk [] "" (SourceLocation.mk 1 "vector<int32>:10?")) true
          []).last_token_.kind ≠ Kind.Question) :=
  ⟨rfl, nullable_iff_trailing_question (Parser.init vector_of_ten)
    (Parser.mk (Lexer.mk [] "" (SourceLocation.mk 1 "vector<int32>:10?")) true []) _
    Nullability.Nullable rfl rfl⟩

/-! ## Dotted names -/

theorem ParseCompoundIdentifier_loop_strict (n : Nat) :
    ∀ (p : Parser) (components : List (Option Identifier)), p.ok_ = true →
      wlp (ParseCompoundIdentifier.loop n components)
        (fun b p' => b.isSome = true → p'.ok_ = true) p := by
  induction n with
  | zero => intro p c _; exact wlp_exhausted _ _
  | succ n ih =>
    intro p components hok
    unfold ParseCompoundIdentifier.loop
    rw [wlp_bind, wlp_Peek]
    split
    · rw [wlp_bind]
      intro _ p1 _
      exact wlp_check fun c q hq => ih q c hq
    · exact wlp_healthy _ hok

theorem ParseCompoundIdentifier_strict (p : Parser) :
    wlp ParseCompoundIdentifier (fun b p' => b.isSome = true → p'.ok_ = true) p := by
  unfold ParseCompoundIdentifier
  refine wlp_check fun _ q hok => ?_
  rw [wlp_bind, wlp_remaining]
  exact ParseCompoundIdentifier_loop_strict _ q _ hok

/-- The components after the first of a dotted name are read one by one. -/
theorem Components_separated (more : List (Token × Token)) (rest : List Token)
    (hmore : ∀ di ∈ more, di.1.kind = Kind.Dot ∧ di.2.kind = Kind.Identifier)
    (hrest : next rest ≠ Kind.Dot) :
    Reads.Components (separated more ++ rest)
      (more.map (fun di => some (Identifier.mk di.2))) rest := by
  induction more with
  | nil => exact Reads.Components.done hrest
  | cons di more ih =>
    have h := hmore di (List.mem_cons_self _ _)
    exact Reads.Components.more h.1 h.2
      (ih (fun d hd => hmore d (List.mem_cons_of_mem _ hd)))

/-- Nothing is read as components from a dotted name that goes on with a `.` and a token
that is not an identifier. -/
theorem Components_dangling (more : List (Token × Token)) (dot : Token) (rest : List Token)
    (hmore : ∀ di ∈ more, di.1.kind = Kind.Dot ∧ di.2.kind = Kind.Identifier)
    (hdot : dot.kind = Kind.Dot) (hrest : next rest ≠ Kind.Identifier)
    (xs : List (Option Identifier)) (r : List Token) :
    ¬ Reads.Components (separated more ++ dot :: rest) xs r := by
  induction more generalizing xs with
  | nil =>
    intro h
    obtain ⟨ts, hts⟩ : ∃ ts, separated [] ++ dot :: rest = ts := ⟨_, rfl⟩
    rw [hts] at h
    cases h with
    | done hne =>
      subst hts
      exact hne hdot
    | more _ hid _ =>
      simp only [separated, List.nil_append, List.cons.injEq] at hts
      obtain ⟨-, rfl⟩ := hts
      exact hrest hid
  | cons di more ih =>
    intro h
    have hdi := hmore di (List.mem_cons_self _ _)
    obtain ⟨ts, hts⟩ : ∃ ts, separated (di :: more) ++ dot :: rest = ts := ⟨_, rfl⟩
    rw [hts] at h
    cases h with
    | done hne =>
      subst hts
      exact hne hdi.1
    | more _ _ hmore2 =>
      simp only [separated, List.cons_append, List.cons.injEq] at hts
      obtain ⟨-, -, rfl⟩ := hts
      exact ih (fun d hd => hmore d (List.mem_cons_of_mem _ hd)) _ hmore2

/-- C10: on the identifier tokens `first` and `more`, separated by `.` tokens and followed
by a token that is not `.`, `ParseCompoundIdentifier` of a healthy parser returns the
compound identifier whose components are exactly these identifiers in source order, and
leaves the tokens that follow unconsumed; when instead a `.` follows that is not followed
by an identifier, it returns `nullptr` and the parser is unhealthy. -/
theorem ParseCompoundIdentifier_dotted (p : Parser) (first : Token)
    (more : List (Token × Token)) (rest : List Token) (hok : p.ok_ = true)
    (hfirst : first.kind = Kind.Identifier)
    (hmore : ∀ di ∈ more, di.1.kind = Kind.Dot ∧ di.2.kind = Kind.Identifier) :
    (next rest ≠ Kind.Dot →
      ParseCompoundIdentifier (p.at (first :: (separated more ++ rest))) =
        some (some (CompoundIdentifier.mk
          ((first :: more.map Prod.snd).map (fun i => some (Identifier.mk i)))),
          p.at rest)) ∧
    (∀ dot : Token, dot.kind = Kind.Dot → next rest ≠ Kind.Identifier →
      ∃ p', ParseCompoundIdentifier (p.at (first :: (separated more ++ dot :: rest))) =
        some (none, p') ∧ p'.ok_ = false) := by
  constructor
  · intro hrest
    have h := ParseCompoundIdentifier_complete
      (Reads.CompoundIdentifier.mk hfirst (Components_separated more rest hmore hrest)) p hok
    rw [h]
    simp [List.map_map, Function.comp_def]
  · intro dot hdot hrest
    obtain ⟨a, p', hrun, -, hnone, -⟩ :=
      ParseCompoundIdentifier_spec (p.at (first :: (separated more ++ dot :: rest)))
    cases a with
    | none => exact ⟨p', hrun, hnone rfl⟩
    | some x =>
      exfalso
      have hok2 := ParseCompoundIdentifier_strict _ _ _ hrun rfl
      obtain ⟨y, -, hy⟩ := ParseCompoundIdentifier_sound _ _ rfl _ _ hrun hok2
      obtain ⟨ts, hts⟩ : ∃ ts, (p.at (first :: (separated more ++ dot :: rest))).lexer_.tokens
          = ts := ⟨_, rfl⟩
      rw [hts] at hy
      cases hy with
      | mk _ hc =>
        simp only [Parser.at_tokens, List.cons.injEq] at hts
        obtain ⟨-, rfl⟩ := hts
        exact Components_dangling more dot rest hmore hdot hrest _ _ hc

theorem ParseCompoundIdentifier_dotted_witness :
    ParseCompoundIdentifier (Parser.init a_dot_b) =
      some (some (CompoundIdentifier.mk
        [some (Identifier.mk (Token.on_line "a.b;" Kind.Identifier "a")),
          some (Identifier.mk (Token.on_line "a.b;" Kind.Identifier "b"))]),
        Parser.init (Lexer.of_line "a.b;" [(Kind.Semicolon, ";")])) :=
  (ParseCompoundIdentifier_dotted (Parser.init (Lexer.of_line "a.b;" []))
    (Token.on_line "a.b;" Kind.Identifier "a")
    [(Token.on_line "a.b;" Kind.Dot ".", Token.on_line "a.b;" Kind.Identifier "b")]
    [Token.on_line "a.b;" Kind.Semicolon ";"] rfl rfl
    (by
      intro di h
      simp only [List.mem_singleton] at h
      subst h
      exact ⟨rfl, rfl⟩)).1 (by decide)

/-! ## Reading is a function of the tokens -/

theorem functional_of_complete {α : Type} {R : List Token → α → List Token → Prop}
    {m : M (Option α)}
    (hc : ∀ {ts rest : List Token} {x : α}, R ts x rest → ∀ p : Parser, p.ok_ = true →
      m (p.at ts) = some (some x, p.at rest)) : Reads.Functional R := by
  intro ts x x' r r' h h'
  have c1 := hc h (Parser.init (Lexer.mk [] "" ⟨0, ""⟩)) rfl
  have c2 := hc h' (Parser.init (Lexer.mk [] "" ⟨0, ""⟩)) rfl
  rw [c1] at c2
  simp only [Option.some.injEq, Prod.mk.injEq] at c2
  exact ⟨c2.1, congrArg (fun q => q.lexer_.tokens) c2.2⟩

theorem CompoundIdentifier_functional : Reads.Functional Reads.CompoundIdentifier :=
  functional_of_complete ParseCompoundIdentifier_complete

theorem Constant_functional : Reads.Functional Reads.Constant :=
  functional_of_complete ParseConstant_complete

theorem Type_functional : Reads.Functional Reads.Type_ :=
  functional_of_complete ParseType_complete

theorem Using_functional : Reads.Functional Reads.Using :=
  functional_of_complete ParseUsing_complete

theorem ConstDeclaration_functional : Reads.Functional Reads.ConstDeclaration :=
  functional_of_complete ParseConstDeclaration_complete

theorem EnumMember_functional : Reads.Functional Reads.EnumMember :=
  functional_of_complete ParseEnumMember_complete

theorem EnumDeclaration_functional : Reads.Functional Reads.EnumDeclaration :=
  functional_of_complete ParseEnumDeclaration_complete

theorem InterfaceMemberMethod_functional : Reads.Functional Reads.InterfaceMemberMethod :=
  functional_of_complete ParseInterfaceMemberMethod_complete

theorem InterfaceDeclaration_functional : Reads.Functional Reads.InterfaceDeclaration :=
  functional_of_complete ParseInterfaceDeclaration_complete

theorem StructMember_functional : Reads.Functional Reads.StructMember :=
  functional_of_complete ParseStructMember_complete

theorem StructDeclaration_functional : Reads.Functional Reads.StructDeclaration :=
  functional_of_complete ParseStructDeclaration_complete

theorem UnionMember_functional : Reads.Functional Reads.UnionMember :=
  functional_of_complete ParseUnionMember_complete

theorem UnionDeclaration_functional : Reads.Functional Reads.UnionDeclaration :=
  functional_of_complete ParseUnionDeclaration_complete

theorem File_functional : Reads.Functional Reads.File :=
  functional_of_complete ParseFile_complete

/-- A member of a body is determined by the tokens, when the members proper are and never
begin with `const` or `enum`. -/
theorem Item_functional {α : Type} {R : List Token → α → List Token → Prop}
    (hR : Reads.Functional R)
    (hstart : ∀ (ts : List Token) (x : α) (r : List Token), R ts x r →
      next ts ≠ Kind.Const ∧ next ts ≠ Kind.Enum) : Reads.Functional (Reads.Item R) := by
  intro ts x x' r r' h h'
  cases h with
  | const hc =>
    cases h' with
    | const hc' =>
      obtain ⟨rfl, rfl⟩ := ConstDeclaration_functional _ _ _ _ _ hc hc'
      exact ⟨rfl, rfl⟩
    | enum he' =>
      have := ConstDeclaration_next hc
      rw [EnumDeclaration_next he'] at this
      cases this
    | member hm' => exact absurd (ConstDeclaration_next hc) (hstart _ _ _ hm').1
  | enum he =>
    cases h' with
    | const hc' =>
      have := ConstDeclaration_next hc'
      rw [EnumDeclaration_next he] at this
      cases this
    | enum he' =>
      obtain ⟨rfl, rfl⟩ := EnumDeclaration_functional _ _ _ _ _ he he'
      exact ⟨rfl, rfl⟩
    | member hm' => exact absurd (EnumDeclaration_next he) (hstart _ _ _ hm').2
  | member hm =>
    cases h' with
    | const hc' => exact absurd (ConstDeclaration_next hc') (hstart _ _ _ hm).1
    | enum he' => exact absurd (EnumDeclaration_next he') (hstart _ _ _ hm).2
    | member hm' =>
      obtain ⟨rfl, rfl⟩ := hR _ _ _ _ _ hm hm'
      exact ⟨rfl, rfl⟩

/-- The kind a top-level declaration begins with. -/
theorem Declaration_next {ts rest : List Token} {x : Declaration}
    (h : Reads.Declaration ts x rest) :
    (next ts = Kind.Const ∧ x.const?.isSome = true) ∨
    (next ts = Kind.Enum ∧ x.enum?.isSome = true) ∨
    (next ts = Kind.Interface ∧ x.interface?.isSome = true) ∨
    (next ts = Kind.Struct ∧ x.struct?.isSome = true) ∨
    (next ts = Kind.Union ∧ x.union?.isSome = true) := by
  cases h with
  | const h => exact Or.inl ⟨ConstDeclaration_next h, rfl⟩
  | enum h => exact Or.inr (Or.inl ⟨EnumDeclaration_next h, rfl⟩)
  | interface h => exact Or.inr (Or.inr (Or.inl ⟨InterfaceDeclaration_next h, rfl⟩))
  | struct h => exact Or.inr (Or.inr (Or.inr (Or.inl ⟨StructDeclaration_next h, rfl⟩)))
  | union h => exact Or.inr (Or.inr (Or.inr (Or.inr ⟨UnionDeclaration_next h, rfl⟩)))

theorem Declaration_functional : Reads.Functional Reads.Declaration := by
  intro ts x x' r r' h h'
  cases h with
  | const h1 =>
    have e1 := ConstDeclaration_next h1
    cases h' with
    | const h2 =>
      obtain ⟨rfl, rfl⟩ := ConstDeclaration_functional _ _ _ _ _ h1 h2
      exact ⟨rfl, rfl⟩
    | enum h2 => rw [EnumDeclaration_next h2] at e1; cases e1
    | interface h2 => rw [InterfaceDeclaration_next h2] at e1; cases e1
    | struct h2 => rw [StructDeclaration_next h2] at e1; cases e1
    | union h2 => rw [UnionDeclaration_next h2] at e1; cases e1
  | enum h1 =>
    have e1 := EnumDeclaration_next h1
    cases h' with
    | const h2 => rw [ConstDeclaration_next h2] at e1; cases e1
    | enum h2 =>
      obtain ⟨rfl, rfl⟩ := EnumDeclaration_functional _ _ _ _ _ h1 h2
      exact ⟨rfl, rfl⟩
    | interface h2 => rw [InterfaceDeclaration_next h2] at e1; cases e1
    | struct h2 => rw [StructDeclaration_next h2] at e1; cases e1
    | union h2 => rw [UnionDeclaration_next h2] at e1; cases e1
  | interface h1 =>
    have e1 := InterfaceDeclaration_next h1
    cases h' with
    | const h2 => rw [ConstDeclaration_next h2] at e1; cases e1
    | enum h2 => rw [EnumDeclaration_next h2] at e1; cases e1
    | interface h2 =>
      obtain ⟨rfl, rfl⟩ := InterfaceDeclaration_functional _ _ _ _ _ h1 h2
      exact ⟨rfl, rfl⟩
    | struct h2 => rw [StructDeclaration_next h2] at e1; cases e1
    | union h2 => rw [UnionDeclaration_next h2] at e1; cases e1
  | struct h1 =>
    have e1 := StructDeclaration_next h1
    cases h' with
    | const h2 => rw [ConstDeclaration_next h2] at e1; cases e1
    | enum h2 => rw [EnumDeclaration_next h2] at e1; cases e1
    | interface h2 => rw [InterfaceDeclaration_next h2] at e1; cases e1
    | struct h2 =>
      obtain ⟨rfl, rfl⟩ := StructDeclaration_functional _ _ _ _ _ h1 h2
      exact ⟨rfl, rfl⟩
    | union h2 => rw [UnionDeclaration_next h2] at e1; cases e1
  | union h1 =>
    have e1 := UnionDeclaration_next h1
    cases h' with
    | const h2 => rw [ConstDeclaration_next h2] at e1; cases e1
    | enum h2 => rw [EnumDeclaration_next h2] at e1; cases e1
    | interface h2 => rw [InterfaceDeclaration_next h2] at e1; cases e1
    | struct h2 => rw [StructDeclaration_next h2] at e1; cases e1
    | union h2 =>
      obtain ⟨rfl, rfl⟩ := UnionDeclaration_functional _ _ _ _ _ h1 h2
      exact ⟨rfl, rfl⟩

/-- Two sequences read from the same tokens go the same way as far as both go. -/
theorem Seq_meet {α : Type} {R : List Token → α → List Token → Prop}
    (hR : Reads.Functional R) {ts r : List Token} {xs : List α} (h : Reads.Seq R ts xs r) :
    ∀ {ys : List α} {r' : List Token}, Reads.Seq R ts ys r' →
      (∃ zs, ys = xs ++ zs ∧ Reads.Seq R r zs r') ∨
      (∃ z zs, xs = ys ++ z :: zs ∧ Reads.Seq R r' (z :: zs) r) := by
  induction h with
  | nil => intro ys r' h'; exact Or.inl ⟨ys, rfl, h'⟩
  | cons hx hs hrest ih =>
    intro ys r' h'
    cases h' with
    | nil => exact Or.inr ⟨_, _, rfl, Reads.Seq.cons hx hs hrest⟩
    | cons hy hs' hrest' =>
      obtain ⟨rfl, hr⟩ := hR _ _ _ _ _ hx hy
      simp only [List.cons.injEq] at hr
      obtain ⟨-, rfl⟩ := hr
      rcases ih hrest' with ⟨zs, rfl, hz⟩ | ⟨z, zs, rfl, hz⟩
      · exact Or.inl ⟨zs, rfl, hz⟩
      · exact Or.inr ⟨z, zs, rfl, hz⟩

/-- After any items of a sequence that ends at a token of kind `E`, where no item begins
with such a token: the end comes next, or an item followed by `;`. -/
theorem Seq_then {α : Type} {R : List Token → α → List Token → Prop} {E : Kind → Prop}
    (hR : Reads.Functional R) (hE : Reads.StartsOutside R E) {ts r r' : List Token}
    {xs ys : List α} (h : Reads.Seq R ts xs r) (h' : Reads.Seq R ts ys r')
    (hend : E (next r')) :
    (r = r' ∧ ys = xs) ∨ ∃ z zs semicolon r2, ys = xs ++ z :: zs ∧
      R r z (semicolon :: r2) ∧ semicolon.kind = Kind.Semicolon ∧ Reads.Seq R r2 zs r' := by
  rcases Seq_meet hR h h' with ⟨zs, rfl, hz⟩ | ⟨z, zs, rfl, hz⟩
  · cases hz with
    | nil => exact Or.inl ⟨rfl, by simp⟩
    | cons hx hs hrest => exact Or.inr ⟨_, _, _, _, rfl, hx, hs, hrest⟩
  · cases hz with
    | cons hx _ _ => exact absurd hend (hE _ _ _ hx)

/-- A production fails on tokens from which nothing can be read. -/
theorem fails_of_not_reads {α : Type} {m : M (Option α)} {pop : α → Bool}
    {R : List Token → α → List Token → Prop} {p : Parser}
    (hs : wp m (Post pop p) p) (hsound : wlp m (Sound R p.lexer_.tokens) p)
    (h : ∀ x rest, ¬ R p.lexer_.tokens x rest) : fails m p := by
  obtain ⟨a, p', hrun, -⟩ := hs
  refine ⟨a, p', hrun, ?_⟩
  cases hok : p'.ok_ with
  | false => rfl
  | true =>
    obtain ⟨x, -, hx⟩ := hsound a p' hrun hok
    exact absurd hx (h _ _)

/-- A healthy return has read the node returned. -/
theorem reads_of_success {α : Type} {m : M (Option α)}
    {R : List Token → α → List Token → Prop} {p p' : Parser} {x : α}
    (hsound : wlp m (Sound R p.lexer_.tokens) p) (hrun : m p = some (some x, p'))
    (hok : p'.ok_ = true) : R p.lexer_.tokens x p'.lexer_.tokens := by
  obtain ⟨y, hy, hr⟩ := hsound _ _ hrun hok
  cases hy
  exact hr

/-! ## The lists of a node and the source order -/

theorem EnumMembers_seq {ts rest : List Token} {ms : List (Option EnumMember)}
    (h : Reads.EnumMembers ts ms rest) :
    ∃ xs close, Reads.Seq Reads.EnumMember ts xs (close :: rest) ∧
      close.kind = Kind.RightCurly ∧ ms = xs.map some := by
  induction h with
  | done hk => exact ⟨[], _, Reads.Seq.nil, hk, rfl⟩
  | more hx hs _ ih =>
    obtain ⟨xs, close, hseq, hk, rfl⟩ := ih
    exact ⟨_ :: xs, close, Reads.Seq.cons hx hs hseq, hk, rfl⟩

theorem InterfaceMembers_seq {ts rest : List Token} {cs : List (Option ConstDeclaration)}
    {es : List (Option EnumDeclaration)} {ms : List (Option InterfaceMemberMethod)}
    (h : Reads.InterfaceMembers ts cs es ms rest) :
    ∃ xs close, Reads.Seq (Reads.Item Reads.InterfaceMemberMethod) ts xs (close :: rest) ∧
      close.kind = Kind.RightCurly ∧ cs = (xs.filterMap Member.const?).map some ∧
      es = (xs.filterMap Member.enum?).map some ∧
      ms = (xs.filterMap Member.member?).map some := by
  induction h with
  | done hk => exact ⟨[], _, Reads.Seq.nil, hk, rfl, rfl, rfl⟩
  | const hx hs _ ih =>
    obtain ⟨xs, close, hseq, hk, rfl, rfl, rfl⟩ := ih
    exact ⟨_ :: xs, close, Reads.Seq.cons (Reads.Item.const hx) hs hseq, hk, rfl, rfl, rfl⟩
  | enum hx hs _ ih =>
    obtain ⟨xs, close, hseq, hk, rfl, rfl, rfl⟩ := ih
    exact ⟨_ :: xs, close, Reads.Seq.cons (Reads.Item.enum hx) hs hseq, hk, rfl, rfl, rfl⟩
  | method hx hs _ ih =>
    obtain ⟨xs, close, hseq, hk, rfl, rfl, rfl⟩ := ih
    exact ⟨_ :: xs, close, Reads.Seq.cons (Reads.Item.member hx) hs hseq, hk, rfl, rfl, rfl⟩

theorem StructMembers_seq {ts rest : List Token} {cs : List (Option ConstDeclaration)}
    {es : List (Option EnumDeclaration)} {ms : List (Option StructMember)}
    (h : Reads.StructMembers ts cs es ms rest) :
    ∃ xs close, Reads.Seq (Reads.Item Reads.StructMember) ts xs (close :: rest) ∧
      close.kind = Kind.RightCurly ∧ cs = (xs.filterMap Member.const?).map some ∧
      es = (xs.filterMap Member.enum?).map some ∧
      ms = (xs.filterMap Member.member?).map some := by
  induction h with
  | done hk => exact ⟨[], _, Reads.Seq.nil, hk, rfl, rfl, rfl⟩
  | const hx hs _ ih =>
    obtain ⟨xs, close, hseq, hk, rfl, rfl, rfl⟩ := ih
    exact ⟨_ :: xs, close, Reads.Seq.cons (Reads.Item.const hx) hs hseq, hk, rfl, rfl, rfl⟩
  | enum hx hs _ ih =>
    obtain ⟨xs, close, hseq, hk, rfl, rfl, rfl⟩ := ih
    exact ⟨_ :: xs, close, Reads.Seq.cons (Reads.Item.enum hx) hs hseq, hk, rfl, rfl, rfl⟩
  | member hx hs _ ih =>
    obtain ⟨xs, close, hseq, hk, rfl, rfl, rfl⟩ := ih
    exact ⟨_ :: xs, close, Reads.Seq.cons (Reads.Item.member hx) hs hseq, hk, rfl, rfl, rfl⟩

theorem UnionMembers_seq {ts rest : List Token} {cs : List (Option ConstDeclaration)}
    {es : List (Option EnumDeclaration)} {ms : List (Option UnionMember)}
    (h : Reads.UnionMembers ts cs es ms rest) :
    ∃ xs close, Reads.Seq (Reads.Item Reads.UnionMember) ts xs (close :: rest) ∧
      close.kind = Kind.RightCurly ∧ cs = (xs.filterMap Member.const?).map some ∧
      es = (xs.filterMap Member.enum?).map some ∧
      ms = (xs.filterMap Member.member?).map some := by
  induction h with
  | done hk => exact ⟨[], _, Reads.Seq.nil, hk, rfl, rfl, rfl⟩
  | const hx hs _ ih =>
    obtain ⟨xs, close, hseq, hk, rfl, rfl, rfl⟩ := ih
    exact ⟨_ :: xs, close, Reads.Seq.cons (Reads.Item.const hx) hs hseq, hk, rfl, rfl, rfl⟩
  | enum hx hs _ ih =>
    obtain ⟨xs, close, hseq, hk, rfl, rfl, rfl⟩ := ih
    exact ⟨_ :: xs, close, Reads.Seq.cons (Reads.Item.enum hx) hs hseq, hk, rfl, rfl, rfl⟩
  | member hx hs _ ih =>
    obtain ⟨xs, close, hseq, hk, rfl, rfl, rfl⟩ := ih
    exact ⟨_ :: xs, close, Reads.Seq.cons (Reads.Item.member hx) hs hseq, hk, rfl, rfl, rfl⟩

theorem Declarations_seq {ts rest : List Token} {d : Reads.DeclarationLists}
    (h : Reads.Declarations ts d rest) :
    ∃ xs r, Reads.Seq Reads.Declaration ts xs r ∧ next r = Kind.EndOfFile ∧ rest = r.tail ∧
      d.const_declaration_list = (xs.filterMap Declaration.const?).map some ∧
      d.enum_declaration_list = (xs.filterMap Declaration.enum?).map some ∧
      d.interface_declaration_list = (xs.filterMap Declaration.interface?).map some ∧
      d.struct_declaration_list = (xs.filterMap Declaration.struct?).map some ∧
      d.union_declaration_list = (xs.filterMap Declaration.union?).map some := by
  induction h with
  | done hk => exact ⟨[], _, Reads.Seq.nil, hk, rfl, rfl, rfl, rfl, rfl, rfl⟩
  | const hx hs _ ih =>
    obtain ⟨xs, r, hseq, hk, hrest, h1, h2, h3, h4, h5⟩ := ih
    exact ⟨_ :: xs, r, Reads.Seq.cons (Reads.Declaration.const hx) hs hseq, hk, hrest,
      by simp [h1, Declaration.const?], by simp [h2, Declaration.enum?],
      by simp [h3, Declaration.interface?], by simp [h4, Declaration.struct?],
      by simp [h5, Declaration.union?]⟩
  | enum hx hs _ ih =>
    obtain ⟨xs, r, hseq, hk, hrest, h1, h2, h3, h4, h5⟩ := ih
    exact ⟨_ :: xs, r, Reads.Seq.cons (Reads.Declaration.enum hx) hs hseq, hk, hrest,
      by simp [h1, Declaration.const?], by simp [h2, Declaration.enum?],
      by simp [h3, Declaration.interface?], by simp [h4, Declaration.struct?],
      by simp [h5, Declaration.union?]⟩
  | interface hx hs _ ih =>
    obtain ⟨xs, r, hseq, hk, hrest, h1, h2, h3, h4, h5⟩ := ih
    exact ⟨_ :: xs, r, Reads.Seq.cons (Reads.Declaration.interface hx) hs hseq, hk, hrest,
      by simp [h1, Declaration.const?], by simp [h2, Declaration.enum?],
      by simp [h3, Declaration.interface?], by simp [h4, Declaration.struct?],
      by simp [h5, Declaration.union?]⟩
  | struct hx hs _ ih =>
    obtain ⟨xs, r, hseq, hk, hrest, h1, h2, h3, h4, h5⟩ := ih
    exact ⟨_ :: xs, r, Reads.Seq.cons (Reads.Declaration.struct hx) hs hseq, hk, hrest,
      by simp [h1, Declaration.const?], by simp [h2, Declaration.enum?],
      by simp [h3, Declaration.interface?], by simp [h4, Declaration.struct?],
      by simp [h5, Declaration.union?]⟩
  | union hx hs _ ih =>
    obtain ⟨xs, r, hseq, hk, hrest, h1, h2, h3, h4, h5⟩ := ih
    exact ⟨_ :: xs, r, Reads.Seq.cons (Reads.Declaration.union hx) hs hseq, hk, hrest,
      by simp [h1, Declaration.const?], by simp [h2, Declaration.enum?],
      by simp [h3, Declaration.interface?], by simp [h4, Declaration.struct?],
      by simp [h5, Declaration.union?]⟩

theorem Usings_seq {ts rest : List Token} {us : List (Option Using)}
    (h : Reads.Usings ts us rest) :
    ∃ xs, Reads.Seq Reads.Using ts xs rest ∧ next rest ≠ Kind.Using ∧ us = xs.map some := by
  induction h with
  | done hne => exact ⟨[], Reads.Seq.nil, hne, rfl⟩
  | more hx hs _ ih =>
    obtain ⟨xs, hseq, hne, rfl⟩ := ih
    exact ⟨_ :: xs, Reads.Seq.cons hx hs hseq, hne, rfl⟩

/-- An enum declaration is its header and, in the body, members up to a `}`. -/
theorem EnumDeclaration_body {ts rest : List Token} {x : EnumDeclaration}
    (h : Reads.EnumDeclaration ts x rest) :
    ∃ body xs close, Reads.EnumHeader ts body ∧
      Reads.Seq Reads.EnumMember body xs (close :: rest) ∧ close.kind = Kind.RightCurly ∧
      x.members = xs.map some := by
  cases h with
  | plain he hi ho hms =>
    obtain ⟨xs, close, hseq, hk, rfl⟩ := EnumMembers_seq hms
    exact ⟨_, xs, close, Reads.EnumHeader.plain he hi ho, hseq, hk, rfl⟩
  | typed he hi hc ht ho hms =>
    obtain ⟨xs, close, hseq, hk, rfl⟩ := EnumMembers_seq hms
    exact ⟨_, xs, close, Reads.EnumHeader.typed he hi hc ht ho, hseq, hk, rfl⟩

theorem InterfaceDeclaration_body {ts rest : List Token} {x : InterfaceDeclaration}
    (h : Reads.InterfaceDeclaration ts x rest) :
    ∃ body xs close, Reads.InterfaceHeader ts body ∧
      Reads.Seq (Reads.Item Reads.InterfaceMemberMethod) body xs (close :: rest) ∧
      close.kind = Kind.RightCurly ∧
      x.const_members = (xs.filterMap Member.const?).map some ∧
      x.enum_members = (xs.filterMap Member.enum?).map some ∧
      x.method_members = (xs.filterMap Member.member?).map some := by
  cases h with
  | plain hk hi ho hms =>
    obtain ⟨xs, close, hseq, hc, rfl, rfl, rfl⟩ := InterfaceMembers_seq hms
    exact ⟨_, xs, close, Reads.InterfaceHeader.plain hk hi ho, hseq, hc, rfl, rfl, rfl⟩
  | derived hk hi hcol hxs ho hms =>
    obtain ⟨xs, close, hseq, hc, rfl, rfl, rfl⟩ := InterfaceMembers_seq hms
    exact ⟨_, xs, close, Reads.InterfaceHeader.derived hk hi hcol hxs ho, hseq, hc, rfl, rfl,
      rfl⟩

theorem StructDeclaration_body {ts rest : List Token} {x : StructDeclaration}
    (h : Reads.StructDeclaration ts x rest) :
    ∃ body xs close, Reads.StructHeader ts body ∧
      Reads.Seq (Reads.Item Reads.StructMember) body xs (close :: rest) ∧
      close.kind = Kind.RightCurly ∧
      x.const_members = (xs.filterMap Member.const?).map some ∧
      x.enum_members = (xs.filterMap Member.enum?).map some ∧
      x.members = (xs.filterMap Member.member?).map some := by
  obtain ⟨hk, hi, ho, hms⟩ := h
  obtain ⟨xs, close, hseq, hc, rfl, rfl, rfl⟩ := StructMembers_seq hms
  exact ⟨_, xs, close, Reads.StructHeader.mk hk hi ho, hseq, hc, rfl, rfl, rfl⟩

theorem UnionDeclaration_body {ts rest : List Token} {x : UnionDeclaration}
    (h : Reads.UnionDeclaration ts x rest) :
    ∃ body xs close, Reads.UnionHeader ts body ∧
      Reads.Seq (Reads.Item Reads.UnionMember) body xs (close :: rest) ∧
      close.kind = Kind.RightCurly ∧
      x.const_members = (xs.filterMap Member.const?).map some ∧
      x.enum_members = (xs.filterMap Member.enum?).map some ∧
      x.members = (xs.filterMap Member.member?).map some := by
  obtain ⟨hk, hi, ho, hms⟩ := h
  obtain ⟨xs, close, hseq, hc, rfl, rfl, rfl⟩ := UnionMembers_seq hms
  exact ⟨_, xs, close, Reads.UnionHeader.mk hk hi ho, hseq, hc, rfl, rfl, rfl⟩

/-- C11: when `ParseFile` returns a `File`, the source is `library`, a name, `;`, the using
clauses `usings`, each followed by `;`, then the top-level declarations `declarations`, each
followed by `;`, then `EndOfFile`; the using list of the `File` is `usings` in this order
and each of its five declaration lists is the declarations of its kind among
`declarations`, in this order. When `ParseInterfaceDeclaration`,
`ParseStructDeclaration` or `ParseUnionDeclaration` returns healthy, the body after the
`{` is the members `members`, each followed by `;`, then `}`, and the const, enum and
method or member lists of the node are the members of that kind among `members`, in this
order. On `library a; struct S { }; const bool c = true; struct T { };` the const list is
`c` and the struct list is `S`, `T`. -/
theorem lists_in_source_order :
    (∀ (l : Lexer) (file : File) (p' : Parser),
      ParseFile (Parser.init l) = some (some file, p') →
      ∃ (library semicolon : Token) (ts r1 r2 r3 : List Token) (name : CompoundIdentifier)
        (usings : List Using) (declarations : List Declaration),
        l.tokens = library :: ts ∧ library.kind = Kind.Library ∧
        Reads.CompoundIdentifier ts name (semicolon :: r1) ∧
        semicolon.kind = Kind.Semicolon ∧
        Reads.Seq Reads.Using r1 usings r2 ∧ next r2 ≠ Kind.Using ∧
        Reads.Seq Reads.Declaration r2 declarations r3 ∧ next r3 = Kind.EndOfFile ∧
        file.using_list = usings.map some ∧
        file.const_declaration_list = (declarations.filterMap Declaration.const?).map some ∧
        file.enum_declaration_list = (declarations.filterMap Declaration.enum?).map some ∧
        file.interface_declaration_list =
          (declarations.filterMap Declaration.interface?).map some ∧
        file.struct_declaration_list =
          (declarations.filterMap Declaration.struct?).map some ∧
        file.union_declaration_list =
          (declarations.filterMap Declaration.union?).map some) ∧
    (∀ (p p' : Parser) (x : InterfaceDeclaration),
      ParseInterfaceDeclaration p = some (some x, p') → p'.ok_ = true →
      ∃ (body : List Token) (members : List (Member InterfaceMemberMethod)) (close : Token),
        Reads.InterfaceHeader p.lexer_.tokens body ∧
        Reads.Seq (Reads.Item Reads.InterfaceMemberMethod) body members
          (close :: p'.lexer_.tokens) ∧ close.kind = Kind.RightCurly ∧
        x.const_members = (members.filterMap Member.const?).map some ∧
        x.enum_members = (members.filterMap Member.enum?).map some ∧
        x.method_members = (members.filterMap Member.member?).map some) ∧
    (∀ (p p' : Parser) (x : StructDeclaration),
      ParseStructDeclaration p = some (some x, p') → p'.ok_ = true →
      ∃ (body : List Token) (members : List (Member StructMember)) (close : Token),
        Reads.StructHeader p.lexer_.tokens body ∧
        Reads.Seq (Reads.Item Reads.StructMember) body members
          (close :: p'.lexer_.tokens) ∧ close.kind = Kind.RightCurly ∧
        x.const_members = (members.filterMap Member.const?).map some ∧
        x.enum_members = (members.filterMap Member.enum?).map some ∧
        x.members = (members.filterMap Member.member?).map some) ∧
    (∀ (p p' : Parser) (x : UnionDeclaration),
      ParseUnionDeclaration p = some (some x, p') → p'.ok_ = true →
      ∃ (body : List Token) (members : List (Member UnionMember)) (close : Token),
        Reads.UnionHeader p.lexer_.tokens body ∧
        Reads.Seq (Reads.Item Reads.UnionMember) body members
          (close :: p'.lexer_.tokens) ∧ close.kind = Kind.RightCurly ∧
        x.const_members = (members.filterMap Member.const?).map some ∧
        x.enum_members = (members.filterMap Member.enum?).map some ∧
        x.members = (members.filterMap Member.member?).map some) ∧
    (ParseFile (Parser.init interleaved)).map (fun r => r.1.map (fun file =>
      (file.const_declaration_list.map (fun d =>
          (d.bind ConstDeclaration.identifier).map (fun i => i.identifier.data)),
        file.struct_declaration_list.map (fun d =>
          (d.bind StructDeclaration.identifier).map (fun i => i.identifier.data))))) =
      some (some ([some "c"], [some "S", some "T"])) := by
  refine ⟨?_, ?_, ?_, ?_, by decide!⟩
  · intro l file p' hrun
    obtain ⟨a, q, hrun2, -, hsome⟩ := ParseFile_spec (Parser.init l)
    rw [hrun] at hrun2
    cases hrun2
    have hr := reads_of_success (ParseFile_sound _ _ rfl) hrun (hsome rfl)
    obtain ⟨ts0, hts0⟩ : ∃ ts0, (Parser.init l).lexer_.tokens = ts0 := ⟨_, rfl⟩
    obtain ⟨rest, hrest⟩ : ∃ rest, p'.lexer_.tokens = rest := ⟨_, rfl⟩
    rw [hts0, hrest] at hr
    cases hr with
    | mk hk hx hs hus hd =>
      obtain ⟨usings, huseq, hne, rfl⟩ := Usings_seq hus
      obtain ⟨declarations, r3, hdseq, heof, -, h1, h2, h3, h4, h5⟩ := Declarations_seq hd
      exact ⟨_, _, _, _, _, _, _, usings, declarations, hts0, hk, hx, hs, huseq, hne, hdseq,
        heof, rfl, h1, h2, h3, h4, h5⟩
  · intro p p' x hrun hok
    obtain ⟨body, xs, close, hh, hseq, hc, h1, h2, h3⟩ := InterfaceDeclaration_body
      (reads_of_success (ParseInterfaceDeclaration_sound _ _ rfl) hrun hok)
    exact ⟨body, xs, close, hh, hseq, hc, h1, h2, h3⟩
  · intro p p' x hrun hok
    obtain ⟨body, xs, close, hh, hseq, hc, h1, h2, h3⟩ := StructDeclaration_body
      (reads_of_success (ParseStructDeclaration_sound _ _ rfl) hrun hok)
    exact ⟨body, xs, close, hh, hseq, hc, h1, h2, h3⟩
  · intro p p' x hrun hok
    obtain ⟨body, xs, close, hh, hseq, hc, h1, h2, h3⟩ := UnionDeclaration_body
      (reads_of_success (ParseUnionDeclaration_sound _ _ rfl) hrun hok)
    exact ⟨body, xs, close, hh, hseq, hc, h1, h2, h3⟩

/-! ## More productions that return a node only when healthy -/

theorem wlp_unhealthy_none {β : Type} (p : Parser) :
    wlp (Fail : M (Option β)) (fun b p' => b.isSome = true → p'.ok_ = true) p := by
  rw [wlp_Fail]
  intro h
  cases h

/-- The idiom `if (!parse_params(...)) return Fail(); ...`. -/
theorem wlp_params_check {β : Type} {K : Bool × Option ParameterList → M (Option β)}
    {p : Parser}
    (hk : ∀ r q, q.ok_ = true → wlp (K r) (fun b p' => b.isSome = true → p'.ok_ = true) q) :
    wlp (ParseInterfaceMemberMethod.parse_params >>= fun r =>
      if (!r.1) = true then Fail else K r)
      (fun b p' => b.isSome = true → p'.ok_ = true) p := by
  rw [wlp_bind]
  refine wlp_mono (ParseInterfaceMemberMethod_parse_params_sound p _ rfl) ?_
  rintro ⟨ok, out⟩ p1 h1
  cases ok with
  | false =>
    simp only [Bool.not_false, if_true]
    exact wlp_unhealthy_none _
  | true =>
    simpa using hk _ p1 (h1 rfl).1

theorem ParseInterfaceMemberMethod_strict (p : Parser) :
    wlp ParseInterfaceMemberMethod (fun b p' => b.isSome = true → p'.ok_ = true) p := by
  unfold ParseInterfaceMemberMethod
  refine wlp_check fun _ _ _ => wlp_check fun _ q hok => wlp_question ?_ ?_
  · intro q2 _
    exact wlp_check fun _ _ _ => wlp_params_check fun _ _ hok3 => wlp_healthy _ hok3
  · refine wlp_check fun _ _ _ => wlp_params_check fun _ q3 hok3 => wlp_question ?_ ?_
    · intro q4 _
      exact wlp_checked fun _ => wlp_params_check fun _ _ hok5 => wlp_healthy _ hok5
    · exact wlp_healthy _ hok3

theorem ParseEnumMember_strict (p : Parser) :
    wlp ParseEnumMember (fun b p' => b.isSome = true → p'.ok_ = true) p := by
  unfold ParseEnumMember
  refine wlp_check fun _ q hok => wlp_question ?_ (wlp_healthy _ hok)
  intro q2 _
  refine wlp_checked fun _ => ?_
  rw [wlp_bind, wlp_Peek]
  split
  · exact wlp_check fun _ _ hok3 => wlp_healthy _ hok3
  · exact wlp_check fun _ _ hok3 => wlp_healthy _ hok3
  · exact wlp_unhealthy_none _

theorem ParseStructMember_strict (p : Parser) :
    wlp ParseStructMember (fun b p' => b.isSome = true → p'.ok_ = true) p := by
  unfold ParseStructMember
  refine wlp_check fun _ _ _ => wlp_check fun _ q hok => wlp_question ?_ (wlp_healthy _ hok)
  intro q2 _
  exact wlp_checked fun _ => wlp_check fun _ _ hok3 => wlp_healthy _ hok3

theorem ParseConstant_strict (p : Parser) :
    wlp ParseConstant (fun b p' => b.isSome = true → p'.ok_ = true) p := by
  unfold ParseConstant
  rw [wlp_bind, wlp_Peek]
  split
  · exact wlp_check fun _ _ hok => wlp_healthy _ hok
  · rw [wlp_ite]
    split
    · exact wlp_check fun _ _ hok => wlp_healthy _ hok
    · exact wlp_unhealthy_none _

theorem ParseHandleType_strict (p : Parser) :
    wlp ParseHandleType (fun b p' => b.isSome = true → p'.ok_ = true) p := by
  unfold ParseHandleType
  refine wlp_check fun _ q hok => wlp_question ?_ ?_
  · intro q2 _
    refine wlp_checked fun _ => ?_
    rw [wlp_bind, wlp_Peek]
    split
    · exact wlp_unhealthy_none _
    · refine wlp_check fun _ _ _ => wlp_check fun _ _ hok3 => ?_
      unfold ParseHandleType.finish
      exact wlp_finish _ hok3
  · unfold ParseHandleType.finish
    exact wlp_finish _ hok
/-! ## Methods -/

/-- The parameter list between `(` and `)` is empty when nothing stands between them. -/
theorem Params_empty {ts rest : List Token} {x : ParameterList} (h : Reads.Params ts x rest)
    (hclose : next ts.tail = Kind.RightParen) : x = ParameterList.mk [] := by
  obtain ⟨-, hx, -⟩ := h
  cases hx with
  | empty _ => rfl
  | cons hp _ =>
    have := Parameter_next hp
    simp only [List.tail_cons] at hclose
    rw [hclose] at this
    cases this

/-- C12: when `ParseInterfaceMemberMethod` returns a method, the tokens begin with the
ordinal and `:`. If `event` comes next, the method has no request and its response is the
parameter list read after the name. Otherwise the name comes next, the request is the
parameter list read after it (the empty list when `)` follows `(` at once), and the
response is present if and only if `->` follows the request's `)`, being then the parameter
list read after the `->`. -/
theorem method_request_and_response (p p' : Parser) (m : InterfaceMemberMethod)
    (hrun : ParseInterfaceMemberMethod p = some (some m, p')) :
    ∃ (ordinal colon : Token) (r : List Token),
      p.lexer_.tokens = ordinal :: colon :: r ∧
      m.ordinal = some (NumericLiteral.mk ordinal) ∧
      (next r = Kind.Event →
        ∃ (event identifier : Token) (ts : List Token) (response : ParameterList),
          r = event :: identifier :: ts ∧ m.identifier = some (Identifier.mk identifier) ∧
          m.maybe_parameter_list = none ∧ m.maybe_response = some response ∧
          Reads.Params ts response p'.lexer_.tokens) ∧
      (next r ≠ Kind.Event →
        ∃ (identifier : Token) (ts r2 : List Token) (request : ParameterList),
          r = identifier :: ts ∧ m.identifier = some (Identifier.mk identifier) ∧
          m.maybe_parameter_list = some request ∧ Reads.Params ts request r2 ∧
          (next ts.tail = Kind.RightParen → request = ParameterList.mk []) ∧
          (m.maybe_response.isSome = true ↔ next r2 = Kind.Arrow) ∧
          (∀ response, m.maybe_response = some response →
            Reads.Params r2.tail response p'.lexer_.tokens) ∧
          (m.maybe_response = none → r2 = p'.lexer_.tokens)) := by
  have hok := ParseInterfaceMemberMethod_strict p _ _ hrun rfl
  have hr := reads_of_success (ParseInterfaceMemberMethod_sound _ _ rfl) hrun hok
  generalize p.lexer_.tokens = ts0 at hr ⊢
  generalize p'.lexer_.tokens = rest at hr ⊢
  cases hr with
  | event ho hc he hi hparams =>
    refine ⟨_, _, _, rfl, rfl, ?_, ?_⟩
    · intro _
      exact ⟨_, _, _, _, rfl, rfl, rfl, rfl, hparams⟩
    · intro hne
      exact absurd he hne
  | request_only ho hc hi hparams hne =>
    refine ⟨_, _, _, rfl, rfl, ?_, ?_⟩
    · intro hev
      simp only [next, hi] at hev
      cases hev
    · intro _
      refine ⟨_, _, _, _, rfl, rfl, rfl, hparams, Params_empty hparams, ?_, ?_, fun _ => rfl⟩
      · constructor
        · intro h
          cases h
        · intro h
          exact absurd h hne
      · intro response h
        cases h
  | request_response ho hc hi hparams ha hparams2 =>
    refine ⟨_, _, _, rfl, rfl, ?_, ?_⟩
    · intro hev
      simp only [next, hi] at hev
      cases hev
    · intro _
      refine ⟨_, _, _, _, rfl, rfl, rfl, hparams, Params_empty hparams, ?_, ?_, ?_⟩
      · exact ⟨fun _ => ha, fun _ => rfl⟩
      · rintro response ⟨⟩
        exact hparams2
      · intro h
        cases h

theorem method_request_and_response_witness :
    ParseInterfaceMemberMethod (Parser.init two_way_method) =
      some (some (InterfaceMemberMethod.mk
        (some (NumericLiteral.mk
          (Token.on_line "1: Foo(int32 a) -> (bool ok)" Kind.NumericLiteral "1")))
        (some (Identifier.mk
          (Token.on_line "1: Foo(int32 a) -> (bool ok)" Kind.Identifier "Foo")))
        (some (ParameterList.mk [some (Parameter.mk
          (some (Type_.PrimitiveType (PrimitiveType.mk TypeKind.Int32)))
          (some (Identifier.mk
            (Token.on_line "1: Foo(int32 a) -> (bool ok)" Kind.Identifier "a"))))]))
        (some (ParameterList.mk [some (Parameter.mk
          (some (Type_.PrimitiveType (PrimitiveType.mk TypeKind.Bool)))
          (some (Identifier.mk
            (Token.on_line "1: Foo(int32 a) -> (bool ok)" Kind.Identifier "ok"))))]))),
        Parser.init (Lexer.of_line "1: Foo(int32 a) -> (bool ok)" [])) ∧
    ∃ (ordinal colon : Token) (r : List Token),
      (Parser.init two_way_method).lexer_.tokens = ordinal :: colon :: r ∧
      (next r ≠ Kind.Event →
        ∃ (identifier : Token) (ts r2 : List Token) (request : ParameterList),
          r = identifier :: ts ∧ Reads.Params ts request r2 ∧ next r2 = Kind.Arrow) := by
  refine (and_iff_left_of_imp (fun hrun => ?_)).2 (by decide!)
  obtain ⟨ordinal, colon, r, h1, -, -, h2⟩ := method_request_and_response _ _ _ hrun
  refine ⟨ordinal, colon, r, h1, fun hne => ?_⟩
  obtain ⟨identifier, ts, r2, request, e1, -, -, hparams, -, hiff, -, -⟩ := h2 hne
  exact ⟨identifier, ts, r2, request, e1, hparams, hiff.1 rfl⟩
/-- C13, as stated, fails: on `1: Foo(int32 a);` `ParseInterfaceMemberMethod` returns,
healthy, a method whose request is present and whose response is absent. -/
theorem one_way_method_constructed :
    (ParseInterfaceMemberMethod (Parser.init one_way_method)).map (fun r =>
      (r.1.map (fun m => (m.maybe_parameter_list.isSome, m.maybe_response.isSome)), r.2.ok_,
        r.2.lexer_.tokens.map Token.kind)) =
      some (some (true, false), true, [Kind.Semicolon]) := by
  decide!

/-- C13, amended: a method that `ParseInterfaceMemberMethod` returns has its request
present and its response absent exactly when the tokens are the ordinal, `:`, the name (not
`event`) and a parenthesised parameter list that is not followed by `->`; so a one-way
method is what the parser constructs for a method without `->`, and the only shape it
never constructs is the one with neither list. -/
theorem one_way_method_iff (p p' : Parser) (m : InterfaceMemberMethod)
    (hrun : ParseInterfaceMemberMethod p = some (some m, p')) :
    ((m.maybe_parameter_list.isSome = true ∧ m.maybe_response.isSome = false) ↔
      ∃ (ordinal colon identifier : Token) (ts : List Token) (request : ParameterList),
        p.lexer_.tokens = ordinal :: colon :: identifier :: ts ∧
        identifier.kind = Kind.Identifier ∧ Reads.Params ts request p'.lexer_.tokens ∧
        next p'.lexer_.tokens ≠ Kind.Arrow) ∧
    (m.maybe_parameter_list.isSome = true ∨ m.maybe_response.isSome = true) := by
  have hok := ParseInterfaceMemberMethod_strict p _ _ hrun rfl
  have hr := reads_of_success (ParseInterfaceMemberMethod_sound _ _ rfl) hrun hok
  generalize p.lexer_.tokens = ts0 at hr ⊢
  generalize p'.lexer_.tokens = rest at hr ⊢
  cases hr with
  | event ho hc he hi hparams =>
    refine ⟨⟨fun h => by simp at h, ?_⟩, Or.inr rfl⟩
    rintro ⟨o, c, i, ts, request, hts, hik, -, -⟩
    simp only [List.cons.injEq] at hts
    obtain ⟨-, -, rfl, -⟩ := hts
    rw [he] at hik
    cases hik
  | request_only ho hc hi hparams hne =>
    exact ⟨⟨fun _ => ⟨_, _, _, _, _, rfl, hi, hparams, hne⟩, fun _ => ⟨rfl, rfl⟩⟩, Or.inl rfl⟩
  | request_response ho hc hi hparams ha hparams2 =>
    refine ⟨⟨fun h => by simp at h, ?_⟩, Or.inl rfl⟩
    rintro ⟨o, c, i, ts, request, hts, -, hparams3, hne⟩
    simp only [List.cons.injEq] at hts
    obtain ⟨-, -, -, rfl⟩ := hts
    exfalso
    obtain ⟨ho1, hx1, hc1⟩ := hparams
    obtain ⟨ho3, hx3, hc3⟩ := hparams3
    have := (functional_of_complete ParseParameterList_complete _ _ _ _ _ hx1 hx3).2
    simp only [List.cons.injEq] at this
    obtain ⟨-, rfl⟩ := this
    exact hne ha

theorem one_way_method_iff_witness :
    ParseInterfaceMemberMethod (Parser.init one_way_method) =
      some (some (InterfaceMemberMethod.mk
        (some (NumericLiteral.mk (Token.on_line "1: Foo(int32 a);" Kind.NumericLiteral "1")))
        (some (Identifier.mk (Token.on_line "1: Foo(int32 a);" Kind.Identifier "Foo")))
        (some (ParameterList.mk [some (Parameter.mk
          (some (Type_.PrimitiveType (PrimitiveType.mk TypeKind.Int32)))
          (some (Identifier.mk (Token.on_line "1: Foo(int32 a);" Kind.Identifier "a"))))]))
        none),
        Parser.init (Lexer.of_line "1: Foo(int32 a);" [(Kind.Semicolon, ";")])) ∧
    ∃ (ordinal colon identifier : Token) (ts : List Token) (request : ParameterList),
      (Parser.init one_way_method).lexer_.tokens = ordinal :: colon :: identifier :: ts ∧
      identifier.kind = Kind.Identifier ∧
      Reads.Params ts request
        (Parser.init (Lexer.of_line "1: Foo(int32 a);" [(Kind.Semicolon, ";")])).lexer_.tokens ∧
      next (Parser.init
        (Lexer.of_line "1: Foo(int32 a);" [(Kind.Semicolon, ";")])).lexer_.tokens ≠
        Kind.Arrow := by
  refine (and_iff_left_of_imp (fun hrun => ?_)).2 (by decide!)
  exact (one_way_method_iff _ _ _ hrun).1.1 ⟨rfl, rfl⟩
/-! ## Handle subtypes -/

/-- The `switch` of `ParseHandleType` is the table of the nineteen keywords. -/
theorem subtype_iff_keyword (k : Kind) (s : HandleSubtype) :
    ParseHandleType.subtype k = some s ↔ (k, s) ∈ subtype_keywords := by
  cases k <;> simp [ParseHandleType.subtype, subtype_keywords, eq_comm]

/-- A production that returns a node only when healthy and fails returns `nullptr`. -/
theorem none_of_fails {α : Type} {m : M (Option α)} {p : Parser}
    (hstrict : wlp m (fun b p' => b.isSome = true → p'.ok_ = true) p) (h : fails m p) :
    ∃ p', m p = some (none, p') ∧ p'.ok_ = false := by
  obtain ⟨a, p', hrun, hok⟩ := h
  cases a with
  | none => exact ⟨p', hrun, hok⟩
  | some x =>
    have := hstrict _ _ hrun rfl
    rw [hok] at this
    cases this

/-- C14: `ParseHandleType` of a healthy parser on `handle`. When `<` does not follow, the
subtype is the generic `Handle`. When `<`, one of the nineteen subtype keywords and `>`
follow, the subtype is the one of the keyword's name. In both cases the nullability is
read after that and the rest is left. When `<` is followed by any other token, or the
keyword is not followed by `>`, it returns `nullptr` and the parser is unhealthy. -/
theorem handle_subtype (p : Parser) (handle : Token) (r : List Token) (hok : p.ok_ = true)
    (hh : handle.kind = Kind.Handle) :
    (∀ (n : Nullability) (rest : List Token), next r ≠ Kind.LeftAngle →
      Reads.Nullability r n rest →
      ParseHandleType (p.at (handle :: r)) =
        some (some (Type_.HandleType HandleSubtype.Handle n), p.at rest)) ∧
    (∀ (left keyword right : Token) (r2 rest : List Token) (s : HandleSubtype)
      (n : Nullability), r = left :: keyword :: right :: r2 → left.kind = Kind.LeftAngle →
      (keyword.kind, s) ∈ subtype_keywords → right.kind = Kind.RightAngle →
      Reads.Nullability r2 n rest →
      ParseHandleType (p.at (handle :: r)) =
        some (some (Type_.HandleType s n), p.at rest)) ∧
    (∀ (left : Token) (r2 : List Token), r = left :: r2 → left.kind = Kind.LeftAngle →
      (next r2 ∉ subtype_keywords.map Prod.fst ∨ next r2.tail ≠ Kind.RightAngle) →
      ∃ p', ParseHandleType (p.at (handle :: r)) = some (none, p') ∧ p'.ok_ = false) := by
  refine ⟨?_, ?_, ?_⟩
  · intro n rest hne hn
    exact ParseHandleType_complete hh (Reads.HandleSubtype.generic hne) hn p hok
  · rintro left keyword right r2 rest s n rfl hl hs hr hn
    exact ParseHandleType_complete hh
      (Reads.HandleSubtype.subtype hl ((subtype_iff_keyword _ _).2 hs) hr) hn p hok
  · rintro left r2 rfl hl hbad
    refine none_of_fails (ParseHandleType_strict _)
      (fails_of_not_reads (ParseHandleType_spec _) (ParseHandleType_sound _ _ rfl) ?_)
    intro x rest hx
    obtain ⟨ts, hts⟩ : ∃ ts, (p.at (handle :: left :: r2)).lexer_.tokens = ts := ⟨_, rfl⟩
    rw [hts] at hx
    cases hx with
    | identifier hc _ =>
      have := CompoundIdentifier_next hc
      rw [← hts] at this
      simp only [Parser.at_tokens, next, hh] at this
      cases this
    | array hk =>
      simp only [Parser.at_tokens, List.cons.injEq] at hts
      rw [← hts.1, hh] at hk
      cases hk
    | vector hk =>
      simp only [Parser.at_tokens, List.cons.injEq] at hts
      rw [← hts.1, hh] at hk
      cases hk
    | string hk =>
      simp only [Parser.at_tokens, List.cons.injEq] at hts
      rw [← hts.1, hh] at hk
      cases hk
    | request hk =>
      simp only [Parser.at_tokens, List.cons.injEq] at hts
      rw [← hts.1, hh] at hk
      cases hk
    | primitive hk =>
      simp only [Parser.at_tokens, List.cons.injEq] at hts
      rw [← hts.1, hh] at hk
      cases hk
    | handle _ hs _ =>
      simp only [Parser.at_tokens, List.cons.injEq] at hts
      obtain ⟨-, rfl⟩ := hts
      obtain ⟨ts2, hts2⟩ : ∃ ts2, left :: r2 = ts2 := ⟨_, rfl⟩
      rw [hts2] at hs
      cases hs with
      | generic hne =>
        rw [← hts2] at hne
        exact hne hl
      | subtype _ hsub hright =>
        simp only [List.cons.injEq] at hts2
        obtain ⟨-, rfl⟩ := hts2
        rcases hbad with h | h
        · apply h
          exact List.mem_map_of_mem Prod.fst ((subtype_iff_keyword _ _).1 hsub)
        · exact h hright

theorem handle_subtype_witness :
    ParseHandleType (Parser.init handle_of_vmo) =
      some (some (Type_.HandleType HandleSubtype.Vmo Nullability.Nullable),
        Parser.init (Lexer.of_line "handle<vmo>?" [])) ∧
    ∃ p', ParseHandleType ((Parser.init (Lexer.of_line "handle<handle>" [])).at
      [Token.on_line "handle<handle>" Kind.Handle "handle",
        Token.on_line "handle<handle>" Kind.LeftAngle "<",
        Token.on_line "handle<handle>" Kind.Handle "handle",
        Token.on_line "handle<handle>" Kind.RightAngle ">"]) = some (none, p') ∧
      p'.ok_ = false :=
  ⟨(handle_subtype (Parser.init (Lexer.of_line "handle<vmo>?" []))
      (Token.on_line "handle<vmo>?" Kind.Handle "handle") _ rfl rfl).2.1 _ _ _ [_] []
      HandleSubtype.Vmo Nullability.Nullable rfl rfl (by decide) rfl
      (Reads.Nullability.nullable rfl),
    (handle_subtype (Parser.init (Lexer.of_line "handle<handle>" []))
      (Token.on_line "handle<handle>" Kind.Handle "handle") _ rfl rfl).2.2 _ _ rfl rfl
      (Or.inl (by decide))⟩
/-! ## Enums -/

/-- C15: enum declarations and their members. When `ParseEnumDeclaration` returns healthy,
the underlying type is present if and only if `:` follows the name, and it is the primitive
type of the keyword after that `:`; the members are the members of the body in source
order. When `ParseEnumMember` returns a member, its value is present if and only if `=`
follows the name; it is then the compound identifier read there when an identifier follows
the `=`, and the numeric literal when a numeric literal follows. After `=`, any other token
makes `ParseEnumMember` return `nullptr`, unhealthy, and after `:` a token that is not a
primitive keyword makes `ParseEnumDeclaration` fail. On `enum E : uint8 { A = 1; B; }` the
underlying type is `uint8`, `A` has the numeric value `1` and `B` has no value. -/
theorem enum_type_and_values :
    (∀ (p p' : Parser) (x : EnumDeclaration),
      ParseEnumDeclaration p = some (some x, p') → p'.ok_ = true →
      ∃ (enum_ identifier close : Token) (r body : List Token) (members : List EnumMember),
        p.lexer_.tokens = enum_ :: identifier :: r ∧
        x.identifier = some (Identifier.mk identifier) ∧
        (x.maybe_subtype.isSome = true ↔ next r = Kind.Colon) ∧
        (∀ t, x.maybe_subtype = some t →
          ParsePrimitiveType.type_kind (next r.tail) = some t.type_kind) ∧
        Reads.EnumHeader p.lexer_.tokens body ∧
        Reads.Seq Reads.EnumMember body members (close :: p'.lexer_.tokens) ∧
        close.kind = Kind.RightCurly ∧ x.members = members.map some) ∧
    (∀ (p p' : Parser) (m : EnumMember), ParseEnumMember p = some (some m, p') →
      ∃ (identifier : Token) (r : List Token),
        p.lexer_.tokens = identifier :: r ∧ m.identifier = some (Identifier.mk identifier) ∧
        (m.maybe_value.isSome = true ↔ next r = Kind.Equal) ∧
        (m.maybe_value = none → p'.lexer_.tokens = r) ∧
        (next r = Kind.Equal →
          (next r.tail = Kind.Identifier ∧ ∃ c, Reads.CompoundIdentifier r.tail c
              p'.lexer_.tokens ∧
            m.maybe_value = some (EnumMemberValue.EnumMemberValueIdentifier (some c))) ∨
          (next r.tail = Kind.NumericLiteral ∧ ∃ literal, r.tail = literal :: p'.lexer_.tokens ∧
            m.maybe_value =
              some (EnumMemberValue.EnumMemberValueNumeric (some (NumericLiteral.mk literal)))))) ∧
    (∀ (p : Parser) (identifier equal : Token) (r : List Token),
      identifier.kind = Kind.Identifier → equal.kind = Kind.Equal →
      next r ≠ Kind.Identifier → next r ≠ Kind.NumericLiteral →
      ∃ p', ParseEnumMember (p.at (identifier :: equal :: r)) = some (none, p') ∧
        p'.ok_ = false) ∧
    (∀ (p : Parser) (enum_ identifier colon : Token) (r : List Token),
      enum_.kind = Kind.Enum → identifier.kind = Kind.Identifier → colon.kind = Kind.Colon →
      ParsePrimitiveType.type_kind (next r) = none →
      fails ParseEnumDeclaration (p.at (enum_ :: identifier :: colon :: r))) ∧
    ParseEnumDeclaration (Parser.init enum_of_uint8) =
      some (some (EnumDeclaration.mk
        (some (Identifier.mk
          (Token.on_line "enum E : uint8 \x7b A = 1; B; \x7d" Kind.Identifier "E")))
        (some (PrimitiveType.mk TypeKind.Uint8))
        [some (EnumMember.mk
            (some (Identifier.mk
              (Token.on_line "enum E : uint8 \x7b A = 1; B; \x7d" Kind.Identifier "A")))
            (some (EnumMemberValue.EnumMemberValueNumeric (some (NumericLiteral.mk
              (Token.on_line "enum E : uint8 \x7b A = 1; B; \x7d" Kind.NumericLiteral
                "1")))))),
          some (EnumMember.mk
            (some (Identifier.mk
              (Token.on_line "enum E : uint8 \x7b A = 1; B; \x7d" Kind.Identifier "B")))
            none)]),
        Parser.init (Lexer.of_line "enum E : uint8 \x7b A = 1; B; \x7d" [])) := by
  refine ⟨?_, ?_, ?_, ?_, by decide!⟩
  · intro p p' x hrun hok
    have hr := reads_of_success (ParseEnumDeclaration_sound _ _ rfl) hrun hok
    obtain ⟨body, members, close, hh, hseq, hc, hm⟩ := EnumDeclaration_body hr
    generalize p.lexer_.tokens = ts0 at hr hh ⊢
    generalize p'.lexer_.tokens = rest at hr hseq ⊢
    cases hr with
    | plain he hi ho _ =>
      refine ⟨_, _, close, _, body, members, rfl, rfl, ?_, ?_, hh, hseq, hc, hm⟩
      · constructor
        · intro h
          cases h
        · intro h
          simp only [next, ho] at h
          cases h
      · intro t h
        cases h
    | typed he hi hcol ht ho _ =>
      refine ⟨_, _, close, _, body, members, rfl, rfl, ?_, ?_, hh, hseq, hc, hm⟩
      · exact ⟨fun _ => hcol, fun _ => rfl⟩
      · rintro t ⟨⟩
        exact ht
  · intro p p' m hrun
    have hok := ParseEnumMember_strict p _ _ hrun rfl
    have hr := reads_of_success (ParseEnumMember_sound _ _ rfl) hrun hok
    generalize p.lexer_.tokens = ts0 at hr ⊢
    generalize p'.lexer_.tokens = rest at hr ⊢
    cases hr with
    | plain hi hne =>
      refine ⟨_, _, rfl, rfl, ?_, fun _ => rfl, fun h => absurd h hne⟩
      constructor
      · intro h
        cases h
      · intro h
        exact absurd h hne
    | identifier hi he hc =>
      refine ⟨_, _, rfl, rfl, ⟨fun _ => he, fun _ => rfl⟩, fun h => (by cases h), fun _ => ?_⟩
      exact Or.inl ⟨CompoundIdentifier_next hc, _, hc, rfl⟩
    | numeric hi he hl =>
      refine ⟨_, _, rfl, rfl, ⟨fun _ => he, fun _ => rfl⟩, fun h => (by cases h), fun _ => ?_⟩
      exact Or.inr ⟨hl, _, rfl, rfl⟩
  · intro p identifier equal r hi he hn1 hn2
    refine none_of_fails (ParseEnumMember_strict _)
      (fails_of_not_reads (ParseEnumMember_spec _) (ParseEnumMember_sound _ _ rfl) ?_)
    intro x rest hx
    obtain ⟨ts, hts⟩ : ∃ ts, (p.at (identifier :: equal :: r)).lexer_.tokens = ts := ⟨_, rfl⟩
    rw [hts] at hx
    cases hx with
    | plain _ hne =>
      simp only [Parser.at_tokens, List.cons.injEq] at hts
      obtain ⟨-, rfl⟩ := hts
      exact hne he
    | identifier _ _ hc =>
      simp only [Parser.at_tokens, List.cons.injEq] at hts
      obtain ⟨-, -, rfl⟩ := hts
      exact hn1 (CompoundIdentifier_next hc)
    | numeric _ _ hl =>
      simp only [Parser.at_tokens, List.cons.injEq] at hts
      obtain ⟨-, -, rfl⟩ := hts
      exact hn2 hl
  · intro p enum_ identifier colon r he hi hc hnone
    refine fails_of_not_reads (ParseEnumDeclaration_spec _)
      (ParseEnumDeclaration_sound _ _ rfl) ?_
    intro x rest hx
    obtain ⟨ts, hts⟩ : ∃ ts, (p.at (enum_ :: identifier :: colon :: r)).lexer_.tokens = ts :=
      ⟨_, rfl⟩
    rw [hts] at hx
    cases hx with
    | plain _ _ ho _ =>
      simp only [Parser.at_tokens, List.cons.injEq] at hts
      obtain ⟨-, -, rfl, -⟩ := hts
      rw [hc] at ho
      cases ho
    | typed _ _ _ ht _ _ =>
      simp only [Parser.at_tokens, List.cons.injEq] at hts
      obtain ⟨-, -, -, rfl⟩ := hts
      simp only [next, ht] at hnone
      cases hnone
/-! ## What must come next in a body and at the top level -/

theorem Superinterfaces_rest {ts r r' : List Token} {xs xs' : List (Option CompoundIdentifier)}
    (h : Reads.Superinterfaces ts xs r) (h' : Reads.Superinterfaces ts xs' r') : r = r' := by
  induction h generalizing xs' r' with
  | last hx hne =>
    cases h' with
    | last hx' _ => exact (CompoundIdentifier_functional _ _ _ _ _ hx hx').2
    | more hx' hc _ =>
      have := (CompoundIdentifier_functional _ _ _ _ _ hx hx').2
      subst this
      exact absurd hc hne
  | more hx hc _ ih =>
    cases h' with
    | last hx' hne' =>
      have := (CompoundIdentifier_functional _ _ _ _ _ hx hx').2
      subst this
      exact absurd hc hne'
    | more hx' _ hrest' =>
      have := (CompoundIdentifier_functional _ _ _ _ _ hx hx').2
      simp only [List.cons.injEq] at this
      obtain ⟨-, rfl⟩ := this
      exact ih hrest'

theorem EnumHeader_body {ts b b' : List Token} (h : Reads.EnumHeader ts b)
    (h' : Reads.EnumHeader ts b') : b = b' := by
  obtain ⟨ts0, hts0⟩ : ∃ ts0, ts = ts0 := ⟨_, rfl⟩
  rw [hts0] at h'
  cases h with
  | plain _ _ ho =>
    cases h' with
    | plain =>
      simp only [List.cons.injEq] at hts0
      exact hts0.2.2.2
    | typed _ _ hc =>
      simp only [List.cons.injEq] at hts0
      obtain ⟨-, -, rfl, -⟩ := hts0
      rw [ho] at hc
      cases hc
  | typed _ _ hc =>
    cases h' with
    | plain _ _ ho =>
      simp only [List.cons.injEq] at hts0
      obtain ⟨-, -, rfl, -⟩ := hts0
      rw [ho] at hc
      cases hc
    | typed =>
      simp only [List.cons.injEq] at hts0
      exact hts0.2.2.2.2.2

theorem InterfaceHeader_body {ts b b' : List Token} (h : Reads.InterfaceHeader ts b)
    (h' : Reads.InterfaceHeader ts b') : b = b' := by
  obtain ⟨ts0, hts0⟩ : ∃ ts0, ts = ts0 := ⟨_, rfl⟩
  rw [hts0] at h'
  cases h with
  | plain _ _ ho =>
    cases h' with
    | plain =>
      simp only [List.cons.injEq] at hts0
      exact hts0.2.2.2
    | derived _ _ hc =>
      simp only [List.cons.injEq] at hts0
      obtain ⟨-, -, rfl, -⟩ := hts0
      rw [ho] at hc
      cases hc
  | derived _ _ hc hxs _ =>
    cases h' with
    | plain _ _ ho =>
      simp only [List.cons.injEq] at hts0
      obtain ⟨-, -, rfl, -⟩ := hts0
      rw [ho] at hc
      cases hc
    | derived _ _ _ hxs' _ =>
      simp only [List.cons.injEq] at hts0
      obtain ⟨-, -, -, rfl⟩ := hts0
      have := Superinterfaces_rest hxs hxs'
      simp only [List.cons.injEq] at this
      exact this.2

theorem StructHeader_body {ts b b' : List Token} (h : Reads.StructHeader ts b)
    (h' : Reads.StructHeader ts b') : b = b' := by
  obtain ⟨ts0, hts0⟩ : ∃ ts0, ts = ts0 := ⟨_, rfl⟩
  rw [hts0] at h'
  cases h
  cases h'
  simp only [List.cons.injEq] at hts0
  exact hts0.2.2.2

theorem UnionHeader_body {ts b b' : List Token} (h : Reads.UnionHeader ts b)
    (h' : Reads.UnionHeader ts b') : b = b' := by
  obtain ⟨ts0, hts0⟩ : ∃ ts0, ts = ts0 := ⟨_, rfl⟩
  rw [hts0] at h'
  cases h
  cases h'
  simp only [List.cons.injEq] at hts0
  exact hts0.2.2.2

/-- The kind a member of a body begins with. -/
theorem Item_next {α : Type} {R : List Token → α → List Token → Prop} {ts rest : List Token}
    {x : Member α} (h : Reads.Item R ts x rest) :
    next ts = Kind.Const ∨ next ts = Kind.Enum ∨ ∃ y, x = Member.member y ∧ R ts y rest := by
  cases h with
  | const h => exact Or.inl (ConstDeclaration_next h)
  | enum h => exact Or.inr (Or.inl (EnumDeclaration_next h))
  | member h => exact Or.inr (Or.inr ⟨_, rfl, h⟩)

theorem Method_item_functional :
    Reads.Functional (Reads.Item Reads.InterfaceMemberMethod) :=
  Item_functional InterfaceMemberMethod_functional (fun _ _ _ h => by
    rw [InterfaceMemberMethod_next h]
    exact ⟨by decide, by decide⟩)

theorem StructMember_item_functional : Reads.Functional (Reads.Item Reads.StructMember) :=
  Item_functional StructMember_functional
    (fun _ _ _ h => not_const_enum_of_type (StructMember_next h))

theorem UnionMember_item_functional : Reads.Functional (Reads.Item Reads.UnionMember) :=
  Item_functional UnionMember_functional
    (fun _ _ _ h => not_const_enum_of_type (UnionMember_next h))

theorem EnumMember_starts :
    Reads.StartsOutside Reads.EnumMember (fun k => k = Kind.RightCurly) := by
  intro ts x r h hk
  rw [EnumMember_next h] at hk
  cases hk

theorem Method_item_starts :
    Reads.StartsOutside (Reads.Item Reads.InterfaceMemberMethod)
      (fun k => k = Kind.RightCurly) := by
  intro ts x r h hk
  rcases Item_next h with h1 | h1 | ⟨y, -, h1⟩
  · rw [hk] at h1; cases h1
  · rw [hk] at h1; cases h1
  · rw [InterfaceMemberMethod_next h1] at hk; cases hk

theorem StructMember_item_starts :
    Reads.StartsOutside (Reads.Item Reads.StructMember) (fun k => k = Kind.RightCurly) := by
  intro ts x r h hk
  rcases Item_next h with h1 | h1 | ⟨y, -, h1⟩
  · rw [hk] at h1; cases h1
  · rw [hk] at h1; cases h1
  · have := StructMember_next h1
    rw [hk] at this
    cases this

theorem UnionMember_item_starts :
    Reads.StartsOutside (Reads.Item Reads.UnionMember) (fun k => k = Kind.RightCurly) := by
  intro ts x r h hk
  rcases Item_next h with h1 | h1 | ⟨y, -, h1⟩
  · rw [hk] at h1; cases h1
  · rw [hk] at h1; cases h1
  · have := UnionMember_next h1
    rw [hk] at this
    cases this

theorem Declaration_starts :
    Reads.StartsOutside Reads.Declaration (fun k => k = Kind.EndOfFile) := by
  intro ts x r h hk
  rcases Declaration_next h with h1 | h1 | h1 | h1 | h1 <;>
    · rw [hk] at h1
      cases h1.1

theorem Using_starts : Reads.StartsOutside Reads.Using (fun k => k ≠ Kind.Using) := by
  intro ts x r h hk
  exact hk (Using_next h)

/-- In an enum declaration that is read, after any members of the body comes `}` or a
member followed by `;`. -/
theorem EnumDeclaration_then {ts rest body r : List Token} {x : EnumDeclaration}
    {xs : List EnumMember} (h : Reads.EnumDeclaration ts x rest)
    (hh : Reads.EnumHeader ts body) (hseq : Reads.Seq Reads.EnumMember body xs r) :
    next r = Kind.RightCurly ∨ ∃ z semicolon r2, Reads.EnumMember r z (semicolon :: r2) ∧
      semicolon.kind = Kind.Semicolon := by
  obtain ⟨body', ys, close, hh', hseq', hc, -⟩ := EnumDeclaration_body h
  have := EnumHeader_body hh hh'
  subst this
  rcases Seq_then EnumMember_functional EnumMember_starts hseq hseq' hc with
    ⟨rfl, -⟩ | ⟨z, _, s, r2, -, hz, hs, -⟩
  · exact Or.inl hc
  · exact Or.inr ⟨z, s, r2, hz, hs⟩

theorem InterfaceDeclaration_then {ts rest body r : List Token} {x : InterfaceDeclaration}
    {xs : List (Member InterfaceMemberMethod)} (h : Reads.InterfaceDeclaration ts x rest)
    (hh : Reads.InterfaceHeader ts body)
    (hseq : Reads.Seq (Reads.Item Reads.InterfaceMemberMethod) body xs r) :
    next r = Kind.RightCurly ∨ ∃ z semicolon r2,
      Reads.Item Reads.InterfaceMemberMethod r z (semicolon :: r2) ∧
      semicolon.kind = Kind.Semicolon := by
  obtain ⟨body', ys, close, hh', hseq', hc, -⟩ := InterfaceDeclaration_body h
  have := InterfaceHeader_body hh hh'
  subst this
  rcases Seq_then Method_item_functional Method_item_starts hseq hseq' hc with
    ⟨rfl, -⟩ | ⟨z, _, s, r2, -, hz, hs, -⟩
  · exact Or.inl hc
  · exact Or.inr ⟨z, s, r2, hz, hs⟩

theorem StructDeclaration_then {ts rest body r : List Token} {x : StructDeclaration}
    {xs : List (Member StructMember)} (h : Reads.StructDeclaration ts x rest)
    (hh : Reads.StructHeader ts body)
    (hseq : Reads.Seq (Reads.Item Reads.StructMember) body xs r) :
    next r = Kind.RightCurly ∨ ∃ z semicolon r2,
      Reads.Item Reads.StructMember r z (semicolon :: r2) ∧
      semicolon.kind = Kind.Semicolon := by
  obtain ⟨body', ys, close, hh', hseq', hc, -⟩ := StructDeclaration_body h
  have := StructHeader_body hh hh'
  subst this
  rcases Seq_then StructMember_item_functional StructMember_item_starts hseq hseq' hc with
    ⟨rfl, -⟩ | ⟨z, _, s, r2, -, hz, hs, -⟩
  · exact Or.inl hc
  · exact Or.inr ⟨z, s, r2, hz, hs⟩

theorem UnionDeclaration_then {ts rest body r : List Token} {x : UnionDeclaration}
    {xs : List (Member UnionMember)} (h : Reads.UnionDeclaration ts x rest)
    (hh : Reads.UnionHeader ts body)
    (hseq : Reads.Seq (Reads.Item Reads.UnionMember) body xs r) :
    next r = Kind.RightCurly ∨ ∃ z semicolon r2,
      Reads.Item Reads.UnionMember r z (semicolon :: r2) ∧
      semicolon.kind = Kind.Semicolon := by
  obtain ⟨body', ys, close, hh', hseq', hc, -⟩ := UnionDeclaration_body h
  have := UnionHeader_body hh hh'
  subst this
  rcases Seq_then UnionMember_item_functional UnionMember_item_starts hseq hseq' hc with
    ⟨rfl, -⟩ | ⟨z, _, s, r2, -, hz, hs, -⟩
  · exact Or.inl hc
  · exact Or.inr ⟨z, s, r2, hz, hs⟩

/-- In a file that is read, after the usings and any top-level declarations comes
`EndOfFile` or a declaration followed by `;`. -/
theorem File_then {ts rest r : List Token} {x : File} {xs : List Declaration}
    (h : Reads.File ts x rest) (hp : Reads.FilePrefix ts xs r) :
    next r = Kind.EndOfFile ∨ ∃ z semicolon r2, Reads.Declaration r z (semicolon :: r2) ∧
      semicolon.kind = Kind.Semicolon := by
  obtain ⟨ts0, hts0⟩ : ∃ ts0, ts = ts0 := ⟨_, rfl⟩
  rw [hts0] at h
  cases hp with
  | mk hl hname hs husings hne hdecls =>
    cases h with
    | mk hl' hname' hs' hus hd =>
      simp only [List.cons.injEq] at hts0
      obtain ⟨-, rfl⟩ := hts0
      have e1 := (CompoundIdentifier_functional _ _ _ _ _ hname hname').2
      simp only [List.cons.injEq] at e1
      obtain ⟨-, rfl⟩ := e1
      obtain ⟨us, huseq, hne', -⟩ := Usings_seq hus
      obtain ⟨ds, r3, hdseq, heof, -, -⟩ := Declarations_seq hd
      rcases Seq_then Using_functional Using_starts husings huseq hne' with
        ⟨e, -⟩ | ⟨z, _, s, r2, -, hz, -, -⟩
      · subst e
        rcases Seq_then Declaration_functional Declaration_starts hdecls hdseq heof with
          ⟨rfl, -⟩ | ⟨z, _, s, r2, -, hz, hs2, -⟩
        · exact Or.inl heof
        · exact Or.inr ⟨z, s, r2, hz, hs2⟩
      · exact absurd (Using_next hz) hne

/-- `ParseFile` returns `nullptr`, unhealthy, on tokens that are not read as a file. -/
theorem ParseFile_none_of_not_reads (l : Lexer)
    (h : ∀ x rest, ¬ Reads.File l.tokens x rest) :
    ∃ p', ParseFile (Parser.init l) = some (none, p') ∧ p'.ok_ = false := by
  obtain ⟨a, p', hrun, -, hsome⟩ := ParseFile_spec (Parser.init l)
  have hsound := ParseFile_sound (Parser.init l) l.tokens rfl a p' hrun
  cases hok : p'.ok_ with
  | true =>
    obtain ⟨x, -, hx⟩ := hsound hok
    exact absurd hx (h _ _)
  | false =>
    cases a with
    | none => exact ⟨p', hrun, hok⟩
    | some x =>
      have := hsome rfl
      rw [hok] at this
      cases this
/-! ## Defaults of struct and union members -/

/-- No union declaration is read from tokens in whose body `=` follows a member's name. -/
theorem union_default_not_read {ts body r r2 : List Token}
    {members : List (Member UnionMember)} {x : UnionMember} (hh : Reads.UnionHeader ts body)
    (hseq : Reads.Seq (Reads.Item Reads.UnionMember) body members r)
    (hx : Reads.UnionMember r x r2) (heq : next r2 = Kind.Equal) (y : UnionDeclaration)
    (rest : List Token) : ¬ Reads.UnionDeclaration ts y rest := by
  intro h
  rcases UnionDeclaration_then h hh hseq with hclose | ⟨z, s, r3, hz, hs⟩
  · exact UnionMember_item_starts _ _ _ (Reads.Item.member hx) hclose
  · have := (UnionMember_item_functional _ _ _ _ _ (Reads.Item.member hx) hz).2
    subst this
    simp only [next, hs] at heq
    cases heq

/-- C16: the default value of a struct member that `ParseStructMember` returns is present
if and only if `=` follows the member's name, and it is then the constant read after the
`=`. A union declaration in whose body `=` follows a member's name makes
`ParseUnionDeclaration` fail, and `ParseFile` return `nullptr` when it stands among the
top-level declarations; so it is on `union U { int32 x = 1; }`. On
`library foo; struct S { int32 x; };` `ParseFile` returns the
file with the one struct `S`, whose one member is `int32 x` without default. -/
theorem member_defaults :
    (∀ (p p' : Parser) (m : StructMember), ParseStructMember p = some (some m, p') →
      ∃ (type : Type_) (identifier : Token) (r : List Token),
        Reads.Type_ p.lexer_.tokens type (identifier :: r) ∧
        identifier.kind = Kind.Identifier ∧ m.type = some type ∧
        m.identifier = some (Identifier.mk identifier) ∧
        (m.maybe_default_value.isSome = true ↔ next r = Kind.Equal) ∧
        (∀ c, m.maybe_default_value = some c → Reads.Constant r.tail c p'.lexer_.tokens) ∧
        (m.maybe_default_value = none → p'.lexer_.tokens = r)) ∧
    (∀ (p : Parser) (ts body r r2 : List Token) (members : List (Member UnionMember))
      (x : UnionMember), Reads.UnionHeader ts body →
      Reads.Seq (Reads.Item Reads.UnionMember) body members r → Reads.UnionMember r x r2 →
      next r2 = Kind.Equal → fails ParseUnionDeclaration (p.at ts)) ∧
    (∀ (l : Lexer) (declarations : List Declaration) (ts body r r2 : List Token)
      (members : List (Member UnionMember)) (x : UnionMember),
      Reads.FilePrefix l.tokens declarations ts → Reads.UnionHeader ts body →
      Reads.Seq (Reads.Item Reads.UnionMember) body members r → Reads.UnionMember r x r2 →
      next r2 = Kind.Equal →
      ∃ p', ParseFile (Parser.init l) = some (none, p') ∧ p'.ok_ = false) ∧
    (ParseUnionDeclaration (Parser.init union_with_default)).map
      (fun r => (r.1.isSome, r.2.ok_)) = some (false, false) ∧
    ParseFile (Parser.init struct_with_member) =
      some (some (File.mk
        (some (CompoundIdentifier.mk [some (Identifier.mk
          (Token.on_line "library foo; struct S \x7b int32 x; \x7d;" Kind.Identifier "foo"))]))
        [] [] [] []
        [some (StructDeclaration.mk
          (some (Identifier.mk
            (Token.on_line "library foo; struct S \x7b int32 x; \x7d;" Kind.Identifier "S")))
          [] []
          [some (StructMember.mk
            (some (Type_.PrimitiveType (PrimitiveType.mk TypeKind.Int32)))
            (some (Identifier.mk
              (Token.on_line "library foo; struct S \x7b int32 x; \x7d;" Kind.Identifier
                "x")))
            none)])]
        []),
        Parser.init (Lexer.of_line "library foo; struct S \x7b int32 x; \x7d;" [])) := by
  refine ⟨?_, ?_, ?_, by decide!, by decide!⟩
  · intro p p' m hrun
    have hok := ParseStructMember_strict p _ _ hrun rfl
    have hr := reads_of_success (ParseStructMember_sound _ _ rfl) hrun hok
    generalize p'.lexer_.tokens = rest at hr ⊢
    cases hr with
    | plain hty hi hne =>
      refine ⟨_, _, _, hty, hi, rfl, rfl, ?_, fun c h => (by cases h), fun _ => rfl⟩
      constructor
      · intro h
        cases h
      · intro h
        exact absurd h hne
    | default hty hi he hc =>
      exact ⟨_, _, _, hty, hi, rfl, rfl, ⟨fun _ => he, fun _ => rfl⟩,
        fun c h => (by cases h; exact hc), fun h => (by cases h)⟩
  · intro p ts body r r2 members x hh hseq hx heq
    exact fails_of_not_reads (ParseUnionDeclaration_spec _)
      (ParseUnionDeclaration_sound _ _ rfl) (union_default_not_read hh hseq hx heq)
  · intro l declarations ts body r r2 members x hp hh hseq hx heq
    refine ParseFile_none_of_not_reads l ?_
    intro y rest hy
    have hunion : next ts = Kind.Union := by
      cases hh with
      | mk hk _ _ => exact hk
    rcases File_then hy hp with heof | ⟨z, s, r3, hz, hs⟩
    · rw [hunion] at heof
      cases heof
    · cases hz with
      | const h => rw [ConstDeclaration_next h] at hunion; cases hunion
      | enum h => rw [EnumDeclaration_next h] at hunion; cases hunion
      | interface h => rw [InterfaceDeclaration_next h] at hunion; cases hunion
      | struct h => rw [StructDeclaration_next h] at hunion; cases hunion
      | union h => exact union_default_not_read hh hseq hx heq _ _ h
/-! ## Constants -/

/-- C17: a healthy parser whose tokens begin with a compound identifier returns from
`ParseConstant` the `IdentifierConstant` of that compound identifier, with the rest left; on
a token of one of the five literal-starting kinds it returns the `LiteralConstant` of the
literal of that kind (`StringLiteral`, `NumericLiteral`, `TrueLiteral`, `FalseLiteral`,
`DefaultLiteral`), having consumed this one token. Conversely, when `ParseConstant` returns
a constant, either the next token was an identifier and the constant is the
`IdentifierConstant` of the compound identifier read there, or the next token was one of the
five literal-starting kinds, it alone was consumed, and the constant is the
`LiteralConstant` of the literal of that kind. On every other kind of next token
`ParseConstant` calls `Fail` and returns `nullptr`. On `"hi"`, `42`, `true`, `false`,
`default` and `a.b` the constants are the five literals and the identifier constant of
`a.b`; on `const string NAME = "hi"` `ParseConstDeclaration` returns the non-nullable string
type without count and the `LiteralConstant` of the string literal `"hi"`. -/
theorem constant_by_next_token :
    (∀ (p : Parser) (ts rest : List Token) (x : CompoundIdentifier), p.ok_ = true →
      Reads.CompoundIdentifier ts x rest →
      next ts = Kind.Identifier ∧
      ParseConstant (p.at ts) =
        some (some (Constant.IdentifierConstant (some x)), p.at rest)) ∧
    (∀ (p : Parser) (t : Token) (ts : List Token), p.ok_ = true →
      (t.kind = Kind.StringLiteral →
        ParseConstant (p.at (t :: ts)) =
          some (some (Constant.LiteralConstant (some (Literal.StringLiteral t))), p.at ts)) ∧
      (t.kind = Kind.NumericLiteral →
        ParseConstant (p.at (t :: ts)) =
          some (some (Constant.LiteralConstant
            (some (Literal.NumericLiteral (NumericLiteral.mk t)))), p.at ts)) ∧
      (t.kind = Kind.True →
        ParseConstant (p.at (t :: ts)) =
          some (some (Constant.LiteralConstant (some Literal.TrueLiteral)), p.at ts)) ∧
      (t.kind = Kind.False →
        ParseConstant (p.at (t :: ts)) =
          some (some (Constant.LiteralConstant (some Literal.FalseLiteral)), p.at ts)) ∧
      (t.kind = Kind.Default →
        ParseConstant (p.at (t :: ts)) =
          some (some (Constant.LiteralConstant (some Literal.DefaultLiteral)), p.at ts))) ∧
    (∀ (p p' : Parser) (c : Constant), ParseConstant p = some (some c, p') →
      (p.last_token_.kind = Kind.Identifier ∧ ∃ x, c = Constant.IdentifierConstant (some x) ∧
        Reads.CompoundIdentifier p.lexer_.tokens x p'.lexer_.tokens) ∨
      (∃ t, p.lexer_.tokens = t :: p'.lexer_.tokens ∧
        ((t.kind = Kind.StringLiteral ∧
            c = Constant.LiteralConstant (some (Literal.StringLiteral t))) ∨
          (t.kind = Kind.NumericLiteral ∧
            c = Constant.LiteralConstant
              (some (Literal.NumericLiteral (NumericLiteral.mk t)))) ∨
          (t.kind = Kind.True ∧ c = Constant.LiteralConstant (some Literal.TrueLiteral)) ∨
          (t.kind = Kind.False ∧ c = Constant.LiteralConstant (some Literal.FalseLiteral)) ∨
          (t.kind = Kind.Default ∧
            c = Constant.LiteralConstant (some Literal.DefaultLiteral))))) ∧
    (∀ k : Kind, TOKEN_LITERAL_CASES k = true ↔
      k ∈ [Kind.StringLiteral, Kind.NumericLiteral, Kind.True, Kind.False, Kind.Default]) ∧
    (∀ p : Parser, p.last_token_.kind ≠ Kind.Identifier →
      TOKEN_LITERAL_CASES p.last_token_.kind = false →
      ParseConstant p = some (none, p.failed) ∧ p.failed.ok_ = false) ∧
    ParseConstDeclaration (Parser.init const_of_string) =
      some (some (ConstDeclaration.mk
        (some (Type_.StringType none Nullability.Nonnullable))
        (some (Identifier.mk
          (Token.on_line "const string NAME = \"hi\"" Kind.Identifier "NAME")))
        (some (Constant.LiteralConstant (some (Literal.StringLiteral
          (Token.on_line "const string NAME = \"hi\"" Kind.StringLiteral "\"hi\"")))))),
        Parser.init (Lexer.of_line "const string NAME = \"hi\"" [])) ∧
    [Lexer.of_line "\"hi\"" [(Kind.StringLiteral, "\"hi\"")],
      Lexer.of_line "42" [(Kind.NumericLiteral, "42")],
      Lexer.of_line "true" [(Kind.True, "true")],
      Lexer.of_line "false" [(Kind.False, "false")],
      Lexer.of_line "default" [(Kind.Default, "default")],
      Lexer.of_line "a.b" [(Kind.Identifier, "a"), (Kind.Dot, "."), (Kind.Identifier, "b")]].map
      (fun l => (ParseConstant (Parser.init l)).map
        (fun r => (r.1, r.2.ok_, r.2.lexer_.tokens.length))) =
      [some (some (Constant.LiteralConstant (some (Literal.StringLiteral
          (Token.on_line "\"hi\"" Kind.StringLiteral "\"hi\"")))), true, 0),
        some (some (Constant.LiteralConstant (some (Literal.NumericLiteral
          (NumericLiteral.mk (Token.on_line "42" Kind.NumericLiteral "42"))))), true, 0),
        some (some (Constant.LiteralConstant (some Literal.TrueLiteral)), true, 0),
        some (some (Constant.LiteralConstant (some Literal.FalseLiteral)), true, 0),
        some (some (Constant.LiteralConstant (some Literal.DefaultLiteral)), true, 0),
        some (some (Constant.IdentifierConstant (some (CompoundIdentifier.mk
          [some (Identifier.mk (Token.on_line "a.b" Kind.Identifier "a")),
            some (Identifier.mk (Token.on_line "a.b" Kind.Identifier "b"))]))), true, 0)] := by
  refine ⟨?_, ?_, ?_, ?_, ?_, by decide!, by decide!⟩
  · intro p ts rest x hok hx
    exact ⟨CompoundIdentifier_next hx,
      ParseConstant_complete (Reads.Constant.identifier hx) p hok⟩
  · intro p t ts hok
    refine ⟨fun hk => ?_, fun hk => ?_, fun hk => ?_, fun hk => ?_, fun hk => ?_⟩
    · exact ParseConstant_complete (Reads.Constant.literal (Reads.Literal.string hk)) p hok
    · exact ParseConstant_complete (Reads.Constant.literal (Reads.Literal.numeric hk)) p hok
    · exact ParseConstant_complete (Reads.Constant.literal (Reads.Literal.true_ hk)) p hok
    · exact ParseConstant_complete (Reads.Constant.literal (Reads.Literal.false_ hk)) p hok
    · exact ParseConstant_complete (Reads.Constant.literal (Reads.Literal.default hk)) p hok
  · intro p p' c hrun
    have hok := ParseConstant_strict p _ _ hrun rfl
    have hr := reads_of_success (ParseConstant_sound _ _ rfl) hrun hok
    obtain ⟨ts, hts⟩ : ∃ ts, p.lexer_.tokens = ts := ⟨_, rfl⟩
    rw [hts] at hr ⊢
    generalize p'.lexer_.tokens = rest at hr ⊢
    cases hr with
    | identifier hx =>
      left
      rw [last_token_kind hts]
      exact ⟨CompoundIdentifier_next hx, _, rfl, hx⟩
    | literal hx =>
      right
      cases hx with
      | string hk => exact ⟨_, rfl, Or.inl ⟨hk, rfl⟩⟩
      | numeric hk => exact ⟨_, rfl, Or.inr (Or.inl ⟨hk, rfl⟩)⟩
      | true_ hk => exact ⟨_, rfl, Or.inr (Or.inr (Or.inl ⟨hk, rfl⟩))⟩
      | false_ hk => exact ⟨_, rfl, Or.inr (Or.inr (Or.inr (Or.inl ⟨hk, rfl⟩)))⟩
      | default hk => exact ⟨_, rfl, Or.inr (Or.inr (Or.inr (Or.inr ⟨hk, rfl⟩)))⟩
  · intro k
    cases k <;> simp [TOKEN_LITERAL_CASES]
  · intro p hid hlit
    refine ⟨wp_eq_iff.1 ?_, Parser.failed_ok p⟩
    unfold ParseConstant
    rw [wp_bind, wp_Peek]
    split
    · next h => exact absurd h hid
    · rw [wp_ite, if_neg (by simp [hlit]), wp_Fail]
      exact ⟨rfl, rfl⟩
/-! ## Determinism -/

/-- The file `ParseFile` returns depends on the tokens only. -/
theorem ParseFile_file_of_tokens {l1 l2 : Lexer} (htokens : l1.tokens = l2.tokens)
    {x : File} {p1 : Parser} (h1 : ParseFile (Parser.init l1) = some (some x, p1)) :
    ∃ p2, ParseFile (Parser.init l2) = some (some x, p2) := by
  obtain ⟨a, q, hrun, -, hsome⟩ := ParseFile_spec (Parser.init l1)
  rw [h1] at hrun
  cases hrun
  have hr := reads_of_success (ParseFile_sound _ _ rfl) h1 (hsome rfl)
  have hr2 : Reads.File l2.tokens x p1.lexer_.tokens := htokens ▸ hr
  exact ⟨_, ParseFile_complete hr2 (Parser.init l2) rfl⟩

/-- C18: two fresh parser instances on the same tokens return the same result: the same
`File`, with nothing reported by either, or both `nullptr`, with one diagnostic each; the
two diagnostics are the same when the `EndOfFile` token that ends the two sources is the
same, so when the two token sources are the same in all. -/
theorem parsing_deterministic (l1 l2 : Lexer) (htokens : l1.tokens = l2.tokens) :
    ∃ (file : Option File) (p1 p2 : Parser),
      ParseFile (Parser.init l1) = some (file, p1) ∧
      ParseFile (Parser.init l2) = some (file, p2) ∧
      (file.isSome = true → p1.error_reporter_ = [] ∧ p2.error_reporter_ = []) ∧
      (file = none → (∃ d, p1.error_reporter_ = [d]) ∧ (∃ d, p2.error_reporter_ = [d]) ∧
        (l1.end_of_file = l2.end_of_file → p1.error_reporter_ = p2.error_reporter_)) := by
  obtain ⟨f1, p1, h1, ⟨hev1, hnone1, -⟩, hsome1⟩ := ParseFile_spec (Parser.init l1)
  obtain ⟨f2, p2, h2, ⟨hev2, hnone2, -⟩, hsome2⟩ := ParseFile_spec (Parser.init l2)
  have hsame : f1 = f2 := by
    cases f1 with
    | some x =>
      obtain ⟨q, hq⟩ := ParseFile_file_of_tokens htokens h1
      rw [h2] at hq
      cases hq
      rfl
    | none =>
      cases f2 with
      | none => rfl
      | some y =>
        obtain ⟨q, hq⟩ := ParseFile_file_of_tokens htokens.symm h2
        rw [h1] at hq
        cases hq
  subst hsame
  refine ⟨f1, p1, p2, h1, h2, ?_, ?_⟩
  · intro h
    exact ⟨(Evolves_init hev1).1 (hsome1 h), (Evolves_init hev2).1 (hsome2 h)⟩
  · intro h
    refine ⟨(Evolves_init hev1).2 (hnone1 h), (Evolves_init hev2).2 (hnone2 h), ?_⟩
    intro heof
    have hl : l1 = l2 := by
      cases l1
      cases l2
      simp only [Lexer.end_of_file, Token.mk.injEq, true_and] at heof
      simp only at htokens
      rw [htokens, heof.1, heof.2]
    subst hl
    rw [h1] at h2
    cases h2
    rfl

theorem parsing_deterministic_witness :
    struct_with_member.tokens =
      (Lexer.mk struct_with_member.tokens "end" (SourceLocation.mk 2 "")).tokens ∧
    ∃ (file : Option File) (p1 p2 : Parser),
      ParseFile (Parser.init struct_with_member) = some (file, p1) ∧
      ParseFile (Parser.init
        (Lexer.mk struct_with_member.tokens "end" (SourceLocation.mk 2 ""))) =
          some (file, p2) ∧
      (file.isSome = true → p1.error_reporter_ = [] ∧ p2.error_reporter_ = []) ∧
      (file = none → (∃ d, p1.error_reporter_ = [d]) ∧ (∃ d, p2.error_reporter_ = [d]) ∧
        (struct_with_member.end_of_file =
          (Lexer.mk struct_with_member.tokens "end" (SourceLocation.mk 2 "")).end_of_file →
          p1.error_reporter_ = p2.error_reporter_)) :=
  ⟨rfl, parsing_deterministic struct_with_member
    (Lexer.mk struct_with_member.tokens "end" (SourceLocation.mk 2 "")) rfl⟩

/-! ## Braced bodies -/

/-- Nothing is read where a member followed by `;`, or the end, must come and neither
does. -/
theorem not_then_of_separator {α : Type} {R : List Token → α → List Token → Prop}
    {E : Kind → Prop} (hR : Reads.Functional R) (hE : Reads.StartsOutside R E)
    {r r2 : List Token} {z : α} (hz : R r z r2) (hsemi : next r2 ≠ Kind.Semicolon) :
    ¬ (E (next r) ∨ ∃ y semicolon r3, R r y (semicolon :: r3) ∧
      semicolon.kind = Kind.Semicolon) := by
  rintro (h | ⟨y, s, r3, hy, hs⟩)
  · exact hE _ _ _ hz h
  · have := (hR _ _ _ _ _ hz hy).2
    subst this
    exact hsemi hs

/-- C19: in the body of an enum, interface, struct or union declaration, after any
members, each followed by `;`: when a member is read and the token after it is not `;`,
the declaration fails; and when the next token is not `}` and starts no member of that
body (for an enum: is not an identifier; for an interface: is not `const`, `enum` or a
numeric literal; for a struct or union: is not `const`, `enum` or a type-starting token),
the declaration fails. So `ParseInterfaceDeclaration` fails on `interface I { int32 x; }`. -/
theorem braced_body_separators :
    (∀ (p : Parser) (ts body r r2 : List Token) (members : List EnumMember) (z : EnumMember),
      Reads.EnumHeader ts body → Reads.Seq Reads.EnumMember body members r →
      Reads.EnumMember r z r2 → next r2 ≠ Kind.Semicolon →
      fails ParseEnumDeclaration (p.at ts)) ∧
    (∀ (p : Parser) (ts body r : List Token) (members : List EnumMember),
      Reads.EnumHeader ts body → Reads.Seq Reads.EnumMember body members r →
      next r ≠ Kind.RightCurly → next r ≠ Kind.Identifier →
      fails ParseEnumDeclaration (p.at ts)) ∧
    (∀ (p : Parser) (ts body r r2 : List Token) (members : List (Member InterfaceMemberMethod))
      (z : Member InterfaceMemberMethod),
      Reads.InterfaceHeader ts body →
      Reads.Seq (Reads.Item Reads.InterfaceMemberMethod) body members r →
      Reads.Item Reads.InterfaceMemberMethod r z r2 → next r2 ≠ Kind.Semicolon →
      fails ParseInterfaceDeclaration (p.at ts)) ∧
    (∀ (p : Parser) (ts body r : List Token) (members : List (Member InterfaceMemberMethod)),
      Reads.InterfaceHeader ts body →
      Reads.Seq (Reads.Item Reads.InterfaceMemberMethod) body members r →
      next r ≠ Kind.RightCurly → next r ≠ Kind.Const → next r ≠ Kind.Enum →
      next r ≠ Kind.NumericLiteral → fails ParseInterfaceDeclaration (p.at ts)) ∧
    (∀ (p : Parser) (ts body r r2 : List Token) (members : List (Member StructMember))
      (z : Member StructMember),
      Reads.StructHeader ts body → Reads.Seq (Reads.Item Reads.StructMember) body members r →
      Reads.Item Reads.StructMember r z r2 → next r2 ≠ Kind.Semicolon →
      fails ParseStructDeclaration (p.at ts)) ∧
    (∀ (p : Parser) (ts body r : List Token) (members : List (Member StructMember)),
      Reads.StructHeader ts body → Reads.Seq (Reads.Item Reads.StructMember) body members r →
      next r ≠ Kind.RightCurly → next r ≠ Kind.Const → next r ≠ Kind.Enum →
      TOKEN_TYPE_CASES (next r) = false → fails ParseStructDeclaration (p.at ts)) ∧
    (∀ (p : Parser) (ts body r r2 : List Token) (members : List (Member UnionMember))
      (z : Member UnionMember),
      Reads.UnionHeader ts body → Reads.Seq (Reads.Item Reads.UnionMember) body members r →
      Reads.Item Reads.UnionMember r z r2 → next r2 ≠ Kind.Semicolon →
      fails ParseUnionDeclaration (p.at ts)) ∧
    (∀ (p : Parser) (ts body r : List Token) (members : List (Member UnionMember)),
      Reads.UnionHeader ts body → Reads.Seq (Reads.Item Reads.UnionMember) body members r →
      next r ≠ Kind.RightCurly → next r ≠ Kind.Const → next r ≠ Kind.Enum →
      TOKEN_TYPE_CASES (next r) = false → fails ParseUnionDeclaration (p.at ts)) ∧
    (ParseInterfaceDeclaration (Parser.init interface_with_field)).map
      (fun r => (r.2.ok_, r.2.error_reporter_.length)) = some (false, 1) := by
  refine ⟨?_, ?_, ?_, ?_, ?_, ?_, ?_, ?_, by decide!⟩
  · intro p ts body r r2 members z hh hseq hz hsemi
    refine fails_of_not_reads (ParseEnumDeclaration_spec _)
      (ParseEnumDeclaration_sound _ _ rfl) (fun x rest hx => ?_)
    exact not_then_of_separator EnumMember_functional EnumMember_starts hz hsemi
      (EnumDeclaration_then hx hh hseq)
  · intro p ts body r members hh hseq hclose hid
    refine fails_of_not_reads (ParseEnumDeclaration_spec _)
      (ParseEnumDeclaration_sound _ _ rfl) (fun x rest hx => ?_)
    rcases EnumDeclaration_then hx hh hseq with h | ⟨y, s, r3, hy, -⟩
    · exact hclose h
    · exact hid (EnumMember_next hy)
  · intro p ts body r r2 members z hh hseq hz hsemi
    refine fails_of_not_reads (ParseInterfaceDeclaration_spec _)
      (ParseInterfaceDeclaration_sound _ _ rfl) (fun x rest hx => ?_)
    exact not_then_of_separator Method_item_functional Method_item_starts hz hsemi
      (InterfaceDeclaration_then hx hh hseq)
  · intro p ts body r members hh hseq hclose hconst henum hnum
    refine fails_of_not_reads (ParseInterfaceDeclaration_spec _)
      (ParseInterfaceDeclaration_sound _ _ rfl) (fun x rest hx => ?_)
    rcases InterfaceDeclaration_then hx hh hseq with h | ⟨y, s, r3, hy, -⟩
    · exact hclose h
    · rcases Item_next hy with h | h | ⟨m, -, h⟩
      · exact hconst h
      · exact henum h
      · exact hnum (InterfaceMemberMethod_next h)
  · intro p ts body r r2 members z hh hseq hz hsemi
    refine fails_of_not_reads (ParseStructDeclaration_spec _)
      (ParseStructDeclaration_sound _ _ rfl) (fun x rest hx => ?_)
    exact not_then_of_separator StructMember_item_functional StructMember_item_starts hz hsemi
      (StructDeclaration_then hx hh hseq)
  · intro p ts body r members hh hseq hclose hconst henum htype
    refine fails_of_not_reads (ParseStructDeclaration_spec _)
      (ParseStructDeclaration_sound _ _ rfl) (fun x rest hx => ?_)
    rcases StructDeclaration_then hx hh hseq with h | ⟨y, s, r3, hy, -⟩
    · exact hclose h
    · rcases Item_next hy with h | h | ⟨m, -, h⟩
      · exact hconst h
      · exact henum h
      · rw [StructMember_next h] at htype
        cases htype
  · intro p ts body r r2 members z hh hseq hz hsemi
    refine fails_of_not_reads (ParseUnionDeclaration_spec _)
      (ParseUnionDeclaration_sound _ _ rfl) (fun x rest hx => ?_)
    exact not_then_of_separator UnionMember_item_functional UnionMember_item_starts hz hsemi
      (UnionDeclaration_then hx hh hseq)
  · intro p ts body r members hh hseq hclose hconst henum htype
    refine fails_of_not_reads (ParseUnionDeclaration_spec _)
      (ParseUnionDeclaration_sound _ _ rfl) (fun x rest hx => ?_)
    rcases UnionDeclaration_then hx hh hseq with h | ⟨y, s, r3, hy, -⟩
    · exact hclose h
    · rcases Item_next hy with h | h | ⟨m, -, h⟩
      · exact hconst h
      · exact henum h
      · rw [UnionMember_next h] at htype
        cases htype

/-! ## The order at the top level -/

/-- C20: `ParseFile` returns `nullptr`, unhealthy, when the first token is not `library`;
when, after the library clause, the using clauses and any top-level declarations, each
followed by `;`, the next token is `using`; when a top-level declaration is read there and
the token after it is not `;`; and when the next token there is neither `EndOfFile` nor
one of `const`, `enum`, `interface`, `struct`, `union`. So it is, with one diagnostic, on
`struct S { };`, on `library a; struct S { }; using b;`, on `library a; struct S { }` and
on `library a; struct S { }; }`. -/
theorem top_level_order :
    (∀ l : Lexer, next l.tokens ≠ Kind.Library →
      ∃ p', ParseFile (Parser.init l) = some (none, p') ∧ p'.ok_ = false) ∧
    (∀ (l : Lexer) (declarations : List Declaration) (r : List Token),
      Reads.FilePrefix l.tokens declarations r → next r = Kind.Using →
      ∃ p', ParseFile (Parser.init l) = some (none, p') ∧ p'.ok_ = false) ∧
    (∀ (l : Lexer) (declarations : List Declaration) (r r2 : List Token) (z : Declaration),
      Reads.FilePrefix l.tokens declarations r → Reads.Declaration r z r2 →
      next r2 ≠ Kind.Semicolon →
      ∃ p', ParseFile (Parser.init l) = some (none, p') ∧ p'.ok_ = false) ∧
    (∀ (l : Lexer) (declarations : List Declaration) (r : List Token),
      Reads.FilePrefix l.tokens declarations r → next r ≠ Kind.EndOfFile →
      next r ∉ [Kind.Const, Kind.Enum, Kind.Interface, Kind.Struct, Kind.Union] →
      ∃ p', ParseFile (Parser.init l) = some (none, p') ∧ p'.ok_ = false) ∧
    [without_library, using_after_declaration, without_semicolon, with_trailing_token].map
      (fun l => (ParseFile (Parser.init l)).map
        (fun r => (r.1.isSome, r.2.ok_, r.2.error_reporter_.length))) =
      [some (false, false, 1), some (false, false, 1), some (false, false, 1),
        some (false, false, 1)] := by
  have hstart : ∀ (l : Lexer) (declarations : List Declaration) (r : List Token),
      Reads.FilePrefix l.tokens declarations r → next r ≠ Kind.EndOfFile →
      next r ∉ [Kind.Const, Kind.Enum, Kind.Interface, Kind.Struct, Kind.Union] →
      ∃ p', ParseFile (Parser.init l) = some (none, p') ∧ p'.ok_ = false := by
    intro l declarations r hp heof hstart
    refine ParseFile_none_of_not_reads l (fun y rest hy => ?_)
    rcases File_then hy hp with h | ⟨z, s, r2, hz, -⟩
    · exact heof h
    · apply hstart
      rcases Declaration_next hz with h | h | h | h | h <;>
        · rw [h.1]
          decide
  refine ⟨?_, ?_, ?_, hstart, by decide!⟩
  · intro l hne
    refine ParseFile_none_of_not_reads l (fun y rest hy => ?_)
    generalize l.tokens = ts at hy hne
    cases hy with
    | mk hl _ _ _ _ => exact hne hl
  · intro l declarations r hp husing
    refine hstart l declarations r hp ?_ ?_
    · rw [husing]
      decide
    · rw [husing]
      decide
  · intro l declarations r r2 z hp hz hsemi
    refine ParseFile_none_of_not_reads l (fun y rest hy => ?_)
    exact not_then_of_separator Declaration_functional Declaration_starts hz hsemi
      (File_then hy hp)

/-! ## Parameter lists -/

theorem Parameter_functional : Reads.Functional Reads.Parameter :=
  functional_of_complete ParseParameter_complete

theorem ParseParameter_strict (p : Parser) :
    wlp ParseParameter (fun b p' => b.isSome = true → p'.ok_ = true) p := by
  unfold ParseParameter
  exact wlp_check fun _ _ _ => wlp_check fun _ _ hok => wlp_healthy _ hok

theorem ParseParameterList_loop_strict (n : Nat) :
    ∀ (parameter_list : List (Option Parameter)) (p : Parser), p.ok_ = true →
      wlp (ParseParameterList.loop n parameter_list)
        (fun b p' => b.isSome = true → p'.ok_ = true) p := by
  induction n with
  | zero => intro _ p _; exact wlp_exhausted _ _
  | succ n ih =>
    intro parameter_list p hok
    unfold ParseParameterList.loop
    rw [wlp_bind, wlp_Peek, wlp_ite]
    split
    · refine wlp_check fun _ q _ => ?_
      rw [wlp_bind, wlp_Peek, wlp_ite]
      split
      · exact wlp_check fun _ q2 hq2 => ih _ q2 hq2
      · exact wlp_unhealthy_none _
    · exact wlp_healthy _ hok

/-- A parameter list is returned by a healthy parser only when it is healthy at the end. -/
theorem ParseParameterList_strict (p : Parser) (hok : p.ok_ = true) :
    wlp ParseParameterList (fun b p' => b.isSome = true → p'.ok_ = true) p := by
  unfold ParseParameterList
  rw [wlp_bind, wlp_Peek, wlp_ite]
  split
  · refine wlp_check fun _ q hq => ?_
    rw [wlp_bind, wlp_remaining]
    exact ParseParameterList_loop_strict _ _ q hq
  · exact wlp_healthy _ hok

/-- The parameters after the first, up to a token that is not `,`. -/
theorem MoreParameters_of_Parameters {r rest : List Token} {more : List Parameter}
    (h : Reads.Parameters r more rest) (hend : next rest ≠ Kind.Comma) :
    Reads.MoreParameters r (more.map some) rest := by
  induction h with
  | nil => exact Reads.MoreParameters.done hend
  | cons hc hx _ ih => exact Reads.MoreParameters.more hc hx (ih hend)

theorem Parameters_of_MoreParameters {r rest : List Token} {xs : List (Option Parameter)}
    (h : Reads.MoreParameters r xs rest) :
    ∃ more, xs = more.map some ∧ Reads.Parameters r more rest ∧ next rest ≠ Kind.Comma := by
  induction h with
  | done hne => exact ⟨[], rfl, Reads.Parameters.nil, hne⟩
  | more hc hx _ ih =>
    obtain ⟨more, rfl, hmore, hne⟩ := ih
    exact ⟨_ :: more, rfl, Reads.Parameters.cons hc hx hmore, hne⟩

/-- What is read after some of the parameters is read after all that precede. -/
theorem MoreParameters_after {r r2 rest : List Token} {more : List Parameter}
    {xs : List (Option Parameter)} (h : Reads.Parameters r more r2)
    (hx : Reads.MoreParameters r xs rest) : ∃ ys, Reads.MoreParameters r2 ys rest := by
  induction h generalizing xs with
  | nil => exact ⟨_, hx⟩
  | cons hc hp _ ih =>
    cases hx with
    | done hne => exact absurd hc hne
    | more _ hp2 hmore =>
      obtain ⟨-, rfl⟩ := Parameter_functional _ _ _ _ _ hp hp2
      exact ih hmore

/-- C21: when the next token starts no type, `ParseParameterList` returns the empty list and
leaves the state as it was. When the tokens are a parameter (a type and an identifier), then
further parameters, each preceded by `,`, then a token that is not `,`, a healthy parser
returns the list of these parameters in that order; and every list a healthy parser returns
is read so. When a `,` after the parameters read so far is followed by a token that starts
no type, `ParseParameterList` returns `nullptr` and the parser is unhealthy. On
`int32 a, bool b)` the list is `int32 a`, `bool b`; on `int32 a, )` it is `nullptr`. -/
theorem parameter_list_by_commas :
    (∀ p : Parser, TOKEN_TYPE_CASES p.last_token_.kind = false →
      ParseParameterList p = some (some (ParameterList.mk []), p)) ∧
    (∀ (p : Parser) (ts r rest : List Token) (first : Parameter) (more : List Parameter),
      p.ok_ = true → Reads.Parameter ts first r → Reads.Parameters r more rest →
      next rest ≠ Kind.Comma →
      ParseParameterList (p.at ts) =
        some (some (ParameterList.mk ((first :: more).map some)), p.at rest)) ∧
    (∀ (p p' : Parser) (x : ParameterList), p.ok_ = true →
      ParseParameterList p = some (some x, p') →
      (TOKEN_TYPE_CASES p.last_token_.kind = false ∧ x = ParameterList.mk [] ∧ p' = p) ∨
      (TOKEN_TYPE_CASES p.last_token_.kind = true ∧
        ∃ (r : List Token) (first : Parameter) (more : List Parameter),
          Reads.Parameter p.lexer_.tokens first r ∧
          Reads.Parameters r more p'.lexer_.tokens ∧ next p'.lexer_.tokens ≠ Kind.Comma ∧
          x = ParameterList.mk ((first :: more).map some))) ∧
    (∀ (p : Parser) (ts r r2 : List Token) (comma : Token) (first : Parameter)
      (more : List Parameter), p.ok_ = true → Reads.Parameter ts first r →
      Reads.Parameters r more (comma :: r2) → comma.kind = Kind.Comma →
      TOKEN_TYPE_CASES (next r2) = false →
      ∃ p', ParseParameterList (p.at ts) = some (none, p') ∧ p'.ok_ = false) ∧
    ParseParameterList (Parser.init two_parameters) =
      some (some (ParameterList.mk
        [some (Parameter.mk (some (Type_.PrimitiveType (PrimitiveType.mk TypeKind.Int32)))
          (some (Identifier.mk (Token.on_line "int32 a, bool b)" Kind.Identifier "a")))),
          some (Parameter.mk (some (Type_.PrimitiveType (PrimitiveType.mk TypeKind.Bool)))
            (some (Identifier.mk (Token.on_line "int32 a, bool b)" Kind.Identifier "b"))))]),
        Parser.init (Lexer.of_line "int32 a, bool b)" [(Kind.RightParen, ")")])) ∧
    (ParseParameterList (Parser.init trailing_comma)).map
      (fun r => (r.1.isSome, r.2.ok_, r.2.lexer_.tokens.map Token.kind)) =
      some (false, false, [Kind.RightParen]) := by
  refine ⟨?_, ?_, ?_, ?_, by decide!, by decide!⟩
  · intro p hk
    refine wp_eq_iff.1 ?_
    unfold ParseParameterList
    rw [wp_bind, wp_Peek, wp_ite, if_neg (by simp [hk])]
    exact (wp_pure _ _ _).2 ⟨rfl, rfl⟩
  · intro p ts r rest first more hok hfirst hmore hend
    exact ParseParameterList_complete
      (Reads.ParameterList.cons hfirst (MoreParameters_of_Parameters hmore hend)) p hok
  · intro p p' x hok hrun
    have hok' := ParseParameterList_strict p hok _ _ hrun rfl
    have hr := reads_of_success (ParseParameterList_sound _ _ rfl) hrun hok'
    cases hk : TOKEN_TYPE_CASES p.last_token_.kind with
    | false =>
      left
      have hrun2 : ParseParameterList p = some (some (ParameterList.mk []), p) := by
        refine wp_eq_iff.1 ?_
        unfold ParseParameterList
        rw [wp_bind, wp_Peek, wp_ite, if_neg (by simp [hk])]
        exact (wp_pure _ _ _).2 ⟨rfl, rfl⟩
      rw [hrun] at hrun2
      simp only [Option.some.injEq, Prod.mk.injEq] at hrun2
      exact ⟨rfl, hrun2.1, hrun2.2⟩
    | true =>
      right
      refine ⟨rfl, ?_⟩
      rw [last_token_kind rfl] at hk
      generalize p.lexer_.tokens = ts at hr hk ⊢
      generalize p'.lexer_.tokens = rest at hr ⊢
      cases hr with
      | empty hne =>
        rw [hne] at hk
        cases hk
      | cons hfirst hmore =>
        obtain ⟨more, rfl, hmore2, hne⟩ := Parameters_of_MoreParameters hmore
        exact ⟨_, _, more, hfirst, hmore2, hne, rfl⟩
  · intro p ts r r2 comma first more hok hfirst hmore hc hk
    refine none_of_fails (ParseParameterList_strict _ hok)
      (fails_of_not_reads (ParseParameterList_spec _) (ParseParameterList_sound _ _ rfl) ?_)
    intro x rest hx
    simp only [Parser.at_tokens] at hx
    cases hx with
    | empty hne =>
      rw [Parameter_next hfirst] at hne
      cases hne
    | cons hfirst2 hmore2 =>
      obtain ⟨-, rfl⟩ := Parameter_functional _ _ _ _ _ hfirst hfirst2
      obtain ⟨ys, hys⟩ := MoreParameters_after hmore hmore2
      cases hys with
      | done hne => exact hne hc
      | more _ hp _ =>
        rw [Parameter_next hp] at hk
        cases hk

/-! ## Primitive types -/

/-- The `switch` of `ParsePrimitiveType` is the table of the twelve keywords. -/
theorem type_kind_iff_keyword (k : Kind) (t : TypeKind) :
    ParsePrimitiveType.type_kind k = some t ↔ (k, t) ∈ primitive_keywords := by
  cases k <;> simp [ParsePrimitiveType.type_kind, primitive_keywords, eq_comm]

/-- A healthy parser on a primitive keyword returns the type of that keyword and has
consumed this one token. -/
theorem ParsePrimitiveType_keyword (p : Parser) (t : TypeKind) (hok : p.ok_ = true)
    (hk : ParsePrimitiveType.type_kind p.last_token_.kind = some t) :
    ParsePrimitiveType p = some (some (PrimitiveType.mk t), p.advance) := by
  cases hts : p.lexer_.tokens with
  | nil =>
    rw [last_token_kind hts] at hk
    cases hk
  | cons t0 ts =>
    rw [last_token_kind hts] at hk
    have h := ParsePrimitiveType_complete (@Reads.PrimitiveType.mk t0 ts t hk) p hok
    rw [← hts, Parser.at_self] at h
    rw [h]
    have : p.advance = p.at ts := by
      rw [← Parser.at_self p, Parser.at_tail_eq_advance, Parser.at_self, hts]
      rfl
    rw [this]

/-- C22: the switch of `ParsePrimitiveType` maps each of the twelve primitive keywords, the
kinds of `TOKEN_PRIMITIVE_TYPE_CASES`, to the type kind of the same name and no other kind to
any. On such a keyword a healthy parser returns the primitive type of that kind, having
consumed exactly this token; `ConsumeToken(Peek())` consumes one token and changes neither
the healthy flag nor the diagnostics, whatever the state. On every other kind
`ParsePrimitiveType` calls `Fail` and returns `nullptr`. A `?` that follows the keyword is
left unconsumed, by `ParsePrimitiveType` and by `ParseType`; so on `int32?`. -/
theorem primitive_type_by_keyword :
    (∀ (k : Kind) (t : TypeKind),
      ParsePrimitiveType.type_kind k = some t ↔ (k, t) ∈ primitive_keywords) ∧
    (∀ k : Kind, TOKEN_PRIMITIVE_TYPE_CASES k = true ↔ k ∈ primitive_keywords.map Prod.fst) ∧
    (∀ (p : Parser) (t : TypeKind), p.ok_ = true →
      ParsePrimitiveType.type_kind p.last_token_.kind = some t →
      ParsePrimitiveType p = some (some (PrimitiveType.mk t), p.advance) ∧
      p.advance.lexer_.tokens = p.lexer_.tokens.tail) ∧
    (∀ p : Parser, ConsumeToken p.last_token_.kind p = some (p.last_token_, p.advance) ∧
      p.advance.ok_ = p.ok_ ∧ p.advance.error_reporter_ = p.error_reporter_) ∧
    (∀ p : Parser, ParsePrimitiveType.type_kind p.last_token_.kind = none →
      ParsePrimitiveType p = some (none, p.failed) ∧ p.failed.ok_ = false ∧
      p.failed.lexer_ = p.lexer_) ∧
    (∀ (p : Parser) (keyword question : Token) (ts : List Token) (t : TypeKind),
      p.ok_ = true → ParsePrimitiveType.type_kind keyword.kind = some t →
      question.kind = Kind.Question →
      ParsePrimitiveType (p.at (keyword :: question :: ts)) =
        some (some (PrimitiveType.mk t), p.at (question :: ts)) ∧
      ParseType (p.at (keyword :: question :: ts)) =
        some (some (Type_.PrimitiveType (PrimitiveType.mk t)), p.at (question :: ts))) ∧
    ParseType (Parser.init primitive_then_question) =
      some (some (Type_.PrimitiveType (PrimitiveType.mk TypeKind.Int32)),
        Parser.init (Lexer.of_line "int32?" [(Kind.Question, "?")])) := by
  refine ⟨type_kind_iff_keyword, ?_, ?_, ?_, ?_, ?_, by decide!⟩
  · intro k
    cases k <;> simp [TOKEN_PRIMITIVE_TYPE_CASES, primitive_keywords]
  · intro p t hok hk
    exact ⟨ParsePrimitiveType_keyword p t hok hk, rfl⟩
  · intro p
    refine ⟨?_, rfl, rfl⟩
    rw [ConsumeToken_eq, if_pos rfl]
  · intro p hk
    refine ⟨wp_eq_iff.1 ?_, Parser.failed_ok p, Parser.failed_lexer p⟩
    unfold ParsePrimitiveType
    simp only [wp_bind, wp_Peek, hk]
    exact (wp_Fail _ _).2 ⟨rfl, rfl⟩
  · intro p keyword question ts t hok hk hq
    exact ⟨ParsePrimitiveType_complete (Reads.PrimitiveType.mk hk) p hok,
      ParseType_complete (Reads.Type_.primitive hk) p hok⟩

/-! ## Termination -/

theorem Returns_of_wp {α : Type} {m : M (Option α)} {pop : α → Bool} {p : Parser}
    (h : wp m (Post pop p) p) : Returns m p := by
  obtain ⟨a, p', hrun, hev, -⟩ := h
  exact ⟨a, p', hrun, hev.length_le⟩

theorem ParseCompoundIdentifier_loop_returns {p0 : Parser} (n : Nat) :
    ∀ (p : Parser) (components : List (Option Identifier)), Evolves p0 p →
      p.lexer_.tokens.length < n →
      wp (ParseCompoundIdentifier.loop n components) (Post (fun _ => true) p0) p := by
  induction n with
  | zero => intro p c _ hn; simp at hn
  | succ n ih =>
    intro p components h hn
    unfold ParseCompoundIdentifier.loop
    simp only [wp_bind, wp_Peek]
    split
    · next hk =>
      have hlt := Parser.advance_lt hk (by decide)
      simp only [wp_bind, wp_ConsumeToken, hk, if_true, wp_Ok, wp_ite, Parser.advance_ok]
      split
      · refine wp_mono (ParseIdentifier_spec _) ?_
        rintro a p1 ⟨h1, hn1, -⟩
        have h01 := h.advance.trans h1
        simp only [wp_pure, wp_Fail]
        split
        · exact Post_fail _ h01.failed (by simp)
        · exact ih _ _ h01 (by have := h1.length_le; omega)
      · simp only [wp_pure, wp_Fail]
        split
        · exact Post_fail _ h.advance.failed (by simp)
        · simp_all
    · simp only [wp_pure]
      exact ⟨h, by simp, by simp⟩

theorem ParseParameterList_loop_returns {p0 : Parser} (n : Nat) :
    ∀ (p : Parser) (parameter_list : List (Option Parameter)), Evolves p0 p →
      p.lexer_.tokens.length < n →
      wp (ParseParameterList.loop n parameter_list) (Post (fun _ => true) p0) p := by
  induction n with
  | zero => intro p c _ hn; simp at hn
  | succ n ih =>
    intro p parameter_list h hn
    unfold ParseParameterList.loop
    rw [wp_bind, wp_Peek, wp_ite]
    split
    · next hk =>
      have hlt := Parser.advance_lt hk (by decide)
      refine wp_expect h (fun _ => Post_fail _) ?_
      intro _ _ h1
      rw [wp_bind, wp_Peek, wp_ite]
      split
      · refine wp_sub (ParseParameter_spec _) h1 (fun _ => Post_fail _) ?_
        intro x p1 h2 h3 _ hx
        exact ih _ _ h2 (by have := h3.length_le; omega)
      · exact (wp_Fail _ _).2 (Post_fail _ h1.failed (by simp))
    · exact (wp_pure _ _ _).2 ⟨h, by simp, by simp⟩

theorem ParseEnumDeclaration_loop_returns {p0 : Parser} (identifier : Option Identifier)
    (subtype : Option PrimitiveType) (n : Nat) :
    ∀ (p : Parser) (members : List (Option EnumMember)), Evolves p0 p →
      p.lexer_.tokens.length < n →
      wp (ParseEnumDeclaration.loop identifier subtype n members)
        (Post (fun _ => true) p0) p := by
  induction n with
  | zero => intro p c _ hn; simp at hn
  | succ n ih =>
    intro p members h hn
    unfold ParseEnumDeclaration.loop
    rw [wp_bind, wp_Peek, wp_ite]
    split
    · refine wp_member (ParseEnumMember_spec p) h (fun _ => Post_fail _) ?_
      intro x p1 h1 _ hx hlt
      exact ih _ _ h1 (by omega)
    · exact wp_close h rfl

theorem ParseInterfaceDeclaration_loop_returns {p0 : Parser}
    (identifier : Option Identifier) (superinterfaces : List (Option CompoundIdentifier))
    (n : Nat) :
    ∀ (p : Parser) (const_members : List (Option ConstDeclaration))
      (enum_members : List (Option EnumDeclaration))
      (method_members : List (Option InterfaceMemberMethod)), Evolves p0 p →
      p.lexer_.tokens.length < n →
      wp (ParseInterfaceDeclaration.loop identifier superinterfaces n const_members
        enum_members method_members) (Post (fun _ => true) p0) p := by
  induction n with
  | zero => intro p _ _ _ _ hn; simp at hn
  | succ n ih =>
    intro p cs es ms h hn
    unfold ParseInterfaceDeclaration.loop
    rw [wp_bind, wp_Peek]
    split
    · refine wp_member (ParseConstDeclaration_spec p) h (fun _ => Post_fail _) ?_
      intro x p1 h1 _ hx hlt
      exact ih _ _ _ _ h1 (by omega)
    · refine wp_member (ParseEnumDeclaration_spec p) h (fun _ => Post_fail _) ?_
      intro x p1 h1 _ hx hlt
      exact ih _ _ _ _ h1 (by omega)
    · refine wp_member (ParseInterfaceMemberMethod_spec p) h (fun _ => Post_fail _) ?_
      intro x p1 h1 _ hx hlt
      exact ih _ _ _ _ h1 (by omega)
    · exact wp_close h rfl

theorem ParseInterfaceDeclaration_superinterfaces_returns {p0 : Parser}
    (identifier : Option Identifier) (n : Nat) :
    ∀ (p : Parser) (superinterfaces : List (Option CompoundIdentifier)), Evolves p0 p →
      p.lexer_.tokens.length < n →
      wp (ParseInterfaceDeclaration.superinterfaces identifier n superinterfaces)
        (Post (fun _ => true) p0) p := by
  induction n with
  | zero => intro p _ _ hn; simp at hn
  | succ n ih =>
    intro p ss h hn
    unfold ParseInterfaceDeclaration.superinterfaces
    refine wp_sub (ParseCompoundIdentifier_spec p) h (fun _ => Post_fail _) ?_
    intro x p1 h1 h2 _ hx
    simp only [wp_bind, wp_MaybeConsumeToken]
    split
    · next hk =>
      have hlt := Parser.advance_lt hk (by decide)
      simpa using ih _ _ h1.advance (by have := h2.length_le; omega)
    · have hbody : wp (ParseInterfaceDeclaration.body identifier (ss ++ [some x]))
          (Post (fun _ => true) p0) p1 := by
        unfold ParseInterfaceDeclaration.body
        refine wp_expect h1 (fun _ => Post_fail _) ?_
        intro _ _ h3
        rw [wp_bind, wp_remaining]
        exact ParseInterfaceDeclaration_loop_returns _ _ _ _ _ _ _ h3 (by omega)
      simpa using hbody

theorem ParseStructDeclaration_loop_returns {p0 : Parser} (identifier : Option Identifier)
    (n : Nat) :
    ∀ (p : Parser) (const_members : List (Option ConstDeclaration))
      (enum_members : List (Option EnumDeclaration))
      (members : List (Option StructMember)), Evolves p0 p →
      p.lexer_.tokens.length < n →
      wp (ParseStructDeclaration.loop identifier n const_members enum_members members)
        (Post (fun _ => true) p0) p := by
  induction n with
  | zero => intro p _ _ _ _ hn; simp at hn
  | succ n ih =>
    intro p cs es ms h hn
    unfold ParseStructDeclaration.loop
    rw [wp_bind, wp_Peek]
    split
    · refine wp_member (ParseConstDeclaration_spec p) h (fun _ => Post_fail _) ?_
      intro x p1 h1 _ hx hlt
      exact ih _ _ _ _ h1 (by omega)
    · refine wp_member (ParseEnumDeclaration_spec p) h (fun _ => Post_fail _) ?_
      intro x p1 h1 _ hx hlt
      exact ih _ _ _ _ h1 (by omega)
    · rw [wp_ite]
      split
      · refine wp_member (ParseStructMember_spec p) h (fun _ => Post_fail _) ?_
        intro x p1 h1 _ hx hlt
        exact ih _ _ _ _ h1 (by omega)
      · exact wp_close h rfl

theorem ParseUnionDeclaration_loop_returns {p0 : Parser} (identifier : Option Identifier)
    (n : Nat) :
    ∀ (p : Parser) (const_members : List (Option ConstDeclaration))
      (enum_members : List (Option EnumDeclaration))
      (members : List (Option UnionMember)), Evolves p0 p →
      p.lexer_.tokens.length < n →
      wp (ParseUnionDeclaration.loop identifier n const_members enum_members members)
        (Post (fun _ => true) p0) p := by
  induction n with
  | zero => intro p _ _ _ _ hn; simp at hn
  | succ n ih =>
    intro p cs es ms h hn
    unfold ParseUnionDeclaration.loop
    rw [wp_bind, wp_Peek]
    split
    · refine wp_member (ParseConstDeclaration_spec p) h (fun _ => Post_fail _) ?_
      intro x p1 h1 _ hx hlt
      exact ih _ _ _ _ h1 (by omega)
    · refine wp_member (ParseEnumDeclaration_spec p) h (fun _ => Post_fail _) ?_
      intro x p1 h1 _ hx hlt
      exact ih _ _ _ _ h1 (by omega)
    · rw [wp_ite]
      split
      · refine wp_member (ParseUnionMember_spec p) h (fun _ => Post_fail _) ?_
        intro x p1 h1 _ hx hlt
        exact ih _ _ _ _ h1 (by omega)
      · exact wp_close h rfl

theorem ParseFile_declarations_returns {p0 : Parser} (identifier : Option CompoundIdentifier)
    (using_list : List (Option Using)) (n : Nat) :
    ∀ (p : Parser) (cs : List (Option ConstDeclaration)) (es : List (Option EnumDeclaration))
      (is : List (Option InterfaceDeclaration)) (ss : List (Option StructDeclaration))
      (us : List (Option UnionDeclaration)), Evolves p0 p →
      p.lexer_.tokens.length < n →
      wp (ParseFile.declarations identifier using_list n cs es is ss us)
        (Post (fun _ => true) p0) p := by
  induction n with
  | zero => intro p _ _ _ _ _ _ hn; simp at hn
  | succ n ih =>
    intro p cs es is ss us h hn
    unfold ParseFile.declarations
    rw [wp_bind, wp_Peek]
    split
    · refine wp_declaration (ParseConstDeclaration_spec p) h (fun _ => Post_fail _) ?_
      intro x p1 h1 _ hx hlt
      exact ih _ _ _ _ _ _ h1 (by omega)
    · refine wp_declaration (ParseEnumDeclaration_spec p) h (fun _ => Post_fail _) ?_
      intro x p1 h1 _ hx hlt
      exact ih _ _ _ _ _ _ h1 (by omega)
    · refine wp_declaration (ParseInterfaceDeclaration_spec p) h (fun _ => Post_fail _) ?_
      intro x p1 h1 _ hx hlt
      exact ih _ _ _ _ _ _ h1 (by omega)
    · refine wp_declaration (ParseStructDeclaration_spec p) h (fun _ => Post_fail _) ?_
      intro x p1 h1 _ hx hlt
      exact ih _ _ _ _ _ _ h1 (by omega)
    · refine wp_declaration (ParseUnionDeclaration_spec p) h (fun _ => Post_fail _) ?_
      intro x p1 h1 _ hx hlt
      exact ih _ _ _ _ _ _ h1 (by omega)
    · refine wp_expect h (fun _ => Post_fail _) ?_
      intro hok _ h1
      exact (wp_pure _ _ _).2 ⟨h1, by simp, by simp⟩

theorem ParseFile_usings_returns {p0 : Parser} (identifier : Option CompoundIdentifier)
    (n : Nat) :
    ∀ (p : Parser) (using_list : List (Option Using)), Evolves p0 p →
      p.lexer_.tokens.length < n →
      wp (ParseFile.usings identifier n using_list) (Post (fun _ => true) p0) p := by
  induction n with
  | zero => intro p _ _ hn; simp at hn
  | succ n ih =>
    intro p us h hn
    unfold ParseFile.usings
    rw [wp_bind, wp_Peek]
    split
    · refine wp_declaration (ParseUsing_spec p) h (fun _ => Post_fail _) ?_
      intro x p1 h1 _ hx hlt
      exact ih _ _ h1 (by omega)
    · rw [wp_bind, wp_remaining]
      exact ParseFile_declarations_returns _ _ _ _ _ _ _ _ _ h (by omega)

/-- C23: `ParseFile`, and every other production, returns from every parser state, on
every finite list of tokens followed by `EndOfFile` without end, and leaves no more tokens
than it found. Every loop of the parser (dotted components, parameters, superinterfaces, the
members of the four bodies, usings, top-level declarations) and the recursion of
`ParseType` through array and vector element types returns, whatever it has collected so
far, as soon as its budget of iterations exceeds the number of tokens still to be consumed:
an iteration consumes at least one token before the next one starts, so the budget
`remaining + 1` the productions give their loops is never exhausted. -/
theorem parser_terminates :
    (∀ p : Parser, Returns ParseFile p) ∧
    (∀ (prod : Production) (p : Parser), Returns prod.run p) ∧
    (∀ (n : Nat) (p : Parser), p.lexer_.tokens.length < n → Returns (ParseType.go n) p) ∧
    (∀ (n : Nat) (p : Parser) (components : List (Option Identifier)),
      p.lexer_.tokens.length < n → Returns (ParseCompoundIdentifier.loop n components) p) ∧
    (∀ (n : Nat) (p : Parser) (parameter_list : List (Option Parameter)),
      p.lexer_.tokens.length < n → Returns (ParseParameterList.loop n parameter_list) p) ∧
    (∀ (n : Nat) (p : Parser) (identifier : Option Identifier)
      (superinterfaces : List (Option CompoundIdentifier)), p.lexer_.tokens.length < n →
      Returns (ParseInterfaceDeclaration.superinterfaces identifier n superinterfaces) p) ∧
    (∀ (n : Nat) (p : Parser) (identifier : Option Identifier)
      (subtype : Option PrimitiveType) (members : List (Option EnumMember)),
      p.lexer_.tokens.length < n →
      Returns (ParseEnumDeclaration.loop identifier subtype n members) p) ∧
    (∀ (n : Nat) (p : Parser) (identifier : Option Identifier)
      (superinterfaces : List (Option CompoundIdentifier))
      (const_members : List (Option ConstDeclaration))
      (enum_members : List (Option EnumDeclaration))
      (method_members : List (Option InterfaceMemberMethod)), p.lexer_.tokens.length < n →
      Returns (ParseInterfaceDeclaration.loop identifier superinterfaces n const_members
        enum_members method_members) p) ∧
    (∀ (n : Nat) (p : Parser) (identifier : Option Identifier)
      (const_members : List (Option ConstDeclaration))
      (enum_members : List (Option EnumDeclaration)) (members : List (Option StructMember)),
      p.lexer_.tokens.length < n →
      Returns (ParseStructDeclaration.loop identifier n const_members enum_members members)
        p) ∧
    (∀ (n : Nat) (p : Parser) (identifier : Option Identifier)
      (const_members : List (Option ConstDeclaration))
      (enum_members : List (Option EnumDeclaration)) (members : List (Option UnionMember)),
      p.lexer_.tokens.length < n →
      Returns (ParseUnionDeclaration.loop identifier n const_members enum_members members)
        p) ∧
    (∀ (n : Nat) (p : Parser) (identifier : Option CompoundIdentifier)
      (using_list : List (Option Using)), p.lexer_.tokens.length < n →
      Returns (ParseFile.usings identifier n using_list) p) ∧
    (∀ (n : Nat) (p : Parser) (identifier : Option CompoundIdentifier)
      (using_list : List (Option Using)) (cs : List (Option ConstDeclaration))
      (es : List (Option EnumDeclaration)) (is : List (Option InterfaceDeclaration))
      (ss : List (Option StructDeclaration)) (us : List (Option UnionDeclaration)),
      p.lexer_.tokens.length < n →
      Returns (ParseFile.declarations identifier using_list n cs es is ss us) p) := by
  refine ⟨?_, ?_, ?_, ?_, ?_, ?_, ?_, ?_, ?_, ?_, ?_, ?_⟩
  · intro p
    obtain ⟨a, p', hrun, ⟨hev, -⟩, -⟩ := ParseFile_spec p
    exact ⟨a, p', hrun, hev.length_le⟩
  · intro prod p
    exact Returns_of_wp (Production_spec prod p)
  · intro n p hn
    exact Returns_of_wp (ParseType_go_spec n p hn)
  · intro n p components hn
    exact Returns_of_wp (ParseCompoundIdentifier_loop_returns n p _ (Evolves.refl p) hn)
  · intro n p parameter_list hn
    exact Returns_of_wp (ParseParameterList_loop_returns n p _ (Evolves.refl p) hn)
  · intro n p identifier superinterfaces hn
    exact Returns_of_wp
      (ParseInterfaceDeclaration_superinterfaces_returns _ n p _ (Evolves.refl p) hn)
  · intro n p identifier subtype members hn
    exact Returns_of_wp (ParseEnumDeclaration_loop_returns _ _ n p _ (Evolves.refl p) hn)
  · intro n p identifier superinterfaces cs es ms hn
    exact Returns_of_wp
      (ParseInterfaceDeclaration_loop_returns _ _ n p _ _ _ (Evolves.refl p) hn)
  · intro n p identifier cs es ms hn
    exact Returns_of_wp (ParseStructDeclaration_loop_returns _ n p _ _ _ (Evolves.refl p) hn)
  · intro n p identifier cs es ms hn
    exact Returns_of_wp (ParseUnionDeclaration_loop_returns _ n p _ _ _ (Evolves.refl p) hn)
  · intro n p identifier using_list hn
    exact Returns_of_wp (ParseFile_usings_returns _ n p _ (Evolves.refl p) hn)
  · intro n p identifier using_list cs es is ss us hn
    exact Returns_of_wp
      (ParseFile_declarations_returns _ _ n p _ _ _ _ _ (Evolves.refl p) hn)

/-! ## The members of an enum -/

theorem EnumMembers_of_seq {ts r : List Token} {xs : List EnumMember}
    (h : Reads.Seq Reads.EnumMember ts xs r) :
    ∀ (close : Token) (rest : List Token), r = close :: rest → close.kind = Kind.RightCurly →
      Reads.EnumMembers ts (xs.map some) rest := by
  induction h with
  | nil =>
    rintro close rest rfl hc
    exact Reads.EnumMembers.done hc
  | cons hx hs _ ih =>
    intro close rest hr hc
    exact Reads.EnumMembers.more hx hs (ih close rest hr hc)

theorem EnumDeclaration_of_body {ts body rest : List Token} {ms : List (Option EnumMember)}
    (hh : Reads.EnumHeader ts body) (hms : Reads.EnumMembers body ms rest) :
    ∃ x, Reads.EnumDeclaration ts x rest ∧ x.members = ms := by
  cases hh with
  | plain he hi ho => exact ⟨_, Reads.EnumDeclaration.plain he hi ho hms, rfl⟩
  | typed he hi hc ht ho => exact ⟨_, Reads.EnumDeclaration.typed he hi hc ht ho hms, rfl⟩

/-- C24: the loop of `ParseEnumDeclaration` calls `ParseEnumMember` on every type-starting
token, and `ParseEnumMember` returns `nullptr`, unhealthy, unless the token is an
identifier. So when, after the header and any members, each followed by `;`, the next token
is type-starting and not an identifier, `ParseEnumDeclaration` fails; a healthy parser
returns a declaration, healthy, exactly when the body after `{` is members, each followed by
`;`, then `}`; and every member begins with an identifier and is
`Identifier ('=' (CompoundIdentifier | NumericLiteral))?`. On `enum E { int32 x; }` the
declaration fails, with one diagnostic. -/
theorem enum_members_start_with_identifier :
    (∀ (p : Parser) (ts body r : List Token) (members : List EnumMember),
      Reads.EnumHeader ts body → Reads.Seq Reads.EnumMember body members r →
      TOKEN_TYPE_CASES (next r) = true → next r ≠ Kind.Identifier →
      fails ParseEnumDeclaration (p.at ts)) ∧
    (∀ p : Parser, p.last_token_.kind ≠ Kind.Identifier →
      ∃ p', ParseEnumMember p = some (none, p') ∧ p'.ok_ = false) ∧
    (∀ (p : Parser) (ts rest : List Token), p.ok_ = true →
      ((∃ x, ParseEnumDeclaration (p.at ts) = some (some x, p.at rest)) ↔
        ∃ (body : List Token) (members : List EnumMember) (close : Token),
          Reads.EnumHeader ts body ∧
          Reads.Seq Reads.EnumMember body members (close :: rest) ∧
          close.kind = Kind.RightCurly)) ∧
    (∀ (ts rest : List Token) (m : EnumMember), Reads.EnumMember ts m rest →
      next ts = Kind.Identifier ∧ ∃ c, ts = c ++ rest ∧ Grammar.EnumMember (kinds c)) ∧
    (ParseEnumDeclaration (Parser.init enum_with_typed_member)).map
      (fun r => (r.2.ok_, r.2.error_reporter_.length)) = some (false, 1) := by
  refine ⟨?_, ?_, ?_, ?_, by decide!⟩
  · intro p ts body r members hh hseq htype hid
    refine fails_of_not_reads (ParseEnumDeclaration_spec _)
      (ParseEnumDeclaration_sound _ _ rfl) (fun x rest hx => ?_)
    rcases EnumDeclaration_then hx hh hseq with h | ⟨y, s, r3, hy, -⟩
    · rw [h] at htype
      cases htype
    · exact hid (EnumMember_next hy)
  · intro p hid
    refine none_of_fails (ParseEnumMember_strict _)
      (fails_of_not_reads (ParseEnumMember_spec _) (ParseEnumMember_sound _ _ rfl) ?_)
    intro x rest hx
    apply hid
    rw [last_token_kind rfl]
    exact EnumMember_next hx
  · intro p ts rest hok
    constructor
    · rintro ⟨x, hrun⟩
      have hr := reads_of_success (ParseEnumDeclaration_sound _ _ rfl) hrun hok
      obtain ⟨body, members, close, hh, hseq, hc, -⟩ := EnumDeclaration_body hr
      exact ⟨body, members, close, hh, hseq, hc⟩
    · rintro ⟨body, members, close, hh, hseq, hc⟩
      obtain ⟨x, hx, -⟩ := EnumDeclaration_of_body hh (EnumMembers_of_seq hseq _ _ rfl hc)
      exact ⟨x, ParseEnumDeclaration_complete hx p hok⟩
  · intro ts rest m hm
    exact ⟨EnumMember_next hm, EnumMember_derivable hm⟩

/-! ## After the failure -/

theorem Parser.skip_zero (p : Parser) : p.skip 0 = p := rfl

theorem Parser.skip_skip (p : Parser) (j i : Nat) : (p.skip j).skip i = p.skip (j + i) := by
  simp only [Parser.skip, Parser.at, List.drop_drop]

theorem Parser.advance_eq_skip (p : Parser) : p.advance = p.skip 1 := by
  simp only [Parser.advance, Parser.skip, Parser.at, List.drop_one]

theorem Runs_refl (p : Parser) : Runs p p := ⟨0, rfl⟩

theorem Runs_advance {p q : Parser} (h : Runs p q) : Runs p q.advance := by
  obtain ⟨j, rfl⟩ := h
  exact ⟨j + 1, by rw [Parser.advance_eq_skip, Parser.skip_skip]⟩

theorem Runs_trans {p q r : Parser} (h : Runs p q) (h' : Runs q r) : Runs p r := by
  obtain ⟨j, rfl⟩ := h
  obtain ⟨i, rfl⟩ := h'
  exact ⟨j + i, Parser.skip_skip p j i⟩

theorem Halts_failed {p q : Parser} (k : Nat) (h : Runs p q) : Halts k p q.failed := by
  obtain ⟨j, rfl⟩ := h
  exact ⟨j, 0, Nat.zero_le k, rfl⟩

theorem Halts_advance {k : Nat} {p q : Parser} (h : Halts k p q) :
    Halts (k + 1) p q.advance := by
  obtain ⟨j, i, hi, rfl⟩ := h
  exact ⟨j, i + 1, by omega, by rw [Parser.advance_eq_skip, Parser.skip_skip]⟩

theorem Halts_mono {k k' : Nat} {p q : Parser} (h : Halts k p q) (hle : k ≤ k') :
    Halts k' p q := by
  obtain ⟨j, i, hi, rfl⟩ := h
  exact ⟨j, i, by omega, rfl⟩

theorem Halts_after {k : Nat} {p q r : Parser} (h : Runs p q) (h' : Halts k q r) :
    Halts k p r := by
  obtain ⟨j, rfl⟩ := h
  obtain ⟨j2, i, hi, rfl⟩ := h'
  exact ⟨j + j2, i, hi, by rw [Parser.skip_skip]⟩

theorem Track_after {k k' : Nat} {p q r : Parser} (h : Runs p q) (h' : Track k q r)
    (hle : k ≤ k') : Track k' p r := by
  rcases h' with ⟨hok, hr⟩ | ⟨hok, hh⟩
  · exact Or.inl ⟨hok, Runs_trans h hr⟩
  · exact Or.inr ⟨hok, Halts_mono (Halts_after h hh) hle⟩

/-- `ConsumeToken` in a healthy state. -/
theorem track_ConsumeToken (kind : Kind) (p : Parser) (hok : p.ok_ = true) :
    wlp (ConsumeToken kind) (fun _ p' => Track 0 p p') p := by
  rw [wlp_ConsumeToken]
  split
  · exact Or.inl ⟨by simpa using hok, Runs_advance (Runs_refl p)⟩
  · exact Or.inr ⟨by simp, Halts_failed 0 (Runs_advance (Runs_refl p))⟩

/-- The idiom `auto x = ParseX(); if (!Ok()) return ...; ...`. -/
theorem track_sub_or {α β : Type} {m : M α} {F K : α → M β} {Q : β → Parser → Prop}
    {k1 : Nat} {p0 p : Parser} (hs : wlp m (fun _ p' => Track k1 p p') p) (h0 : Runs p0 p)
    (hfail : ∀ a p1, p1.ok_ = false → Halts k1 p0 p1 → wlp (F a) Q p1)
    (hk : ∀ a p1, Runs p0 p1 → p1.ok_ = true → wlp (K a) Q p1) :
    wlp (m >>= fun a => Ok >>= fun ok => if (!ok) = true then F a else K a) Q p := by
  rw [wlp_bind]
  refine wlp_mono hs ?_
  intro a p1 h1
  rw [wlp_bind, wlp_Ok, wlp_ite]
  rcases h1 with ⟨hok, hr⟩ | ⟨hok, hh⟩
  · simpa [hok] using hk a p1 (Runs_trans h0 hr) hok
  · simpa [hok] using hfail a p1 hok (Halts_after h0 hh)

/-- `Fail()` in an unhealthy state. -/
theorem track_halted {β : Type} {k1 k : Nat} {p0 p1 : Parser} (hok : p1.ok_ = false)
    (hh : Halts k1 p0 p1) (hle : k1 ≤ k) :
    wlp (Fail : M (Option β)) (fun _ p' => Track k p0 p') p1 := by
  rw [wlp_Fail, Parser.failed_of_not_ok hok]
  exact Or.inr ⟨hok, Halts_mono hh hle⟩

/-- The idiom `auto x = ParseX(); if (!Ok()) return Fail(); ...`. -/
theorem track_sub {α β : Type} {m : M α} {K : α → M (Option β)} {k1 k : Nat}
    {p0 p : Parser} (hs : wlp m (fun _ p' => Track k1 p p') p) (hle : k1 ≤ k)
    (h0 : Runs p0 p)
    (hk : ∀ a p1, Runs p0 p1 → p1.ok_ = true → wlp (K a) (fun _ p' => Track k p0 p') p1) :
    wlp (m >>= fun a => Ok >>= fun ok => if (!ok) = true then Fail else K a)
      (fun _ p' => Track k p0 p') p :=
  track_sub_or hs h0 (fun _ _ hok hh => track_halted hok hh hle) hk

/-- The idiom `ConsumeToken(kind); if (!Ok()) return Fail(); ...`. -/
theorem track_expect {β : Type} {kind : Kind} {K : Token → M (Option β)} {k : Nat}
    {p0 p : Parser} (h0 : Runs p0 p) (hok : p.ok_ = true)
    (hk : ∀ t p1, Runs p0 p1 → p1.ok_ = true → wlp (K t) (fun _ p' => Track k p0 p') p1) :
    wlp (ConsumeToken kind >>= fun t => Ok >>= fun ok => if (!ok) = true then Fail else K t)
      (fun _ p' => Track k p0 p') p :=
  track_sub (track_ConsumeToken kind p hok) (Nat.zero_le k) h0 hk

/-- The idiom `if (MaybeConsumeToken(kind)) ... else ...`. -/
theorem track_maybe_plain {β : Type} {kind : Kind} {A B : M β} {Q : β → Parser → Prop}
    {p0 p : Parser} (h0 : Runs p0 p) (hok : p.ok_ = true)
    (ha : ∀ p1, Runs p0 p1 → p1.ok_ = true → wlp A Q p1) (hb : wlp B Q p) :
    wlp (MaybeConsumeToken kind >>= fun b => if b = true then A else B) Q p := by
  simp only [wlp_bind, wlp_MaybeConsumeToken]
  split
  · simpa using ha p.advance (Runs_advance h0) (by simpa using hok)
  · simpa using hb

/-- The check `if (!Ok()) return Fail();` in a healthy state. -/
theorem track_checked {β : Type} {K : M (Option β)} {Q : Option β → Parser → Prop}
    {p : Parser} (hok : p.ok_ = true) (hk : wlp K Q p) :
    wlp (Ok >>= fun ok => if (!ok) = true then Fail else K) Q p := by
  rw [wlp_bind, wlp_Ok, wlp_ite]
  simpa [hok] using hk

/-- The idiom `if (MaybeConsumeToken(kind)) { if (!Ok()) return Fail(); ... } else ...`. -/
theorem track_maybe {β : Type} {kind : Kind} {A B : M (Option β)}
    {Q : Option β → Parser → Prop} {p0 p : Parser} (h0 : Runs p0 p) (hok : p.ok_ = true)
    (ha : ∀ p1, Runs p0 p1 → p1.ok_ = true → wlp A Q p1) (hb : wlp B Q p) :
    wlp (MaybeConsumeToken kind >>= fun b => if b = true then
      Ok >>= fun ok => if (!ok) = true then Fail else A else B) Q p :=
  track_maybe_plain h0 hok (fun p1 h1 hok1 => track_checked hok1 (ha p1 h1 hok1)) hb

theorem track_pure {β : Type} (x : β) (k : Nat) {p0 p : Parser} (h0 : Runs p0 p)
    (hok : p.ok_ = true) : wlp (pure x) (fun _ p' => Track k p0 p') p :=
  (wlp_pure _ _ _).2 (Or.inl ⟨hok, h0⟩)

theorem track_Fail {β : Type} (k : Nat) {p0 p : Parser} (h0 : Runs p0 p) :
    wlp (Fail : M (Option β)) (fun _ p' => Track k p0 p') p :=
  (wlp_Fail _ _).2 (Or.inr ⟨by simp, Halts_failed k h0⟩)

/-- The idiom of the braced bodies: `list.emplace_back(ParseX()); if (!Ok()) Fail();
ConsumeToken(Semicolon); if (!Ok()) return Fail(); ...`: after a failure of `ParseX` one
more token is consumed. -/
theorem track_member {α β : Type} {m : M α} {K : α → M (Option β)} {k1 k : Nat}
    {p0 p : Parser} (hs : wlp m (fun _ p' => Track k1 p p') p) (hle : k1 + 1 ≤ k)
    (h0 : Runs p0 p)
    (hk : ∀ a p1, Runs p0 p1 → p1.ok_ = true → wlp (K a) (fun _ p' => Track k p0 p') p1) :
    wlp (m >>= fun a => FailUnlessOk >>= fun _ => ConsumeToken Kind.Semicolon >>= fun _ =>
      Ok >>= fun ok => if (!ok) = true then Fail else K a) (fun _ p' => Track k p0 p') p := by
  rw [wlp_bind]
  refine wlp_mono hs ?_
  intro a p1 h1
  rw [wlp_bind, wlp_FailUnlessOk]
  rcases h1 with ⟨hok, hr⟩ | ⟨hok, hh⟩
  · exact track_expect (Runs_trans h0 hr) hok (fun _ => hk a)
  · rw [wlp_bind, wlp_ConsumeToken, wlp_bind, wlp_Ok, wlp_ite]
    have hadv : p1.advance.ok_ = false := by simpa using hok
    split
    · simp only [hadv, Bool.not_false, if_true]
      exact track_halted hadv (Halts_advance (Halts_after h0 hh)) hle
    · rw [Parser.failed_of_not_ok hadv]
      simp only [hadv, Bool.not_false, if_true]
      exact track_halted hadv (Halts_advance (Halts_after h0 hh)) hle

/-- The end of a braced body: `ConsumeToken(RightCurly); if (!Ok()) Fail(); return node;`. -/
theorem track_close {β : Type} (x : β) (k : Nat) {p0 p : Parser} (h0 : Runs p0 p)
    (hok : p.ok_ = true) :
    wlp (ConsumeToken Kind.RightCurly >>= fun _ => FailUnlessOk >>= fun _ => pure (some x))
      (fun _ p' => Track k p0 p') p := by
  simp only [wlp_bind, wlp_ConsumeToken, wlp_FailUnlessOk, wlp_pure]
  split
  · exact Or.inl ⟨by simpa using hok, Runs_advance h0⟩
  · exact Or.inr ⟨by simp, Halts_failed k (Runs_advance h0)⟩

theorem ParseIdentifier_track (p : Parser) (hok : p.ok_ = true) :
    wlp ParseIdentifier (fun _ p' => Track 0 p p') p := by
  unfold ParseIdentifier
  exact track_expect (Runs_refl p) hok fun _ _ h1 hok1 => track_pure _ _ h1 hok1

theorem ParseStringLiteral_track (p : Parser) (hok : p.ok_ = true) :
    wlp ParseStringLiteral (fun _ p' => Track 0 p p') p := by
  unfold ParseStringLiteral
  exact track_expect (Runs_refl p) hok fun _ _ h1 hok1 => track_pure _ _ h1 hok1

theorem ParseNumericLiteral_track (p : Parser) (hok : p.ok_ = true) :
    wlp ParseNumericLiteral (fun _ p' => Track 0 p p') p := by
  unfold ParseNumericLiteral
  exact track_expect (Runs_refl p) hok fun _ _ h1 hok1 => track_pure _ _ h1 hok1

theorem ParseTrueLiteral_track (p : Parser) (hok : p.ok_ = true) :
    wlp ParseTrueLiteral (fun _ p' => Track 0 p p') p := by
  unfold ParseTrueLiteral
  exact track_expect (Runs_refl p) hok fun _ _ h1 hok1 => track_pure _ _ h1 hok1

theorem ParseFalseLiteral_track (p : Parser) (hok : p.ok_ = true) :
    wlp ParseFalseLiteral (fun _ p' => Track 0 p p') p := by
  unfold ParseFalseLiteral
  exact track_expect (Runs_refl p) hok fun _ _ h1 hok1 => track_pure _ _ h1 hok1

theorem ParseDefaultLiteral_track (p : Parser) (hok : p.ok_ = true) :
    wlp ParseDefaultLiteral (fun _ p' => Track 0 p p') p := by
  unfold ParseDefaultLiteral
  exact track_expect (Runs_refl p) hok fun _ _ h1 hok1 => track_pure _ _ h1 hok1

theorem ParseLiteral_track (p : Parser) (hok : p.ok_ = true) :
    wlp ParseLiteral (fun _ p' => Track 0 p p') p := by
  unfold ParseLiteral
  simp only [wlp_bind, wlp_Peek]
  split
  · exact ParseStringLiteral_track p hok
  · rw [wlp_bind]
    refine wlp_mono (ParseNumericLiteral_track p hok) ?_
    intro a p1 h1
    exact (wlp_pure _ _ _).2 h1
  · exact ParseTrueLiteral_track p hok
  · exact ParseFalseLiteral_track p hok
  · exact ParseDefaultLiteral_track p hok
  · exact track_Fail 0 (Runs_refl p)

theorem ParseCompoundIdentifier_loop_track {p0 : Parser} (n : Nat) :
    ∀ (p : Parser) (components : List (Option Identifier)), Runs p0 p → p.ok_ = true →
      wlp (ParseCompoundIdentifier.loop n components) (fun _ p' => Track 0 p0 p') p := by
  induction n with
  | zero => intro p _ _ _; exact wlp_exhausted _ _
  | succ n ih =>
    intro p components h hok
    unfold ParseCompoundIdentifier.loop
    simp only [wlp_bind, wlp_Peek]
    split
    · next hk =>
      simp only [wlp_bind, wlp_ConsumeToken, hk, if_true, wlp_Ok, wlp_ite, Parser.advance_ok,
        hok]
      refine wlp_mono (ParseIdentifier_track _ (by simpa using hok)) ?_
      intro a p1 h1
      simp only [wlp_pure, wlp_Fail]
      rcases h1 with ⟨hok1, hr⟩ | ⟨hok1, hh⟩
      · simpa [hok1] using ih _ _ (Runs_trans (Runs_advance h) hr) hok1
      · simp only [hok1, Bool.not_false, if_true]
        rw [Parser.failed_of_not_ok hok1]
        exact Or.inr ⟨hok1, Halts_after (Runs_advance h) hh⟩
    · exact track_pure _ _ h hok

theorem ParseCompoundIdentifier_track (p : Parser) (hok : p.ok_ = true) :
    wlp ParseCompoundIdentifier (fun _ p' => Track 0 p p') p := by
  unfold ParseCompoundIdentifier
  refine track_sub (ParseIdentifier_track p hok) (Nat.le_refl 0) (Runs_refl p) ?_
  intro x p1 h1 hok1
  simp only [wlp_bind, wlp_remaining]
  exact ParseCompoundIdentifier_loop_track _ _ _ h1 hok1

theorem ParseConstant_track (p : Parser) (hok : p.ok_ = true) :
    wlp ParseConstant (fun _ p' => Track 0 p p') p := by
  unfold ParseConstant
  simp only [wlp_bind, wlp_Peek]
  split
  · exact track_sub (ParseCompoundIdentifier_track p hok) (Nat.le_refl 0) (Runs_refl p)
      fun _ _ h1 hok1 => track_pure _ _ h1 hok1
  · simp only [wlp_ite]
    split
    · exact track_sub (ParseLiteral_track p hok) (Nat.le_refl 0) (Runs_refl p)
        fun _ _ h1 hok1 => track_pure _ _ h1 hok1
    · exact track_Fail 0 (Runs_refl p)

theorem ParseUsing_track (p : Parser) (hok : p.ok_ = true) :
    wlp ParseUsing (fun _ p' => Track 0 p p') p := by
  unfold ParseUsing
  refine track_expect (Runs_refl p) hok fun _ p1 h1 hok1 => ?_
  refine track_sub (ParseCompoundIdentifier_track p1 hok1) (Nat.le_refl 0) h1 ?_
  intro x p2 h2 hok2
  refine track_maybe h2 hok2 (fun p3 h3 hok3 => ?_) (track_pure _ _ h2 hok2)
  exact track_sub (ParseIdentifier_track p3 hok3) (Nat.le_refl 0) h3
    fun _ _ h4 hok4 => track_pure _ _ h4 hok4

theorem ParseStringType_finish_track {p0 p : Parser} (h : Runs p0 p) (hok : p.ok_ = true)
    (c : Option Constant) :
    wlp (ParseStringType.finish c) (fun _ p' => Track 0 p0 p') p := by
  unfold ParseStringType.finish
  exact track_maybe_plain h hok (fun _ h1 hok1 => track_pure _ _ h1 hok1)
    (track_pure _ _ h hok)

theorem ParseStringType_track (p : Parser) (hok : p.ok_ = true) :
    wlp ParseStringType (fun _ p' => Track 0 p p') p := by
  unfold ParseStringType
  refine track_expect (Runs_refl p) hok fun _ p1 h1 hok1 => ?_
  refine track_maybe h1 hok1 (fun p2 h2 hok2 => ?_) (ParseStringType_finish_track h1 hok1 _)
  exact track_sub (ParseConstant_track p2 hok2) (Nat.le_refl 0) h2
    fun _ _ h3 hok3 => ParseStringType_finish_track h3 hok3 _

theorem ParseHandleType_finish_track {p0 p : Parser} (h : Runs p0 p) (hok : p.ok_ = true)
    (s : HandleSubtype) :
    wlp (ParseHandleType.finish s) (fun _ p' => Track 0 p0 p') p := by
  unfold ParseHandleType.finish
  exact track_maybe_plain h hok (fun _ h1 hok1 => track_pure _ _ h1 hok1)
    (track_pure _ _ h hok)

theorem track_Consume (p : Parser) (hok : p.ok_ = true) :
    wlp Consume (fun _ p' => Track 0 p p') p := by
  rw [wlp_Consume]
  exact Or.inl ⟨by simpa using hok, Runs_advance (Runs_refl p)⟩

theorem ParseHandleType_track (p : Parser) (hok : p.ok_ = true) :
    wlp ParseHandleType (fun _ p' => Track 0 p p') p := by
  unfold ParseHandleType
  refine track_expect (Runs_refl p) hok fun _ p1 h1 hok1 => ?_
  refine track_maybe h1 hok1 (fun p2 h2 hok2 => ?_) (ParseHandleType_finish_track h1 hok1 _)
  simp only [wlp_bind, wlp_Peek]
  split
  · exact track_Fail 0 h2
  · refine track_sub (track_Consume p2 hok2) (Nat.le_refl 0) h2 fun _ p3 h3 hok3 => ?_
    exact track_expect h3 hok3 fun _ _ h4 hok4 => ParseHandleType_finish_track h4 hok4 _

theorem ParsePrimitiveType_track (p : Parser) (hok : p.ok_ = true) :
    wlp ParsePrimitiveType (fun _ p' => Track 0 p p') p := by
  unfold ParsePrimitiveType
  simp only [wlp_bind, wlp_Peek]
  split
  · exact track_Fail 0 (Runs_refl p)
  · rw [wlp_bind, wlp_Peek]
    exact track_expect (Runs_refl p) hok fun _ _ h1 hok1 => track_pure _ _ h1 hok1

theorem ParseRequestType_track (p : Parser) (hok : p.ok_ = true) :
    wlp ParseRequestType (fun _ p' => Track 0 p p') p := by
  unfold ParseRequestType
  refine track_expect (Runs_refl p) hok fun _ p1 h1 hok1 => ?_
  refine track_expect h1 hok1 fun _ p2 h2 hok2 => ?_
  refine track_sub (ParseCompoundIdentifier_track p2 hok2) (Nat.le_refl 0) h2 ?_
  intro x p3 h3 hok3
  refine track_expect h3 hok3 fun _ p4 h4 hok4 => ?_
  exact track_maybe_plain h4 hok4 (fun _ h5 hok5 => track_pure _ _ h5 hok5)
    (track_pure _ _ h4 hok4)

theorem ParseArrayType_track (rec : M (Option Type_))
    (hrec : ∀ q, q.ok_ = true → wlp rec (fun _ p' => Track 0 q p') q) (p : Parser)
    (hok : p.ok_ = true) : wlp (ParseArrayType rec) (fun _ p' => Track 0 p p') p := by
  unfold ParseArrayType
  refine track_expect (Runs_refl p) hok fun _ p1 h1 hok1 => ?_
  refine track_expect h1 hok1 fun _ p2 h2 hok2 => ?_
  refine track_sub (hrec p2 hok2) (Nat.le_refl 0) h2 fun _ p3 h3 hok3 => ?_
  refine track_expect h3 hok3 fun _ p4 h4 hok4 => ?_
  refine track_expect h4 hok4 fun _ p5 h5 hok5 => ?_
  exact track_sub (ParseConstant_track p5 hok5) (Nat.le_refl 0) h5
    fun _ _ h6 hok6 => track_pure _ _ h6 hok6

theorem ParseVectorType_finish_track {p0 p : Parser} (h : Runs p0 p) (hok : p.ok_ = true)
    (e : Option Type_) (c : Option Constant) :
    wlp (ParseVectorType.finish e c) (fun _ p' => Track 0 p0 p') p := by
  unfold ParseVectorType.finish
  exact track_maybe_plain h hok (fun _ h1 hok1 => track_pure _ _ h1 hok1)
    (track_pure _ _ h hok)

theorem ParseVectorType_track (rec : M (Option Type_))
    (hrec : ∀ q, q.ok_ = true → wlp rec (fun _ p' => Track 0 q p') q) (p : Parser)
    (hok : p.ok_ = true) : wlp (ParseVectorType rec) (fun _ p' => Track 0 p p') p := by
  unfold ParseVectorType
  refine track_expect (Runs_refl p) hok fun _ p1 h1 hok1 => ?_
  refine track_expect h1 hok1 fun _ p2 h2 hok2 => ?_
  refine track_sub (hrec p2 hok2) (Nat.le_refl 0) h2 fun _ p3 h3 hok3 => ?_
  refine track_expect h3 hok3 fun _ p4 h4 hok4 => ?_
  refine track_maybe h4 hok4 (fun p5 h5 hok5 => ?_)
    (ParseVectorType_finish_track h4 hok4 _ _)
  exact track_sub (ParseConstant_track p5 hok5) (Nat.le_refl 0) h5
    fun _ _ h6 hok6 => ParseVectorType_finish_track h6 hok6 _ _

theorem ParseType_go_track (n : Nat) :
    ∀ p : Parser, p.ok_ = true → wlp (ParseType.go n) (fun _ p' => Track 0 p p') p := by
  induction n with
  | zero => intro p _; exact wlp_exhausted _ _
  | succ n ih =>
    intro p hok
    unfold ParseType.go
    simp only [wlp_bind, wlp_Peek]
    split
    · refine track_sub (ParseCompoundIdentifier_track p hok) (Nat.le_refl 0) (Runs_refl p) ?_
      intro x p1 h1 hok1
      exact track_maybe h1 hok1 (fun _ h2 hok2 => track_pure _ _ h2 hok2)
        (track_pure _ _ h1 hok1)
    · exact track_sub (ParseArrayType_track _ ih p hok) (Nat.le_refl 0) (Runs_refl p)
        fun _ _ h1 hok1 => track_pure _ _ h1 hok1
    · exact track_sub (ParseVectorType_track _ ih p hok) (Nat.le_refl 0) (Runs_refl p)
        fun _ _ h1 hok1 => track_pure _ _ h1 hok1
    · exact track_sub (ParseStringType_track p hok) (Nat.le_refl 0) (Runs_refl p)
        fun _ _ h1 hok1 => track_pure _ _ h1 hok1
    · exact track_sub (ParseHandleType_track p hok) (Nat.le_refl 0) (Runs_refl p)
        fun _ _ h1 hok1 => track_pure _ _ h1 hok1
    · exact track_sub (ParseRequestType_track p hok) (Nat.le_refl 0) (Runs_refl p)
        fun _ _ h1 hok1 => track_pure _ _ h1 hok1
    · simp only [wlp_ite]
      split
      · exact track_sub (ParsePrimitiveType_track p hok) (Nat.le_refl 0) (Runs_refl p)
          fun _ _ h1 hok1 => track_pure _ _ h1 hok1
      · exact track_Fail 0 (Runs_refl p)

theorem ParseType_track (p : Parser) (hok : p.ok_ = true) :
    wlp ParseType (fun _ p' => Track 0 p p') p := by
  unfold ParseType
  simp only [wlp_bind, wlp_remaining]
  exact ParseType_go_track _ p hok

theorem ParseConstDeclaration_track (p : Parser) (hok : p.ok_ = true) :
    wlp ParseConstDeclaration (fun _ p' => Track 0 p p') p := by
  unfold ParseConstDeclaration
  refine track_expect (Runs_refl p) hok fun _ p1 h1 hok1 => ?_
  refine track_sub (ParseType_track p1 hok1) (Nat.le_refl 0) h1 fun _ p2 h2 hok2 => ?_
  refine track_sub (ParseIdentifier_track p2 hok2) (Nat.le_refl 0) h2 fun _ p3 h3 hok3 => ?_
  refine track_expect h3 hok3 fun _ p4 h4 hok4 => ?_
  exact track_sub (ParseConstant_track p4 hok4) (Nat.le_refl 0) h4
    fun _ _ h5 hok5 => track_pure _ _ h5 hok5

theorem ParseEnumMember_track (p : Parser) (hok : p.ok_ = true) :
    wlp ParseEnumMember (fun _ p' => Track 0 p p') p := by
  unfold ParseEnumMember
  refine track_sub (ParseIdentifier_track p hok) (Nat.le_refl 0) (Runs_refl p) ?_
  intro x p1 h1 hok1
  refine track_maybe h1 hok1 (fun p2 h2 hok2 => ?_) (track_pure _ _ h1 hok1)
  simp only [wlp_bind, wlp_Peek]
  split
  · exact track_sub (ParseCompoundIdentifier_track p2 hok2) (Nat.le_refl 0) h2
      fun _ _ h3 hok3 => track_pure _ _ h3 hok3
  · exact track_sub (ParseNumericLiteral_track p2 hok2) (Nat.le_refl 0) h2
      fun _ _ h3 hok3 => track_pure _ _ h3 hok3
  · exact track_Fail 0 h2

theorem ParseEnumDeclaration_loop_track {p0 : Parser} (identifier : Option Identifier)
    (subtype : Option PrimitiveType) (n : Nat) :
    ∀ (p : Parser) (members : List (Option EnumMember)), Runs p0 p → p.ok_ = true →
      wlp (ParseEnumDeclaration.loop identifier subtype n members)
        (fun _ p' => Track 1 p0 p') p := by
  induction n with
  | zero => intro p _ _ _; exact wlp_exhausted _ _
  | succ n ih =>
    intro p members h hok
    unfold ParseEnumDeclaration.loop
    rw [wlp_bind, wlp_Peek, wlp_ite]
    split
    · exact track_member (ParseEnumMember_track p hok) (Nat.le_refl 1) h
        fun _ p1 h1 hok1 => ih _ _ h1 hok1
    · exact track_close _ _ h hok

theorem ParseEnumDeclaration_body_track {p0 p : Parser} (h : Runs p0 p) (hok : p.ok_ = true)
    (identifier : Option Identifier) (subtype : Option PrimitiveType) :
    wlp (ParseEnumDeclaration.body identifier subtype) (fun _ p' => Track 1 p0 p') p := by
  unfold ParseEnumDeclaration.body
  refine track_expect h hok fun _ p1 h1 hok1 => ?_
  rw [wlp_bind, wlp_remaining]
  exact ParseEnumDeclaration_loop_track _ _ _ _ _ h1 hok1

theorem ParseEnumDeclaration_track (p : Parser) (hok : p.ok_ = true) :
    wlp ParseEnumDeclaration (fun _ p' => Track 1 p p') p := by
  unfold ParseEnumDeclaration
  refine track_expect (Runs_refl p) hok fun _ p1 h1 hok1 => ?_
  refine track_sub (ParseIdentifier_track p1 hok1) (Nat.zero_le 1) h1 fun _ p2 h2 hok2 => ?_
  refine track_maybe h2 hok2 (fun p3 h3 hok3 => ?_)
    (ParseEnumDeclaration_body_track h2 hok2 _ _)
  exact track_sub (ParsePrimitiveType_track p3 hok3) (Nat.zero_le 1) h3
    fun _ _ h4 hok4 => ParseEnumDeclaration_body_track h4 hok4 _ _

theorem ParseParameter_track (p : Parser) (hok : p.ok_ = true) :
    wlp ParseParameter (fun _ p' => Track 0 p p') p := by
  unfold ParseParameter
  refine track_sub (ParseType_track p hok) (Nat.le_refl 0) (Runs_refl p) ?_
  intro x p1 h1 hok1
  exact track_sub (ParseIdentifier_track p1 hok1) (Nat.le_refl 0) h1
    fun _ _ h2 hok2 => track_pure _ _ h2 hok2

theorem ParseParameterList_loop_track {p0 : Parser} (n : Nat) :
    ∀ (p : Parser) (parameter_list : List (Option Parameter)), Runs p0 p → p.ok_ = true →
      wlp (ParseParameterList.loop n parameter_list) (fun _ p' => Track 0 p0 p') p := by
  induction n with
  | zero => intro p _ _ _; exact wlp_exhausted _ _
  | succ n ih =>
    intro p parameter_list h hok
    unfold ParseParameterList.loop
    rw [wlp_bind, wlp_Peek, wlp_ite]
    split
    · refine track_expect h hok fun _ p1 h1 hok1 => ?_
      rw [wlp_bind, wlp_Peek, wlp_ite]
      split
      · exact track_sub (ParseParameter_track p1 hok1) (Nat.le_refl 0) h1
          fun _ p2 h2 hok2 => ih _ _ h2 hok2
      · exact track_Fail 0 h1
    · exact track_pure _ _ h hok

theorem ParseParameterList_track (p : Parser) (hok : p.ok_ = true) :
    wlp ParseParameterList (fun _ p' => Track 0 p p') p := by
  unfold ParseParameterList
  rw [wlp_bind, wlp_Peek, wlp_ite]
  split
  · refine track_sub (ParseParameter_track p hok) (Nat.le_refl 0) (Runs_refl p) ?_
    intro x p1 h1 hok1
    rw [wlp_bind, wlp_remaining]
    exact ParseParameterList_loop_track _ _ _ h1 hok1
  · exact track_pure _ _ (Runs_refl p) hok

theorem ParseInterfaceMemberMethod_parse_params_track (p : Parser) (hok : p.ok_ = true) :
    wlp ParseInterfaceMemberMethod.parse_params
      (fun r p' => Track 0 p p' ∧ (r.1 = true → p'.ok_ = true)) p := by
  unfold ParseInterfaceMemberMethod.parse_params
  refine track_sub_or (track_ConsumeToken _ p hok) (Runs_refl p)
    (fun _ p1 hok1 hh => (wlp_pure _ _ _).2 ⟨Or.inr ⟨hok1, hh⟩, by simp⟩) ?_
  intro _ p1 h1 hok1
  refine track_sub_or (ParseParameterList_track p1 hok1) h1
    (fun _ p2 hok2 hh => (wlp_pure _ _ _).2 ⟨Or.inr ⟨hok2, hh⟩, by simp⟩) ?_
  intro x p2 h2 hok2
  refine track_sub_or (track_ConsumeToken _ p2 hok2) h2
    (fun _ p3 hok3 hh => (wlp_pure _ _ _).2 ⟨Or.inr ⟨hok3, hh⟩, by simp⟩) ?_
  intro _ p3 h3 hok3
  exact (wlp_pure _ _ _).2 ⟨Or.inl ⟨hok3, h3⟩, fun _ => hok3⟩

/-- The idiom `if (!parse_params(&out)) return Fail(); ...`. -/
theorem track_params {β : Type} {K : Bool × Option ParameterList → M (Option β)} {k : Nat}
    {p0 p : Parser} (h0 : Runs p0 p) (hok : p.ok_ = true)
    (hk : ∀ r p1, Runs p0 p1 → p1.ok_ = true → wlp (K r) (fun _ p' => Track k p0 p') p1) :
    wlp (ParseInterfaceMemberMethod.parse_params >>= fun r =>
      if (!r.1) = true then Fail else K r) (fun _ p' => Track k p0 p') p := by
  rw [wlp_bind]
  refine wlp_mono (ParseInterfaceMemberMethod_parse_params_track p hok) ?_
  rintro ⟨ok, out⟩ p1 ⟨ht, hgood⟩
  cases ok with
  | false =>
    simp only [Bool.not_false, if_true]
    rcases ht with ⟨-, hr⟩ | ⟨hok1, hh⟩
    · exact track_Fail k (Runs_trans h0 hr)
    · exact track_halted hok1 (Halts_after h0 hh) (Nat.zero_le k)
  | true =>
    have hok1 := hgood rfl
    rcases ht with ⟨-, hr⟩ | ⟨hbad, -⟩
    · simpa using hk _ p1 (Runs_trans h0 hr) hok1
    · rw [hok1] at hbad
      cases hbad

theorem ParseInterfaceMemberMethod_track (p : Parser) (hok : p.ok_ = true) :
    wlp ParseInterfaceMemberMethod (fun _ p' => Track 0 p p') p := by
  unfold ParseInterfaceMemberMethod
  refine track_sub (ParseNumericLiteral_track p hok) (Nat.le_refl 0) (Runs_refl p) ?_
  intro o p1 h1 hok1
  refine track_expect h1 hok1 fun _ p2 h2 hok2 => ?_
  refine track_maybe_plain h2 hok2 (fun p3 h3 hok3 => ?_) ?_
  · refine track_sub (ParseIdentifier_track p3 hok3) (Nat.le_refl 0) h3 ?_
    intro y p4 h4 hok4
    exact track_params h4 hok4 fun _ _ h5 hok5 => track_pure _ _ h5 hok5
  · refine track_sub (ParseIdentifier_track p2 hok2) (Nat.le_refl 0) h2 ?_
    intro y p4 h4 hok4
    refine track_params h4 hok4 fun _ p5 h5 hok5 => ?_
    refine track_maybe h5 hok5 (fun p6 h6 hok6 => ?_) (track_pure _ _ h5 hok5)
    exact track_params h6 hok6 fun _ _ h7 hok7 => track_pure _ _ h7 hok7

theorem ParseInterfaceDeclaration_loop_track {p0 : Parser} (identifier : Option Identifier)
    (superinterfaces : List (Option CompoundIdentifier)) (n : Nat) :
    ∀ (p : Parser) (const_members : List (Option ConstDeclaration))
      (enum_members : List (Option EnumDeclaration))
      (method_members : List (Option InterfaceMemberMethod)), Runs p0 p → p.ok_ = true →
      wlp (ParseInterfaceDeclaration.loop identifier superinterfaces n const_members
        enum_members method_members) (fun _ p' => Track 2 p0 p') p := by
  induction n with
  | zero => intro p _ _ _ _ _; exact wlp_exhausted _ _
  | succ n ih =>
    intro p cs es ms h hok
    unfold ParseInterfaceDeclaration.loop
    rw [wlp_bind, wlp_Peek]
    split
    · exact track_member (ParseConstDeclaration_track p hok) (by omega) h
        fun _ p1 h1 hok1 => ih _ _ _ _ h1 hok1
    · exact track_member (ParseEnumDeclaration_track p hok) (by omega) h
        fun _ p1 h1 hok1 => ih _ _ _ _ h1 hok1
    · exact track_member (ParseInterfaceMemberMethod_track p hok) (by omega) h
        fun _ p1 h1 hok1 => ih _ _ _ _ h1 hok1
    · exact track_close _ _ h hok

theorem ParseInterfaceDeclaration_body_track {p0 p : Parser} (h : Runs p0 p)
    (hok : p.ok_ = true) (identifier : Option Identifier)
    (superinterfaces : List (Option CompoundIdentifier)) :
    wlp (ParseInterfaceDeclaration.body identifier superinterfaces)
      (fun _ p' => Track 2 p0 p') p := by
  unfold ParseInterfaceDeclaration.body
  refine track_expect h hok fun _ p1 h1 hok1 => ?_
  rw [wlp_bind, wlp_remaining]
  exact ParseInterfaceDeclaration_loop_track _ _ _ _ _ _ _ h1 hok1

theorem ParseInterfaceDeclaration_superinterfaces_track {p0 : Parser}
    (identifier : Option Identifier) (n : Nat) :
    ∀ (p : Parser) (superinterfaces : List (Option CompoundIdentifier)), Runs p0 p →
      p.ok_ = true →
      wlp (ParseInterfaceDeclaration.superinterfaces identifier n superinterfaces)
        (fun _ p' => Track 2 p0 p') p := by
  induction n with
  | zero => intro p _ _ _; exact wlp_exhausted _ _
  | succ n ih =>
    intro p ss h hok
    unfold ParseInterfaceDeclaration.superinterfaces
    refine track_sub (ParseCompoundIdentifier_track p hok) (Nat.zero_le 2) h ?_
    intro x p1 h1 hok1
    simp only [wlp_bind, wlp_MaybeConsumeToken]
    split
    · simpa using ih _ _ (Runs_advance h1) (by simpa using hok1)
    · simpa using ParseInterfaceDeclaration_body_track h1 hok1 identifier (ss ++ [x])

theorem ParseInterfaceDeclaration_track (p : Parser) (hok : p.ok_ = true) :
    wlp ParseInterfaceDeclaration (fun _ p' => Track 2 p p') p := by
  unfold ParseInterfaceDeclaration
  refine track_expect (Runs_refl p) hok fun _ p1 h1 hok1 => ?_
  refine track_sub (ParseIdentifier_track p1 hok1) (Nat.zero_le 2) h1 fun _ p2 h2 hok2 => ?_
  refine track_maybe_plain h2 hok2 (fun p3 h3 hok3 => ?_)
    (ParseInterfaceDeclaration_body_track h2 hok2 _ _)
  rw [wlp_bind, wlp_remaining]
  exact ParseInterfaceDeclaration_superinterfaces_track _ _ _ _ h3 hok3

theorem ParseStructMember_track (p : Parser) (hok : p.ok_ = true) :
    wlp ParseStructMember (fun _ p' => Track 0 p p') p := by
  unfold ParseStructMember
  refine track_sub (ParseType_track p hok) (Nat.le_refl 0) (Runs_refl p) ?_
  intro x p1 h1 hok1
  refine track_sub (ParseIdentifier_track p1 hok1) (Nat.le_refl 0) h1 ?_
  intro y p2 h2 hok2
  refine track_maybe h2 hok2 (fun p3 h3 hok3 => ?_) (track_pure _ _ h2 hok2)
  exact track_sub (ParseConstant_track p3 hok3) (Nat.le_refl 0) h3
    fun _ _ h4 hok4 => track_pure _ _ h4 hok4

theorem ParseStructDeclaration_loop_track {p0 : Parser} (identifier : Option Identifier)
    (n : Nat) :
    ∀ (p : Parser) (const_members : List (Option ConstDeclaration))
      (enum_members : List (Option EnumDeclaration))
      (members : List (Option StructMember)), Runs p0 p → p.ok_ = true →
      wlp (ParseStructDeclaration.loop identifier n const_members enum_members members)
        (fun _ p' => Track 2 p0 p') p := by
  induction n with
  | zero => intro p _ _ _ _ _; exact wlp_exhausted _ _
  | succ n ih =>
    intro p cs es ms h hok
    unfold ParseStructDeclaration.loop
    rw [wlp_bind, wlp_Peek]
    split
    · exact track_member (ParseConstDeclaration_track p hok) (by omega) h
        fun _ p1 h1 hok1 => ih _ _ _ _ h1 hok1
    · exact track_member (ParseEnumDeclaration_track p hok) (by omega) h
        fun _ p1 h1 hok1 => ih _ _ _ _ h1 hok1
    · rw [wlp_ite]
      split
      · exact track_member (ParseStructMember_track p hok) (by omega) h
          fun _ p1 h1 hok1 => ih _ _ _ _ h1 hok1
      · exact track_close _ _ h hok

theorem ParseStructDeclaration_track (p : Parser) (hok : p.ok_ = true) :
    wlp ParseStructDeclaration (fun _ p' => Track 2 p p') p := by
  unfold ParseStructDeclaration
  refine track_expect (Runs_refl p) hok fun _ p1 h1 hok1 => ?_
  refine track_sub (ParseIdentifier_track p1 hok1) (Nat.zero_le 2) h1 fun _ p2 h2 hok2 => ?_
  refine track_expect h2 hok2 fun _ p3 h3 hok3 => ?_
  rw [wlp_bind, wlp_remaining]
  exact ParseStructDeclaration_loop_track _ _ _ _ _ _ h3 hok3

theorem ParseUnionMember_track (p : Parser) (hok : p.ok_ = true) :
    wlp ParseUnionMember (fun _ p' => Track 0 p p') p := by
  unfold ParseUnionMember
  refine track_sub (ParseType_track p hok) (Nat.le_refl 0) (Runs_refl p) ?_
  intro x p1 h1 hok1
  exact track_sub (ParseIdentifier_track p1 hok1) (Nat.le_refl 0) h1
    fun _ _ h2 hok2 => track_pure _ _ h2 hok2

theorem ParseUnionDeclaration_loop_track {p0 : Parser} (identifier : Option Identifier)
    (n : Nat) :
    ∀ (p : Parser) (const_members : List (Option ConstDeclaration))
      (enum_members : List (Option EnumDeclaration))
      (members : List (Option UnionMember)), Runs p0 p → p.ok_ = true →
      wlp (ParseUnionDeclaration.loop identifier n const_members enum_members members)
        (fun _ p' => Track 2 p0 p') p := by
  induction n with
  | zero => intro p _ _ _ _ _; exact wlp_exhausted _ _
  | succ n ih =>
    intro p cs es ms h hok
    unfold ParseUnionDeclaration.loop
    rw [wlp_bind, wlp_Peek]
    split
    · exact track_member (ParseConstDeclaration_track p hok) (by omega) h
        fun _ p1 h1 hok1 => ih _ _ _ _ h1 hok1
    · exact track_member (ParseEnumDeclaration_track p hok) (by omega) h
        fun _ p1 h1 hok1 => ih _ _ _ _ h1 hok1
    · rw [wlp_ite]
      split
      · exact track_member (ParseUnionMember_track p hok) (by omega) h
          fun _ p1 h1 hok1 => ih _ _ _ _ h1 hok1
      · exact track_close _ _ h hok

theorem ParseUnionDeclaration_track (p : Parser) (hok : p.ok_ = true) :
    wlp ParseUnionDeclaration (fun _ p' => Track 2 p p') p := by
  unfold ParseUnionDeclaration
  refine track_expect (Runs_refl p) hok fun _ p1 h1 hok1 => ?_
  refine track_sub (ParseIdentifier_track p1 hok1) (Nat.zero_le 2) h1 fun _ p2 h2 hok2 => ?_
  refine track_expect h2 hok2 fun _ p3 h3 hok3 => ?_
  rw [wlp_bind, wlp_remaining]
  exact ParseUnionDeclaration_loop_track _ _ _ _ _ _ h3 hok3

/-- The idiom of the top-level lists: `list.emplace_back(ParseX()); if (!Ok()) return Fail();
ConsumeToken(Semicolon); if (!Ok()) return Fail(); ...`: nothing is consumed after a failure
of `ParseX`. -/
theorem track_declaration {α β : Type} {m : M α} {K : α → M (Option β)} {k1 k : Nat}
    {p0 p : Parser} (hs : wlp m (fun _ p' => Track k1 p p') p) (hle : k1 ≤ k)
    (h0 : Runs p0 p)
    (hk : ∀ a p1, Runs p0 p1 → p1.ok_ = true → wlp (K a) (fun _ p' => Track k p0 p') p1) :
    wlp (m >>= fun a => Ok >>= fun ok => if (!ok) = true then Fail else
      ConsumeToken Kind.Semicolon >>= fun _ =>
      Ok >>= fun ok => if (!ok) = true then Fail else K a) (fun _ p' => Track k p0 p') p :=
  track_sub hs hle h0 fun a _ h1 hok1 => track_expect h1 hok1 fun _ => hk a

theorem ParseFile_declarations_track {p0 : Parser} (identifier : Option CompoundIdentifier)
    (using_list : List (Option Using)) (n : Nat) :
    ∀ (p : Parser) (cs : List (Option ConstDeclaration)) (es : List (Option EnumDeclaration))
      (is : List (Option InterfaceDeclaration)) (ss : List (Option StructDeclaration))
      (us : List (Option UnionDeclaration)), Runs p0 p → p.ok_ = true →
      wlp (ParseFile.declarations identifier using_list n cs es is ss us)
        (fun _ p' => Track 2 p0 p') p := by
  induction n with
  | zero => intro p _ _ _ _ _ _ _; exact wlp_exhausted _ _
  | succ n ih =>
    intro p cs es is ss us h hok
    unfold ParseFile.declarations
    rw [wlp_bind, wlp_Peek]
    split
    · exact track_declaration (ParseConstDeclaration_track p hok) (by omega) h
        fun _ p1 h1 hok1 => ih _ _ _ _ _ _ h1 hok1
    · exact track_declaration (ParseEnumDeclaration_track p hok) (by omega) h
        fun _ p1 h1 hok1 => ih _ _ _ _ _ _ h1 hok1
    · exact track_declaration (ParseInterfaceDeclaration_track p hok) (by omega) h
        fun _ p1 h1 hok1 => ih _ _ _ _ _ _ h1 hok1
    · exact track_declaration (ParseStructDeclaration_track p hok) (by omega) h
        fun _ p1 h1 hok1 => ih _ _ _ _ _ _ h1 hok1
    · exact track_declaration (ParseUnionDeclaration_track p hok) (by omega) h
        fun _ p1 h1 hok1 => ih _ _ _ _ _ _ h1 hok1
    · exact track_expect h hok fun _ _ h1 hok1 => track_pure _ _ h1 hok1

theorem ParseFile_usings_track {p0 : Parser} (identifier : Option CompoundIdentifier)
    (n : Nat) :
    ∀ (p : Parser) (using_list : List (Option Using)), Runs p0 p → p.ok_ = true →
      wlp (ParseFile.usings identifier n using_list) (fun _ p' => Track 2 p0 p') p := by
  induction n with
  | zero => intro p _ _ _; exact wlp_exhausted _ _
  | succ n ih =>
    intro p us h hok
    unfold ParseFile.usings
    rw [wlp_bind, wlp_Peek]
    split
    · exact track_declaration (ParseUsing_track p hok) (by omega) h
        fun _ p1 h1 hok1 => ih _ _ h1 hok1
    · rw [wlp_bind, wlp_remaining]
      exact ParseFile_declarations_track _ _ _ _ _ _ _ _ _ h hok

theorem ParseFile_track (p : Parser) (hok : p.ok_ = true) :
    wlp ParseFile (fun _ p' => Track 2 p p') p := by
  unfold ParseFile
  refine track_expect (Runs_refl p) hok fun _ p1 h1 hok1 => ?_
  refine track_sub (ParseCompoundIdentifier_track p1 hok1) (Nat.zero_le 2) h1 ?_
  intro x p2 h2 hok2
  refine track_expect h2 hok2 fun _ p3 h3 hok3 => ?_
  rw [wlp_bind, wlp_remaining]
  exact ParseFile_usings_track _ _ _ _ h3 hok3

/-- The state of a fresh parser that consumed `j` tokens, called `Fail()` and consumed `i`
more tokens. -/
theorem Parser.init_stopped (l : Lexer) (j i : Nat) :
    (((Parser.init l).skip j).failed).skip i =
      Parser.mk (Lexer.mk (l.tokens.drop (j + i)) l.eof_data l.eof_location) false
        [diagnostic ((l.tokens.drop j).headD l.end_of_file)] := by
  simp [Parser.skip, Parser.at, Parser.failed, Parser.init, Parser.last_token_,
    Lexer.end_of_file, List.drop_drop]

/-- An unhealthy return of a production run from a healthy state. -/
theorem halts_of_track {α : Type} {m : M α} {k : Nat} {p p' : Parser} {a : α}
    (h : wlp m (fun _ p' => Track k p p') p) (hrun : m p = some (a, p'))
    (hbad : p'.ok_ = false) : Halts k p p' := by
  rcases h a p' hrun with ⟨hok, -⟩ | ⟨-, hh⟩
  · rw [hbad] at hok
    cases hok
  · exact hh

/-- C25: when `ParseFile`, run by a fresh parser, returns unhealthy, it returns `nullptr`,
and its state is the one in which `Fail()` was called, after the consumption of some `j`
tokens, but for the consumption of at most two further tokens: the healthy flag is down and
the sink holds the one diagnostic of that call, about the token that was next then. The
members of the bodies, const declarations and using clauses return with nothing consumed
after their call of `Fail()`, `ParseEnumDeclaration` with at most one token, consumed by its
loop, and `ParseInterfaceDeclaration`, `ParseStructDeclaration` and `ParseUnionDeclaration`
with at most two, one consumed by their loop and one by the loop of an enum member
declaration. On `library a; struct S { enum E { A = true; }; };` `Fail()` is called about
`true`, after 11 tokens, and two more tokens are consumed. -/
theorem unhealthy_parser_stops :
    (∀ l : Lexer, ∃ (a : Option File) (p' : Parser),
      ParseFile (Parser.init l) = some (a, p') ∧
      (p'.ok_ = false → a = none ∧ ∃ j i : Nat, i ≤ 2 ∧
        p' = Parser.mk (Lexer.mk (l.tokens.drop (j + i)) l.eof_data l.eof_location) false
          [diagnostic ((l.tokens.drop j).headD l.end_of_file)])) ∧
    (∀ (p p' : Parser) (a : Option File), p.ok_ = true → ParseFile p = some (a, p') →
      p'.ok_ = false → Halts 2 p p') ∧
    (∀ (p p' : Parser) (a : Option EnumDeclaration), p.ok_ = true →
      ParseEnumDeclaration p = some (a, p') → p'.ok_ = false → Halts 1 p p') ∧
    (∀ (p p' : Parser) (a : Option InterfaceDeclaration), p.ok_ = true →
      ParseInterfaceDeclaration p = some (a, p') → p'.ok_ = false → Halts 2 p p') ∧
    (∀ (p p' : Parser) (a : Option StructDeclaration), p.ok_ = true →
      ParseStructDeclaration p = some (a, p') → p'.ok_ = false → Halts 2 p p') ∧
    (∀ (p p' : Parser) (a : Option UnionDeclaration), p.ok_ = true →
      ParseUnionDeclaration p = some (a, p') → p'.ok_ = false → Halts 2 p p') ∧
    (∀ (p p' : Parser) (a : Option ConstDeclaration), p.ok_ = true →
      ParseConstDeclaration p = some (a, p') → p'.ok_ = false → Halts 0 p p') ∧
    (∀ (p p' : Parser) (a : Option Using), p.ok_ = true →
      ParseUsing p = some (a, p') → p'.ok_ = false → Halts 0 p p') ∧
    (∀ (p p' : Parser) (a : Option EnumMember), p.ok_ = true →
      ParseEnumMember p = some (a, p') → p'.ok_ = false → Halts 0 p p') ∧
    (∀ (p p' : Parser) (a : Option InterfaceMemberMethod), p.ok_ = true →
      ParseInterfaceMemberMethod p = some (a, p') → p'.ok_ = false → Halts 0 p p') ∧
    (∀ (p p' : Parser) (a : Option StructMember), p.ok_ = true →
      ParseStructMember p = some (a, p') → p'.ok_ = false → Halts 0 p p') ∧
    (∀ (p p' : Parser) (a : Option UnionMember), p.ok_ = true →
      ParseUnionMember p = some (a, p') → p'.ok_ = false → Halts 0 p p') ∧
    ParseFile (Parser.init failure_in_nested_body) =
      some (none, (((Parser.init failure_in_nested_body).skip 11).failed).skip 2) ∧
    (ParseFile (Parser.init failure_in_nested_body)).map
      (fun r => (r.2.lexer_.tokens.map Token.kind, r.2.error_reporter_)) =
      some ([Kind.RightCurly, Kind.Semicolon, Kind.RightCurly, Kind.Semicolon],
        ["found unexpected token: true\non line #1:\n\n" ++
          "library a; struct S \x7b enum E \x7b A = true; \x7d; \x7d;\n"]) := by
  refine ⟨?_, ?_, ?_, ?_, ?_, ?_, ?_, ?_, ?_, ?_, ?_, ?_, by decide!, by decide!⟩
  · intro l
    obtain ⟨a, p', hrun, -, hsome⟩ := ParseFile_spec (Parser.init l)
    refine ⟨a, p', hrun, fun hbad => ⟨?_, ?_⟩⟩
    · cases a with
      | none => rfl
      | some x =>
        have := hsome rfl
        rw [hbad] at this
        cases this
    · obtain ⟨j, i, hi, rfl⟩ := halts_of_track (ParseFile_track _ rfl) hrun hbad
      exact ⟨j, i, hi, Parser.init_stopped l j i⟩
  · intro p p' a hok hrun hbad
    exact halts_of_track (ParseFile_track p hok) hrun hbad
  · intro p p' a hok hrun hbad
    exact halts_of_track (ParseEnumDeclaration_track p hok) hrun hbad
  · intro p p' a hok hrun hbad
    exact halts_of_track (ParseInterfaceDeclaration_track p hok) hrun hbad
  · intro p p' a hok hrun hbad
    exact halts_of_track (ParseStructDeclaration_track p hok) hrun hbad
  · intro p p' a hok hrun hbad
    exact halts_of_track (ParseUnionDeclaration_track p hok) hrun hbad
  · intro p p' a hok hrun hbad
    exact halts_of_track (ParseConstDeclaration_track p hok) hrun hbad
  · intro p p' a hok hrun hbad
    exact halts_of_track (ParseUsing_track p hok) hrun hbad
  · intro p p' a hok hrun hbad
    exact halts_of_track (ParseEnumMember_track p hok) hrun hbad
  · intro p p' a hok hrun hbad
    exact halts_of_track (ParseInterfaceMemberMethod_track p hok) hrun hbad
  · intro p p' a hok hrun hbad
    exact halts_of_track (ParseStructMember_track p hok) hrun hbad
  · intro p p' a hok hrun hbad
    exact halts_of_track (ParseUnionMember_track p hok) hrun hbad

end fidl
